import Mathlib

/-!
# HERA catcher pipeline: sum/difference kernel and X-engine packet reassembler

A shallow embedding of parts of `hera_catcher_disk_thread.c` and
`hera_catcher_ibvpkt_thread.c`.  Machine integers are natural numbers reduced
modulo the width of their C type; C arrays are total maps from indices to
cells.  The constants and macros of `paper_databuf.h`, which is not among the
sources, are fields of configuration records.
-/

namespace PaperGpu

/-! ## SIMD sum/difference kernel (`hera_catcher_disk_thread.c`) -/

/-- The constants and the index macro of `paper_databuf.h` that `compute_sum_diff` uses.
`idx32 b t` stands for `hera_catcher_bda_input_databuf_by_bcnt_idx32(b, t)`. -/
structure DiskConfig where
  N_CHAN_TOTAL : Nat
  CATCHER_CHAN_SUM_BDA : Nat
  idx32 : Nat → Nat → Nat

/-- The macro `N_CHAN_PROCESSED` (line 38). -/
def DiskConfig.N_CHAN_PROCESSED (cfg : DiskConfig) : Nat :=
  cfg.N_CHAN_TOTAL / cfg.CATCHER_CHAN_SUM_BDA

/-- The macro `N_BL_PER_WRITE` (line 40). -/
def N_BL_PER_WRITE : Nat := 32

/-- A 256-bit vector seen as 8 lanes of 32 bits; only lanes `0..7` are used. -/
abbrev m256i := Nat → Nat

/-- The intrinsic `_mm256_set_epi64x(0,0,0,0)`. -/
def _mm256_setzero : m256i := fun _ => 0

/-- Aligned load of the `n`-th vector behind the `int32_t` index `base` of `mem`. -/
def _mm256_load_si256 (mem : Nat → Nat) (base n : Nat) : m256i :=
  fun l => mem (base + 8 * n + l)

/-- Aligned store of `v` as the `n`-th vector of the `int32_t` buffer `mem`. -/
def _mm256_store_si256 (mem : Nat → Nat) (n : Nat) (v : m256i) : Nat → Nat :=
  fun i => if 8 * n ≤ i ∧ i < 8 * n + 8 then v (i - 8 * n) else mem i

/-- Lane-wise 32-bit wrap-around addition. -/
def _mm256_add_epi32 (a b : m256i) : m256i :=
  fun l => (a l + b l) % 4294967296

/-- Lane-wise 32-bit wrap-around subtraction. -/
def _mm256_sub_epi32 (a b : m256i) : m256i :=
  fun l => (((a l : Int) - (b l : Int)) % 4294967296).toNat

/-- The variables of `compute_sum_diff` that live across loop iterations. -/
structure SumDiffState where
  sum_even : m256i
  sum_odd : m256i
  out_sum : Nat → Nat
  out_diff : Nat → Nat

/-- One pass of the loop `for(c=0; c<CATCHER_CHAN_SUM_BDA; c++)` (lines 461-472). -/
def chan_sum_step (in_ : Nat → Nat) (even_off odd_off xchan : Nat)
    (acc : m256i × m256i) (c : Nat) : m256i × m256i :=
  let val_even := _mm256_load_si256 in_ even_off (xchan + c)
  let val_odd := _mm256_load_si256 in_ odd_off (xchan + c)
  if c = 0 then (val_even, val_odd)
  else (_mm256_add_epi32 acc.1 val_even, _mm256_add_epi32 acc.2 val_odd)

/-- The body of the loop over `xchan` (lines 457-483) for `xchan = chan * CATCHER_CHAN_SUM_BDA`. -/
def xchan_body (cfg : DiskConfig) (in_ : Nat → Nat) (even_off odd_off bcnt : Nat)
    (st : SumDiffState) (chan : Nat) : SumDiffState :=
  let xchan := chan * cfg.CATCHER_CHAN_SUM_BDA
  if cfg.CATCHER_CHAN_SUM_BDA ≠ 1 then
    let acc := (List.range cfg.CATCHER_CHAN_SUM_BDA).foldl
      (chan_sum_step in_ even_off odd_off xchan) (st.sum_even, st.sum_odd)
    { sum_even := acc.1
      sum_odd := acc.2
      out_sum := _mm256_store_si256 st.out_sum (bcnt * cfg.N_CHAN_PROCESSED + chan)
        (_mm256_add_epi32 acc.1 acc.2)
      out_diff := _mm256_store_si256 st.out_diff (bcnt * cfg.N_CHAN_PROCESSED + chan)
        (_mm256_sub_epi32 acc.1 acc.2) }
  else
    let val_even := _mm256_load_si256 in_ even_off xchan
    let val_odd := _mm256_load_si256 in_ odd_off xchan
    { st with
      out_sum := _mm256_store_si256 st.out_sum (bcnt * cfg.N_CHAN_PROCESSED + chan)
        (_mm256_add_epi32 val_even val_odd)
      out_diff := _mm256_store_si256 st.out_diff (bcnt * cfg.N_CHAN_PROCESSED + chan)
        (_mm256_sub_epi32 val_even val_odd) }

/-- Number of passes of `for(xchan=0; xchan<N_CHAN_TOTAL; xchan+=CATCHER_CHAN_SUM_BDA)`,
for a positive step. -/
def DiskConfig.xchan_passes (cfg : DiskConfig) : Nat :=
  (cfg.N_CHAN_TOTAL + cfg.CATCHER_CHAN_SUM_BDA - 1) / cfg.CATCHER_CHAN_SUM_BDA

/-- The body of the loop over `bcnt` (lines 450-485); `bcnt+bl` is a `uint32_t` sum. -/
def bcnt_body (cfg : DiskConfig) (in_ : Nat → Nat) (bl : Nat)
    (st : SumDiffState) (bcnt : Nat) : SumDiffState :=
  let even_off := cfg.idx32 ((bcnt + bl) % 4294967296) 0
  let odd_off := cfg.idx32 ((bcnt + bl) % 4294967296) 1
  (List.range cfg.xchan_passes).foldl (xchan_body cfg in_ even_off odd_off bcnt) st

/-- The kernel `compute_sum_diff(in, out_sum, out_diff, bl)`: the buffers are maps
from `int32_t` index to cell, and the result holds the two output buffers. -/
def compute_sum_diff (cfg : DiskConfig) (in_ out_sum out_diff : Nat → Nat) (bl : Nat) :
    SumDiffState :=
  (List.range N_BL_PER_WRITE).foldl (bcnt_body cfg in_ bl)
    { sum_even := _mm256_setzero, sum_odd := _mm256_setzero,
      out_sum := out_sum, out_diff := out_diff }

/-- Wrap-around sum over `j < CATCHER_CHAN_SUM_BDA` of lane `l` of input channel
`c * CATCHER_CHAN_SUM_BDA + j` of baseline `b` at time parity `t`. -/
def parity_sum (cfg : DiskConfig) (in_ : Nat → Nat) (b t c l : Nat) : Nat :=
  ((List.range cfg.CATCHER_CHAN_SUM_BDA).map
    (fun j => in_ (cfg.idx32 b t + 8 * (c * cfg.CATCHER_CHAN_SUM_BDA + j) + l))).sum
    % 4294967296

/-! ## X-engine packet reassembler (`hera_catcher_ibvpkt_thread.c`) -/

/-- The constants of `paper_databuf.h` that the reassembler uses, and its macro
`hera_catcher_bda_input_databuf_pkt_offset(b, t, x, o)` as the field `pkt_offset`. -/
structure NetConfig where
  BASELINES_PER_BLOCK : Nat
  CATCHER_N_BLOCKS : Nat
  PACKETS_PER_BLOCK : Nat
  PACKETS_PER_X : Nat
  N_XENGINES : Nat
  N_XENGINES_PER_TIME : Nat
  TIME_DEMUX : Nat
  Nt : Nat
  pkt_offset : Nat → Nat → Nat → Nat → Nat

/-- The macro `MAX_OUT_OF_SEQ_PKTS` (line 85). -/
def MAX_OUT_OF_SEQ_PKTS : Nat := 4096

/-- The macro `LATE_PKT_BCNT_THRESHOLD` (line 90). -/
def NetConfig.LATE_PKT_BCNT_THRESHOLD (cfg : NetConfig) : Nat :=
  2 * cfg.BASELINES_PER_BLOCK * cfg.CATCHER_N_BLOCKS

/-- The struct `packet_header_t` (lines 52-60). -/
structure packet_header_t where
  mcnt : Nat
  bcnt : Nat
  offset : Nat
  ant0 : Nat
  ant1 : Nat
  xeng_id : Nat
  payload_len : Nat

/-- A received frame: the header words as sent and the payload bytes. -/
structure hera_ibv_xeng_pkt where
  hdr : packet_header_t
  payload : Nat → Nat

/-- The function `get_header`: every field is read at the width of its C type. -/
def get_header (p_frame : hera_ibv_xeng_pkt) : packet_header_t where
  mcnt := p_frame.hdr.mcnt % 18446744073709551616
  bcnt := p_frame.hdr.bcnt % 4294967296
  offset := p_frame.hdr.offset % 4294967296
  ant0 := p_frame.hdr.ant0 % 65536
  ant1 := p_frame.hdr.ant1 % 65536
  xeng_id := p_frame.hdr.xeng_id % 65536
  payload_len := p_frame.hdr.payload_len % 65536

/-- The struct `block_info_t` (lines 119-129); arrays are maps from indices to cells. -/
structure block_info_t where
  initialized : Nat
  bcnt_start : Nat
  block_i : Nat
  bcnt_log_late : Nat
  out_of_seq_cnt : Nat
  block_packet_counter : Nat → Nat
  xeng_pkt_counter : Nat → Nat → Nat
  flags : Nat → Nat → Nat
  baselines : Nat → Nat → Nat

/-- The header of an output block: `mcnt`, `bcnt`, `ant_pair_0`, `ant_pair_1` per baseline
and the `good_data` flag. -/
structure hera_catcher_bda_input_header_t where
  mcnt : Nat → Nat
  bcnt : Nat → Nat
  ant_pair_0 : Nat → Nat
  ant_pair_1 : Nat → Nat
  good_data : Nat

/-- An output block: header and payload bytes. -/
structure hera_catcher_bda_input_block_t where
  header : hera_catcher_bda_input_header_t
  data : Nat → Nat

/-- The status keys that the reassembler writes. -/
structure net_status_t where
  NETBKOUT : Nat
  MISSXENG : Nat
  MISSEDPK : Nat
  skey : String

/-- Return codes of the ring-buffer calls of hashpipe. -/
inductive hashpipe_rv where
  | HASHPIPE_OK
  | HASHPIPE_TIMEOUT
  | HASHPIPE_ERR
deriving DecidableEq, Repr

/-- What the two ring-buffer calls made inside `process_packet` return, and whether `errno`
is `EINTR` after a failed wait. -/
structure RingEnv where
  set_filled_rv : hashpipe_rv
  busywait_free_rv : hashpipe_rv
  errno_EINTR : Bool

/-- The calls by which the reassembler acts on the ring and reports: marking a block
filled (with the block's first `bcnt` and `good_data` at that moment), waiting for a free
block, and the messages it prints. -/
inductive NetEvent where
  | set_filled (block_i bcnt0 good_data : Nat)
  | busywait_free (block_i : Nat)
  | msg_unexpected_filled (block_i : Nat) (last_filled : Int)
  | warn_block_i_mismatch (block_i binfo_block_i : Nat)
  | error_set_filled
  | msg_missing_packets (bcnt_start expected got : Nat)
  | msg_initializing
  | warn_expected_next (expected got : Nat)
  | error_wait_free (interrupted : Bool)
  | msg_packet_repeated
  | warn_late (bcnts_late : Int)
  | warn_out_of_seq (bcnt bcnt_start : Nat)
  | warn_resetting (first_bcnt bcnt_start block_i bcnt : Nat)
deriving DecidableEq, Repr

/-- The state of the reassembler thread: the file static `first_bcnt`, the static local
`binfo` of `process_packet`, the static local `last_filled` of `set_block_filled`, the
blocks of the output ring and the status keys. -/
structure NetState where
  first_bcnt : Nat
  binfo : block_info_t
  last_filled : Int
  db : Nat → hera_catcher_bda_input_block_t
  status : net_status_t

/-- How a call ends: it returns a value, or the thread exits through `pthread_exit`. -/
inductive Outcome where
  | returned (s : NetState) (ret : Nat) (ev : List NetEvent)
  | thread_exit (s : NetState) (ev : List NetEvent)

/-- The state in which a call ends. -/
def Outcome.state : Outcome → NetState
  | Outcome.returned s _ _ => s
  | Outcome.thread_exit s _ => s

/-- The events of a call. -/
def Outcome.events : Outcome → List NetEvent
  | Outcome.returned _ _ ev => ev
  | Outcome.thread_exit _ ev => ev

/-- The same outcome with earlier events put in front. -/
def Outcome.prepend (ev0 : List NetEvent) : Outcome → Outcome
  | Outcome.returned s r ev => Outcome.returned s r (ev0 ++ ev)
  | Outcome.thread_exit s ev => Outcome.thread_exit s (ev0 ++ ev)

/-- A `uint32_t` value read as `int32_t`. -/
def toInt32 (x : Nat) : Int :=
  if x % 4294967296 < 2147483648 then (x % 4294967296 : Nat)
  else ((x % 4294967296 : Nat) : Int) - 4294967296

/-- Subtraction of `uint32_t` values. -/
def sub32 (a b : Nat) : Nat :=
  (a % 4294967296 + 4294967296 - b % 4294967296) % 4294967296

/-- The effect of `memset(a[i], v, n)` on a two-dimensional `char` or `long` array. -/
def memset_row (a : Nat → Nat → Nat) (i v n : Nat) : Nat → Nat → Nat :=
  fun i2 j => if i2 = i ∧ j < n then v else a i2 j

/-- The effect of `a[i][j] = v`. -/
def set_cell (a : Nat → Nat → Nat) (i j v : Nat) : Nat → Nat → Nat :=
  fun i2 j2 => if i2 = i ∧ j2 = j then v else a i2 j2

/-- The function `block_for_bcnt` (lines 224-226), with the file static as argument; the
subtraction reads both operands as `uint32_t`. -/
def block_for_bcnt (cfg : NetConfig) (first_bcnt bcnt : Nat) : Nat :=
  (sub32 bcnt first_bcnt / cfg.BASELINES_PER_BLOCK) % cfg.CATCHER_N_BLOCKS

/-- The function `initialize_block` (lines 231-235). -/
def initialize_block (cfg : NetConfig) (s : NetState) (bcnt : Nat) : NetState :=
  let block_i := block_for_bcnt cfg s.first_bcnt bcnt
  let header1 : hera_catcher_bda_input_header_t :=
    { (s.db block_i).header with
      bcnt := Function.update (s.db block_i).header.bcnt 0 bcnt
      good_data := 0 }
  { s with db := Function.update s.db block_i { s.db block_i with header := header1 } }

/-- The four statements that clear the counters of block `i` (lines 350-353, 448-451,
567-570, 573-576). -/
def reset_block_counters (cfg : NetConfig) (b : block_info_t) (i : Nat) : block_info_t :=
  { b with
    block_packet_counter := Function.update b.block_packet_counter i 0
    xeng_pkt_counter := memset_row b.xeng_pkt_counter i 0 cfg.N_XENGINES
    flags := memset_row b.flags i 1 cfg.PACKETS_PER_BLOCK
    baselines := memset_row b.baselines i 0 cfg.BASELINES_PER_BLOCK }

/-- The output ring after `set_block_filled` has marked its block good when all packets
are accounted for (lines 281-284). -/
def mark_good_data (cfg : NetConfig) (s : NetState) (block_i : Nat) :
    Nat → hera_catcher_bda_input_block_t :=
  let good_header : hera_catcher_bda_input_header_t :=
    { (s.db block_i).header with good_data := 1 }
  if s.binfo.block_packet_counter block_i = cfg.PACKETS_PER_BLOCK
    then Function.update s.db block_i { s.db block_i with header := good_header }
    else s.db

/-- The function `set_block_filled` (lines 252-328). -/
def set_block_filled (cfg : NetConfig) (env : RingEnv) (s : NetState) : Outcome :=
  let block_i := block_for_bcnt cfg s.first_bcnt s.binfo.bcnt_start
  let last_filled := (s.last_filled + 1) % (cfg.CATCHER_N_BLOCKS : Int)
  let ev1 := if last_filled ≠ (block_i : Int)
    then [NetEvent.msg_unexpected_filled block_i last_filled] else []
  let ev2 := if block_i ≠ s.binfo.block_i
    then [NetEvent.warn_block_i_mismatch block_i s.binfo.block_i] else []
  let db1 := mark_good_data cfg s block_i
  let ev3 := [NetEvent.set_filled block_i ((db1 block_i).header.bcnt 0)
    (db1 block_i).header.good_data]
  if env.set_filled_rv ≠ hashpipe_rv.HASHPIPE_OK then
    Outcome.thread_exit { s with last_filled := last_filled, db := db1 }
      (ev1 ++ ev2 ++ ev3 ++ [NetEvent.error_set_filled])
  else
    let block_missed_pkt_cnt := (((cfg.PACKETS_PER_BLOCK : Int)
      - (s.binfo.block_packet_counter block_i : Int)) % 18446744073709551616).toNat
    let block_missed_xengs := block_missed_pkt_cnt / cfg.PACKETS_PER_X
    let block_missed_mod_cnt := block_missed_pkt_cnt % cfg.PACKETS_PER_X
    let status1 := { s.status with
      NETBKOUT := block_i
      MISSXENG := block_missed_xengs % 4294967296 }
    let status2 := if block_missed_mod_cnt ≠ 0
      then { status1 with
        MISSEDPK := (status1.MISSEDPK + block_missed_pkt_cnt) % 18446744073709551616 }
      else status1
    let ev4 := if block_missed_mod_cnt ≠ 0
      then [NetEvent.msg_missing_packets s.binfo.bcnt_start cfg.PACKETS_PER_BLOCK
        (s.binfo.block_packet_counter block_i)] else []
    Outcome.returned { s with last_filled := last_filled, db := db1, status := status2 }
      ((db1 block_i).header.bcnt 0 % 4294967296) (ev1 ++ ev2 ++ ev3 ++ ev4)

/-- The function `initialize_block_info` (lines 335-355). -/
def initialize_block_info (cfg : NetConfig) (first_bcnt : Nat) (binfo : block_info_t)
    (bcnt : Nat) : block_info_t :=
  if binfo.initialized ≠ 0 then binfo
  else
    (List.range cfg.CATCHER_N_BLOCKS).foldl (reset_block_counters cfg)
      { binfo with
        initialized := 1
        bcnt_start := bcnt - bcnt % cfg.BASELINES_PER_BLOCK
        block_i := block_for_bcnt cfg first_bcnt bcnt
        bcnt_log_late := cfg.BASELINES_PER_BLOCK
        out_of_seq_cnt := 0 }

/-- The "first packet ever" part of `process_packet` (lines 384-404). -/
def lazy_init (cfg : NetConfig) (s : NetState) (pkt_header : packet_header_t) :
    NetState × List NetEvent :=
  if s.binfo.initialized = 0 then
    let first_bcnt := pkt_header.bcnt - pkt_header.bcnt % cfg.BASELINES_PER_BLOCK
    let s1 := { s with
      first_bcnt := first_bcnt
      binfo := initialize_block_info cfg first_bcnt s.binfo pkt_header.bcnt }
    let s2 := initialize_block cfg s1 pkt_header.bcnt
    let s3 := initialize_block cfg s2
      ((pkt_header.bcnt + cfg.BASELINES_PER_BLOCK) % 4294967296)
    (s3, [NetEvent.msg_initializing, NetEvent.msg_initializing])
  else (s, [])

/-- The part of `process_packet` that marks the current block filled and moves on by one
block (lines 427-477); the value returned is `netbcnt`. -/
def advance_block (cfg : NetConfig) (env : RingEnv) (s : NetState) (pkt_block_i : Nat) :
    Outcome :=
  match set_block_filled cfg env s with
  | Outcome.thread_exit s1 ev1 => Outcome.thread_exit s1 ev1
  | Outcome.returned s1 netbcnt ev1 =>
    let binfo1 := { s1.binfo with
      bcnt_start := (s1.binfo.bcnt_start + cfg.BASELINES_PER_BLOCK) % 4294967296
      block_i := (s1.binfo.block_i + 1) % cfg.CATCHER_N_BLOCKS
      out_of_seq_cnt := 0 }
    let ev2 := if pkt_block_i ≠ (binfo1.block_i + 1) % cfg.CATCHER_N_BLOCKS
      then [NetEvent.warn_expected_next ((binfo1.block_i + 1) % cfg.CATCHER_N_BLOCKS)
        pkt_block_i] else []
    let s2 := { s1 with binfo := reset_block_counters cfg binfo1 pkt_block_i }
    if env.busywait_free_rv ≠ hashpipe_rv.HASHPIPE_OK then
      Outcome.thread_exit s2
        (ev1 ++ ev2 ++ [NetEvent.busywait_free pkt_block_i]
          ++ (if env.busywait_free_rv = hashpipe_rv.HASHPIPE_TIMEOUT then []
              else [NetEvent.error_wait_free env.errno_EINTR]))
    else
      let s3 := initialize_block cfg s2
        ((s2.binfo.bcnt_start + cfg.BASELINES_PER_BLOCK) % 4294967296)
      Outcome.returned { s3 with status := { s3.status with skey := "running" } } netbcnt
        (ev1 ++ ev2 ++ [NetEvent.busywait_free pkt_block_i])

/-- The effect of `memcpy(dest_p, payload_p, payload_len)` on the bytes of a block, with
`dest` the byte offset of `dest_p` in the block. -/
def memcpy_payload (data payload : Nat → Nat) (dest len : Nat) : Nat → Nat :=
  fun k => if dest ≤ k ∧ k < dest + len then payload (k - dest) else data k

/-- The value of `pkt_offset` that `process_packet` computes for a header, once the
anchor is `bcnt_start` (lines 480-484). -/
def pkt_offset_of (cfg : NetConfig) (bcnt_start : Nat) (pkt_header : packet_header_t) : Nat :=
  let b := sub32 pkt_header.bcnt bcnt_start % cfg.BASELINES_PER_BLOCK
  let x := pkt_header.xeng_id % cfg.N_XENGINES_PER_TIME
  let t := (pkt_header.mcnt / cfg.Nt) % cfg.TIME_DEMUX
  let o := pkt_header.offset
  cfg.pkt_offset b t x o % 4294967296

/-- The byte offset in the block of the destination of the payload (line 498): the
product is a `uint32_t`, the block payload an array of 32-bit words. -/
def dest_byte_offset (pkt_header : packet_header_t) (pkt_offset : Nat) : Nat :=
  4 * ((pkt_header.payload_len * pkt_offset) % 4294967296 / 4)

/-- The state after an accepted packet that is no duplicate has been copied and counted
(lines 496-518). -/
def place_payload (cfg : NetConfig) (s : NetState) (p_frame : hera_ibv_xeng_pkt)
    (pkt_header : packet_header_t) (pkt_block_i : Nat) : NetState :=
  let b := sub32 pkt_header.bcnt s.binfo.bcnt_start % cfg.BASELINES_PER_BLOCK
  let pkt_offset := pkt_offset_of cfg s.binfo.bcnt_start pkt_header
  let blk := s.db pkt_block_i
  let data1 := memcpy_payload blk.data p_frame.payload
    (dest_byte_offset pkt_header pkt_offset) pkt_header.payload_len
  let first_of_baseline : Bool := s.binfo.baselines pkt_block_i b = 0
  let time_demux_block := (pkt_header.mcnt / cfg.Nt) % cfg.TIME_DEMUX
  let pkt_mcnt := (pkt_header.mcnt - cfg.Nt * time_demux_block) % 18446744073709551616
  let header1 : hera_catcher_bda_input_header_t :=
    if first_of_baseline then
      { blk.header with
        mcnt := Function.update blk.header.mcnt b pkt_mcnt
        ant_pair_0 := Function.update blk.header.ant_pair_0 b pkt_header.ant0
        ant_pair_1 := Function.update blk.header.ant_pair_1 b pkt_header.ant1
        bcnt := Function.update blk.header.bcnt b pkt_header.bcnt }
    else blk.header
  let baselines1 := if first_of_baseline
    then set_cell s.binfo.baselines pkt_block_i b 1 else s.binfo.baselines
  { s with
    db := Function.update s.db pkt_block_i { header := header1, data := data1 }
    binfo := { s.binfo with
      baselines := baselines1
      flags := set_cell s.binfo.flags pkt_block_i pkt_offset 0
      block_packet_counter := Function.update s.binfo.block_packet_counter pkt_block_i
        (s.binfo.block_packet_counter pkt_block_i + 1) } }

/-- The part of `process_packet` that places an accepted packet (lines 479-520): a packet
whose flag is already cleared is dropped as a duplicate.  The code does not compare
`pkt_offset` with `PACKETS_PER_BLOCK` (lines 480-499).  For a packet at one of the
expected positions (`in_range`) the cell `flags pkt_block_i pkt_offset` and the bytes of
`db pkt_block_i` are those of the C arrays.  For `pkt_offset >= PACKETS_PER_BLOCK` the C
expressions `binfo.flags[pkt_block_i][pkt_offset]` and
`db->block[pkt_block_i].data + payload_len*pkt_offset/4` leave the row and the bytes of
the expected positions (`flag_index`), and the maps of this model, which give every
block cells of its own at every index, then say only which cell the call addresses, not
which cell of the C arrays that is. -/
def store_packet (cfg : NetConfig) (s : NetState) (p_frame : hera_ibv_xeng_pkt)
    (pkt_header : packet_header_t) (pkt_block_i netbcnt : Nat) (ev : List NetEvent) :
    Outcome :=
  if s.binfo.flags pkt_block_i (pkt_offset_of cfg s.binfo.bcnt_start pkt_header) = 0 then
    Outcome.returned
      { s with binfo := { s.binfo with out_of_seq_cnt := s.binfo.out_of_seq_cnt + 1 } }
      4294967295 (ev ++ [NetEvent.msg_packet_repeated])
  else
    Outcome.returned (place_payload cfg s p_frame pkt_header pkt_block_i) netbcnt ev

/-- The "late packet" part of `process_packet` (lines 525-533). -/
def late_packet (s : NetState) (pkt_bcnt_dist : Int) (ev : List NetEvent) : Outcome :=
  Outcome.returned s 4294967295
    (ev ++ (if s.binfo.bcnt_start ≥ s.binfo.bcnt_log_late
      then [NetEvent.warn_late (-pkt_bcnt_dist)] else []))

/-- The re-synchronisation inside the last part of `process_packet` (lines 555-581). -/
def reset_binfo (cfg : NetConfig) (s : NetState) (pkt_header : packet_header_t) :
    NetState × List NetEvent :=
  let bcnt_start := pkt_header.bcnt - pkt_header.bcnt % cfg.BASELINES_PER_BLOCK
  let first_bcnt := sub32 bcnt_start (s.binfo.block_i * cfg.BASELINES_PER_BLOCK)
  let binfo1 := { s.binfo with
    bcnt_start := bcnt_start
    bcnt_log_late := (bcnt_start + 2 * cfg.BASELINES_PER_BLOCK) % 4294967296
    out_of_seq_cnt := 0 }
  let binfo2 := reset_block_counters cfg binfo1 binfo1.block_i
  let next_block := (binfo2.block_i + 1) % cfg.CATCHER_N_BLOCKS
  let binfo3 := reset_block_counters cfg binfo2 next_block
  let s1 := { s with first_bcnt := first_bcnt, binfo := binfo3 }
  let s2 := initialize_block cfg s1 s1.binfo.bcnt_start
  let s3 := initialize_block cfg s2
    ((s2.binfo.bcnt_start + cfg.BASELINES_PER_BLOCK) % 4294967296)
  (s3, [NetEvent.warn_resetting first_bcnt bcnt_start s.binfo.block_i pkt_header.bcnt])

/-- The last part of `process_packet`: a packet out of sequence (lines 535-584). -/
def out_of_seq_packet (cfg : NetConfig) (s : NetState) (pkt_header : packet_header_t)
    (ev : List NetEvent) : Outcome :=
  let ev1 := if s.binfo.out_of_seq_cnt = 0
    then [NetEvent.warn_out_of_seq pkt_header.bcnt s.binfo.bcnt_start] else []
  let s1 := { s with binfo := { s.binfo with out_of_seq_cnt := s.binfo.out_of_seq_cnt + 1 } }
  if s1.binfo.out_of_seq_cnt > MAX_OUT_OF_SEQ_PKTS then
    Outcome.returned (reset_binfo cfg s1 pkt_header).1 4294967295
      (ev ++ ev1 ++ (reset_binfo cfg s1 pkt_header).2)
  else Outcome.returned s1 4294967295 (ev ++ ev1)

/-- The packet distance `pkt_bcnt_dist` (line 418). -/
def pkt_bcnt_dist (s : NetState) (pkt_header : packet_header_t) : Int :=
  toInt32 (sub32 pkt_header.bcnt s.binfo.bcnt_start)

/-- The function `process_packet` (lines 364-586). -/
def process_packet (cfg : NetConfig) (env : RingEnv) (s : NetState)
    (p_frame : hera_ibv_xeng_pkt) : Outcome :=
  let pkt_header := get_header p_frame
  let s0 := (lazy_init cfg s pkt_header).1
  let ev0 := (lazy_init cfg s pkt_header).2
  let pkt_block_i := block_for_bcnt cfg s0.first_bcnt pkt_header.bcnt
  let d := pkt_bcnt_dist s0 pkt_header
  if 0 ≤ d ∧ d < 3 * (cfg.BASELINES_PER_BLOCK : Int) then
    if d ≥ 2 * (cfg.BASELINES_PER_BLOCK : Int) then
      match advance_block cfg env s0 pkt_block_i with
      | Outcome.thread_exit s1 ev1 => Outcome.thread_exit s1 (ev0 ++ ev1)
      | Outcome.returned s1 netbcnt ev1 =>
        store_packet cfg s1 p_frame pkt_header pkt_block_i netbcnt (ev0 ++ ev1)
    else store_packet cfg s0 p_frame pkt_header pkt_block_i 4294967295 ev0
  else if d < 0 ∧ d > -(cfg.LATE_PKT_BCNT_THRESHOLD : Int) then
    late_packet s0 d ev0
  else out_of_seq_packet cfg s0 pkt_header ev0

/-- What feeding a list of frames to `process_packet` leaves: the final state, the events
in order, and whether the thread has exited. -/
structure RunResult where
  state : NetState
  events : List NetEvent
  exited : Bool

/-- The packet loop of `run` (lines 826-830): `process_packet` on each frame in turn,
until the thread exits.  Each frame comes with the results of the ring calls made while
it is processed. -/
def run_packets (cfg : NetConfig) (s : NetState) :
    List (RingEnv × hera_ibv_xeng_pkt) → RunResult
  | [] => { state := s, events := [], exited := false }
  | (env, f) :: rest =>
    match process_packet cfg env s f with
    | Outcome.thread_exit s1 ev => { state := s1, events := ev, exited := true }
    | Outcome.returned s1 _ ev =>
      { state := (run_packets cfg s1 rest).state
        events := ev ++ (run_packets cfg s1 rest).events
        exited := (run_packets cfg s1 rest).exited }

/-- The static initialiser `binfo = {0}`. -/
def binfo_zero : block_info_t where
  initialized := 0
  bcnt_start := 0
  block_i := 0
  bcnt_log_late := 0
  out_of_seq_cnt := 0
  block_packet_counter := fun _ => 0
  xeng_pkt_counter := fun _ _ => 0
  flags := fun _ _ => 0
  baselines := fun _ _ => 0

/-- The state of the thread before the first packet, over a ring `db` and status `st`. -/
def start_state (db : Nat → hera_catcher_bda_input_block_t) (st : net_status_t) : NetState where
  first_bcnt := 0
  binfo := binfo_zero
  last_filled := -1
  db := db
  status := st

/-- The configuration constraints under which the ring arithmetic is meaningful: a
positive block length, at least one block, and a ring span `BASELINES_PER_BLOCK *
CATCHER_N_BLOCKS` that divides `2^32`, so that block indices survive the roll-over of the
32-bit `bcnt`. -/
def NetConfig.wf (cfg : NetConfig) : Prop :=
  0 < cfg.BASELINES_PER_BLOCK ∧ 0 < cfg.CATCHER_N_BLOCKS ∧
    cfg.BASELINES_PER_BLOCK * cfg.CATCHER_N_BLOCKS ∣ 4294967296

/-- The relation between `first_bcnt`, `binfo.bcnt_start` and `binfo.block_i` that the
first packet establishes and every later call keeps. -/
def Consistent (cfg : NetConfig) (s : NetState) : Prop :=
  s.binfo.initialized ≠ 0 ∧ s.binfo.bcnt_start < 4294967296 ∧
    s.binfo.block_i < cfg.CATCHER_N_BLOCKS ∧
    cfg.BASELINES_PER_BLOCK ∣ s.binfo.bcnt_start ∧
    cfg.BASELINES_PER_BLOCK ∣ sub32 s.binfo.bcnt_start s.first_bcnt ∧
    block_for_bcnt cfg s.first_bcnt s.binfo.bcnt_start = s.binfo.block_i

instance (cfg : NetConfig) : Decidable cfg.wf := by
  unfold NetConfig.wf; infer_instance

instance (cfg : NetConfig) (s : NetState) : Decidable (Consistent cfg s) := by
  unfold Consistent; infer_instance

/-- The blocks that a list of events marks filled, in order. -/
def filled_blocks : List NetEvent → List Nat
  | [] => []
  | NetEvent.set_filled i _ _ :: rest => i :: filled_blocks rest
  | _ :: rest => filled_blocks rest

/-- What is delivered last in a list, after `last`. -/
def last_delivery : Option Nat → List (Option Nat) → Option Nat
  | last, [] => last
  | _, d :: rest => last_delivery d rest

/-- The blocks marked filled by a list of events, each with the first `bcnt` and the
`good_data` flag that its header holds at that moment. -/
def fills : List NetEvent → List (Nat × Nat × Nat)
  | [] => []
  | NetEvent.set_filled i v g :: rest => (i, v, g) :: fills rest
  | _ :: rest => fills rest

/-- A frame whose packet position is one of the `PACKETS_PER_BLOCK` expected ones.  The
anchor is always a multiple of `BASELINES_PER_BLOCK`, so the position does not depend on
it. -/
def in_range (cfg : NetConfig) (f : hera_ibv_xeng_pkt) : Prop :=
  pkt_offset_of cfg 0 (get_header f) < cfg.PACKETS_PER_BLOCK

instance (cfg : NetConfig) (f : hera_ibv_xeng_pkt) : Decidable (in_range cfg f) := by
  unfold in_range; infer_instance

/-- The number of expected positions of block `i` whose flag is cleared. -/
def cleared_count (cfg : NetConfig) (b : block_info_t) (i : Nat) : Nat :=
  ((Finset.range cfg.PACKETS_PER_BLOCK).filter (fun j => b.flags i j = 0)).card

/-- The packet counter of every block of the ring equals the number of its cleared
flags. -/
def CounterAgrees (cfg : NetConfig) (b : block_info_t) : Prop :=
  ∀ i, i < cfg.CATCHER_N_BLOCKS → b.block_packet_counter i = cleared_count cfg b i

/-- The two working blocks are not yet marked good. -/
def Pending (cfg : NetConfig) (s : NetState) : Prop :=
  (s.db s.binfo.block_i).header.good_data = 0 ∧
  (s.db ((s.binfo.block_i + 1) % cfg.CATCHER_N_BLOCKS)).header.good_data = 0

/-- The state in which `process_packet` can be called again: consistent, with counters that
count the cleared flags and with two working blocks not yet marked good. -/
def Counted (cfg : NetConfig) (s : NetState) : Prop :=
  Consistent cfg s ∧ CounterAgrees cfg s.binfo ∧ Pending cfg s

/-! ## Concrete inputs -/

/-- A small kernel configuration: two channels, no channel summing, and rows of
`N_CHAN_TOTAL * 8` lanes laid out by baseline and then by time parity. -/
def cfgRamp : DiskConfig where
  N_CHAN_TOTAL := 2
  CATCHER_CHAN_SUM_BDA := 1
  idx32 := fun b t => (2 * b + t) * 16

/-- An input whose first even row is `1,2,...,16` and whose first odd row is `16,...,2,1`. -/
def in_ramp : Nat → Nat :=
  fun i => if i < 16 then i + 1 else if i < 32 then 32 - i else 0

/-- A kernel configuration that sums pairs of channels. -/
def cfgPair : DiskConfig where
  N_CHAN_TOTAL := 4
  CATCHER_CHAN_SUM_BDA := 2
  idx32 := fun b t => (2 * b + t) * 32

/-- An input with large lanes, so that the 32-bit sums wrap around. -/
def in_big : Nat → Nat :=
  fun i => 4294967295 - i

/-- An output buffer as `memset` leaves it (lines 611-612). -/
def out_zero : Nat → Nat := fun _ => 0

/-- A small reassembler configuration: blocks of 4 baselines in a ring of 4 blocks, two
time parities, two X-engines per parity and two packets per baseline and X-engine. -/
def cfgNet : NetConfig where
  BASELINES_PER_BLOCK := 4
  CATCHER_N_BLOCKS := 4
  PACKETS_PER_BLOCK := 32
  PACKETS_PER_X := 8
  N_XENGINES := 4
  N_XENGINES_PER_TIME := 2
  TIME_DEMUX := 2
  Nt := 2
  pkt_offset := fun b t x o => ((b * 2 + t) * 2 + x) * 2 + o

/-- A zeroed output block. -/
def block_zero : hera_catcher_bda_input_block_t where
  header :=
    { mcnt := fun _ => 0, bcnt := fun _ => 0, ant_pair_0 := fun _ => 0,
      ant_pair_1 := fun _ => 0, good_data := 0 }
  data := fun _ => 0

/-- Zeroed status keys. -/
def status_zero : net_status_t where
  NETBKOUT := 0
  MISSXENG := 0
  MISSEDPK := 0
  skey := ""

/-- The thread before its first packet, over a zeroed ring. -/
def s_start : NetState := start_state (fun _ => block_zero) status_zero

/-- Ring calls that succeed. -/
def envOK : RingEnv where
  set_filled_rv := hashpipe_rv.HASHPIPE_OK
  busywait_free_rv := hashpipe_rv.HASHPIPE_OK
  errno_EINTR := false

/-- A wait for a free block that times out. -/
def envTimeout : RingEnv where
  set_filled_rv := hashpipe_rv.HASHPIPE_OK
  busywait_free_rv := hashpipe_rv.HASHPIPE_TIMEOUT
  errno_EINTR := false

/-- A frame with the given `bcnt`, `mcnt`, `offset` and `xeng_id`, antennas 1 and 2, and
8 payload bytes `1,2,...`. -/
def mk_frame (bcnt mcnt offset xeng_id : Nat) : hera_ibv_xeng_pkt where
  hdr :=
    { mcnt := mcnt, bcnt := bcnt, offset := offset, ant0 := 1, ant1 := 2,
      xeng_id := xeng_id, payload_len := 8 }
  payload := fun k => (k + 1) % 256

/-- The state after a first packet with `bcnt = 100`. -/
def s_100 : NetState := (run_packets cfgNet s_start [(envOK, mk_frame 100 0 0 0)]).state

/-- The packets of the late-packet scenario: a first packet with `bcnt = 1000`, then 4096
copies of a packet with `bcnt = 0`, far behind the anchor. -/
def late_trace : List (RingEnv × hera_ibv_xeng_pkt) :=
  (envOK, mk_frame 1000 0 0 0) :: List.replicate 4096 (envOK, mk_frame 0 0 0 0)

/-- The state after a first packet with `bcnt = 1000`. -/
def s_1000 : NetState := (run_packets cfgNet s_start [(envOK, mk_frame 1000 0 0 0)]).state

/-- The state `s_1000` with 4096 packets counted out of sequence, which is the state
that the thread reaches by `late_trace`. -/
def s_4096 : NetState :=
  { s_1000 with binfo := { s_1000.binfo with out_of_seq_cnt := 4096 } }

/-- A ring of four one-baseline blocks of two packets each: the position of a packet in
its block is its `offset`. -/
def cfgDuo : NetConfig where
  BASELINES_PER_BLOCK := 1
  CATCHER_N_BLOCKS := 4
  PACKETS_PER_BLOCK := 2
  PACKETS_PER_X := 2
  N_XENGINES := 1
  N_XENGINES_PER_TIME := 1
  TIME_DEMUX := 1
  Nt := 1
  pkt_offset := fun _ _ _ o => o

/-- Both packets of the block at `bcnt = 100`, the second one sent twice. -/
def duo_full : List (RingEnv × hera_ibv_xeng_pkt) :=
  [(envOK, mk_frame 100 0 0 0), (envOK, mk_frame 100 0 1 0), (envOK, mk_frame 100 0 1 0)]

/-- One of the two packets of the block at `bcnt = 100`, sent twice. -/
def duo_half : List (RingEnv × hera_ibv_xeng_pkt) :=
  [(envOK, mk_frame 100 0 1 0), (envOK, mk_frame 100 0 1 0)]

/-! ## Re-synchronisations of the reassembler -/

/-- The number of re-synchronisations that a list of events reports. -/
def resets : List NetEvent → Nat
  | [] => 0
  | NetEvent.warn_resetting _ _ _ _ :: rest => resets rest + 1
  | _ :: rest => resets rest

/-! ## File writer (`run` of `hera_catcher_disk_thread.c`) -/

/-- The constants of `paper_databuf.h` that the file-writing part of `run` uses. -/
structure WriterConfig extends DiskConfig where
  BASELINES_PER_BLOCK : Nat
  N_STOKES : Nat

/-- The variables of `run` that the file-writing part reads and writes, with the file
static `bcnts_per_file`.  The arrays are total maps from index to cell; the time arrays,
which hold doubles, and the timing statistics are left out.  The row counter
`file_nblts`, an `int64_t` that is reset for every file, is an unbounded integer. -/
structure DiskState where
  bcnts_per_file : Nat
  Nants : Nat
  nfiles : Nat
  file_cnt : Nat
  idle : Nat
  curr_file_bcnt : Int
  file_nblts : Int
  ant_0_array : Nat → Int
  ant_1_array : Nat → Int
  corr_to_hera_map : Nat → Int

/-- The two data files of an output file set. -/
inductive data_file where
  | sum_file
  | diff_file
deriving DecidableEq, Repr

/-- The calls by which the writer acts on its files and on the input ring:
`write_baseline_index` with the number of rows and the `int32_t` offset of the rows in the
stride buffer, `write_metadata` with `header.mcnt`, the two antenna arrays and `nblt`,
the closing and the opening of a file set, and `set_free` on the input block. -/
inductive DiskEvent where
  | write_baseline_index (f : data_file) (nblts buf_offset : Nat)
  | write_metadata (mcnt : Nat) (ant_0_array ant_1_array : Nat → Int) (nblt : Int)
  | close_files
  | open_files (curr_file_bcnt : Int) (mcnt : Nat)
  | set_free

/-- What the status buffer, the input block and redis hold while one input block is
processed: the block header, the keys `TRIGGER`, `NFILES`, `BDANANT` and `NBL*SEC`, and
the antenna map as `get_corr_to_hera_map` leaves it. -/
structure BlockInput where
  header : hera_catcher_bda_input_header_t
  TRIGGER : Nat
  NFILES : Nat
  BDANANT : Nat
  NBL2SEC : Nat
  NBL4SEC : Nat
  NBL8SEC : Nat
  NBL16SEC : Nat
  redis_map : Nat → Int

/-- The value that line 753 gives `bcnts_per_file`, a `uint64_t` sum. -/
def bcnts_per_file_of (inp : BlockInput) : Nat :=
  (8 * (inp.NBL2SEC % 18446744073709551616) + 4 * (inp.NBL4SEC % 18446744073709551616)
    + 2 * (inp.NBL8SEC % 18446744073709551616) + inp.NBL16SEC % 18446744073709551616)
    % 18446744073709551616

/-- The test of lines 828-829, for `bcnts_per_file > 0`: the stride lies inside one file
and does not start one.  With `bcnts_per_file = 0` the C expression divides by zero and
has no value, where the division of `Nat` gives 0; a pass that reaches the test in that
state is the subject of `zero_divisor` and ends `run_pass` as
`PassEnd.division_by_zero`. -/
def same_file (bcnts_per_file strt_bcnt stop_bcnt : Nat) : Prop :=
  strt_bcnt / bcnts_per_file = stop_bcnt / bcnts_per_file ∧ strt_bcnt % bcnts_per_file ≠ 0

instance (bcnts_per_file strt_bcnt stop_bcnt : Nat) :
    Decidable (same_file bcnts_per_file strt_bcnt stop_bcnt) := by
  unfold same_file; infer_instance

/-- The value of `break_bcnt` (lines 867-871): a `uint64_t` product stored in a
`uint32_t`. -/
def break_bcnt_of (bcnts_per_file strt_bcnt : Nat) : Nat :=
  if strt_bcnt % bcnts_per_file = 0 then strt_bcnt
  else (strt_bcnt / bcnts_per_file + 1) * bcnts_per_file % 18446744073709551616 % 4294967296

/-- The difference `a - c` of a `uint32_t` and an `int32_t`, as a `uint32_t`. -/
def sub_u32_i32 (a : Nat) (c : Int) : Nat :=
  (((a : Int) - c) % 4294967296).toNat

/-- The loops that fill an antenna array (lines 846-852, 890-895, 998-1003):
`arr[file_offset+b] = corr_to_hera_map[ant_pair[block_pos+b]]` for `b < nbls`, the sums
being `uint32_t` sums. -/
def fill_meta (map : Nat → Int) (ant_pair : Nat → Nat) (arr : Nat → Int)
    (file_offset block_pos nbls : Nat) : Nat → Int :=
  (List.range nbls).foldl
    (fun a b => Function.update a ((file_offset + b) % 4294967296)
      (map (ant_pair ((block_pos + b) % 4294967296)))) arr

/-- The effect of `memset(arr, 0, nbytes)` on an array of 32-bit `int`s stored with the
low byte first. -/
def memset_zero_int (arr : Nat → Int) (nbytes : Nat) : Nat → Int :=
  fun i =>
    if 4 * i + 4 ≤ nbytes then 0
    else if 4 * i < nbytes then
      toInt32 ((arr i % 4294967296).toNat / 256 ^ (nbytes - 4 * i) * 256 ^ (nbytes - 4 * i))
    else arr i

/-- The conversion of the `int64_t` row counter to the `int nblt` of `write_metadata`. -/
def nblt_of (file_nblts : Int) : Int :=
  toInt32 (file_nblts % 4294967296).toNat

/-- How a pass of the stride loop ends: the state, the calls made, and whether the loop
is left through `break`. -/
structure StrideResult where
  state : DiskState
  events : List DiskEvent
  stop : Bool

/-- The part of a boundary stride that writes the rows before the boundary into the open
file and closes it (lines 875-938). -/
def close_file (inp : BlockInput) (s : DiskState) (bctr strt_bcnt break_bcnt : Nat) :
    DiskState × List DiskEvent :=
  let nbls := sub32 break_bcnt strt_bcnt
  let file_offset := sub_u32_i32 strt_bcnt s.curr_file_bcnt
  let s1 : DiskState :=
    if nbls > 0 then
      { s with
        ant_0_array := fill_meta s.corr_to_hera_map inp.header.ant_pair_0 s.ant_0_array
          file_offset bctr nbls
        ant_1_array := fill_meta s.corr_to_hera_map inp.header.ant_pair_1 s.ant_1_array
          file_offset bctr nbls
        file_nblts := s.file_nblts + nbls }
    else s
  let ev1 := if nbls > 0
    then [DiskEvent.write_baseline_index data_file.sum_file nbls 0,
      DiskEvent.write_baseline_index data_file.diff_file nbls 0]
    else []
  ({ s1 with file_cnt := (s1.file_cnt + 1) % 4294967296 },
    ev1 ++ [DiskEvent.write_metadata (inp.header.mcnt ((bctr + nbls) % 4294967296))
      s1.ant_0_array s1.ant_1_array (nblt_of s1.file_nblts), DiskEvent.close_files])

/-- The part of a boundary stride that opens a new file at `break_bcnt` and writes the
rows from the boundary on into it (lines 948-1019). -/
def open_file (cfg : WriterConfig) (inp : BlockInput) (s : DiskState)
    (bctr strt_bcnt stop_bcnt break_bcnt : Nat) : DiskState × List DiskEvent :=
  let block_offset := (bctr + break_bcnt + 4294967296 - strt_bcnt) % 4294967296
  let s1 : DiskState :=
    { s with
      file_nblts := 0
      ant_0_array := memset_zero_int s.ant_0_array (s.bcnts_per_file * 2)
      ant_1_array := memset_zero_int s.ant_1_array (s.bcnts_per_file * 2)
      curr_file_bcnt := toInt32 break_bcnt
      corr_to_hera_map := inp.redis_map }
  let nbls := (stop_bcnt + 4294967296 - break_bcnt + 1) % 4294967296
  let file_offset := sub_u32_i32 break_bcnt s1.curr_file_bcnt
  let buf_offset := 2 * sub32 break_bcnt strt_bcnt * cfg.N_CHAN_PROCESSED * cfg.N_STOKES
    % 4294967296
  if nbls > 0 then
    ({ s1 with
        ant_0_array := fill_meta s1.corr_to_hera_map inp.header.ant_pair_0 s1.ant_0_array
          file_offset block_offset nbls
        ant_1_array := fill_meta s1.corr_to_hera_map inp.header.ant_pair_1 s1.ant_1_array
          file_offset block_offset nbls
        file_nblts := s1.file_nblts + nbls },
      [DiskEvent.open_files s1.curr_file_bcnt (inp.header.mcnt block_offset),
        DiskEvent.write_baseline_index data_file.sum_file nbls buf_offset,
        DiskEvent.write_baseline_index data_file.diff_file nbls buf_offset])
  else (s1, [DiskEvent.open_files s1.curr_file_bcnt (inp.header.mcnt block_offset)])

/-- One pass of the loop `for (bctr=0; bctr<BASELINES_PER_BLOCK; bctr+=N_BL_PER_WRITE)`
after `compute_sum_diff` (lines 814-1020). -/
def write_stride (cfg : WriterConfig) (inp : BlockInput) (s : DiskState) (bctr : Nat) :
    StrideResult :=
  let strt_bcnt := inp.header.bcnt bctr % 4294967296
  let stop_bcnt := inp.header.bcnt ((bctr + N_BL_PER_WRITE - 1) % 4294967296) % 4294967296
  if same_file s.bcnts_per_file strt_bcnt stop_bcnt then
    if 0 ≤ s.curr_file_bcnt then
      let file_offset := sub_u32_i32 strt_bcnt s.curr_file_bcnt
      { state := { s with
          ant_0_array := fill_meta s.corr_to_hera_map inp.header.ant_pair_0 s.ant_0_array
            file_offset bctr N_BL_PER_WRITE
          ant_1_array := fill_meta s.corr_to_hera_map inp.header.ant_pair_1 s.ant_1_array
            file_offset bctr N_BL_PER_WRITE
          file_nblts := s.file_nblts + N_BL_PER_WRITE }
        events := [DiskEvent.write_baseline_index data_file.sum_file N_BL_PER_WRITE 0,
          DiskEvent.write_baseline_index data_file.diff_file N_BL_PER_WRITE 0]
        stop := false }
    else { state := s, events := [], stop := false }
  else
    let break_bcnt := break_bcnt_of s.bcnts_per_file strt_bcnt
    let closed := if 0 ≤ s.curr_file_bcnt
      then close_file inp s bctr strt_bcnt break_bcnt else (s, [])
    if 0 ≤ s.curr_file_bcnt ∧ closed.1.file_cnt ≥ closed.1.nfiles then
      { state := { closed.1 with curr_file_bcnt := -1 }, events := closed.2, stop := true }
    else
      { state := (open_file cfg inp closed.1 bctr strt_bcnt stop_bcnt break_bcnt).1
        events := closed.2
          ++ (open_file cfg inp closed.1 bctr strt_bcnt stop_bcnt break_bcnt).2
        stop := false }

/-- The stride loop over the values `bctrs` of `bctr`, left at the first `break`. -/
def stride_loop (cfg : WriterConfig) (inp : BlockInput) :
    List Nat → DiskState → DiskState × List DiskEvent
  | [], s => (s, [])
  | bctr :: rest, s =>
    if (write_stride cfg inp s bctr).stop
    then ((write_stride cfg inp s bctr).state, (write_stride cfg inp s bctr).events)
    else
      ((stride_loop cfg inp rest (write_stride cfg inp s bctr).state).1,
        (write_stride cfg inp s bctr).events
          ++ (stride_loop cfg inp rest (write_stride cfg inp s bctr).state).2)

/-- The values that `bctr` takes in the stride loop. -/
def WriterConfig.bctrs (cfg : WriterConfig) : List Nat :=
  (List.range ((cfg.BASELINES_PER_BLOCK + N_BL_PER_WRITE - 1) / N_BL_PER_WRITE)).map
    (fun i => i * N_BL_PER_WRITE)

/-- The state after the trigger has been taken (lines 737-767). -/
def take_trigger (inp : BlockInput) (s : DiskState) : DiskState :=
  { s with
    file_cnt := 0
    Nants := inp.BDANANT % 18446744073709551616
    bcnts_per_file := bcnts_per_file_of inp
    idle := 0 }

/-- The file-writing part of one pass of the main loop of `run` (lines 715-1058) for the
input block described by `inp`. -/
def write_block (cfg : WriterConfig) (inp : BlockInput) (s : DiskState) :
    DiskState × List DiskEvent :=
  let s0 := { s with
    Nants := inp.BDANANT % 18446744073709551616
    nfiles := inp.NFILES % 4294967296 }
  if inp.TRIGGER % 4294967296 ≠ 0 then
    ((stride_loop cfg inp cfg.bctrs (take_trigger inp s0)).1,
      (stride_loop cfg inp cfg.bctrs (take_trigger inp s0)).2 ++ [DiskEvent.set_free])
  else if s0.file_cnt ≥ s0.nfiles ∨ s0.idle ≠ 0 then
    ({ s0 with idle := 1 }, [DiskEvent.set_free])
  else
    ((stride_loop cfg inp cfg.bctrs { s0 with idle := 0 }).1,
      (stride_loop cfg inp cfg.bctrs { s0 with idle := 0 }).2 ++ [DiskEvent.set_free])

/-- The main loop over a list of input blocks. -/
def write_blocks (cfg : WriterConfig) :
    List BlockInput → DiskState → DiskState × List DiskEvent
  | [], s => (s, [])
  | inp :: rest, s =>
    ((write_blocks cfg rest (write_block cfg inp s).1).1,
      (write_block cfg inp s).2 ++ (write_blocks cfg rest (write_block cfg inp s).1).2)

/-- The state of the writer when the thread starts (lines 537-543, 590-591), over
arbitrary antenna arrays and antenna map. -/
def disk_start (a0 a1 map : Nat → Int) : DiskState where
  bcnts_per_file := 0
  Nants := 0
  nfiles := 1
  file_cnt := 0
  idle := 0
  curr_file_bcnt := -1
  file_nblts := 0
  ant_0_array := a0
  ant_1_array := a1
  corr_to_hera_map := map

/-- What a list of calls has done to the output files: for each file closed, the number of
rows written to its sum file since it was opened and the `nblt` of the `write_metadata`
before the closing; the rows written to the sum file now open; and the `nblt` of the
last `write_metadata`. -/
structure FileLog where
  closed : List (Nat × Int)
  rows : Nat
  nblt : Int

/-- The effect of one call on the log of the output files. -/
def log_event (l : FileLog) : DiskEvent → FileLog
  | DiskEvent.write_baseline_index data_file.sum_file n _ => { l with rows := l.rows + n }
  | DiskEvent.write_baseline_index data_file.diff_file _ _ => l
  | DiskEvent.write_metadata _ _ _ nblt => { l with nblt := nblt }
  | DiskEvent.close_files => { closed := l.closed ++ [(l.rows, l.nblt)], rows := 0, nblt := 0 }
  | DiskEvent.open_files _ _ => { l with rows := 0 }
  | DiskEvent.set_free => l

/-- The log of the output files after a list of calls, from the log `l`. -/
def file_log (l : FileLog) (ev : List DiskEvent) : FileLog :=
  ev.foldl log_event l

/-- The log before any call. -/
def log_zero : FileLog where
  closed := []
  rows := 0
  nblt := 0

/-- The headers of a list of input blocks carry contiguous `bcnt`s from `B` on. -/
def contiguous_from (cfg : WriterConfig) : Nat → List BlockInput → Prop
  | _, [] => True
  | B, inp :: rest =>
    (∀ k, k < cfg.BASELINES_PER_BLOCK → inp.header.bcnt k = B + k) ∧
      contiguous_from cfg (B + cfg.BASELINES_PER_BLOCK) rest

/-- The writer has consumed `n` contiguous baselines from `B0`, a multiple of
`bcnts_per_file = bpf`, since a trigger found no file open: nothing is open before the
first baseline, and afterwards `q` files are closed, each with `bpf` rows, and the file
open holds `r` rows, `n = bpf * q + r` with `0 < r <= bpf`. -/
def FilesInv (B0 bpf K n : Nat) (s : DiskState) (l : FileLog) : Prop :=
  s.bcnts_per_file = bpf ∧ K ≤ s.nfiles ∧ s.idle = 0 ∧
  ((n = 0 ∧ s.curr_file_bcnt = -1 ∧ s.file_cnt = 0 ∧ l.closed = []) ∨
    ∃ q r, n = bpf * q + r ∧ 0 < r ∧ r ≤ bpf ∧
      s.curr_file_bcnt = ((B0 + bpf * q : Nat) : Int) ∧ s.file_cnt = q ∧
      s.file_nblts = (r : Int) ∧ l.rows = r ∧
      l.closed = List.replicate q (bpf, (bpf : Int)))

/-- A writer configuration with blocks of 64 baselines. -/
def cfgWriter : WriterConfig where
  N_CHAN_TOTAL := 8
  CATCHER_CHAN_SUM_BDA := 2
  idx32 := fun b t => 64 * b + 32 * t
  BASELINES_PER_BLOCK := 64
  N_STOKES := 4

/-- A block header whose baselines carry the `bcnt`s `B, B+1, ...`, with antenna pairs
`(k mod 3, k mod 5)` and `mcnt = 2k`. -/
def ramp_header (B : Nat) : hera_catcher_bda_input_header_t where
  mcnt := fun k => 2 * k
  bcnt := fun k => B + k
  ant_pair_0 := fun k => k % 3
  ant_pair_1 := fun k => k % 5
  good_data := 1

/-- The antenna map that sends correlator input `i` to antenna `10 + i`. -/
def map_ten : Nat → Int := fun i => 10 + (i : Int)

/-- An input block from `bcnt = B` on that carries a trigger for up to `nfiles` files of
`bpf` baselines each. -/
def inp_trigger (B bpf nfiles : Nat) : BlockInput where
  header := ramp_header B
  TRIGGER := 1
  NFILES := nfiles
  BDANANT := 3
  NBL2SEC := 0
  NBL4SEC := 0
  NBL8SEC := 0
  NBL16SEC := bpf
  redis_map := map_ten

/-- An input block from `bcnt = B` on without a trigger. -/
def inp_plain (B nfiles : Nat) : BlockInput where
  header := ramp_header B
  TRIGGER := 0
  NFILES := nfiles
  BDANANT := 3
  NBL2SEC := 0
  NBL4SEC := 0
  NBL8SEC := 0
  NBL16SEC := 0
  redis_map := map_ten

/-- The writer at the start of the thread, with zeroed arrays. -/
def disk_zero : DiskState := disk_start (fun _ => 0) (fun _ => 0) (fun _ => 0)

/-- A writer in the middle of a file of 80 baselines that started at `bcnt = 0`, with 64
rows written. -/
def disk_open : DiskState :=
  { disk_zero with
    bcnts_per_file := 80
    nfiles := 5
    curr_file_bcnt := 0
    file_nblts := 64
    corr_to_hera_map := map_ten }

/-! ## F-engine packet reassembler (`hera_ibvpkt_thread.c`) -/

namespace Feng

/-- The struct `hera_ibv_feng_pkt` (lines 57-65) without the link-layer headers and the
padding: the 8 bytes of the field `hdr` in the order they came over the wire, and the 576
payload words. -/
structure hera_ibv_feng_pkt where
  hdr : Nat → Nat
  payload : Nat → Nat

/-- The struct `packet_header_t` (lines 97-102).  The field `time`, which `get_header`
does not write and nothing reads, is left out; `chan` and `ant`, of type `int`, only
ever hold values below `2^16`. -/
structure packet_header_t where
  mcnt : Nat
  chan : Nat
  ant : Nat
deriving DecidableEq, Repr

/-- The value `be64toh(pkt->hdr)`: the 8 bytes of the header read as a big-endian
number. -/
def be64toh (hdr : Nat → Nat) : Nat :=
  hdr 0 % 256 * 72057594037927936 + hdr 1 % 256 * 281474976710656
    + hdr 2 % 256 * 1099511627776 + hdr 3 % 256 * 4294967296
    + hdr 4 % 256 * 16777216 + hdr 5 % 256 * 65536 + hdr 6 % 256 * 256 + hdr 7 % 256

/-- The function `get_header` (lines 218-237, without `TIMING_TEST` and `LOG_MCNTS`). -/
def get_header (p_frame : hera_ibv_feng_pkt) : packet_header_t :=
  let raw_header := be64toh p_frame.hdr
  { mcnt := (raw_header >>> 29) &&& (2 ^ 35 - 1)
    chan := (raw_header >>> 16) &&& (2 ^ 13 - 1)
    ant := raw_header &&& (2 ^ 16 - 1) }

/-- The 8 bytes that carry the 64-bit word `h` over the wire, high byte first. -/
def wire_bytes (h : Nat) : Nat → Nat :=
  fun i => h / 256 ^ (7 - i) % 256

/-- A frame with the header word `h` and the payload words `payload`. -/
def frame_of (h : Nat) (payload : Nat → Nat) : hera_ibv_feng_pkt where
  hdr := wire_bytes h
  payload := payload

end Feng

/-! ## Autocorrelation side stream (`run` of `hera_catcher_disk_thread.c`) -/

/-- The constants and index macros of `paper_databuf.h` that the autocorrelation part of
`run` uses on top of those of the writer: `autocorr_idx32 a` stands for
`hera_catcher_autocorr_databuf_idx32(a)`, and `idx32 b t` is
`hera_catcher_bda_input_databuf_by_bcnt_idx32(b, t)`.  `N_ANTS_TOTAL` is also taken as the
length of the flag array `header.ant` of a side block. -/
structure AutoConfig extends WriterConfig where
  N_ANTS_TOTAL : Nat
  AUTOCORR_N_BLOCKS : Nat
  autocorr_idx32 : Nat → Nat

/-- A block of the autocorrelation ring: `header.num_ants`, the presence flags
`header.ant` and the data as 32-bit words; `header.julian_time`, a double, is left
out. -/
structure hera_catcher_autocorr_block_t where
  num_ants : Nat
  ant : Nat → Nat
  data : Nat → Nat

/-- The variables of `run` that the autocorrelation part reads and writes, and the
autocorrelation ring. -/
structure AutoState where
  curblock_out : Nat
  auto_ants_filled : Nat
  db_out : Nat → hera_catcher_autocorr_block_t

/-- What one pass of the main loop finds: the header and the 32-bit words of the input
block, the status key `BDANANT`, the antenna map, the first result other than a timeout
of the wait for a free side block, and the result of `set_filled`. -/
structure AutoInput where
  header : hera_catcher_bda_input_header_t
  db_in32 : Nat → Nat
  Nants : Nat
  corr_to_hera_map : Nat → Int
  busywait_free_rv : hashpipe_rv
  set_filled_rv : hashpipe_rv

/-- The calls and messages of the autocorrelation part. -/
inductive AutoEvent where
  | busywait_free (block : Nat)
  | error_wait_free
  | warn_antenna (ant : Nat)
  | set_filled (block : Nat)
  | error_set_filled
deriving DecidableEq, Repr

/-- How the autocorrelation part of a pass ends: it falls through to the rest of the
pass, the thread exits, or the wait for a free side block never ends. -/
inductive AutoOutcome where
  | done (s : AutoState) (ev : List AutoEvent)
  | thread_exit (s : AutoState) (ev : List AutoEvent)
  | blocked (s : AutoState) (ev : List AutoEvent)

/-- The test `(corr_to_hera_map[0] & 0xff000000) != (INVALID_INDICATOR<<24)` of line 661,
on the 32-bit pattern of the `int`. -/
def map_valid (map : Nat → Int) : Prop :=
  (map 0 % 4294967296).toNat &&& 4278190080 ≠ 2852126720

instance (map : Nat → Int) : Decidable (map_valid map) := by
  unfold map_valid; infer_instance

/-- The antenna number `ant` of line 682, an `int` stored in a `uint16_t`. -/
def ant_of (inp : AutoInput) (bctr : Nat) : Nat :=
  (inp.corr_to_hera_map (inp.header.ant_pair_0 bctr) % 65536).toNat

/-- The number of 32-bit words of one autocorrelation (line 690). -/
def AutoConfig.auto_words (cfg : AutoConfig) : Nat :=
  cfg.N_CHAN_TOTAL * cfg.N_STOKES * 2

/-- The words of baseline `bctr` of the input block, from its even sample on. -/
def auto_source (cfg : AutoConfig) (inp : AutoInput) (bctr : Nat) : Nat → Nat :=
  fun w => inp.db_in32 (cfg.idx32 bctr 0 + w)

/-- The `memcpy` of line 690 into the data of a side block. -/
def copy_auto (cfg : AutoConfig) (data : Nat → Nat) (offset_out : Nat) (src : Nat → Nat) :
    Nat → Nat :=
  fun k => if offset_out ≤ k ∧ k < offset_out + cfg.auto_words
    then src (k - offset_out) else data k

/-- The body of the loop over `bctr` (lines 681-693). -/
def auto_baseline (cfg : AutoConfig) (inp : AutoInput)
    (st : AutoState × List AutoEvent) (bctr : Nat) : AutoState × List AutoEvent :=
  let ant := ant_of inp bctr
  let ev1 := if (ant : Int) > (cfg.N_ANTS_TOTAL : Int) - 1
    then [AutoEvent.warn_antenna ant] else []
  let blk := st.1.db_out st.1.curblock_out
  if inp.header.ant_pair_0 bctr = inp.header.ant_pair_1 bctr ∧ blk.ant ant = 0 then
    ({ st.1 with
        auto_ants_filled := st.1.auto_ants_filled + 1
        db_out := Function.update st.1.db_out st.1.curblock_out
          { blk with
            data := copy_auto cfg blk.data (cfg.autocorr_idx32 ant) (auto_source cfg inp bctr)
            ant := Function.update blk.ant ant 1 } },
      st.2 ++ ev1)
  else (st.1, st.2 ++ ev1)

/-- The side block with all its presence flags cleared (line 677). -/
def clear_flags (cfg : AutoConfig) (s : AutoState) : AutoState :=
  { s with
    db_out := Function.update s.db_out s.curblock_out
      { s.db_out s.curblock_out with
        ant := fun a => if a < cfg.N_ANTS_TOTAL then 0 else (s.db_out s.curblock_out).ant a } }

/-- The end of the autocorrelation part (lines 698-708): with the autocorrelations of
`Nants` antennas, the side block is marked filled and the next one becomes current. -/
def auto_finish (cfg : AutoConfig) (inp : AutoInput) (s : AutoState)
    (ev : List AutoEvent) : AutoOutcome :=
  if s.auto_ants_filled ≥ inp.Nants then
    let s1 : AutoState :=
      { s with
        db_out := Function.update s.db_out s.curblock_out
          { s.db_out s.curblock_out with num_ants := inp.Nants } }
    if inp.set_filled_rv ≠ hashpipe_rv.HASHPIPE_OK then
      AutoOutcome.thread_exit s1
        (ev ++ [AutoEvent.set_filled s.curblock_out, AutoEvent.error_set_filled])
    else
      AutoOutcome.done
        { s1 with
          curblock_out := (s.curblock_out + 1) % cfg.AUTOCORR_N_BLOCKS
          auto_ants_filled := 0 }
        (ev ++ [AutoEvent.set_filled s.curblock_out])
  else AutoOutcome.done s ev

/-- The autocorrelation part of one pass of the main loop (lines 660-709). -/
def autocorr_copy (cfg : AutoConfig) (inp : AutoInput) (s : AutoState) : AutoOutcome :=
  if inp.Nants > 0 ∧ map_valid inp.corr_to_hera_map then
    if s.auto_ants_filled = 0 ∧ inp.busywait_free_rv = hashpipe_rv.HASHPIPE_TIMEOUT then
      AutoOutcome.blocked s [AutoEvent.busywait_free s.curblock_out]
    else if s.auto_ants_filled = 0 ∧ inp.busywait_free_rv ≠ hashpipe_rv.HASHPIPE_OK then
      AutoOutcome.thread_exit s
        [AutoEvent.busywait_free s.curblock_out, AutoEvent.error_wait_free]
    else
      let s1 := if s.auto_ants_filled = 0 then clear_flags cfg s else s
      let ev1 := if s.auto_ants_filled = 0
        then [AutoEvent.busywait_free s.curblock_out] else []
      let r := (List.range cfg.BASELINES_PER_BLOCK).foldl (auto_baseline cfg inp) (s1, ev1)
      auto_finish cfg inp r.1 r.2
  else AutoOutcome.done s []

/-- The autocorrelation parts of the passes over a list of input blocks, up to the pass
in which the thread exits or blocks. -/
def autocorr_run (cfg : AutoConfig) : List AutoInput → AutoState → AutoOutcome
  | [], s => AutoOutcome.done s []
  | inp :: rest, s =>
    match autocorr_copy cfg inp s with
    | AutoOutcome.done s1 ev =>
      match autocorr_run cfg rest s1 with
      | AutoOutcome.done s2 ev2 => AutoOutcome.done s2 (ev ++ ev2)
      | AutoOutcome.thread_exit s2 ev2 => AutoOutcome.thread_exit s2 (ev ++ ev2)
      | AutoOutcome.blocked s2 ev2 => AutoOutcome.blocked s2 (ev ++ ev2)
    | AutoOutcome.thread_exit s1 ev => AutoOutcome.thread_exit s1 ev
    | AutoOutcome.blocked s1 ev => AutoOutcome.blocked s1 ev

/-- The side blocks that a list of events marks filled, in order. -/
def auto_fills : List AutoEvent → List Nat
  | [] => []
  | AutoEvent.set_filled b :: rest => b :: auto_fills rest
  | _ :: rest => auto_fills rest

/-- The autocorrelation baselines (`ant_pair_0 = ant_pair_1`) among the first `n`
baselines of an input block, in order: the antenna of each and its words, word `w` of
baseline `bctr` being the word `idx32(bctr, 0) + w` of the input block. -/
def block_autos (cfg : AutoConfig) (inp : AutoInput) (n : Nat) : List (Nat × (Nat → Nat)) :=
  (List.range n).filterMap
    (fun bctr => if inp.header.ant_pair_0 bctr = inp.header.ant_pair_1 bctr
      then some (ant_of inp bctr, fun w => inp.db_in32 (cfg.idx32 bctr 0 + w)) else none)

/-- The autocorrelation baselines of a list of input blocks, in order. -/
def run_autos (cfg : AutoConfig) : List AutoInput → List (Nat × (Nat → Nat))
  | [] => []
  | inp :: rest => block_autos cfg inp cfg.BASELINES_PER_BLOCK ++ run_autos cfg rest

/-- The words of the first baseline of antenna `a` in a list of autocorrelation
baselines. -/
def first_auto (a : Nat) : List (Nat × (Nat → Nat)) → Option (Nat → Nat)
  | [] => none
  | (b, src) :: rest => if b = a then some src else first_auto a rest

/-- The antennas of a list of autocorrelation baselines. -/
def auto_ants (l : List (Nat × (Nat → Nat))) : Finset Nat :=
  (l.map Prod.fst).toFinset

/-- The slots of different antennas in the data of a side block do not overlap. -/
def slots_disjoint (cfg : AutoConfig) : Prop :=
  ∀ a, a < cfg.N_ANTS_TOTAL → ∀ b, b < cfg.N_ANTS_TOTAL → a ≠ b →
    cfg.autocorr_idx32 a + cfg.auto_words ≤ cfg.autocorr_idx32 b ∨
    cfg.autocorr_idx32 b + cfg.auto_words ≤ cfg.autocorr_idx32 a

instance (cfg : AutoConfig) : Decidable (slots_disjoint cfg) := by
  unfold slots_disjoint; infer_instance

/-- A side-stream configuration: blocks of 4 baselines, 4 antennas, 64 words per
autocorrelation, a ring of 2 side blocks. -/
def cfgAuto : AutoConfig where
  N_CHAN_TOTAL := 8
  CATCHER_CHAN_SUM_BDA := 2
  idx32 := fun b t => 128 * b + 64 * t
  BASELINES_PER_BLOCK := 4
  N_STOKES := 4
  N_ANTS_TOTAL := 4
  AUTOCORR_N_BLOCKS := 2
  autocorr_idx32 := fun a => 64 * a

/-- An input block with the antenna pairs `(p0 k, p1 k)`, whose word `i` is `i + off`,
for 3 antennas under the identity map. -/
def auto_input (p0 p1 : Nat → Nat) (off : Nat) : AutoInput where
  header :=
    { mcnt := fun _ => 0, bcnt := fun k => k, ant_pair_0 := p0, ant_pair_1 := p1,
      good_data := 1 }
  db_in32 := fun i => i + off
  Nants := 3
  corr_to_hera_map := fun i => (i : Int)
  busywait_free_rv := hashpipe_rv.HASHPIPE_OK
  set_filled_rv := hashpipe_rv.HASHPIPE_OK

/-- A block with the baselines `(0,0), (1,1), (0,1), (0,0)`. -/
def auto_first : AutoInput :=
  auto_input (fun k => if k = 1 then 1 else 0) (fun k => if k = 1 ∨ k = 2 then 1 else 0) 0

/-- A block with the baselines `(1,1), (1,2), (2,2), (0,2)`. -/
def auto_second : AutoInput :=
  auto_input (fun k => if k = 2 then 2 else if k = 3 then 0 else 1)
    (fun k => if k = 0 then 1 else 2) 1000

/-- A side ring with arbitrary old flags and the counter at 0. -/
def auto_start : AutoState where
  curblock_out := 0
  auto_ants_filled := 0
  db_out := fun _ => { num_ants := 7, ant := fun _ => 1, data := fun _ => 0 }

/-- The side block `cur` holds exactly the autocorrelations of the list `autos`: the
counter is the number of their antennas, the flags mark these antennas, and the slot of
each holds the words of its first baseline in the list. -/
def AutoInv (cfg : AutoConfig) (cur : Nat) (autos : List (Nat × (Nat → Nat)))
    (s : AutoState) : Prop :=
  s.curblock_out = cur ∧ s.auto_ants_filled = (auto_ants autos).card ∧
  (∀ a, a ∈ auto_ants autos → a < cfg.N_ANTS_TOTAL) ∧
  (∀ a, a < cfg.N_ANTS_TOTAL →
    (s.db_out cur).ant a = if a ∈ auto_ants autos then 1 else 0) ∧
  (∀ a src, first_auto a autos = some src → ∀ w, w < cfg.auto_words →
    (s.db_out cur).data (cfg.autocorr_idx32 a + w) = src w)

/-! ## Missing-packet statistics: concrete inputs -/

/-- One packet of the block at `bcnt = 100`, then a packet two blocks ahead, which makes
`process_packet` mark the first block filled with 31 of its 32 packets missing. -/
def miss_trace : List (RingEnv × hera_ibv_xeng_pkt) :=
  [(envOK, mk_frame 100 0 0 0), (envOK, mk_frame 108 0 0 0)]

/-! ## Lossless input of the reassembler -/

/-- The block to which a frame belongs, counted from the block that starts at
`bcnt = B0`. -/
def blk_of (cfg : NetConfig) (B0 : Nat) (f : hera_ibv_xeng_pkt) : Nat :=
  ((get_header f).bcnt - B0) / cfg.BASELINES_PER_BLOCK

/-- The expected packet that a frame carries: its block, counted from `B0`, and its
position `pkt_offset` in the block. -/
def pkt_key (cfg : NetConfig) (B0 : Nat) (x : RingEnv × hera_ibv_xeng_pkt) : Nat × Nat :=
  (blk_of cfg B0 x.2, pkt_offset_of cfg 0 (get_header x.2))

/-- An order of arrival, given as the blocks of the packets, that stays in the window of
`process_packet`: with the anchor at block `a`, a packet belongs to block `a`, `a + 1` or
`a + 2`, and a packet of block `a + 2` moves the anchor to `a + 1`. -/
def window_order : Nat → List Nat → Prop
  | _, [] => True
  | a, b :: rest => a ≤ b ∧ b ≤ a + 2 ∧ window_order (if b = a + 2 then a + 1 else a) rest

instance window_order_decidable : ∀ (a : Nat) (l : List Nat), Decidable (window_order a l)
  | _, [] => isTrue trivial
  | a, b :: rest =>
    have := window_order_decidable (if b = a + 2 then a + 1 else a) rest
    by unfold window_order; infer_instance

/-- Every frame of the list is copied into the ring by `place_payload`, at a position whose
flag is still set, i.e. one that no packet has been copied to since the flags of the block
were last reset; and when the call marks a block filled, the packet counter of that block
is `PACKETS_PER_BLOCK` and the flag of each of its positions is cleared. -/
def written_once (cfg : NetConfig) : NetState → List (RingEnv × hera_ibv_xeng_pkt) → Prop
  | _, [] => True
  | s, (env, f) :: rest =>
    (∃ s0 pb r ev,
      process_packet cfg env s f
        = Outcome.returned (place_payload cfg s0 f (get_header f) pb) r ev ∧
      s0.binfo.flags pb (pkt_offset_of cfg s0.binfo.bcnt_start (get_header f)) ≠ 0 ∧
      (fills ev ≠ [] →
        s.binfo.block_packet_counter s.binfo.block_i = cfg.PACKETS_PER_BLOCK ∧
        ∀ j, j < cfg.PACKETS_PER_BLOCK → s.binfo.flags s.binfo.block_i j = 0)) ∧
    written_once cfg (process_packet cfg env s f).state rest

/-- The state of the thread with the anchor at block `a` of the run, after the packets `P`
of the run have arrived: the flags of the two working blocks are cleared exactly at the
positions of the packets of blocks `a` and `a + 1` that have arrived, and no packet of a
later block has arrived. -/
def WindowInv (cfg : NetConfig) (B0 K a : Nat) (P : List (Nat × Nat)) (s : NetState) :
    Prop :=
  Counted cfg s ∧ s.binfo.bcnt_start = B0 + a * cfg.BASELINES_PER_BLOCK ∧ a ≤ K - 2 ∧
  (∀ j, j < cfg.PACKETS_PER_BLOCK → (s.binfo.flags s.binfo.block_i j = 0 ↔ (a, j) ∈ P)) ∧
  (∀ j, j < cfg.PACKETS_PER_BLOCK →
    (s.binfo.flags ((s.binfo.block_i + 1) % cfg.CATCHER_N_BLOCKS) j = 0 ↔ (a + 1, j) ∈ P)) ∧
  (∀ p, p ∈ P → p.1 ≤ a + 1)

/-- A first packet, of the block at `bcnt = 100`. -/
def lossless_first : RingEnv × hera_ibv_xeng_pkt := (envOK, mk_frame 100 0 0 0)

/-- The other seven packets of the blocks at `bcnt = 100 .. 103`, two per block, each
once, in an order that stays in the window. -/
def lossless_rest : List (RingEnv × hera_ibv_xeng_pkt) :=
  [(envOK, mk_frame 101 0 1 0), (envOK, mk_frame 100 0 1 0), (envOK, mk_frame 101 0 0 0),
   (envOK, mk_frame 102 0 1 0), (envOK, mk_frame 103 0 0 0), (envOK, mk_frame 102 0 0 0),
   (envOK, mk_frame 103 0 1 0)]

/-- The six packets of the blocks at `bcnt = 100 .. 102`, each once, the second packet of
block 100 arriving after a packet of block 102. -/
def late_order_trace : List (RingEnv × hera_ibv_xeng_pkt) :=
  [(envOK, mk_frame 100 0 0 0), (envOK, mk_frame 102 0 0 0), (envOK, mk_frame 100 0 1 0),
   (envOK, mk_frame 101 0 0 0), (envOK, mk_frame 101 0 1 0), (envOK, mk_frame 102 0 1 0)]

/-! ## Non-temporal copy (`nt_memutils.c`) -/

/-- The effect of the library call `memcpy(d, s, len)` on a memory of bytes by address,
for regions that do not overlap. -/
def memcpy (m : Nat → Nat) (d s len : Nat) : Nat → Nat :=
  fun a => if d ≤ a ∧ a < d + len then m (s + (a - d)) else m a

/-- The macro `ALIGN(ptr, align)` (line 53) on a `uintptr_t`, for `align` a power of two:
`x & ~(align - 1)` clears the low bits of `x = ptr + align - 1`. -/
def ALIGN (ptr align : Nat) : Nat :=
  (ptr + align - 1) % 18446744073709551616
    - ((ptr + align - 1) % 18446744073709551616) % align

/-- How a copy ends: with the memory it leaves, with the fault that a streaming load or
store at an address that is no multiple of its width raises, or with the fuel of the
model used up. -/
inductive CopyResult where
  | ok (m : Nat → Nat)
  | fault
  | out_of_fuel

/-- The byte at an address after a copy that ended regularly. -/
def CopyResult.byte : CopyResult → Nat → Option Nat
  | CopyResult.ok m, a => some (m a)
  | CopyResult.fault, _ => none
  | CopyResult.out_of_fuel, _ => none

/-- The statement `STORE_NT(dstwide++, LOAD_NT(srcwide++))` (line 86) for a wide type of
`sz` bytes: the streaming load and store need addresses that are multiples of `sz`. -/
def stream_copy (sz : Nat) (m : Nat → Nat) (d s : Nat) : Option (Nat → Nat) :=
  if d % sz = 0 ∧ s % sz = 0 then some (memcpy m d s sz) else none

/-- The loop of lines 79-87 and the trailer of lines 90-91, with one unit of fuel per
pass of the loop. -/
def nt_loop (sz : Nat) : Nat → (Nat → Nat) → Nat → Nat → Nat → CopyResult
  | 0, m, d, s, len =>
    if len > sz then CopyResult.out_of_fuel
    else CopyResult.ok (if len > 0 then memcpy m d s len else m)
  | fuel + 1, m, d, s, len =>
    if len > sz then
      match stream_copy sz m d s with
      | none => CopyResult.fault
      | some m1 => nt_loop sz fuel m1 (d + sz) (s + sz) (len - sz)
    else CopyResult.ok (if len > 0 then memcpy m d s len else m)

/-- The function `memcpy_nt` (lines 55-92), for the wide type of `2^SIZE_NT` bytes. -/
def memcpy_nt (SIZE_NT : Nat) (m : Nat → Nat) (dst src len : Nat) : CopyResult :=
  let m1 := if dst &&& 31 ≠ src &&& 31 then memcpy m dst src len else m
  let header_bytes := 32 - (dst &&& 31)
  if dst &&& 31 ≠ 0 then
    nt_loop (2 ^ SIZE_NT) len (memcpy m1 dst src (min header_bytes len))
      (ALIGN dst 32) (ALIGN src 32) (len - min header_bytes len)
  else nt_loop (2 ^ SIZE_NT) len m1 dst src len

/-- What it means for a call to be a version of `memcpy(dst, src, len)`: it ends
regularly, the bytes `dst[0..len)` are then the original `src[0..len)`, and no other byte
has changed. -/
def copies (r : CopyResult) (m : Nat → Nat) (dst src len : Nat) : Prop :=
  ∃ m1, r = CopyResult.ok m1 ∧ (∀ i, i < len → m1 (dst + i) = m (src + i)) ∧
    ∀ a, a < dst ∨ dst + len ≤ a → m1 a = m a

/-- A memory whose byte at address `a` is `a mod 251`. -/
def mem_ramp : Nat → Nat := fun a => a % 251

/-! ## F-engine reassembler (`hera_ibvpkt_thread.c`) -/

namespace Feng

/-- The constants of `paper_databuf.h` that the F-engine reassembler uses. -/
structure FengConfig where
  N_INPUT_BLOCKS : Nat
  N_TIME_PER_BLOCK : Nat
  TIME_DEMUX : Nat
  N_TIME_PER_PACKET : Nat
  N_PACKETS_PER_BLOCK : Nat
  N_PACKETS_PER_BLOCK_PER_F : Nat
  N_INPUTS_PER_PACKET : Nat
  Na : Nat
  Nc : Nat

/-- The span `N_TIME_PER_BLOCK*TIME_DEMUX` of a block in `mcnt`s. -/
def FengConfig.block_mcnts (cfg : FengConfig) : Nat :=
  cfg.N_TIME_PER_BLOCK * cfg.TIME_DEMUX

/-- The macro `MAX_OUT_OF_SEQ` (line 366). -/
def FengConfig.MAX_OUT_OF_SEQ (cfg : FengConfig) : Nat := 2 * cfg.Na

/-- The macro `LATE_PKT_MCNT_THRESHOLD` (line 370). -/
def FengConfig.LATE_PKT_MCNT_THRESHOLD (cfg : FengConfig) : Nat :=
  2 * cfg.TIME_DEMUX * cfg.N_TIME_PER_BLOCK * cfg.N_INPUT_BLOCKS

/-- The struct `block_info_t` (lines 108-120).  The packet counters, of type `int`, are
kept as natural numbers: they start at 0 and grow by one per packet. -/
structure block_info_t where
  initialized : Nat
  self_xid : Int
  mcnt_start : Nat
  mcnt_log_late : Nat
  out_of_seq_cnt : Nat
  block_i : Nat
  m : Nat
  a : Nat
  c : Nat
  block_packet_counter : Nat → Nat

/-- The header of a block of the output ring: `header.good_data` and `header.mcnt`. -/
structure paper_input_header_t where
  good_data : Nat
  mcnt : Nat
deriving DecidableEq, Repr

/-- The status keys that the reassembler writes, and `XID`, which it reads. -/
structure feng_status_t where
  NETBKOUT : Nat
  MISSEDFE : Nat
  MISSEDPK : Nat
  XID : Int
deriving DecidableEq, Repr

/-- The state of the thread: the file static `time_index`, the static local `binfo` of
`process_packet`, the static local `last_filled` of `set_block_filled`, the headers of the
blocks of the output ring and the status keys.  The payload of the blocks is not kept:
the copies into it are events. -/
structure NetState where
  time_index : Nat
  binfo : block_info_t
  last_filled : Int
  db : Nat → paper_input_header_t
  status : feng_status_t

/-- The calls by which the reassembler acts on the ring and reports: marking a block
filled (with `good_data` as it is then), waiting for a free block, the copy of the
payload of input `a` into a block by `memcpy_nt`, and the messages that do not depend on
the clock. -/
inductive NetEvent where
  | set_filled (block_i good_data : Nat)
  | busywait_free (block_i : Nat)
  | msg_unexpected_filled (block_i : Nat) (last_filled : Int)
  | warn_block_i_mismatch (block_i binfo_block_i : Nat)
  | error_set_filled
  | error_wait_free (interrupted : Bool)
  | error_antenna (ant : Nat)
  | msg_time_index (expected got : Nat)
  | memcpy_nt (block_i m a c : Nat)
  | warn_resetting (mcnt_start block_i pkt_mcnt ant : Nat)
deriving DecidableEq, Repr

/-- How a call ends: it returns a value, or the thread exits through `pthread_exit`. -/
inductive Outcome where
  | returned (s : NetState) (ret : Nat) (ev : List NetEvent)
  | thread_exit (s : NetState) (ev : List NetEvent)

/-- The state in which a call ends. -/
def Outcome.state : Outcome → NetState
  | Outcome.returned s _ _ => s
  | Outcome.thread_exit s _ => s

/-- The events of a call. -/
def Outcome.events : Outcome → List NetEvent
  | Outcome.returned _ _ ev => ev
  | Outcome.thread_exit _ ev => ev

/-- A `uint64_t` value read as `int64_t`. -/
def toInt64 (x : Nat) : Int :=
  if x % 18446744073709551616 < 9223372036854775808 then (x % 18446744073709551616 : Nat)
  else ((x % 18446744073709551616 : Nat) : Int) - 18446744073709551616

/-- Subtraction of `uint64_t` values. -/
def sub64 (a b : Nat) : Nat :=
  (a % 18446744073709551616 + 18446744073709551616 - b % 18446744073709551616)
    % 18446744073709551616

/-- The function `block_for_mcnt` (lines 176-179). -/
def block_for_mcnt (cfg : FengConfig) (mcnt : Nat) : Nat :=
  ((mcnt / cfg.TIME_DEMUX) / cfg.N_TIME_PER_BLOCK) % cfg.N_INPUT_BLOCKS

/-- The function `start_for_mcnt` (lines 182-186), in 64-bit arithmetic. -/
def start_for_mcnt (cfg : FengConfig) (mcnt : Nat) : Nat :=
  let mcnt_time_index := (mcnt / cfg.N_TIME_PER_PACKET) % cfg.TIME_DEMUX
  (mcnt - mcnt % (cfg.N_TIME_PER_BLOCK * cfg.TIME_DEMUX)
    + mcnt_time_index * cfg.N_TIME_PER_PACKET) % 18446744073709551616

/-- The function `set_block_filled` (lines 270-340). -/
def set_block_filled (cfg : FengConfig) (env : RingEnv) (s : NetState) : Outcome :=
  let block_i := block_for_mcnt cfg s.binfo.mcnt_start
  let last_filled := (s.last_filled + 1) % (cfg.N_INPUT_BLOCKS : Int)
  let ev1 := if last_filled ≠ (block_i : Int)
    then [NetEvent.msg_unexpected_filled block_i last_filled] else []
  let ev2 := if block_i ≠ s.binfo.block_i
    then [NetEvent.warn_block_i_mismatch block_i s.binfo.block_i] else []
  let db1 := if s.binfo.block_packet_counter block_i = cfg.N_PACKETS_PER_BLOCK
    then Function.update s.db block_i { s.db block_i with good_data := 1 }
    else s.db
  let ev3 := [NetEvent.set_filled block_i (db1 block_i).good_data]
  if env.set_filled_rv ≠ hashpipe_rv.HASHPIPE_OK then
    Outcome.thread_exit { s with last_filled := last_filled, db := db1 }
      (ev1 ++ ev2 ++ ev3 ++ [NetEvent.error_set_filled])
  else
    let block_missed_pkt_cnt := (((cfg.N_PACKETS_PER_BLOCK : Int)
      - (s.binfo.block_packet_counter block_i : Int)) % 4294967296).toNat
    let block_missed_feng :=
      (cfg.N_INPUTS_PER_PACKET / 2 * block_missed_pkt_cnt) % 4294967296
        / cfg.N_PACKETS_PER_BLOCK_PER_F
    let block_missed_mod_cnt := block_missed_pkt_cnt % cfg.N_PACKETS_PER_BLOCK_PER_F
    let status1 := { s.status with
      NETBKOUT := block_i
      MISSEDFE := block_missed_feng }
    let status2 := if block_missed_mod_cnt ≠ 0
      then { status1 with
        MISSEDPK := (status1.MISSEDPK + block_missed_mod_cnt) % 4294967296 }
      else status1
    Outcome.returned
      { s with
        last_filled := last_filled
        db := db1
        status := status2
        binfo := { s.binfo with self_xid := s.status.XID } }
      s.binfo.mcnt_start (ev1 ++ ev2 ++ ev3)

/-- The function `calc_block_indexes` (lines 342-363): `none` stands for the return value
`-1`. -/
def calc_block_indexes (cfg : FengConfig) (binfo : block_info_t)
    (pkt_header : packet_header_t) : Option block_info_t :=
  if pkt_header.ant ≥ cfg.Na then none
  else some { binfo with
    m := ((pkt_header.mcnt / cfg.TIME_DEMUX) % cfg.N_TIME_PER_BLOCK) / cfg.N_TIME_PER_PACKET
    a := pkt_header.ant
    c := pkt_header.chan % cfg.Nc }

/-- The function `initialize_block` (lines 377-389). -/
def initialize_block (cfg : FengConfig) (s : NetState) (mcnt : Nat) :
    NetState × List NetEvent :=
  let block_i := block_for_mcnt cfg mcnt
  let mcnt_time_index := (mcnt / cfg.N_TIME_PER_PACKET) % cfg.TIME_DEMUX
  let header1 : paper_input_header_t := { good_data := 0, mcnt := start_for_mcnt cfg mcnt }
  ({ s with db := Function.update s.db block_i header1 },
    if mcnt_time_index ≠ s.time_index
      then [NetEvent.msg_time_index s.time_index mcnt_time_index] else [])

/-- The function `initialize_block_info` (lines 393-420). -/
def initialize_block_info (cfg : FengConfig) (s : NetState) : block_info_t :=
  if s.binfo.initialized ≠ 0 then s.binfo
  else
    { s.binfo with
      block_packet_counter := fun i =>
        if i < cfg.N_INPUT_BLOCKS then 0 else s.binfo.block_packet_counter i
      self_xid := s.status.XID
      mcnt_start := s.time_index
      mcnt_log_late := cfg.N_TIME_PER_BLOCK * cfg.TIME_DEMUX + s.time_index
      block_i := 0
      out_of_seq_cnt := 0
      initialized := 1 }

/-- The end of the first branch of `process_packet` (lines 525-553): the packet is
counted, then its antenna is checked, then its payload is copied. -/
def count_and_copy (cfg : FengConfig) (s : NetState) (pkt_header : packet_header_t)
    (pkt_block_i netmcnt : Nat) (ev : List NetEvent) : Outcome :=
  let binfo1 := { s.binfo with
    out_of_seq_cnt := 0
    block_packet_counter := Function.update s.binfo.block_packet_counter pkt_block_i
      (s.binfo.block_packet_counter pkt_block_i + 1) }
  match calc_block_indexes cfg binfo1 pkt_header with
  | none =>
    Outcome.returned { s with binfo := binfo1 } 18446744073709551615
      (ev ++ [NetEvent.error_antenna pkt_header.ant])
  | some binfo2 =>
    Outcome.returned { s with binfo := binfo2 } netmcnt
      (ev ++ (List.range (cfg.N_INPUTS_PER_PACKET / 2)).map
        (fun i => NetEvent.memcpy_nt pkt_block_i binfo2.m (binfo2.a + i) binfo2.c))

/-- The part of `process_packet` for a packet two blocks ahead (lines 495-523): the
current block is marked filled and the block of the packet is acquired. -/
def advance_block (cfg : FengConfig) (env : RingEnv) (s : NetState)
    (pkt_mcnt pkt_block_i : Nat) : Outcome :=
  match set_block_filled cfg env s with
  | Outcome.thread_exit s1 ev1 => Outcome.thread_exit s1 ev1
  | Outcome.returned s1 netmcnt ev1 =>
    let s2 := { s1 with binfo := { s1.binfo with
      mcnt_start := (s1.binfo.mcnt_start + cfg.N_TIME_PER_BLOCK * cfg.TIME_DEMUX)
        % 18446744073709551616
      block_i := (s1.binfo.block_i + 1) % cfg.N_INPUT_BLOCKS } }
    if env.busywait_free_rv ≠ hashpipe_rv.HASHPIPE_OK then
      Outcome.thread_exit s2
        (ev1 ++ [NetEvent.busywait_free pkt_block_i, NetEvent.error_wait_free env.errno_EINTR])
    else
      let s3 := (initialize_block cfg s2 pkt_mcnt).1
      Outcome.returned
        { s3 with binfo := { s3.binfo with
          block_packet_counter := Function.update s3.binfo.block_packet_counter pkt_block_i 0 } }
        netmcnt
        (ev1 ++ [NetEvent.busywait_free pkt_block_i] ++ (initialize_block cfg s2 pkt_mcnt).2)

/-- The last branch of `process_packet` (lines 589-653): a packet out of order, and the
re-synchronisation after more than `MAX_OUT_OF_SEQ` of them. -/
def out_of_order (cfg : FengConfig) (s : NetState) (pkt_header : packet_header_t)
    (pkt_block_i : Nat) : Outcome :=
  let s1 := { s with binfo := { s.binfo with out_of_seq_cnt := s.binfo.out_of_seq_cnt + 1 } }
  if s1.binfo.out_of_seq_cnt > cfg.MAX_OUT_OF_SEQ then
    let pkt_mcnt :=
      if s1.binfo.block_i > pkt_block_i then
        (pkt_header.mcnt + cfg.TIME_DEMUX * cfg.N_TIME_PER_BLOCK
          * (s1.binfo.block_i - pkt_block_i)) % 18446744073709551616
      else if s1.binfo.block_i < pkt_block_i then
        (pkt_header.mcnt + cfg.TIME_DEMUX * cfg.N_TIME_PER_BLOCK
          * (s1.binfo.block_i + cfg.N_INPUT_BLOCKS - pkt_block_i)) % 18446744073709551616
      else pkt_header.mcnt
    let mcnt_start := start_for_mcnt cfg pkt_mcnt
    let binfo2 := { s1.binfo with
      mcnt_start := mcnt_start
      mcnt_log_late := (mcnt_start + cfg.N_TIME_PER_BLOCK * cfg.TIME_DEMUX)
        % 18446744073709551616
      block_i := block_for_mcnt cfg mcnt_start }
    let s2 := { s1 with binfo := binfo2 }
    let i1 := initialize_block cfg s2 mcnt_start
    let i2 := initialize_block cfg i1.1
      ((mcnt_start + cfg.TIME_DEMUX * cfg.N_TIME_PER_BLOCK) % 18446744073709551616)
    let counter1 := Function.update binfo2.block_packet_counter binfo2.block_i 0
    let counter2 := Function.update counter1 ((binfo2.block_i + 1) % cfg.N_INPUT_BLOCKS) 0
    Outcome.returned
      { i2.1 with binfo := { binfo2 with block_packet_counter := counter2 } }
      18446744073709551615
      ([NetEvent.warn_resetting mcnt_start (block_for_mcnt cfg mcnt_start) pkt_mcnt
        pkt_header.ant] ++ i1.2 ++ i2.2)
  else Outcome.returned s1 18446744073709551615 []

/-- The function `process_packet` (lines 427-656, without `LOG_MCNTS` and
`N_DEBUG_INPUT_BLOCKS`); the warnings about late and out-of-order packets, which are
throttled by the clock, are left out. -/
def process_packet (cfg : FengConfig) (env : RingEnv) (s : NetState)
    (p_frame : hera_ibv_feng_pkt) : Outcome :=
  let s0 := { s with binfo := initialize_block_info cfg s }
  let pkt_header := get_header p_frame
  let pkt_mcnt := pkt_header.mcnt
  let pkt_block_i := block_for_mcnt cfg pkt_mcnt
  let cur_mcnt := s0.binfo.mcnt_start
  let pkt_mcnt_dist := toInt64 (sub64 pkt_mcnt cur_mcnt)
  if 0 ≤ pkt_mcnt_dist
      ∧ pkt_mcnt_dist < 3 * (cfg.N_TIME_PER_BLOCK : Int) * (cfg.TIME_DEMUX : Int) then
    if pkt_mcnt_dist ≥ 2 * (cfg.N_TIME_PER_BLOCK : Int) * (cfg.TIME_DEMUX : Int) then
      match advance_block cfg env s0 pkt_mcnt pkt_block_i with
      | Outcome.thread_exit s1 ev1 => Outcome.thread_exit s1 ev1
      | Outcome.returned s1 netmcnt ev1 =>
        count_and_copy cfg s1 pkt_header pkt_block_i netmcnt ev1
    else count_and_copy cfg s0 pkt_header pkt_block_i 18446744073709551615 []
  else if pkt_mcnt_dist < 0
      ∧ pkt_mcnt_dist > -(cfg.LATE_PKT_MCNT_THRESHOLD : Int) then
    Outcome.returned s0 18446744073709551615 []
  else out_of_order cfg s0 pkt_header pkt_block_i

/-- What feeding a list of frames to `process_packet` leaves: the final state, the events
in order, and whether the thread has exited. -/
structure RunResult where
  state : NetState
  events : List NetEvent
  exited : Bool

/-- The main loop over the received frames: `process_packet` on each of them until the
thread exits. -/
def run_packets (cfg : FengConfig) (s : NetState) :
    List (RingEnv × hera_ibv_feng_pkt) → RunResult
  | [] => { state := s, events := [], exited := false }
  | (env, f) :: rest =>
    match process_packet cfg env s f with
    | Outcome.thread_exit s1 ev => { state := s1, events := ev, exited := true }
    | Outcome.returned s1 _ ev =>
      { state := (run_packets cfg s1 rest).state
        events := ev ++ (run_packets cfg s1 rest).events
        exited := (run_packets cfg s1 rest).exited }

/-- The blocks that a list of events marks filled, each with its `good_data`, in
order. -/
def fills : List NetEvent → List (Nat × Nat)
  | [] => []
  | NetEvent.set_filled i g :: rest => (i, g) :: fills rest
  | _ :: rest => fills rest

/-- The block of `mcnt`s, counted from the one that starts at `M0`, to which a frame
belongs. -/
def blk_of (cfg : FengConfig) (M0 : Nat) (f : hera_ibv_feng_pkt) : Nat :=
  ((get_header f).mcnt - M0) / cfg.block_mcnts

/-- The number of frames of a list that belong to block `k`, every arrival counted. -/
def arrivals (cfg : FengConfig) (M0 k : Nat) (l : List (RingEnv × hera_ibv_feng_pkt)) :
    Nat :=
  (l.filter (fun x => blk_of cfg M0 x.2 = k)).length

/-- The block at which the anchor stands after packets of the given blocks have arrived in
window order, when it stood at block `a` before. -/
def anchor_after : Nat → List Nat → Nat
  | a, [] => a
  | a, b :: rest => anchor_after (if b = a + 2 then a + 1 else a) rest

/-- The state in which `process_packet` works once `binfo` is initialised (lines
448-450). -/
def lazy_init (cfg : FengConfig) (s : NetState) : NetState :=
  { s with binfo := initialize_block_info cfg s }

/-- The state in which `run` enters its main loop (lines 821-822): the first two blocks of
the ring `db` are initialised, `binfo` is still zeroed. -/
def start_state (cfg : FengConfig) (time_index : Nat) (db : Nat → paper_input_header_t)
    (st : feng_status_t) : NetState :=
  let s0 : NetState :=
    { time_index := time_index
      binfo :=
        { initialized := 0, self_xid := 0, mcnt_start := 0, mcnt_log_late := 0,
          out_of_seq_cnt := 0, block_i := 0, m := 0, a := 0, c := 0,
          block_packet_counter := fun _ => 0 }
      last_filled := -1
      db := db
      status := st }
  (initialize_block cfg (initialize_block cfg s0 time_index).1
    (cfg.N_TIME_PER_BLOCK * cfg.TIME_DEMUX + time_index)).1

/-- A small configuration: blocks of two `mcnt`s, two packets per block, a ring of four
blocks, four antennas. -/
def cfgFeng : FengConfig where
  N_INPUT_BLOCKS := 4
  N_TIME_PER_BLOCK := 2
  TIME_DEMUX := 1
  N_TIME_PER_PACKET := 1
  N_PACKETS_PER_BLOCK := 2
  N_PACKETS_PER_BLOCK_PER_F := 2
  N_INPUTS_PER_PACKET := 2
  Na := 4
  Nc := 1

/-- The start of the thread over a ring whose blocks all carry an old `good_data = 1`. -/
def feng_start : NetState :=
  start_state cfgFeng 0 (fun _ => { good_data := 1, mcnt := 0 })
    { NETBKOUT := 0, MISSEDFE := 0, MISSEDPK := 0, XID := 0 }

/-- A frame with the given `mcnt` and antenna, channel 0 and a zero payload, the ring calls
succeeding. -/
def feng_frame (mcnt ant : Nat) : RingEnv × hera_ibv_feng_pkt :=
  (envOK, frame_of (mcnt * 2 ^ 29 + ant) (fun _ => 0))

/-- Both packets of block 0, one of the two packets of block 1, and the packets of blocks 2
and 3 that move the window on. -/
def feng_trace : List (RingEnv × hera_ibv_feng_pkt) :=
  [feng_frame 0 0, feng_frame 2 0, feng_frame 1 0, feng_frame 4 0, feng_frame 6 0]

/-- One of the two packets of block 0, twice, then a packet of block 2. -/
def feng_dup_trace : List (RingEnv × hera_ibv_feng_pkt) :=
  [feng_frame 0 0, feng_frame 0 0, feng_frame 4 0]

/-- The state of the thread with the anchor at block `a`, counted from `M0`, after the
frames `seen` have arrived: the counters of the two working blocks count the arrivals for
blocks `a` and `a + 1`, both blocks are not yet marked good, and nothing has arrived for
a later block. -/
def WindowInv (cfg : FengConfig) (M0 a : Nat) (seen : List (RingEnv × hera_ibv_feng_pkt))
    (s : NetState) : Prop :=
  s.binfo.initialized ≠ 0 ∧ s.binfo.mcnt_start = M0 + a * cfg.block_mcnts ∧
  s.binfo.block_packet_counter ((M0 / cfg.block_mcnts + a) % cfg.N_INPUT_BLOCKS)
    = arrivals cfg M0 a seen ∧
  s.binfo.block_packet_counter ((M0 / cfg.block_mcnts + a + 1) % cfg.N_INPUT_BLOCKS)
    = arrivals cfg M0 (a + 1) seen ∧
  (s.db ((M0 / cfg.block_mcnts + a) % cfg.N_INPUT_BLOCKS)).good_data = 0 ∧
  (s.db ((M0 / cfg.block_mcnts + a + 1) % cfg.N_INPUT_BLOCKS)).good_data = 0 ∧
  ∀ k, a + 2 ≤ k → arrivals cfg M0 k seen = 0

end Feng

/-! ## The block indices of the reassembler -/

/-- The number of events in which the reassembler reports a block index other than the one
it expects: "Expected to mark block ... filled", "block_i for bcnt ... differs from
binfo.block_i" and "expected next block to be ...". -/
def index_warnings : List NetEvent → Nat
  | [] => 0
  | NetEvent.msg_unexpected_filled _ _ :: rest => index_warnings rest + 1
  | NetEvent.warn_block_i_mismatch _ _ :: rest => index_warnings rest + 1
  | NetEvent.warn_expected_next _ _ :: rest => index_warnings rest + 1
  | _ :: rest => index_warnings rest

/-- A list of block indices that goes round a ring of `n` blocks one block at a time,
starting at block `k`. -/
def ring_order (n : Nat) : Nat → List Nat → Prop
  | _, [] => True
  | k, b :: rest => b = k ∧ ring_order n ((k + 1) % n) rest

/-- The static `last_filled` of `set_block_filled` is one block behind `binfo.block_i`:
the test of line 267 will find `last_filled == block_i`. -/
def NextFill (cfg : NetConfig) (s : NetState) : Prop :=
  (s.last_filled + 1) % (cfg.CATCHER_N_BLOCKS : Int) = (s.binfo.block_i : Int)

/-! ## Header promotion of the reassembler -/

/-- The variables of the writer right after the statements that open a new file at
`break_bcnt` have reset them (lines 948-955 and the map read for the new file), before any
row of the new file is populated: the state from which `open_file` fills the rows. -/
def reset_for_open (inp : BlockInput) (s : DiskState) (break_bcnt : Nat) : DiskState :=
  { s with
    file_nblts := 0
    ant_0_array := memset_zero_int s.ant_0_array (s.bcnts_per_file * 2)
    ant_1_array := memset_zero_int s.ant_1_array (s.bcnts_per_file * 2)
    curr_file_bcnt := toInt32 break_bcnt
    corr_to_hera_map := inp.redis_map }

/-- A writer at row 64 of a file of 80 baselines that started at `bcnt = 0`, whose antenna
arrays hold what the rows of an earlier file of 80 baselines have left. -/
def disk_stale : DiskState :=
  { disk_open with
    ant_0_array := fun i => if i < 80 then 10 + ((i % 3 : Nat) : Int) else 0
    ant_1_array := fun i => if i < 80 then 10 + ((i % 5 : Nat) : Int) else 0 }

/-! ## The rows of a stride at a file boundary -/

/-- The `int32_t` index at which row `r` of an output buffer of `compute_sum_diff` starts:
the kernel stores channel `chan` of row `r` as vector `r * N_CHAN_PROCESSED + chan`
(lines 474-482), and a vector holds 8 `int32_t`. -/
def row_start (cfg : DiskConfig) (r : Nat) : Nat :=
  8 * (r * cfg.N_CHAN_PROCESSED + 0)

/-- The number of `int32_t` elements that `write_baseline_index` writes for `nblts` rows:
`nelem = 8 * nblts * N_CHAN_PROCESSED * N_STOKES` bytes (line 423). -/
def write_elems (cfg : WriterConfig) (nblts : Nat) : Nat :=
  8 * nblts * cfg.N_CHAN_PROCESSED * cfg.N_STOKES / 4

/-! ## The time stamp of a side block -/

/-- The events of the autocorrelation part of a pass. -/
def AutoOutcome.events : AutoOutcome → List AutoEvent
  | AutoOutcome.done _ ev => ev
  | AutoOutcome.thread_exit _ ev => ev
  | AutoOutcome.blocked _ ev => ev

/-- The `mcnt` that the end of the autocorrelation part hands to `compute_jd_from_mcnt`
for `header.julian_time` when it marks the side block filled (line 701):
`header.mcnt[bctr-1]`, where `bctr` is what the loop of lines 680-693 has left,
`BASELINES_PER_BLOCK`. -/
def auto_finish_mcnt (cfg : AutoConfig) (inp : AutoInput) (s : AutoState) : Option Nat :=
  if s.auto_ants_filled ≥ inp.Nants
    then some (inp.header.mcnt (cfg.BASELINES_PER_BLOCK - 1)) else none

/-- The `mcnt` from which the autocorrelation part of one pass computes
`header.julian_time`, if the pass gets to mark the side block filled (lines 660-709). -/
def autocorr_copy_mcnt (cfg : AutoConfig) (inp : AutoInput) (s : AutoState) : Option Nat :=
  if inp.Nants > 0 ∧ map_valid inp.corr_to_hera_map then
    if s.auto_ants_filled = 0 ∧ inp.busywait_free_rv = hashpipe_rv.HASHPIPE_TIMEOUT then none
    else if s.auto_ants_filled = 0 ∧ inp.busywait_free_rv ≠ hashpipe_rv.HASHPIPE_OK then none
    else
      auto_finish_mcnt cfg inp
        ((List.range cfg.BASELINES_PER_BLOCK).foldl (auto_baseline cfg inp)
          (if s.auto_ants_filled = 0 then clear_flags cfg s else s,
            if s.auto_ants_filled = 0
              then [AutoEvent.busywait_free s.curblock_out] else [])).1
  else none

/-- One pass of the loop over `bctr` together with the baseline that contributed a copy
last: the test is the one of line 687. -/
def copy_step (cfg : AutoConfig) (inp : AutoInput)
    (acc : (AutoState × List AutoEvent) × Option Nat) (bctr : Nat) :
    (AutoState × List AutoEvent) × Option Nat :=
  (auto_baseline cfg inp acc.1 bctr,
    if inp.header.ant_pair_0 bctr = inp.header.ant_pair_1 bctr
        ∧ (acc.1.1.db_out acc.1.1.curblock_out).ant (ant_of inp bctr) = 0
      then some bctr else acc.2)

/-- The last baseline of the input block whose `ant_pair_0 == ant_pair_1` condition
contributed a copy to the side block in this pass, if there is one. -/
def last_copied (cfg : AutoConfig) (inp : AutoInput) (s : AutoState) : Option Nat :=
  ((List.range cfg.BASELINES_PER_BLOCK).foldl (copy_step cfg inp)
    ((if s.auto_ants_filled = 0 then clear_flags cfg s else s,
      if s.auto_ants_filled = 0 then [AutoEvent.busywait_free s.curblock_out] else []),
      none)).2

/-- A block with the baselines `(0,0), (1,1), (2,2), (0,1)` whose baseline `k` carries
`mcnt = 10 * k`. -/
def auto_times : AutoInput :=
  { auto_input (fun k => if k = 3 then 0 else k) (fun k => if k = 3 then 1 else k) 0 with
    header :=
      { mcnt := fun k => 10 * k, bcnt := fun k => k,
        ant_pair_0 := fun k => if k = 3 then 0 else k,
        ant_pair_1 := fun k => if k = 3 then 1 else k, good_data := 1 } }

/-! ## The re-synchronisation of the F-engine reassembler: a concrete state -/

/-- The F-engine reassembler after its first packet, anchored at `mcnt = 0` in block 0,
with `MAX_OUT_OF_SEQ = 8` packets counted out of sequence. -/
def feng_stray : Feng.NetState :=
  { Feng.lazy_init Feng.cfgFeng Feng.feng_start with
    binfo := { (Feng.lazy_init Feng.cfgFeng Feng.feng_start).binfo with out_of_seq_cnt := 8 } }

/-! ## The antenna map read from the key-value store (`get_corr_to_hera_map`) -/

/-- How `get_corr_to_hera_map` ends: the array `corr_to_hera_map` as a map from index to
cell (the array itself has `N_ANTS` cells), the indices stored to, in order, and whether
the thread has exited. -/
structure MapResult where
  map : Nat → Int
  stores : List Nat
  exited : Bool

/-- The loop of `get_corr_to_hera_map` over the lines of the reply (lines 334-343).  A
line is given by the value that `sscanf(line, "%d", &antnum)` reads from it, if it reads
one; otherwise `antnum` keeps the value it has.  The store comes before the test of
`iant`. -/
def map_loop (N_ANTS : Nat) :
    List (Option Int) → Nat → Int → (Nat → Int) → List Nat → MapResult
  | [], _, _, map, st => { map := map, stores := st, exited := false }
  | line :: rest, iant, antnum, map, st =>
    if iant + 1 > N_ANTS then
      { map := Function.update map iant (line.getD antnum)
        stores := st ++ [iant]
        exited := true }
    else
      map_loop N_ANTS rest (iant + 1) (line.getD antnum)
        (Function.update map iant (line.getD antnum)) (st ++ [iant])

/-- The function `get_corr_to_hera_map` (lines 309-347) for a reply that has been read,
given as its lines; `antnum0` is what the uninitialised `antnum` holds. -/
def get_corr_to_hera_map (N_ANTS : Nat) (lines : List (Option Int)) (antnum0 : Int)
    (corr_to_hera_map : Nat → Int) : MapResult :=
  map_loop N_ANTS lines 0 antnum0 corr_to_hera_map []

/-! ## The main loop of the writer (`run` of `hera_catcher_disk_thread.c`) -/

/-- The writer between two passes of its main loop: the variables of the file-writing
part, those of the autocorrelation part with the side ring, and `curblock_in`, the index
of the input block it waits for next. -/
structure LoopState where
  disk : DiskState
  auto : AutoState
  curblock_in : Nat

/-- What one pass of the main loop finds: the status buffer, header and antenna map as in
`BlockInput`, the 32-bit words of the input block, and for each of the four ring calls of
a pass the first result other than a timeout (`wait_filled` at line 635, `busywait_free`
at line 664, `set_filled` at line 702, `set_free` at lines 785 and 1053).  The two waits
are retried on a timeout, so that `HASHPIPE_TIMEOUT` stands for a wait that never ends. -/
structure PassInput where
  block : BlockInput
  db_in32 : Nat → Nat
  wait_filled_rv : hashpipe_rv
  busywait_free_rv : hashpipe_rv
  set_filled_rv : hashpipe_rv
  set_free_rv : hashpipe_rv

/-- How a pass of the main loop ends: at the end of the loop body or at `continue`, so
that the next pass follows; in `pthread_exit`; in a wait that never ends; or in the
division by `bcnts_per_file = 0` at line 828. -/
inductive PassEnd where
  | next
  | thread_exit
  | blocked
  | division_by_zero
deriving DecidableEq, Repr

/-- What a pass of the main loop leaves: the state, the calls of the autocorrelation part
and those of the file-writing part, the value that the pass has written to the status key
`TRIGGER` (if it has written one), and how the pass ends. -/
structure PassResult where
  state : LoopState
  auto_events : List AutoEvent
  events : List DiskEvent
  TRIGGER : Option Nat
  ending : PassEnd

/-- What the autocorrelation part of a pass works on (lines 648-658): the header and the
words of the input block, `Nants` as read from `BDANANT`, and the antenna map that the
writer holds. -/
def auto_of_pass (p : PassInput) (w : LoopState) : AutoInput where
  header := p.block.header
  db_in32 := p.db_in32
  Nants := p.block.BDANANT % 18446744073709551616
  corr_to_hera_map := w.disk.corr_to_hera_map
  busywait_free_rv := p.busywait_free_rv
  set_filled_rv := p.set_filled_rv

/-- The state in which a pass enters the stride loop of line 810, if it does: after a
trigger (lines 737-767), or without one when files remain to be written and the writer is
not idle (line 802).  The idle pass (lines 776-796) does not enter it. -/
def loop_entry (inp : BlockInput) (s : DiskState) : Option DiskState :=
  if inp.TRIGGER % 4294967296 ≠ 0 then
    some (take_trigger inp { s with
      Nants := inp.BDANANT % 18446744073709551616
      nfiles := inp.NFILES % 4294967296 })
  else if s.file_cnt ≥ inp.NFILES % 4294967296 ∨ s.idle ≠ 0 then none
  else some { s with
    Nants := inp.BDANANT % 18446744073709551616
    nfiles := inp.NFILES % 4294967296
    idle := 0 }

/-- The state in which a pass reaches the division of line 828 with `bcnts_per_file = 0`,
if it does: it enters the stride loop, the loop has a first stride, and `bcnts_per_file`,
which the loop never changes, is 0. -/
def zero_divisor (cfg : WriterConfig) (inp : BlockInput) (s : DiskState) :
    Option DiskState :=
  match loop_entry inp s with
  | some s1 => if s1.bcnts_per_file = 0 ∧ cfg.bctrs ≠ [] then some s1 else none
  | none => none

/-- The part of a pass after the autocorrelation part (lines 711-1058), from the writer
`w` with the autocorrelation state `a` and the calls `ev` that this part has left: the
pass ends in the division of line 828 if `bcnts_per_file` is 0 there; otherwise the
file-writing part runs, with the write of `TRIGGER = 0` when a trigger is taken
(line 741), and the pass ends in the same way after an idle pass (lines 784-795) and
after a writing pass (lines 1053-1058): the thread exits if `set_free` fails, and
`curblock_in` moves on by one otherwise. -/
def finish_pass (cfg : WriterConfig) (CATCHER_N_BLOCKS : Nat) (p : PassInput)
    (w : LoopState) (a : AutoState) (ev : List AutoEvent) : PassResult :=
  match zero_divisor cfg p.block w.disk with
  | some s1 =>
    { state := { disk := s1, auto := a, curblock_in := w.curblock_in }
      auto_events := ev
      events := []
      TRIGGER := if p.block.TRIGGER % 4294967296 ≠ 0 then some 0 else none
      ending := PassEnd.division_by_zero }
  | none =>
    { state :=
        { disk := (write_block cfg p.block w.disk).1
          auto := a
          curblock_in := if p.set_free_rv ≠ hashpipe_rv.HASHPIPE_OK then w.curblock_in
            else (w.curblock_in + 1) % CATCHER_N_BLOCKS }
      auto_events := ev
      events := (write_block cfg p.block w.disk).2
      TRIGGER := if p.block.TRIGGER % 4294967296 ≠ 0 then some 0 else none
      ending := if p.set_free_rv ≠ hashpipe_rv.HASHPIPE_OK then PassEnd.thread_exit
        else PassEnd.next }

/-- One pass of the main loop of `run` (lines 620-1058): the wait for a filled input
block (lines 635-646), in which the thread can wait for ever or exit; the
autocorrelation part (lines 660-709), in which it can do the same; and the rest of the
pass, `finish_pass`. -/
def run_pass (cfg : AutoConfig) (CATCHER_N_BLOCKS : Nat) (p : PassInput)
    (w : LoopState) : PassResult :=
  if p.wait_filled_rv = hashpipe_rv.HASHPIPE_TIMEOUT then
    { state := w, auto_events := [], events := [], TRIGGER := none
      ending := PassEnd.blocked }
  else if p.wait_filled_rv ≠ hashpipe_rv.HASHPIPE_OK then
    { state := w, auto_events := [], events := [], TRIGGER := none
      ending := PassEnd.thread_exit }
  else
    match autocorr_copy cfg (auto_of_pass p w) w.auto with
    | AutoOutcome.blocked a ev =>
      { state := { w with auto := a }, auto_events := ev, events := [], TRIGGER := none
        ending := PassEnd.blocked }
    | AutoOutcome.thread_exit a ev =>
      { state := { w with auto := a }, auto_events := ev, events := [], TRIGGER := none
        ending := PassEnd.thread_exit }
    | AutoOutcome.done a ev => finish_pass cfg.toWriterConfig CATCHER_N_BLOCKS p w a ev

/-- The main loop over a list of passes, as long as each pass is followed by the next;
`TRIGGER` is the value written last. -/
def run_passes (cfg : AutoConfig) (CATCHER_N_BLOCKS : Nat) :
    List PassInput → LoopState → PassResult
  | [], w =>
    { state := w, auto_events := [], events := [], TRIGGER := none, ending := PassEnd.next }
  | p :: rest, w =>
    if (run_pass cfg CATCHER_N_BLOCKS p w).ending ≠ PassEnd.next then
      run_pass cfg CATCHER_N_BLOCKS p w
    else
      { state := (run_passes cfg CATCHER_N_BLOCKS rest
          (run_pass cfg CATCHER_N_BLOCKS p w).state).state
        auto_events := (run_pass cfg CATCHER_N_BLOCKS p w).auto_events
          ++ (run_passes cfg CATCHER_N_BLOCKS rest
            (run_pass cfg CATCHER_N_BLOCKS p w).state).auto_events
        events := (run_pass cfg CATCHER_N_BLOCKS p w).events
          ++ (run_passes cfg CATCHER_N_BLOCKS rest
            (run_pass cfg CATCHER_N_BLOCKS p w).state).events
        TRIGGER :=
          match (run_passes cfg CATCHER_N_BLOCKS rest
            (run_pass cfg CATCHER_N_BLOCKS p w).state).TRIGGER with
          | some v => some v
          | none => (run_pass cfg CATCHER_N_BLOCKS p w).TRIGGER
        ending := (run_passes cfg CATCHER_N_BLOCKS rest
          (run_pass cfg CATCHER_N_BLOCKS p w).state).ending }

/-- The ring calls of a pass all succeed. -/
def ring_ok (p : PassInput) : Prop :=
  p.wait_filled_rv = hashpipe_rv.HASHPIPE_OK ∧
  p.busywait_free_rv = hashpipe_rv.HASHPIPE_OK ∧
  p.set_filled_rv = hashpipe_rv.HASHPIPE_OK ∧
  p.set_free_rv = hashpipe_rv.HASHPIPE_OK

instance (p : PassInput) : Decidable (ring_ok p) := by
  unfold ring_ok; infer_instance

/-- A pass over the input block `inp` whose word `i` is `i` and whose ring calls
succeed. -/
def pass_ok (inp : BlockInput) : PassInput where
  block := inp
  db_in32 := fun i => i
  wait_filled_rv := hashpipe_rv.HASHPIPE_OK
  busywait_free_rv := hashpipe_rv.HASHPIPE_OK
  set_filled_rv := hashpipe_rv.HASHPIPE_OK
  set_free_rv := hashpipe_rv.HASHPIPE_OK

/-- The writer at the start of the thread with `curblock_in` at the last block of a ring
of 4. -/
def loop_start : LoopState where
  disk := disk_zero
  auto := auto_start
  curblock_in := 3

/-! ## The cells that an accepted packet addresses -/

/-- The position of the cell `binfo.flags[pkt_block_i][pkt_offset]` in the array
`char flags[CATCHER_N_BLOCKS][PACKETS_PER_BLOCK]` of `block_info_t` (line 127), whose rows
lie one after the other: for `pkt_offset >= PACKETS_PER_BLOCK` it is a cell of a later
row, or none of the array. -/
def flag_index (cfg : NetConfig) (pkt_block_i pkt_offset : Nat) : Nat :=
  pkt_block_i * cfg.PACKETS_PER_BLOCK + pkt_offset

/-- The number of cells of the array `binfo.flags`. -/
def NetConfig.flags_len (cfg : NetConfig) : Nat :=
  cfg.CATCHER_N_BLOCKS * cfg.PACKETS_PER_BLOCK

/-! ## The packets observed for a block -/

/-- The `good_data` that block `k` of a run gets when every expected position counts as
observed once a packet for it has arrived: 1 if each of the `PACKETS_PER_BLOCK` positions
of the block is among the packets `keys`, however often, and 0 otherwise. -/
def observed_flag (cfg : NetConfig) (k : Nat) (keys : List (Nat × Nat)) : Nat :=
  if ∀ j, j < cfg.PACKETS_PER_BLOCK → (k, j) ∈ keys then 1 else 0

/-- The blocks that a list of events marks filled, in order, each with the `good_data`
flag that its header holds at that moment. -/
def fill_flags (ev : List NetEvent) : List (Nat × Nat) :=
  (fills ev).map (fun x => (x.1, x.2.2))

/-- What follows a first packet for position 0 of the block at `bcnt = 100`: the packet
for position 1 twice, and then a packet two blocks ahead, which makes `process_packet`
mark the block filled. -/
def duo_repeat : List (RingEnv × hera_ibv_xeng_pkt) :=
  [(envOK, mk_frame 100 0 1 0), (envOK, mk_frame 100 0 1 0), (envOK, mk_frame 102 0 0 0)]

/-- What follows a first packet for position 0 of the block at `bcnt = 100`: the same
packet again, none for position 1, and then a packet two blocks ahead. -/
def duo_short : List (RingEnv × hera_ibv_xeng_pkt) :=
  [(envOK, mk_frame 100 0 0 0), (envOK, mk_frame 102 0 0 0)]

/-! ## Theorems: the kernel -/

theorem chan_sum_fold_lane (in_ : Nat → Nat) (even_off odd_off xchan l : Nat)
    (acc : m256i × m256i) (n : Nat) :
    (((List.range (n + 1)).foldl (chan_sum_step in_ even_off odd_off xchan) acc).1 l
        % 4294967296
      = ((List.range (n + 1)).map (fun j => in_ (even_off + 8 * (xchan + j) + l))).sum
        % 4294967296) ∧
    (((List.range (n + 1)).foldl (chan_sum_step in_ even_off odd_off xchan) acc).2 l
        % 4294967296
      = ((List.range (n + 1)).map (fun j => in_ (odd_off + 8 * (xchan + j) + l))).sum
        % 4294967296) := by
  induction n with
  | zero =>
    have h1 : List.range (0 + 1) = [0] := rfl
    rw [h1]
    simp [chan_sum_step, _mm256_load_si256]
  | succ n ih =>
    rw [List.range_succ]
    obtain ⟨ih1, ih2⟩ := ih
    simp only [List.foldl_append, List.map_append, List.sum_append, List.foldl_cons, List.foldl_nil, List.map_cons, List.map_nil, List.sum_cons,
      List.sum_nil, chan_sum_step, _mm256_load_si256, _mm256_add_epi32, Nat.add_eq_zero,
      one_ne_zero, and_false, if_false, Nat.add_zero, Nat.mod_mod]
    constructor
    · rw [Nat.add_mod, ih1, ← Nat.add_mod]
    · rw [Nat.add_mod, ih2, ← Nat.add_mod]

theorem store_si256_hit (mem : Nat → Nat) (n : Nat) (v : m256i) (l : Nat) (hl : l < 8) :
    _mm256_store_si256 mem n v (8 * n + l) = v l := by
  unfold _mm256_store_si256
  rw [if_pos (by omega)]
  congr 1
  omega

theorem store_si256_miss (mem : Nat → Nat) (n : Nat) (v : m256i) (i : Nat)
    (h : i < 8 * n ∨ 8 * n + 8 ≤ i) : _mm256_store_si256 mem n v i = mem i := by
  unfold _mm256_store_si256
  rw [if_neg (by omega)]

theorem sub_epi32_lane (a b : m256i) (l : Nat) :
    ((_mm256_sub_epi32 a b l : Nat) : Int)
      = ((a l % 4294967296 : Nat) - (b l % 4294967296 : Nat) : Int) % 4294967296 := by
  unfold _mm256_sub_epi32
  rw [Int.toNat_of_nonneg (Int.emod_nonneg _ (by norm_num))]
  push_cast
  rw [Int.sub_emod]

theorem add_epi32_lane (a b : m256i) (l : Nat) :
    _mm256_add_epi32 a b l = (a l % 4294967296 + b l % 4294967296) % 4294967296 := by
  unfold _mm256_add_epi32
  rw [Nat.add_mod]

/-- The vectors that one pass of the `xchan` loop stores, lane by lane. -/
theorem xchan_body_hit (cfg : DiskConfig) (in_ : Nat → Nat) (even_off odd_off bcnt : Nat)
    (st : SumDiffState) (chan l : Nat) (hcs : 0 < cfg.CATCHER_CHAN_SUM_BDA) (hl : l < 8) :
    (xchan_body cfg in_ even_off odd_off bcnt st chan).out_sum
        (8 * (bcnt * cfg.N_CHAN_PROCESSED + chan) + l)
      = (((List.range cfg.CATCHER_CHAN_SUM_BDA).map
            (fun j => in_ (even_off + 8 * (chan * cfg.CATCHER_CHAN_SUM_BDA + j) + l))).sum
            % 4294967296
          + ((List.range cfg.CATCHER_CHAN_SUM_BDA).map
            (fun j => in_ (odd_off + 8 * (chan * cfg.CATCHER_CHAN_SUM_BDA + j) + l))).sum
            % 4294967296) % 4294967296 ∧
    (((xchan_body cfg in_ even_off odd_off bcnt st chan).out_diff
        (8 * (bcnt * cfg.N_CHAN_PROCESSED + chan) + l) : Nat) : Int)
      = (((((List.range cfg.CATCHER_CHAN_SUM_BDA).map
            (fun j => in_ (even_off + 8 * (chan * cfg.CATCHER_CHAN_SUM_BDA + j) + l))).sum
            % 4294967296 : Nat) : Int)
          - ((((List.range cfg.CATCHER_CHAN_SUM_BDA).map
            (fun j => in_ (odd_off + 8 * (chan * cfg.CATCHER_CHAN_SUM_BDA + j) + l))).sum
            % 4294967296 : Nat) : Int)) % 4294967296 := by
  obtain ⟨n, hn⟩ : ∃ n, cfg.CATCHER_CHAN_SUM_BDA = n + 1 := ⟨cfg.CATCHER_CHAN_SUM_BDA - 1, by omega⟩
  unfold xchan_body
  by_cases h1 : cfg.CATCHER_CHAN_SUM_BDA = 1
  · simp only [h1, ne_eq, not_true_eq_false, if_false]
    rw [store_si256_hit _ _ _ _ hl, store_si256_hit _ _ _ _ hl, add_epi32_lane, sub_epi32_lane]
    have h1r : List.range 1 = [0] := rfl
    simp [h1r, _mm256_load_si256]
  · simp only [ne_eq, h1, not_false_eq_true, if_true]
    rw [store_si256_hit _ _ _ _ hl, store_si256_hit _ _ _ _ hl, add_epi32_lane, sub_epi32_lane]
    rw [hn]
    obtain ⟨he, ho⟩ := chan_sum_fold_lane in_ even_off odd_off (chan * (n + 1)) l
      (st.sum_even, st.sum_odd) n
    rw [he, ho]
    exact ⟨rfl, rfl⟩

theorem xchan_body_miss (cfg : DiskConfig) (in_ : Nat → Nat) (even_off odd_off bcnt : Nat)
    (st : SumDiffState) (chan i : Nat)
    (h : i < 8 * (bcnt * cfg.N_CHAN_PROCESSED + chan)
      ∨ 8 * (bcnt * cfg.N_CHAN_PROCESSED + chan) + 8 ≤ i) :
    (xchan_body cfg in_ even_off odd_off bcnt st chan).out_sum i = st.out_sum i ∧
    (xchan_body cfg in_ even_off odd_off bcnt st chan).out_diff i = st.out_diff i := by
  unfold xchan_body
  by_cases h1 : cfg.CATCHER_CHAN_SUM_BDA = 1
  · simp only [h1, ne_eq, not_true_eq_false, if_false]
    exact ⟨store_si256_miss _ _ _ _ h, store_si256_miss _ _ _ _ h⟩
  · simp only [ne_eq, h1, not_false_eq_true, if_true]
    exact ⟨store_si256_miss _ _ _ _ h, store_si256_miss _ _ _ _ h⟩

theorem xchan_fold_below (cfg : DiskConfig) (in_ : Nat → Nat) (even_off odd_off bcnt : Nat)
    (i : Nat) (hi : i < 8 * (bcnt * cfg.N_CHAN_PROCESSED)) (m : Nat) (st : SumDiffState) :
    ((List.range m).foldl (xchan_body cfg in_ even_off odd_off bcnt) st).out_sum i
      = st.out_sum i ∧
    ((List.range m).foldl (xchan_body cfg in_ even_off odd_off bcnt) st).out_diff i
      = st.out_diff i := by
  induction m with
  | zero => simp
  | succ m ih =>
    rw [List.range_succ, List.foldl_append, List.foldl_cons, List.foldl_nil]
    obtain ⟨h1, h2⟩ := xchan_body_miss cfg in_ even_off odd_off bcnt
      ((List.range m).foldl (xchan_body cfg in_ even_off odd_off bcnt) st) m i
      (Or.inl (by omega))
    rw [h1, h2]
    exact ih

theorem xchan_fold_hit (cfg : DiskConfig) (in_ : Nat → Nat) (even_off odd_off bcnt : Nat)
    (hcs : 0 < cfg.CATCHER_CHAN_SUM_BDA) (c l : Nat) (hl : l < 8) (m : Nat) (hc : c < m)
    (st : SumDiffState) :
    ((List.range m).foldl (xchan_body cfg in_ even_off odd_off bcnt) st).out_sum
        (8 * (bcnt * cfg.N_CHAN_PROCESSED + c) + l)
      = (((List.range cfg.CATCHER_CHAN_SUM_BDA).map
            (fun j => in_ (even_off + 8 * (c * cfg.CATCHER_CHAN_SUM_BDA + j) + l))).sum
            % 4294967296
          + ((List.range cfg.CATCHER_CHAN_SUM_BDA).map
            (fun j => in_ (odd_off + 8 * (c * cfg.CATCHER_CHAN_SUM_BDA + j) + l))).sum
            % 4294967296) % 4294967296 ∧
    ((((List.range m).foldl (xchan_body cfg in_ even_off odd_off bcnt) st).out_diff
        (8 * (bcnt * cfg.N_CHAN_PROCESSED + c) + l) : Nat) : Int)
      = (((((List.range cfg.CATCHER_CHAN_SUM_BDA).map
            (fun j => in_ (even_off + 8 * (c * cfg.CATCHER_CHAN_SUM_BDA + j) + l))).sum
            % 4294967296 : Nat) : Int)
          - ((((List.range cfg.CATCHER_CHAN_SUM_BDA).map
            (fun j => in_ (odd_off + 8 * (c * cfg.CATCHER_CHAN_SUM_BDA + j) + l))).sum
            % 4294967296 : Nat) : Int)) % 4294967296 := by
  induction m with
  | zero => omega
  | succ m ih =>
    rw [List.range_succ, List.foldl_append, List.foldl_cons, List.foldl_nil]
    by_cases hcm : c = m
    · subst hcm
      exact xchan_body_hit cfg in_ even_off odd_off bcnt _ c l hcs hl
    · obtain ⟨h1, h2⟩ := xchan_body_miss cfg in_ even_off odd_off bcnt
        ((List.range m).foldl (xchan_body cfg in_ even_off odd_off bcnt) st) m
        (8 * (bcnt * cfg.N_CHAN_PROCESSED + c) + l) (Or.inl (by omega))
      rw [h1, h2]
      exact ih (by omega)

theorem passes_ge_processed (cfg : DiskConfig) (hcs : 0 < cfg.CATCHER_CHAN_SUM_BDA) :
    cfg.N_CHAN_PROCESSED ≤ cfg.xchan_passes := by
  unfold DiskConfig.N_CHAN_PROCESSED DiskConfig.xchan_passes
  exact Nat.div_le_div_right (by omega)

theorem bcnt_fold_hit (cfg : DiskConfig) (in_ : Nat → Nat) (bl : Nat)
    (hcs : 0 < cfg.CATCHER_CHAN_SUM_BDA) (k c l : Nat) (hc : c < cfg.N_CHAN_PROCESSED)
    (hl : l < 8) (n : Nat) (hk : k < n) (st : SumDiffState) :
    ((List.range n).foldl (bcnt_body cfg in_ bl) st).out_sum
        (8 * (k * cfg.N_CHAN_PROCESSED + c) + l)
      = (parity_sum cfg in_ ((k + bl) % 4294967296) 0 c l
          + parity_sum cfg in_ ((k + bl) % 4294967296) 1 c l) % 4294967296 ∧
    ((((List.range n).foldl (bcnt_body cfg in_ bl) st).out_diff
        (8 * (k * cfg.N_CHAN_PROCESSED + c) + l) : Nat) : Int)
      = ((parity_sum cfg in_ ((k + bl) % 4294967296) 0 c l : Int)
          - (parity_sum cfg in_ ((k + bl) % 4294967296) 1 c l : Int)) % 4294967296 := by
  induction n with
  | zero => omega
  | succ n ih =>
    rw [List.range_succ, List.foldl_append, List.foldl_cons, List.foldl_nil]
    by_cases hkn : k = n
    · subst hkn
      unfold bcnt_body parity_sum
      exact xchan_fold_hit cfg in_ _ _ k hcs c l hl cfg.xchan_passes
        (lt_of_lt_of_le hc (passes_ge_processed cfg hcs)) _
    · have hlt : k + 1 ≤ n := by omega
      have hmul : (k + 1) * cfg.N_CHAN_PROCESSED ≤ n * cfg.N_CHAN_PROCESSED :=
        Nat.mul_le_mul_right _ hlt
      have hidx : 8 * (k * cfg.N_CHAN_PROCESSED + c) + l < 8 * (n * cfg.N_CHAN_PROCESSED) := by
        rw [Nat.add_mul, Nat.one_mul] at hmul
        omega
      obtain ⟨h1, h2⟩ := xchan_fold_below cfg in_
        (cfg.idx32 ((n + bl) % 4294967296) 0) (cfg.idx32 ((n + bl) % 4294967296) 1) n
        _ hidx cfg.xchan_passes ((List.range n).foldl (bcnt_body cfg in_ bl) st)
      unfold bcnt_body at h1 h2 ⊢
      rw [h1, h2]
      exact ih (by omega)

/-- Every lane of every output vector of the kernel, as wrap-around sum and difference of
the two channel-summed parities. -/
theorem compute_sum_diff_lane (cfg : DiskConfig) (in_ out_sum out_diff : Nat → Nat)
    (bl k c l : Nat) (hk : k < N_BL_PER_WRITE) (hc : c < cfg.N_CHAN_PROCESSED) (hl : l < 8) :
    (compute_sum_diff cfg in_ out_sum out_diff bl).out_sum
        (8 * (k * cfg.N_CHAN_PROCESSED + c) + l)
      = (parity_sum cfg in_ ((k + bl) % 4294967296) 0 c l
          + parity_sum cfg in_ ((k + bl) % 4294967296) 1 c l) % 4294967296 ∧
    (((compute_sum_diff cfg in_ out_sum out_diff bl).out_diff
        (8 * (k * cfg.N_CHAN_PROCESSED + c) + l) : Nat) : Int)
      = ((parity_sum cfg in_ ((k + bl) % 4294967296) 0 c l : Int)
          - (parity_sum cfg in_ ((k + bl) % 4294967296) 1 c l : Int)) % 4294967296 := by
  have hcs : 0 < cfg.CATCHER_CHAN_SUM_BDA := by
    rcases Nat.eq_zero_or_pos cfg.CATCHER_CHAN_SUM_BDA with h0 | h0
    · simp [DiskConfig.N_CHAN_PROCESSED, h0] at hc
    · exact h0
  exact bcnt_fold_hit cfg in_ bl hcs k c l hc hl N_BL_PER_WRITE hk _

theorem parity_sum_one (cfg : DiskConfig) (in_ : Nat → Nat) (b t c l : Nat)
    (h1 : cfg.CATCHER_CHAN_SUM_BDA = 1) :
    parity_sum cfg in_ b t c l = in_ (cfg.idx32 b t + (8 * c + l)) % 4294967296 := by
  have h1r : List.range 1 = [0] := rfl
  unfold parity_sum
  rw [h1, h1r]
  simp only [List.map_cons, List.map_nil, List.sum_cons, List.sum_nil, Nat.add_zero, Nat.mul_one]
  congr 2
  omega

/-- C1: for every input buffer, stride start `bl`, baseline `k < N_BL_PER_WRITE`, output
channel `c < N_CHAN_PROCESSED` and lane `l < 8`, `compute_sum_diff` leaves `(E + O) mod 2^32`
at lane `l` of vector `k*N_CHAN_PROCESSED + c` of `out_sum` and `(E - O) mod 2^32` at the same
place of `out_diff`, where `E` and `O` are the wrap-around channel sums of the even and odd
parity of baseline `bl+k` (a `uint32_t` sum).  With `CATCHER_CHAN_SUM_BDA = 1`, a baseline
whose `N = 8*N_CHAN_TOTAL` even lanes are `1,2,...,N` and odd lanes are `N,...,2,1` gives
sum lanes all equal to `N+1` and difference lanes with `diff[i] = -diff[N-1-i]` modulo
`2^32`. -/
theorem compute_sum_diff_spec (cfg : DiskConfig) (in_ out_sum out_diff : Nat → Nat)
    (bl k : Nat) (hk : k < N_BL_PER_WRITE) :
    (∀ c l, c < cfg.N_CHAN_PROCESSED → l < 8 →
      (compute_sum_diff cfg in_ out_sum out_diff bl).out_sum
          (8 * (k * cfg.N_CHAN_PROCESSED + c) + l)
        = (parity_sum cfg in_ ((k + bl) % 4294967296) 0 c l
            + parity_sum cfg in_ ((k + bl) % 4294967296) 1 c l) % 4294967296 ∧
      (((compute_sum_diff cfg in_ out_sum out_diff bl).out_diff
          (8 * (k * cfg.N_CHAN_PROCESSED + c) + l) : Nat) : Int)
        = ((parity_sum cfg in_ ((k + bl) % 4294967296) 0 c l : Int)
            - (parity_sum cfg in_ ((k + bl) % 4294967296) 1 c l : Int)) % 4294967296) ∧
    (cfg.CATCHER_CHAN_SUM_BDA = 1 →
      (∀ i, i < 8 * cfg.N_CHAN_TOTAL →
        in_ (cfg.idx32 ((k + bl) % 4294967296) 0 + i) = i + 1 ∧
        in_ (cfg.idx32 ((k + bl) % 4294967296) 1 + i) = 8 * cfg.N_CHAN_TOTAL - i) →
      ∀ i, i < 8 * cfg.N_CHAN_TOTAL →
        (compute_sum_diff cfg in_ out_sum out_diff bl).out_sum
            (8 * (k * cfg.N_CHAN_PROCESSED) + i) = (8 * cfg.N_CHAN_TOTAL + 1) % 4294967296 ∧
        ((compute_sum_diff cfg in_ out_sum out_diff bl).out_diff
              (8 * (k * cfg.N_CHAN_PROCESSED) + i)
            + (compute_sum_diff cfg in_ out_sum out_diff bl).out_diff
              (8 * (k * cfg.N_CHAN_PROCESSED) + (8 * cfg.N_CHAN_TOTAL - 1 - i)))
          % 4294967296 = 0) := by
  refine ⟨fun c l hc hl => compute_sum_diff_lane cfg in_ out_sum out_diff bl k c l hk hc hl, ?_⟩
  intro h1 hin i hi
  have hncp : cfg.N_CHAN_PROCESSED = cfg.N_CHAN_TOTAL := by
    simp [DiskConfig.N_CHAN_PROCESSED, h1]
  have key : ∀ i, i < 8 * cfg.N_CHAN_TOTAL →
      (compute_sum_diff cfg in_ out_sum out_diff bl).out_sum
          (8 * (k * cfg.N_CHAN_PROCESSED) + i)
        = ((i + 1) % 4294967296 + (8 * cfg.N_CHAN_TOTAL - i) % 4294967296) % 4294967296 ∧
      (((compute_sum_diff cfg in_ out_sum out_diff bl).out_diff
          (8 * (k * cfg.N_CHAN_PROCESSED) + i) : Nat) : Int)
        = ((((i + 1) % 4294967296 : Nat) : Int)
            - (((8 * cfg.N_CHAN_TOTAL - i) % 4294967296 : Nat) : Int)) % 4294967296 := by
    intro i hi
    have hc : i / 8 < cfg.N_CHAN_PROCESSED := by rw [hncp]; omega
    have hl : i % 8 < 8 := Nat.mod_lt _ (by norm_num)
    obtain ⟨hs, hd⟩ := compute_sum_diff_lane cfg in_ out_sum out_diff bl k (i / 8) (i % 8)
      hk hc hl
    have hidx : 8 * (k * cfg.N_CHAN_PROCESSED + i / 8) + i % 8
        = 8 * (k * cfg.N_CHAN_PROCESSED) + i := by omega
    have hoff : 8 * (i / 8) + i % 8 = i := by omega
    rw [hidx, parity_sum_one cfg in_ _ _ _ _ h1, parity_sum_one cfg in_ _ _ _ _ h1, hoff,
      (hin i hi).1, (hin i hi).2] at hs hd
    exact ⟨hs, hd⟩
  obtain ⟨hs, hd⟩ := key i hi
  obtain ⟨-, hd2⟩ := key (8 * cfg.N_CHAN_TOTAL - 1 - i) (by omega)
  constructor
  · rw [hs]; omega
  · have e1 : 8 * cfg.N_CHAN_TOTAL - 1 - i + 1 = 8 * cfg.N_CHAN_TOTAL - i := by omega
    have e2 : 8 * cfg.N_CHAN_TOTAL - (8 * cfg.N_CHAN_TOTAL - 1 - i) = i + 1 := by omega
    rw [e1, e2] at hd2
    omega

/-- C2: for every input and every output position and lane, `sum + diff = 2*even` and
`sum - diff = 2*odd` modulo `2^32`, where `even` and `odd` are the channel-summed parity
values that the kernel combined for that position. -/
theorem simd_identity (cfg : DiskConfig) (in_ out_sum out_diff : Nat → Nat)
    (bl k c l : Nat) (hk : k < N_BL_PER_WRITE) (hc : c < cfg.N_CHAN_PROCESSED) (hl : l < 8) :
    ((compute_sum_diff cfg in_ out_sum out_diff bl).out_sum
          (8 * (k * cfg.N_CHAN_PROCESSED + c) + l)
        + (compute_sum_diff cfg in_ out_sum out_diff bl).out_diff
          (8 * (k * cfg.N_CHAN_PROCESSED + c) + l)) % 4294967296
      = (2 * parity_sum cfg in_ ((k + bl) % 4294967296) 0 c l) % 4294967296 ∧
    (((compute_sum_diff cfg in_ out_sum out_diff bl).out_sum
          (8 * (k * cfg.N_CHAN_PROCESSED + c) + l) : Int)
        - ((compute_sum_diff cfg in_ out_sum out_diff bl).out_diff
          (8 * (k * cfg.N_CHAN_PROCESSED + c) + l) : Int)) % 4294967296
      = ((2 * parity_sum cfg in_ ((k + bl) % 4294967296) 1 c l : Nat) : Int) % 4294967296 := by
  obtain ⟨hs, hd⟩ := compute_sum_diff_lane cfg in_ out_sum out_diff bl k c l hk hc hl
  constructor
  · omega
  · omega

theorem compute_sum_diff_spec_witness :
    ((compute_sum_diff cfgRamp in_ramp out_zero out_zero 0).out_sum 10 = 17 ∧
      (((compute_sum_diff cfgRamp in_ramp out_zero out_zero 0).out_diff 10 : Nat) : Int)
        = ((11 : Int) - 6) % 4294967296) ∧
    ((compute_sum_diff cfgRamp in_ramp out_zero out_zero 0).out_sum 3 = 17 ∧
      ((compute_sum_diff cfgRamp in_ramp out_zero out_zero 0).out_diff 3
        + (compute_sum_diff cfgRamp in_ramp out_zero out_zero 0).out_diff 12)
          % 4294967296 = 0) :=
  ⟨(compute_sum_diff_spec cfgRamp in_ramp out_zero out_zero 0 0 (by decide)).1 1 2
      (by decide) (by decide),
    (compute_sum_diff_spec cfgRamp in_ramp out_zero out_zero 0 0 (by decide)).2 rfl
      (by decide) 3 (by decide)⟩

theorem simd_identity_witness :
    ((compute_sum_diff cfgPair in_big out_zero out_zero 0).out_sum 26
        + (compute_sum_diff cfgPair in_big out_zero out_zero 0).out_diff 26) % 4294967296
      = (2 * 4294967122) % 4294967296 ∧
    (((compute_sum_diff cfgPair in_big out_zero out_zero 0).out_sum 26 : Int)
        - ((compute_sum_diff cfgPair in_big out_zero out_zero 0).out_diff 26 : Int))
          % 4294967296
      = ((2 * 4294967058 : Nat) : Int) % 4294967296 :=
  simd_identity cfgPair in_big out_zero out_zero 0 1 1 2 (by decide) (by decide) (by decide)

/-! ## Theorems: 32-bit ring arithmetic -/

theorem sub32_lt (a b : Nat) : sub32 a b < 4294967296 := by
  unfold sub32; omega

theorem sub32_add (bs e f : Nat) :
    sub32 ((bs + e) % 4294967296) f = (sub32 bs f + e) % 4294967296 := by
  unfold sub32; omega

theorem add_sub32_cancel (p bs : Nat) :
    (bs + sub32 p bs) % 4294967296 = p % 4294967296 := by
  unfold sub32; omega

theorem sub32_mod_left (a b : Nat) : sub32 (a % 4294967296) b = sub32 a b := by
  unfold sub32; omega

theorem sub32_self (a : Nat) : sub32 a a = 0 := by
  unfold sub32; omega

theorem toInt32_of_nonneg (x : Nat) (hx : x < 4294967296) (h : 0 ≤ toInt32 x) :
    toInt32 x = (x : Int) := by
  unfold toInt32 at *
  rw [Nat.mod_eq_of_lt hx] at *
  split_ifs at * with h1
  · rfl
  · omega

theorem toInt32_neg (x : Nat) (hx : x < 4294967296) (h : toInt32 x < 0) :
    toInt32 x = (x : Int) - 4294967296 := by
  unfold toInt32 at *
  rw [Nat.mod_eq_of_lt hx] at *
  split_ifs at * with h1
  · omega
  · rfl

theorem wf_bpb_dvd (cfg : NetConfig) (hwf : cfg.wf) :
    cfg.BASELINES_PER_BLOCK ∣ 4294967296 :=
  Dvd.dvd.trans (Dvd.intro _ rfl) hwf.2.2

theorem wf_span_le (cfg : NetConfig) (hwf : cfg.wf) :
    cfg.BASELINES_PER_BLOCK * cfg.CATCHER_N_BLOCKS ≤ 4294967296 :=
  Nat.le_of_dvd (by norm_num) hwf.2.2

theorem block_index_mod (cfg : NetConfig) (hwf : cfg.wf) (y : Nat) :
    (y % 4294967296 / cfg.BASELINES_PER_BLOCK) % cfg.CATCHER_N_BLOCKS
      = (y / cfg.BASELINES_PER_BLOCK) % cfg.CATCHER_N_BLOCKS := by
  rw [← Nat.mod_mul_right_div_self, Nat.mod_mod_of_dvd _ hwf.2.2, Nat.mod_mul_right_div_self]

/-- Moving a `bcnt` that lies on a block boundary by `e` moves its block index by
`e / BASELINES_PER_BLOCK`, also across the roll-over of the 32-bit counter. -/
theorem block_for_bcnt_add (cfg : NetConfig) (hwf : cfg.wf) (f bs e : Nat)
    (hdiv : cfg.BASELINES_PER_BLOCK ∣ sub32 bs f) :
    block_for_bcnt cfg f ((bs + e) % 4294967296)
      = (block_for_bcnt cfg f bs + e / cfg.BASELINES_PER_BLOCK) % cfg.CATCHER_N_BLOCKS := by
  unfold block_for_bcnt
  rw [sub32_add, block_index_mod cfg hwf, Nat.add_div_of_dvd_right hdiv, Nat.add_mod]
  conv_rhs => rw [Nat.add_mod, Nat.mod_mod]

theorem block_for_bcnt_mod (cfg : NetConfig) (f p : Nat) :
    block_for_bcnt cfg f (p % 4294967296) = block_for_bcnt cfg f p := by
  unfold block_for_bcnt
  rw [sub32_mod_left]

/-- The block of a packet at distance `D` ahead of the anchor. -/
theorem block_for_bcnt_packet (cfg : NetConfig) (hwf : cfg.wf) (f bs p : Nat)
    (hdiv : cfg.BASELINES_PER_BLOCK ∣ sub32 bs f) :
    block_for_bcnt cfg f p
      = (block_for_bcnt cfg f bs + sub32 p bs / cfg.BASELINES_PER_BLOCK)
          % cfg.CATCHER_N_BLOCKS := by
  rw [← block_for_bcnt_add cfg hwf f bs _ hdiv, add_sub32_cancel, block_for_bcnt_mod]

/-! ## Theorems: the branches of `process_packet` -/

theorem get_header_bcnt_lt (f : hera_ibv_xeng_pkt) : (get_header f).bcnt < 4294967296 := by
  unfold get_header
  exact Nat.mod_lt _ (by norm_num)

theorem lazy_init_of_initialized (cfg : NetConfig) (s : NetState) (h : packet_header_t)
    (hinit : s.binfo.initialized ≠ 0) : lazy_init cfg s h = (s, []) := by
  unfold lazy_init
  rw [if_neg hinit]

theorem process_packet_in_window (cfg : NetConfig) (env : RingEnv) (s : NetState)
    (f : hera_ibv_xeng_pkt) (hinit : s.binfo.initialized ≠ 0)
    (h0 : 0 ≤ pkt_bcnt_dist s (get_header f))
    (h2 : pkt_bcnt_dist s (get_header f) < 2 * (cfg.BASELINES_PER_BLOCK : Int)) :
    process_packet cfg env s f
      = store_packet cfg s f (get_header f)
          (block_for_bcnt cfg s.first_bcnt (get_header f).bcnt) 4294967295 [] := by
  unfold process_packet
  simp only [lazy_init_of_initialized cfg s _ hinit]
  rw [if_pos ⟨h0, by omega⟩, if_neg (by omega)]

theorem process_packet_advance (cfg : NetConfig) (env : RingEnv) (s : NetState)
    (f : hera_ibv_xeng_pkt) (hinit : s.binfo.initialized ≠ 0)
    (h2 : 2 * (cfg.BASELINES_PER_BLOCK : Int) ≤ pkt_bcnt_dist s (get_header f))
    (h3 : pkt_bcnt_dist s (get_header f) < 3 * (cfg.BASELINES_PER_BLOCK : Int)) :
    process_packet cfg env s f
      = match advance_block cfg env s (block_for_bcnt cfg s.first_bcnt (get_header f).bcnt) with
        | Outcome.thread_exit s1 ev1 => Outcome.thread_exit s1 ([] ++ ev1)
        | Outcome.returned s1 netbcnt ev1 =>
          store_packet cfg s1 f (get_header f)
            (block_for_bcnt cfg s.first_bcnt (get_header f).bcnt) netbcnt ([] ++ ev1) := by
  unfold process_packet
  simp only [lazy_init_of_initialized cfg s _ hinit]
  rw [if_pos ⟨by omega, h3⟩, if_pos (by omega)]

theorem process_packet_late (cfg : NetConfig) (env : RingEnv) (s : NetState)
    (f : hera_ibv_xeng_pkt) (hinit : s.binfo.initialized ≠ 0)
    (h0 : pkt_bcnt_dist s (get_header f) < 0)
    (h1 : -(cfg.LATE_PKT_BCNT_THRESHOLD : Int) < pkt_bcnt_dist s (get_header f)) :
    process_packet cfg env s f = late_packet s (pkt_bcnt_dist s (get_header f)) [] := by
  unfold process_packet
  simp only [lazy_init_of_initialized cfg s _ hinit]
  rw [if_neg (by omega), if_pos ⟨h0, by omega⟩]

theorem process_packet_out_of_seq (cfg : NetConfig) (env : RingEnv) (s : NetState)
    (f : hera_ibv_xeng_pkt) (hinit : s.binfo.initialized ≠ 0)
    (hacc : ¬ (0 ≤ pkt_bcnt_dist s (get_header f)
      ∧ pkt_bcnt_dist s (get_header f) < 3 * (cfg.BASELINES_PER_BLOCK : Int)))
    (hlate : ¬ (pkt_bcnt_dist s (get_header f) < 0
      ∧ pkt_bcnt_dist s (get_header f) > -(cfg.LATE_PKT_BCNT_THRESHOLD : Int))) :
    process_packet cfg env s f = out_of_seq_packet cfg s (get_header f) [] := by
  unfold process_packet
  simp only [lazy_init_of_initialized cfg s _ hinit]
  rw [if_neg hacc, if_neg hlate]

/-- C8: in an initialised state, a packet whose distance `d` from the anchor satisfies
`-LATE_PKT_BCNT_THRESHOLD < d < 0` makes `process_packet` return `-1` with the whole state
(`binfo`, `first_bcnt`, every block, the status keys) unchanged and no block marked
filled; the only message is the late-packet warning, emitted iff
`binfo.bcnt_start >= binfo.bcnt_log_late`. -/
theorem late_packet_ignored (cfg : NetConfig) (env : RingEnv) (s : NetState)
    (f : hera_ibv_xeng_pkt) (hinit : s.binfo.initialized ≠ 0)
    (h1 : -(cfg.LATE_PKT_BCNT_THRESHOLD : Int) < pkt_bcnt_dist s (get_header f))
    (h0 : pkt_bcnt_dist s (get_header f) < 0) :
    process_packet cfg env s f
      = Outcome.returned s 4294967295
          (if s.binfo.bcnt_start ≥ s.binfo.bcnt_log_late
            then [NetEvent.warn_late (-pkt_bcnt_dist s (get_header f))] else []) ∧
    filled_blocks (if s.binfo.bcnt_start ≥ s.binfo.bcnt_log_late
      then [NetEvent.warn_late (-pkt_bcnt_dist s (get_header f))] else []) = [] := by
  rw [process_packet_late cfg env s f hinit h0 h1]
  unfold late_packet
  refine ⟨by simp, ?_⟩
  split_ifs <;> rfl

theorem late_packet_ignored_witness :
    process_packet cfgNet envOK s_100 (mk_frame 98 0 0 0)
      = Outcome.returned s_100 4294967295 [NetEvent.warn_late 2] :=
  (late_packet_ignored cfgNet envOK s_100 (mk_frame 98 0 0 0) (by decide) (by decide)
    (by decide)).1

/-! ## Theorems: what the parts of `process_packet` keep -/

@[simp] theorem initialize_block_binfo (cfg : NetConfig) (s : NetState) (b : Nat) :
    (initialize_block cfg s b).binfo = s.binfo := rfl

@[simp] theorem initialize_block_first_bcnt (cfg : NetConfig) (s : NetState) (b : Nat) :
    (initialize_block cfg s b).first_bcnt = s.first_bcnt := rfl

@[simp] theorem initialize_block_status (cfg : NetConfig) (s : NetState) (b : Nat) :
    (initialize_block cfg s b).status = s.status := rfl

@[simp] theorem initialize_block_last_filled (cfg : NetConfig) (s : NetState) (b : Nat) :
    (initialize_block cfg s b).last_filled = s.last_filled := rfl

theorem initialize_block_data (cfg : NetConfig) (s : NetState) (b i : Nat) :
    ((initialize_block cfg s b).db i).data = (s.db i).data := by
  unfold initialize_block
  by_cases h : i = block_for_bcnt cfg s.first_bcnt b
  · subst h; simp
  · simp [Function.update_noteq h]

@[simp] theorem reset_block_counters_initialized (cfg : NetConfig) (b : block_info_t)
    (i : Nat) : (reset_block_counters cfg b i).initialized = b.initialized := rfl

@[simp] theorem reset_block_counters_bcnt_start (cfg : NetConfig) (b : block_info_t)
    (i : Nat) : (reset_block_counters cfg b i).bcnt_start = b.bcnt_start := rfl

@[simp] theorem reset_block_counters_block_i (cfg : NetConfig) (b : block_info_t)
    (i : Nat) : (reset_block_counters cfg b i).block_i = b.block_i := rfl

@[simp] theorem reset_block_counters_log_late (cfg : NetConfig) (b : block_info_t)
    (i : Nat) : (reset_block_counters cfg b i).bcnt_log_late = b.bcnt_log_late := rfl

@[simp] theorem reset_block_counters_out_of_seq (cfg : NetConfig) (b : block_info_t)
    (i : Nat) : (reset_block_counters cfg b i).out_of_seq_cnt = b.out_of_seq_cnt := rfl

theorem foldl_reset_scalars (cfg : NetConfig) (l : List Nat) (b : block_info_t) :
    (l.foldl (reset_block_counters cfg) b).initialized = b.initialized ∧
    (l.foldl (reset_block_counters cfg) b).bcnt_start = b.bcnt_start ∧
    (l.foldl (reset_block_counters cfg) b).block_i = b.block_i ∧
    (l.foldl (reset_block_counters cfg) b).bcnt_log_late = b.bcnt_log_late ∧
    (l.foldl (reset_block_counters cfg) b).out_of_seq_cnt = b.out_of_seq_cnt := by
  induction l generalizing b with
  | nil => simp
  | cons i l ih =>
    rw [List.foldl_cons]
    obtain ⟨h1, h2, h3, h4, h5⟩ := ih (reset_block_counters cfg b i)
    exact ⟨h1, h2, h3, h4, h5⟩

theorem lazy_init_initialized (cfg : NetConfig) (s : NetState) (h : packet_header_t) :
    (lazy_init cfg s h).1.binfo.initialized ≠ 0 := by
  unfold lazy_init
  by_cases hi : s.binfo.initialized = 0
  · rw [if_pos hi]
    simp only [initialize_block_binfo, initialize_block_info, hi, ne_eq, not_true_eq_false,
      if_false]
    rw [(foldl_reset_scalars cfg _ _).1]
    simp
  · rw [if_neg hi]; exact hi

@[simp] theorem place_payload_first_bcnt (cfg : NetConfig) (s : NetState)
    (f : hera_ibv_xeng_pkt) (h : packet_header_t) (pb : Nat) :
    (place_payload cfg s f h pb).first_bcnt = s.first_bcnt := rfl

@[simp] theorem place_payload_bcnt_start (cfg : NetConfig) (s : NetState)
    (f : hera_ibv_xeng_pkt) (h : packet_header_t) (pb : Nat) :
    (place_payload cfg s f h pb).binfo.bcnt_start = s.binfo.bcnt_start := rfl

@[simp] theorem place_payload_block_i (cfg : NetConfig) (s : NetState)
    (f : hera_ibv_xeng_pkt) (h : packet_header_t) (pb : Nat) :
    (place_payload cfg s f h pb).binfo.block_i = s.binfo.block_i := rfl

@[simp] theorem place_payload_initialized (cfg : NetConfig) (s : NetState)
    (f : hera_ibv_xeng_pkt) (h : packet_header_t) (pb : Nat) :
    (place_payload cfg s f h pb).binfo.initialized = s.binfo.initialized := rfl

@[simp] theorem place_payload_out_of_seq (cfg : NetConfig) (s : NetState)
    (f : hera_ibv_xeng_pkt) (h : packet_header_t) (pb : Nat) :
    (place_payload cfg s f h pb).binfo.out_of_seq_cnt = s.binfo.out_of_seq_cnt := rfl

@[simp] theorem place_payload_log_late (cfg : NetConfig) (s : NetState)
    (f : hera_ibv_xeng_pkt) (h : packet_header_t) (pb : Nat) :
    (place_payload cfg s f h pb).binfo.bcnt_log_late = s.binfo.bcnt_log_late := rfl

@[simp] theorem place_payload_status (cfg : NetConfig) (s : NetState)
    (f : hera_ibv_xeng_pkt) (h : packet_header_t) (pb : Nat) :
    (place_payload cfg s f h pb).status = s.status := rfl

@[simp] theorem place_payload_last_filled (cfg : NetConfig) (s : NetState)
    (f : hera_ibv_xeng_pkt) (h : packet_header_t) (pb : Nat) :
    (place_payload cfg s f h pb).last_filled = s.last_filled := rfl

theorem place_payload_flags (cfg : NetConfig) (s : NetState)
    (f : hera_ibv_xeng_pkt) (h : packet_header_t) (pb : Nat) :
    (place_payload cfg s f h pb).binfo.flags
      = set_cell s.binfo.flags pb (pkt_offset_of cfg s.binfo.bcnt_start h) 0 := rfl

theorem place_payload_counter (cfg : NetConfig) (s : NetState)
    (f : hera_ibv_xeng_pkt) (h : packet_header_t) (pb : Nat) :
    (place_payload cfg s f h pb).binfo.block_packet_counter
      = Function.update s.binfo.block_packet_counter pb
          (s.binfo.block_packet_counter pb + 1) := rfl

theorem set_cell_same (a : Nat → Nat → Nat) (i j v : Nat) : set_cell a i j v i j = v := by
  simp [set_cell]

theorem set_block_filled_returned (cfg : NetConfig) (env : RingEnv) (s s1 : NetState)
    (nb : Nat) (ev : List NetEvent)
    (h : set_block_filled cfg env s = Outcome.returned s1 nb ev) :
    s1.binfo = s.binfo ∧ s1.first_bcnt = s.first_bcnt ∧
      env.set_filled_rv = hashpipe_rv.HASHPIPE_OK := by
  unfold set_block_filled at h
  by_cases hrv : env.set_filled_rv = hashpipe_rv.HASHPIPE_OK
  · simp only [hrv, ne_eq, not_true_eq_false, if_false] at h
    injection h with hs hr he
    subst hs
    exact ⟨rfl, rfl, hrv⟩
  · simp only [ne_eq, hrv, not_false_eq_true, if_true] at h
    exact Outcome.noConfusion h

theorem advance_block_returned (cfg : NetConfig) (env : RingEnv) (s s1 : NetState)
    (pb nb : Nat) (ev : List NetEvent)
    (h : advance_block cfg env s pb = Outcome.returned s1 nb ev) :
    s1.first_bcnt = s.first_bcnt ∧
      s1.binfo.bcnt_start = (s.binfo.bcnt_start + cfg.BASELINES_PER_BLOCK) % 4294967296 ∧
      s1.binfo.initialized = s.binfo.initialized := by
  unfold advance_block at h
  cases hf : set_block_filled cfg env s with
  | thread_exit s2 ev2 => rw [hf] at h; exact Outcome.noConfusion h
  | returned s2 nb2 ev2 =>
    rw [hf] at h
    obtain ⟨hb, hfb, -⟩ := set_block_filled_returned cfg env s s2 nb2 ev2 hf
    by_cases hrv : env.busywait_free_rv = hashpipe_rv.HASHPIPE_OK
    · simp only [hrv, ne_eq, not_true_eq_false, if_false] at h
      injection h with hs hr he
      subst hs
      simp [hb, hfb]
    · simp only [ne_eq, hrv, not_false_eq_true, if_true] at h
      exact Outcome.noConfusion h

theorem sub32_step (p bs e : Nat) (h : e ≤ sub32 p bs) :
    sub32 p ((bs + e) % 4294967296) = sub32 p bs - e := by
  unfold sub32 at *; omega

theorem dist_after_advance (cfg : NetConfig) (s s1 : NetState) (h : packet_header_t)
    (hbs : s1.binfo.bcnt_start
      = (s.binfo.bcnt_start + cfg.BASELINES_PER_BLOCK) % 4294967296)
    (h2 : 2 * (cfg.BASELINES_PER_BLOCK : Int) ≤ pkt_bcnt_dist s h) :
    pkt_bcnt_dist s1 h = pkt_bcnt_dist s h - (cfg.BASELINES_PER_BLOCK : Int) := by
  unfold pkt_bcnt_dist at *
  have hlt := sub32_lt h.bcnt s.binfo.bcnt_start
  have hD := toInt32_of_nonneg _ hlt (by omega)
  rw [hD] at h2 ⊢
  have hstep := sub32_step h.bcnt s.binfo.bcnt_start cfg.BASELINES_PER_BLOCK (by omega)
  rw [hbs, hstep]
  unfold toInt32 at hD ⊢
  rw [Nat.mod_eq_of_lt hlt] at hD
  rw [Nat.mod_eq_of_lt (by omega)]
  split_ifs at hD ⊢ <;> omega

/-- C7: if `process_packet` accepts a packet (its distance from the anchor lies in the
accepted window) and stores it (it is not dropped as a duplicate), then processing the
same packet again right afterwards returns `-1`, prints the repeated-packet message,
marks no block filled and leaves the state as it is except for `out_of_seq_cnt`, which
grows by exactly 1: every block's payload and header, the flags, the packet counters,
`bcnt_start`, `block_i` and `first_bcnt` are unchanged.  The starting state is arbitrary,
so this covers every reachable state. -/
theorem duplicate_absorption (cfg : NetConfig) (env env2 : RingEnv) (s s1 : NetState)
    (f : hera_ibv_xeng_pkt) (ret : Nat) (ev : List NetEvent)
    (hacc : 0 ≤ pkt_bcnt_dist (lazy_init cfg s (get_header f)).1 (get_header f)
      ∧ pkt_bcnt_dist (lazy_init cfg s (get_header f)).1 (get_header f)
          < 3 * (cfg.BASELINES_PER_BLOCK : Int))
    (h : process_packet cfg env s f = Outcome.returned s1 ret ev)
    (hstored : NetEvent.msg_packet_repeated ∉ ev) :
    process_packet cfg env2 s1 f
      = Outcome.returned
          { s1 with binfo := { s1.binfo with out_of_seq_cnt := s1.binfo.out_of_seq_cnt + 1 } }
          4294967295 [NetEvent.msg_packet_repeated] ∧
    filled_blocks [NetEvent.msg_packet_repeated] = [] := by
  refine ⟨?_, rfl⟩
  have hinit0 := lazy_init_initialized cfg s (get_header f)
  unfold process_packet at h
  simp only [] at h
  rw [if_pos hacc] at h
  -- the state in which the packet was placed, and the facts that survive
  have key : ∃ s2, s1 = place_payload cfg s2 f (get_header f)
        (block_for_bcnt cfg (lazy_init cfg s (get_header f)).1.first_bcnt (get_header f).bcnt)
      ∧ s2.first_bcnt = (lazy_init cfg s (get_header f)).1.first_bcnt
      ∧ s2.binfo.initialized ≠ 0
      ∧ 0 ≤ pkt_bcnt_dist s2 (get_header f)
      ∧ pkt_bcnt_dist s2 (get_header f) < 2 * (cfg.BASELINES_PER_BLOCK : Int) := by
    by_cases h2 : pkt_bcnt_dist (lazy_init cfg s (get_header f)).1 (get_header f)
        ≥ 2 * (cfg.BASELINES_PER_BLOCK : Int)
    · rw [if_pos h2] at h
      cases hadv : advance_block cfg env (lazy_init cfg s (get_header f)).1
          (block_for_bcnt cfg (lazy_init cfg s (get_header f)).1.first_bcnt
            (get_header f).bcnt) with
      | thread_exit s2 ev2 => rw [hadv] at h; exact Outcome.noConfusion h
      | returned s2 nb2 ev2 =>
        rw [hadv] at h
        obtain ⟨hfb, hbs, hin⟩ := advance_block_returned cfg env _ s2 _ nb2 ev2 hadv
        simp only [store_packet] at h
        split_ifs at h with hdup
        · injection h with hs hr he
          exact absurd (he ▸ List.mem_append_right _ (List.mem_singleton.mpr rfl)) hstored
        · injection h with hs hr he
          refine ⟨s2, hs.symm, hfb, by rw [hin]; exact hinit0, ?_, ?_⟩
          · rw [dist_after_advance cfg _ s2 _ hbs h2]; omega
          · rw [dist_after_advance cfg _ s2 _ hbs h2]; omega
    · rw [if_neg h2] at h
      simp only [store_packet] at h
      split_ifs at h with hdup
      · injection h with hs hr he
        exact absurd (he ▸ List.mem_append_right _ (List.mem_singleton.mpr rfl)) hstored
      · injection h with hs hr he
        exact ⟨_, hs.symm, rfl, hinit0, hacc.1, by omega⟩
  obtain ⟨s2, hs1, hfb, hin, hd0, hd2⟩ := key
  have hdist : pkt_bcnt_dist s1 (get_header f) = pkt_bcnt_dist s2 (get_header f) := by
    rw [hs1]; rfl
  have hin1 : s1.binfo.initialized ≠ 0 := by rw [hs1]; exact hin
  rw [process_packet_in_window cfg env2 s1 f hin1 (by rw [hdist]; exact hd0)
    (by rw [hdist]; exact hd2)]
  have hfb1 : s1.first_bcnt = (lazy_init cfg s (get_header f)).1.first_bcnt := by
    rw [hs1]; exact hfb
  have hflag : s1.binfo.flags
      (block_for_bcnt cfg s1.first_bcnt (get_header f).bcnt)
      (pkt_offset_of cfg s1.binfo.bcnt_start (get_header f)) = 0 := by
    rw [hfb1, hs1, place_payload_flags, place_payload_bcnt_start, set_cell_same]
  unfold store_packet
  rw [if_pos hflag]
  rfl

theorem duplicate_absorption_witness :
    process_packet cfgNet envOK s_100 (mk_frame 100 0 0 0)
      = Outcome.returned
          { s_100 with
            binfo := { s_100.binfo with out_of_seq_cnt := s_100.binfo.out_of_seq_cnt + 1 } }
          4294967295 [NetEvent.msg_packet_repeated] ∧
    filled_blocks [NetEvent.msg_packet_repeated] = [] :=
  duplicate_absorption cfgNet envOK envOK s_start s_100 (mk_frame 100 0 0 0) 4294967295
    [NetEvent.msg_initializing, NetEvent.msg_initializing] (by decide) rfl (by decide)

/-! ## Theorems: the reset -/

theorem sub32_sub32 (a b : Nat) : sub32 a (sub32 a b) = b % 4294967296 := by
  unfold sub32; omega

theorem block_mul_lt (cfg : NetConfig) (hwf : cfg.wf) (i : Nat)
    (hi : i < cfg.CATCHER_N_BLOCKS) : i * cfg.BASELINES_PER_BLOCK < 4294967296 := by
  have h1 := wf_span_le cfg hwf
  have h2 : (i + 1) * cfg.BASELINES_PER_BLOCK
      ≤ cfg.CATCHER_N_BLOCKS * cfg.BASELINES_PER_BLOCK := Nat.mul_le_mul_right _ hi
  rw [Nat.mul_comm cfg.CATCHER_N_BLOCKS] at h2
  rw [Nat.add_mul, Nat.one_mul] at h2
  have h3 := hwf.1
  omega

theorem next_block_ne (n i : Nat) (hn : 2 ≤ n) (hi : i < n) : (i + 1) % n ≠ i := by
  by_cases h : i + 1 < n
  · rw [Nat.mod_eq_of_lt h]; omega
  · have : i + 1 = n := by omega
    rw [this, Nat.mod_self]; omega

/-- The anchor, the virtual base and the two working blocks after a re-synchronisation. -/
theorem reset_binfo_spec (cfg : NetConfig) (hwf : cfg.wf) (hnb : 2 ≤ cfg.CATCHER_N_BLOCKS)
    (s : NetState) (h : packet_header_t)
    (hbi : s.binfo.block_i < cfg.CATCHER_N_BLOCKS) :
    (reset_binfo cfg s h).1.binfo.bcnt_start = h.bcnt - h.bcnt % cfg.BASELINES_PER_BLOCK ∧
    (reset_binfo cfg s h).1.first_bcnt
      = sub32 (h.bcnt - h.bcnt % cfg.BASELINES_PER_BLOCK)
          (s.binfo.block_i * cfg.BASELINES_PER_BLOCK) ∧
    (reset_binfo cfg s h).1.binfo.block_i = s.binfo.block_i ∧
    block_for_bcnt cfg (reset_binfo cfg s h).1.first_bcnt
      (reset_binfo cfg s h).1.binfo.bcnt_start = s.binfo.block_i ∧
    (reset_binfo cfg s h).1.binfo.out_of_seq_cnt = 0 ∧
    ((reset_binfo cfg s h).1.binfo.block_packet_counter s.binfo.block_i = 0 ∧
      (∀ j, j < cfg.PACKETS_PER_BLOCK →
        (reset_binfo cfg s h).1.binfo.flags s.binfo.block_i j = 1) ∧
      (∀ b, b < cfg.BASELINES_PER_BLOCK →
        (reset_binfo cfg s h).1.binfo.baselines s.binfo.block_i b = 0) ∧
      ((reset_binfo cfg s h).1.db s.binfo.block_i).header.good_data = 0 ∧
      ((reset_binfo cfg s h).1.db s.binfo.block_i).header.bcnt 0
        = h.bcnt - h.bcnt % cfg.BASELINES_PER_BLOCK) ∧
    ((reset_binfo cfg s h).1.binfo.block_packet_counter
        ((s.binfo.block_i + 1) % cfg.CATCHER_N_BLOCKS) = 0 ∧
      (∀ j, j < cfg.PACKETS_PER_BLOCK →
        (reset_binfo cfg s h).1.binfo.flags ((s.binfo.block_i + 1) % cfg.CATCHER_N_BLOCKS) j
          = 1) ∧
      (∀ b, b < cfg.BASELINES_PER_BLOCK →
        (reset_binfo cfg s h).1.binfo.baselines
          ((s.binfo.block_i + 1) % cfg.CATCHER_N_BLOCKS) b = 0) ∧
      ((reset_binfo cfg s h).1.db ((s.binfo.block_i + 1) % cfg.CATCHER_N_BLOCKS)).header.good_data
        = 0 ∧
      ((reset_binfo cfg s h).1.db ((s.binfo.block_i + 1) % cfg.CATCHER_N_BLOCKS)).header.bcnt 0
        = (h.bcnt - h.bcnt % cfg.BASELINES_PER_BLOCK + cfg.BASELINES_PER_BLOCK)
            % 4294967296) := by
  have hne := next_block_ne cfg.CATCHER_N_BLOCKS s.binfo.block_i hnb hbi
  have hmul := block_mul_lt cfg hwf _ hbi
  have hA : sub32 (h.bcnt - h.bcnt % cfg.BASELINES_PER_BLOCK)
      (sub32 (h.bcnt - h.bcnt % cfg.BASELINES_PER_BLOCK)
        (s.binfo.block_i * cfg.BASELINES_PER_BLOCK))
      = s.binfo.block_i * cfg.BASELINES_PER_BLOCK := by
    rw [sub32_sub32, Nat.mod_eq_of_lt hmul]
  have hcur : block_for_bcnt cfg
      (sub32 (h.bcnt - h.bcnt % cfg.BASELINES_PER_BLOCK)
        (s.binfo.block_i * cfg.BASELINES_PER_BLOCK))
      (h.bcnt - h.bcnt % cfg.BASELINES_PER_BLOCK) = s.binfo.block_i := by
    unfold block_for_bcnt
    rw [hA, Nat.mul_div_cancel _ hwf.1, Nat.mod_eq_of_lt hbi]
  have hnxt : block_for_bcnt cfg
      (sub32 (h.bcnt - h.bcnt % cfg.BASELINES_PER_BLOCK)
        (s.binfo.block_i * cfg.BASELINES_PER_BLOCK))
      ((h.bcnt - h.bcnt % cfg.BASELINES_PER_BLOCK + cfg.BASELINES_PER_BLOCK) % 4294967296)
      = (s.binfo.block_i + 1) % cfg.CATCHER_N_BLOCKS := by
    rw [block_for_bcnt_add cfg hwf _ _ _ (by rw [hA]; exact Dvd.intro_left _ rfl), hcur,
      Nat.div_self hwf.1]
  refine ⟨rfl, rfl, rfl, hcur, rfl, ⟨?_, ?_, ?_, ?_, ?_⟩, ⟨?_, ?_, ?_, ?_, ?_⟩⟩
  · simp [reset_binfo, reset_block_counters, Function.update, hne.symm]
  · intro j hj
    simp [reset_binfo, reset_block_counters, memset_row, hj]
  · intro b hb
    simp [reset_binfo, reset_block_counters, memset_row, hb]
  · simp only [reset_binfo, initialize_block, reset_block_counters_block_i,
      reset_block_counters_bcnt_start, hcur, hnxt]
    simp [Function.update, hne.symm]
  · simp only [reset_binfo, initialize_block, reset_block_counters_block_i,
      reset_block_counters_bcnt_start, hcur, hnxt]
    simp [Function.update, hne.symm]
  · simp [reset_binfo, reset_block_counters, Function.update]
  · intro j hj
    simp [reset_binfo, reset_block_counters, memset_row, hj]
  · intro b hb
    simp [reset_binfo, reset_block_counters, memset_row, hb]
  · simp only [reset_binfo, initialize_block, reset_block_counters_block_i,
      reset_block_counters_bcnt_start, hcur, hnxt]
    simp [Function.update]
  · simp only [reset_binfo, initialize_block, reset_block_counters_block_i,
      reset_block_counters_bcnt_start, hcur, hnxt]
    simp [Function.update]

/-- C10: when `process_packet` takes the out-of-sequence branch in an initialised state
(with `block_i` inside the ring of at least two blocks) and the incremented
`out_of_seq_cnt` exceeds `MAX_OUT_OF_SEQ_PKTS`, it returns `-1` and afterwards
`bcnt_start = pkt.bcnt - pkt.bcnt mod BASELINES_PER_BLOCK`,
`first_bcnt = bcnt_start - block_i*BASELINES_PER_BLOCK` modulo `2^32`, `block_i` is
unchanged and equals `block_for_bcnt(bcnt_start)`, `out_of_seq_cnt = 0`, and for both
`block_i` and `(block_i+1) mod CATCHER_N_BLOCKS` the packet counter is 0, all flags are 1,
all baseline marks are 0, `good_data = 0` and `header.bcnt[0]` is `bcnt_start`, resp. the
32-bit sum `bcnt_start + BASELINES_PER_BLOCK`. -/
theorem reset_postcondition (cfg : NetConfig) (hwf : cfg.wf)
    (hnb : 2 ≤ cfg.CATCHER_N_BLOCKS) (env : RingEnv) (s : NetState) (f : hera_ibv_xeng_pkt)
    (hinit : s.binfo.initialized ≠ 0) (hbi : s.binfo.block_i < cfg.CATCHER_N_BLOCKS)
    (hacc : ¬ (0 ≤ pkt_bcnt_dist s (get_header f)
      ∧ pkt_bcnt_dist s (get_header f) < 3 * (cfg.BASELINES_PER_BLOCK : Int)))
    (hlate : ¬ (pkt_bcnt_dist s (get_header f) < 0
      ∧ pkt_bcnt_dist s (get_header f) > -(cfg.LATE_PKT_BCNT_THRESHOLD : Int)))
    (hcnt : s.binfo.out_of_seq_cnt + 1 > MAX_OUT_OF_SEQ_PKTS) :
    ∃ s1 ev, process_packet cfg env s f = Outcome.returned s1 4294967295 ev ∧
      s1.binfo.bcnt_start
        = (get_header f).bcnt - (get_header f).bcnt % cfg.BASELINES_PER_BLOCK ∧
      s1.first_bcnt
        = sub32 s1.binfo.bcnt_start (s.binfo.block_i * cfg.BASELINES_PER_BLOCK) ∧
      s1.binfo.block_i = s.binfo.block_i ∧
      block_for_bcnt cfg s1.first_bcnt s1.binfo.bcnt_start = s1.binfo.block_i ∧
      s1.binfo.out_of_seq_cnt = 0 ∧
      (s1.binfo.block_packet_counter s1.binfo.block_i = 0 ∧
        (∀ j, j < cfg.PACKETS_PER_BLOCK → s1.binfo.flags s1.binfo.block_i j = 1) ∧
        (∀ b, b < cfg.BASELINES_PER_BLOCK → s1.binfo.baselines s1.binfo.block_i b = 0) ∧
        (s1.db s1.binfo.block_i).header.good_data = 0 ∧
        (s1.db s1.binfo.block_i).header.bcnt 0 = s1.binfo.bcnt_start) ∧
      (s1.binfo.block_packet_counter ((s1.binfo.block_i + 1) % cfg.CATCHER_N_BLOCKS) = 0 ∧
        (∀ j, j < cfg.PACKETS_PER_BLOCK →
          s1.binfo.flags ((s1.binfo.block_i + 1) % cfg.CATCHER_N_BLOCKS) j = 1) ∧
        (∀ b, b < cfg.BASELINES_PER_BLOCK →
          s1.binfo.baselines ((s1.binfo.block_i + 1) % cfg.CATCHER_N_BLOCKS) b = 0) ∧
        (s1.db ((s1.binfo.block_i + 1) % cfg.CATCHER_N_BLOCKS)).header.good_data = 0 ∧
        (s1.db ((s1.binfo.block_i + 1) % cfg.CATCHER_N_BLOCKS)).header.bcnt 0
          = (s1.binfo.bcnt_start + cfg.BASELINES_PER_BLOCK) % 4294967296) := by
  rw [process_packet_out_of_seq cfg env s f hinit hacc hlate]
  unfold out_of_seq_packet
  simp only []
  rw [if_pos hcnt]
  refine ⟨_, _, rfl, ?_⟩
  obtain ⟨h1, h2, h3, h4, h5, h6, h7⟩ := reset_binfo_spec cfg hwf hnb
    { s with binfo := { s.binfo with out_of_seq_cnt := s.binfo.out_of_seq_cnt + 1 } }
    (get_header f) hbi
  simp only [] at h1 h2 h3 h4 h5 h6 h7
  rw [h3, h1]
  exact ⟨rfl, h2, rfl, h4, h5, h6, h7⟩

/-! ## Theorems: marking a block filled and moving on -/

theorem filled_blocks_append (l1 l2 : List NetEvent) :
    filled_blocks (l1 ++ l2) = filled_blocks l1 ++ filled_blocks l2 := by
  induction l1 with
  | nil => rfl
  | cons e l ih =>
    cases e <;> simp [filled_blocks, ih]

theorem mark_good_data_frame (cfg : NetConfig) (s : NetState) (blk i : Nat) :
    (mark_good_data cfg s blk i).data = (s.db i).data ∧
    (mark_good_data cfg s blk i).header.bcnt = (s.db i).header.bcnt ∧
    (mark_good_data cfg s blk i).header.mcnt = (s.db i).header.mcnt ∧
    (mark_good_data cfg s blk i).header.ant_pair_0 = (s.db i).header.ant_pair_0 ∧
    (mark_good_data cfg s blk i).header.ant_pair_1 = (s.db i).header.ant_pair_1 ∧
    (i ≠ blk → mark_good_data cfg s blk i = s.db i) := by
  unfold mark_good_data
  by_cases hc : s.binfo.block_packet_counter blk = cfg.PACKETS_PER_BLOCK
  · simp only [hc, if_true]
    by_cases hi : i = blk
    · subst hi; simp
    · simp [Function.update_noteq hi]
  · simp [hc]

/-- Whatever the ring answers, `set_block_filled` marks exactly the block of the anchor,
keeps `binfo`, `first_bcnt` and every payload, and changes no header word other than
`good_data` of that block. -/
theorem set_block_filled_frame (cfg : NetConfig) (env : RingEnv) (s : NetState) :
    (set_block_filled cfg env s).state.binfo = s.binfo ∧
    (set_block_filled cfg env s).state.first_bcnt = s.first_bcnt ∧
    filled_blocks (set_block_filled cfg env s).events
      = [block_for_bcnt cfg s.first_bcnt s.binfo.bcnt_start] ∧
    (∀ i, ((set_block_filled cfg env s).state.db i).data = (s.db i).data) ∧
    (∀ i, ((set_block_filled cfg env s).state.db i).header.bcnt = (s.db i).header.bcnt) ∧
    (∀ i, ((set_block_filled cfg env s).state.db i).header.mcnt = (s.db i).header.mcnt) ∧
    (∀ i, ((set_block_filled cfg env s).state.db i).header.ant_pair_0
      = (s.db i).header.ant_pair_0) ∧
    (∀ i, ((set_block_filled cfg env s).state.db i).header.ant_pair_1
      = (s.db i).header.ant_pair_1) ∧
    (∀ i, i ≠ block_for_bcnt cfg s.first_bcnt s.binfo.bcnt_start →
      (set_block_filled cfg env s).state.db i = s.db i) := by
  unfold set_block_filled
  by_cases hrv : env.set_filled_rv = hashpipe_rv.HASHPIPE_OK
  · simp only [hrv, ne_eq, not_true_eq_false, if_false, Outcome.state, Outcome.events]
    refine ⟨trivial, trivial, ?_, fun i => (mark_good_data_frame cfg s _ i).1,
      fun i => (mark_good_data_frame cfg s _ i).2.1,
      fun i => (mark_good_data_frame cfg s _ i).2.2.1,
      fun i => (mark_good_data_frame cfg s _ i).2.2.2.1,
      fun i => (mark_good_data_frame cfg s _ i).2.2.2.2.1,
      fun i hi => (mark_good_data_frame cfg s _ i).2.2.2.2.2 hi⟩
    simp only [filled_blocks_append]
    split_ifs <;> simp [filled_blocks]
  · simp only [ne_eq, hrv, not_false_eq_true, if_true, Outcome.state, Outcome.events]
    refine ⟨trivial, trivial, ?_, fun i => (mark_good_data_frame cfg s _ i).1,
      fun i => (mark_good_data_frame cfg s _ i).2.1,
      fun i => (mark_good_data_frame cfg s _ i).2.2.1,
      fun i => (mark_good_data_frame cfg s _ i).2.2.2.1,
      fun i => (mark_good_data_frame cfg s _ i).2.2.2.2.1,
      fun i hi => (mark_good_data_frame cfg s _ i).2.2.2.2.2 hi⟩
    simp only [filled_blocks_append]
    split_ifs <;> simp [filled_blocks]

theorem initialize_block_spec (cfg : NetConfig) (s : NetState) (b : Nat) :
    ((initialize_block cfg s b).db (block_for_bcnt cfg s.first_bcnt b)).header.good_data = 0 ∧
    ((initialize_block cfg s b).db (block_for_bcnt cfg s.first_bcnt b)).header.bcnt 0 = b ∧
    (∀ k, k ≠ 0 →
      ((initialize_block cfg s b).db (block_for_bcnt cfg s.first_bcnt b)).header.bcnt k
        = (s.db (block_for_bcnt cfg s.first_bcnt b)).header.bcnt k) ∧
    (∀ i, ((initialize_block cfg s b).db i).header.mcnt = (s.db i).header.mcnt) ∧
    (∀ i, ((initialize_block cfg s b).db i).header.ant_pair_0
      = (s.db i).header.ant_pair_0) ∧
    (∀ i, ((initialize_block cfg s b).db i).header.ant_pair_1
      = (s.db i).header.ant_pair_1) ∧
    (∀ i, i ≠ block_for_bcnt cfg s.first_bcnt b → (initialize_block cfg s b).db i = s.db i) := by
  have hall : ∀ i, ((initialize_block cfg s b).db i).header.mcnt = (s.db i).header.mcnt ∧
      ((initialize_block cfg s b).db i).header.ant_pair_0 = (s.db i).header.ant_pair_0 ∧
      ((initialize_block cfg s b).db i).header.ant_pair_1 = (s.db i).header.ant_pair_1 := by
    intro i
    unfold initialize_block
    by_cases h : i = block_for_bcnt cfg s.first_bcnt b
    · subst h; simp
    · simp [Function.update_noteq h]
  refine ⟨?_, ?_, ?_, fun i => (hall i).1, fun i => (hall i).2.1, fun i => (hall i).2.2, ?_⟩
  · unfold initialize_block; simp
  · unfold initialize_block; simp
  · intro k hk
    unfold initialize_block
    simp [Function.update_noteq hk]
  · intro i hi
    unfold initialize_block
    exact Function.update_noteq hi _ _

theorem set_block_filled_ok (cfg : NetConfig) (env : RingEnv) (s : NetState)
    (h1 : env.set_filled_rv = hashpipe_rv.HASHPIPE_OK) :
    ∃ s1 ev, set_block_filled cfg env s
      = Outcome.returned s1
          ((s.db (block_for_bcnt cfg s.first_bcnt s.binfo.bcnt_start)).header.bcnt 0
            % 4294967296) ev := by
  unfold set_block_filled
  simp only [h1, ne_eq, not_true_eq_false, if_false]
  rw [(mark_good_data_frame cfg s _ _).2.1]
  exact ⟨_, _, rfl⟩

/-- The state and the events of `advance_block` when both ring calls succeed. -/
theorem advance_block_ok (cfg : NetConfig) (env : RingEnv) (s : NetState) (pb : Nat)
    (h1 : env.set_filled_rv = hashpipe_rv.HASHPIPE_OK)
    (h2 : env.busywait_free_rv = hashpipe_rv.HASHPIPE_OK) :
    ∃ s1 ev, advance_block cfg env s pb
        = Outcome.returned s1
            ((s.db (block_for_bcnt cfg s.first_bcnt s.binfo.bcnt_start)).header.bcnt 0
              % 4294967296) ev ∧
      s1.binfo = reset_block_counters cfg
        { s.binfo with
          bcnt_start := (s.binfo.bcnt_start + cfg.BASELINES_PER_BLOCK) % 4294967296
          block_i := (s.binfo.block_i + 1) % cfg.CATCHER_N_BLOCKS
          out_of_seq_cnt := 0 } pb ∧
      s1.first_bcnt = s.first_bcnt ∧
      filled_blocks ev = [block_for_bcnt cfg s.first_bcnt s.binfo.bcnt_start] ∧
      (∀ i, (s1.db i).data = (s.db i).data) ∧
      (∀ i, (s1.db i).header.mcnt = (s.db i).header.mcnt) ∧
      (∀ i, (s1.db i).header.ant_pair_0 = (s.db i).header.ant_pair_0) ∧
      (∀ i, (s1.db i).header.ant_pair_1 = (s.db i).header.ant_pair_1) ∧
      (s1.db (block_for_bcnt cfg s.first_bcnt
        (((s.binfo.bcnt_start + cfg.BASELINES_PER_BLOCK) % 4294967296
          + cfg.BASELINES_PER_BLOCK) % 4294967296))).header.good_data = 0 ∧
      (s1.db (block_for_bcnt cfg s.first_bcnt
        (((s.binfo.bcnt_start + cfg.BASELINES_PER_BLOCK) % 4294967296
          + cfg.BASELINES_PER_BLOCK) % 4294967296))).header.bcnt 0
        = ((s.binfo.bcnt_start + cfg.BASELINES_PER_BLOCK) % 4294967296
            + cfg.BASELINES_PER_BLOCK) % 4294967296 ∧
      (∀ k, k ≠ 0 → (s1.db (block_for_bcnt cfg s.first_bcnt
        (((s.binfo.bcnt_start + cfg.BASELINES_PER_BLOCK) % 4294967296
          + cfg.BASELINES_PER_BLOCK) % 4294967296))).header.bcnt k
        = (s.db (block_for_bcnt cfg s.first_bcnt
        (((s.binfo.bcnt_start + cfg.BASELINES_PER_BLOCK) % 4294967296
          + cfg.BASELINES_PER_BLOCK) % 4294967296))).header.bcnt k) ∧
      (∀ i, i ≠ block_for_bcnt cfg s.first_bcnt
          (((s.binfo.bcnt_start + cfg.BASELINES_PER_BLOCK) % 4294967296
            + cfg.BASELINES_PER_BLOCK) % 4294967296) →
        (s1.db i).header.bcnt = (s.db i).header.bcnt ∧
        (i ≠ block_for_bcnt cfg s.first_bcnt s.binfo.bcnt_start → s1.db i = s.db i)) := by
  obtain ⟨sf, evf, hf⟩ := set_block_filled_ok cfg env s h1
  obtain ⟨fb, ff, fe, fd, fbc, fm, fa0, fa1, fo⟩ := set_block_filled_frame cfg env s
  rw [hf] at fb ff fe fd fbc fm fa0 fa1 fo
  simp only [Outcome.state, Outcome.events] at fb ff fe fd fbc fm fa0 fa1 fo
  unfold advance_block
  rw [hf]
  simp only [h2, ne_eq, not_true_eq_false, if_false]
  refine ⟨_, _, rfl, ?_, ?_, ?_, ?_, ?_, ?_, ?_, ?_, ?_, ?_, ?_⟩
  · simp [fb]
  · simp [ff]
  · simp only [filled_blocks_append, fe]
    split_ifs <;> simp [filled_blocks]
  · intro i
    simp only [initialize_block_data]
    exact fd i
  · intro i
    rw [(initialize_block_spec cfg _ _).2.2.2.1 i]
    exact fm i
  · intro i
    rw [(initialize_block_spec cfg _ _).2.2.2.2.1 i]
    exact fa0 i
  · intro i
    rw [(initialize_block_spec cfg _ _).2.2.2.2.2.1 i]
    exact fa1 i
  · rw [← ff, ← fb]
    exact (initialize_block_spec cfg _ _).1
  · rw [← ff, ← fb]
    exact (initialize_block_spec cfg _ _).2.1
  · intro k hk
    rw [← ff, ← fb]
    exact ((initialize_block_spec cfg _ _).2.2.1 k hk).trans (congrFun (fbc _) k)
  · intro i hi
    rw [← ff, ← fb] at hi
    constructor
    · exact (congrArg (fun b => b.header.bcnt)
        ((initialize_block_spec cfg _ _).2.2.2.2.2.2 i hi)).trans (fbc i)
    · intro hi0
      exact ((initialize_block_spec cfg _ _).2.2.2.2.2.2 i hi).trans (fo i hi0)

/-! ## Theorems: where an accepted packet goes -/

theorem dist_nat (s : NetState) (h : packet_header_t) (h0 : 0 ≤ pkt_bcnt_dist s h) :
    pkt_bcnt_dist s h = (sub32 h.bcnt s.binfo.bcnt_start : Int) := by
  unfold pkt_bcnt_dist at *
  exact toInt32_of_nonneg _ (sub32_lt _ _) h0

/-- The block of a packet `q` blocks ahead of the anchor, and its baseline slot. -/
theorem packet_block (cfg : NetConfig) (hwf : cfg.wf) (s : NetState)
    (hs : Consistent cfg s) (h : packet_header_t) (q : Nat)
    (hlo : ((q * cfg.BASELINES_PER_BLOCK : Nat) : Int) ≤ pkt_bcnt_dist s h)
    (hhi : pkt_bcnt_dist s h < (((q + 1) * cfg.BASELINES_PER_BLOCK : Nat) : Int)) :
    block_for_bcnt cfg s.first_bcnt h.bcnt = (s.binfo.block_i + q) % cfg.CATCHER_N_BLOCKS ∧
    sub32 h.bcnt s.binfo.bcnt_start % cfg.BASELINES_PER_BLOCK
      = sub32 h.bcnt s.binfo.bcnt_start - q * cfg.BASELINES_PER_BLOCK ∧
    q * cfg.BASELINES_PER_BLOCK ≤ sub32 h.bcnt s.binfo.bcnt_start ∧
    sub32 h.bcnt s.binfo.bcnt_start < (q + 1) * cfg.BASELINES_PER_BLOCK := by
  have hD := dist_nat s h (le_trans (Int.natCast_nonneg _) hlo)
  rw [hD] at hlo hhi
  have hlo' : q * cfg.BASELINES_PER_BLOCK ≤ sub32 h.bcnt s.binfo.bcnt_start := by
    exact_mod_cast hlo
  have hhi' : sub32 h.bcnt s.binfo.bcnt_start < (q + 1) * cfg.BASELINES_PER_BLOCK := by
    exact_mod_cast hhi
  have hq : sub32 h.bcnt s.binfo.bcnt_start / cfg.BASELINES_PER_BLOCK = q :=
    Nat.div_eq_of_lt_le hlo' hhi'
  refine ⟨?_, ?_, hlo', hhi'⟩
  · rw [block_for_bcnt_packet cfg hwf _ s.binfo.bcnt_start _ hs.2.2.2.2.1, hs.2.2.2.2.2, hq]
  · have := Nat.div_add_mod (sub32 h.bcnt s.binfo.bcnt_start) cfg.BASELINES_PER_BLOCK
    rw [hq, Nat.mul_comm] at this
    omega

theorem two_blocks_ahead (cfg : NetConfig) (hwf : cfg.wf) (s : NetState)
    (hs : Consistent cfg s) :
    block_for_bcnt cfg s.first_bcnt
      (((s.binfo.bcnt_start + cfg.BASELINES_PER_BLOCK) % 4294967296
        + cfg.BASELINES_PER_BLOCK) % 4294967296)
      = (s.binfo.block_i + 2) % cfg.CATCHER_N_BLOCKS := by
  have e : ((s.binfo.bcnt_start + cfg.BASELINES_PER_BLOCK) % 4294967296
      + cfg.BASELINES_PER_BLOCK) % 4294967296
      = (s.binfo.bcnt_start + 2 * cfg.BASELINES_PER_BLOCK) % 4294967296 := by omega
  rw [e, block_for_bcnt_add cfg hwf _ _ _ hs.2.2.2.2.1, hs.2.2.2.2.2,
    Nat.mul_div_cancel _ hwf.1]

theorem place_payload_db (cfg : NetConfig) (s : NetState)
    (f : hera_ibv_xeng_pkt) (h : packet_header_t) (pb : Nat) :
    ((place_payload cfg s f h pb).db pb).data
      = memcpy_payload (s.db pb).data f.payload
          (dest_byte_offset h (pkt_offset_of cfg s.binfo.bcnt_start h)) h.payload_len ∧
    ((place_payload cfg s f h pb).db pb).header.good_data = (s.db pb).header.good_data ∧
    (∀ i, i ≠ pb → (place_payload cfg s f h pb).db i = s.db i) := by
  refine ⟨?_, ?_, ?_⟩
  · simp [place_payload]
  · simp only [place_payload, Function.update_same]
    split_ifs <;> rfl
  · intro i hi
    simp only [place_payload]
    exact Function.update_noteq hi _ _

/-- The header words of the packet's baseline after the packet is placed: promoted from
the packet when it is the first of its baseline, kept otherwise. -/
theorem place_payload_header (cfg : NetConfig) (s : NetState)
    (f : hera_ibv_xeng_pkt) (h : packet_header_t) (pb : Nat) :
    (s.binfo.baselines pb (sub32 h.bcnt s.binfo.bcnt_start % cfg.BASELINES_PER_BLOCK) = 0 →
      ((place_payload cfg s f h pb).db pb).header.bcnt
          = Function.update (s.db pb).header.bcnt
              (sub32 h.bcnt s.binfo.bcnt_start % cfg.BASELINES_PER_BLOCK) h.bcnt ∧
      ((place_payload cfg s f h pb).db pb).header.mcnt
          = Function.update (s.db pb).header.mcnt
              (sub32 h.bcnt s.binfo.bcnt_start % cfg.BASELINES_PER_BLOCK)
              ((h.mcnt - cfg.Nt * ((h.mcnt / cfg.Nt) % cfg.TIME_DEMUX))
                % 18446744073709551616) ∧
      ((place_payload cfg s f h pb).db pb).header.ant_pair_0
          = Function.update (s.db pb).header.ant_pair_0
              (sub32 h.bcnt s.binfo.bcnt_start % cfg.BASELINES_PER_BLOCK) h.ant0 ∧
      ((place_payload cfg s f h pb).db pb).header.ant_pair_1
          = Function.update (s.db pb).header.ant_pair_1
              (sub32 h.bcnt s.binfo.bcnt_start % cfg.BASELINES_PER_BLOCK) h.ant1 ∧
      (place_payload cfg s f h pb).binfo.baselines
          = set_cell s.binfo.baselines pb
              (sub32 h.bcnt s.binfo.bcnt_start % cfg.BASELINES_PER_BLOCK) 1) ∧
    (s.binfo.baselines pb (sub32 h.bcnt s.binfo.bcnt_start % cfg.BASELINES_PER_BLOCK) ≠ 0 →
      ((place_payload cfg s f h pb).db pb).header = (s.db pb).header ∧
      (place_payload cfg s f h pb).binfo.baselines = s.binfo.baselines) := by
  constructor
  · intro hb
    simp [place_payload, hb]
  · intro hb
    simp [place_payload, hb]

/-- C3 (as amended): in a consistent initialised state, for a packet whose distance `d`
from the anchor satisfies `2*BASELINES_PER_BLOCK <= d < 3*BASELINES_PER_BLOCK`, whose
computed `pkt_offset` is below `PACKETS_PER_BLOCK`, and when both ring calls return
`HASHPIPE_OK`, `process_packet` returns the first `bcnt` of the current block, marks
exactly that block (`binfo.block_i`) filled, advances `bcnt_start` by
`BASELINES_PER_BLOCK` (a 32-bit sum) and `block_i` to `(block_i+1) mod CATCHER_N_BLOCKS`,
sets `out_of_seq_cnt` to 0, and leaves the packet's block, which is the block two ahead of
the old current block, freshly reset and holding exactly this packet: packet counter 1,
all flags 1 except the packet's, all baseline marks 0 except the packet's, `good_data = 0`,
`bcnt[0] = new bcnt_start + BASELINES_PER_BLOCK`, the packet's header words promoted and
its payload copied; no other block's payload changes. -/
theorem advance_case (cfg : NetConfig) (hwf : cfg.wf) (env : RingEnv) (s : NetState)
    (f : hera_ibv_xeng_pkt) (hs : Consistent cfg s)
    (h1 : env.set_filled_rv = hashpipe_rv.HASHPIPE_OK)
    (h2 : env.busywait_free_rv = hashpipe_rv.HASHPIPE_OK)
    (hd2 : 2 * (cfg.BASELINES_PER_BLOCK : Int) ≤ pkt_bcnt_dist s (get_header f))
    (hd3 : pkt_bcnt_dist s (get_header f) < 3 * (cfg.BASELINES_PER_BLOCK : Int))
    (hoff : pkt_offset_of cfg
      ((s.binfo.bcnt_start + cfg.BASELINES_PER_BLOCK) % 4294967296) (get_header f)
        < cfg.PACKETS_PER_BLOCK) :
    ∃ s1 ev,
      process_packet cfg env s f
        = Outcome.returned s1 ((s.db s.binfo.block_i).header.bcnt 0 % 4294967296) ev ∧
      filled_blocks ev = [s.binfo.block_i] ∧
      s1.binfo.bcnt_start = (s.binfo.bcnt_start + cfg.BASELINES_PER_BLOCK) % 4294967296 ∧
      s1.binfo.block_i = (s.binfo.block_i + 1) % cfg.CATCHER_N_BLOCKS ∧
      s1.binfo.out_of_seq_cnt = 0 ∧
      s1.first_bcnt = s.first_bcnt ∧
      block_for_bcnt cfg s.first_bcnt (get_header f).bcnt
        = (s.binfo.block_i + 2) % cfg.CATCHER_N_BLOCKS ∧
      s1.binfo.block_packet_counter ((s.binfo.block_i + 2) % cfg.CATCHER_N_BLOCKS) = 1 ∧
      (∀ j, j < cfg.PACKETS_PER_BLOCK →
        s1.binfo.flags ((s.binfo.block_i + 2) % cfg.CATCHER_N_BLOCKS) j
          = if j = pkt_offset_of cfg s1.binfo.bcnt_start (get_header f) then 0 else 1) ∧
      (∀ k, k < cfg.BASELINES_PER_BLOCK →
        s1.binfo.baselines ((s.binfo.block_i + 2) % cfg.CATCHER_N_BLOCKS) k
          = if k = sub32 (get_header f).bcnt s1.binfo.bcnt_start % cfg.BASELINES_PER_BLOCK
            then 1 else 0) ∧
      (s1.db ((s.binfo.block_i + 2) % cfg.CATCHER_N_BLOCKS)).header.good_data = 0 ∧
      (s1.db ((s.binfo.block_i + 2) % cfg.CATCHER_N_BLOCKS)).header.bcnt 0
        = (s1.binfo.bcnt_start + cfg.BASELINES_PER_BLOCK) % 4294967296 ∧
      (s1.db ((s.binfo.block_i + 2) % cfg.CATCHER_N_BLOCKS)).header.bcnt
          (sub32 (get_header f).bcnt s1.binfo.bcnt_start % cfg.BASELINES_PER_BLOCK)
        = (get_header f).bcnt ∧
      (s1.db ((s.binfo.block_i + 2) % cfg.CATCHER_N_BLOCKS)).header.ant_pair_0
          (sub32 (get_header f).bcnt s1.binfo.bcnt_start % cfg.BASELINES_PER_BLOCK)
        = (get_header f).ant0 ∧
      (s1.db ((s.binfo.block_i + 2) % cfg.CATCHER_N_BLOCKS)).header.ant_pair_1
          (sub32 (get_header f).bcnt s1.binfo.bcnt_start % cfg.BASELINES_PER_BLOCK)
        = (get_header f).ant1 ∧
      (s1.db ((s.binfo.block_i + 2) % cfg.CATCHER_N_BLOCKS)).data
        = memcpy_payload (s.db ((s.binfo.block_i + 2) % cfg.CATCHER_N_BLOCKS)).data f.payload
            (dest_byte_offset (get_header f)
              (pkt_offset_of cfg s1.binfo.bcnt_start (get_header f)))
            (get_header f).payload_len ∧
      (∀ i, i ≠ (s.binfo.block_i + 2) % cfg.CATCHER_N_BLOCKS →
        (s1.db i).data = (s.db i).data) := by
  obtain ⟨hpb, hbmod, hlo, hhi⟩ := packet_block cfg hwf s hs (get_header f) 2
    (by push_cast; omega) (by push_cast; omega)
  have h2a := two_blocks_ahead cfg hwf s hs
  obtain ⟨sa, eva, hadv, hbin, hfb, hfe, hdata, hm, ha0, ha1, hgood, hb0, hbk, hoth⟩ :=
    advance_block_ok cfg env s (block_for_bcnt cfg s.first_bcnt (get_header f).bcnt) h1 h2
  rw [hs.2.2.2.2.2] at hadv hfe
  rw [h2a] at hgood hb0 hbk hoth
  rw [hpb] at hadv hbin
  have hbs : sa.binfo.bcnt_start
      = (s.binfo.bcnt_start + cfg.BASELINES_PER_BLOCK) % 4294967296 := by rw [hbin]; rfl
  have hpos := hwf.1
  have hbl : sub32 (get_header f).bcnt sa.binfo.bcnt_start % cfg.BASELINES_PER_BLOCK
      < cfg.BASELINES_PER_BLOCK := Nat.mod_lt _ hpos
  have hflag : sa.binfo.flags ((s.binfo.block_i + 2) % cfg.CATCHER_N_BLOCKS)
      (pkt_offset_of cfg sa.binfo.bcnt_start (get_header f)) ≠ 0 := by
    rw [hbs, hbin]
    simp [reset_block_counters, memset_row, hoff]
  have hbase : sa.binfo.baselines ((s.binfo.block_i + 2) % cfg.CATCHER_N_BLOCKS)
      (sub32 (get_header f).bcnt sa.binfo.bcnt_start % cfg.BASELINES_PER_BLOCK) = 0 := by
    have : ∀ k, k < cfg.BASELINES_PER_BLOCK →
        sa.binfo.baselines ((s.binfo.block_i + 2) % cfg.CATCHER_N_BLOCKS) k = 0 := by
      intro k hk
      rw [hbin]
      simp [reset_block_counters, memset_row, hk]
    exact this _ hbl
  obtain ⟨hp_data, hp_good, hp_other⟩ := place_payload_db cfg sa f (get_header f)
    ((s.binfo.block_i + 2) % cfg.CATCHER_N_BLOCKS)
  obtain ⟨hp_bcnt, hp_mcnt, hp_a0, hp_a1, hp_base⟩ :=
    (place_payload_header cfg sa f (get_header f)
      ((s.binfo.block_i + 2) % cfg.CATCHER_N_BLOCKS)).1 hbase
  rw [process_packet_advance cfg env s f hs.1 hd2 hd3, hpb, hadv]
  simp only [store_packet, List.nil_append]
  rw [if_neg hflag]
  refine ⟨_, _, rfl, hfe, hbs, ?_, ?_, hfb, trivial, ?_, ?_, ?_, ?_, ?_, ?_, ?_, ?_, ?_, ?_⟩
  · rw [place_payload_block_i, hbin]; rfl
  · rw [place_payload_out_of_seq, hbin]; rfl
  · rw [place_payload_counter, hbin]
    simp [reset_block_counters]
  · intro j hj
    rw [place_payload_flags, place_payload_bcnt_start, hbin]
    simp only [reset_block_counters, set_cell, memset_row, true_and, hj, if_true]
  · intro k hk
    rw [hp_base, place_payload_bcnt_start]
    have hk0 : sa.binfo.baselines ((s.binfo.block_i + 2) % cfg.CATCHER_N_BLOCKS) k = 0 := by
      rw [hbin]
      simp [reset_block_counters, memset_row, hk]
    simp only [set_cell, true_and]
    split_ifs
    · rfl
    · exact hk0
  · rw [hp_good]; exact hgood
  · rw [hp_bcnt, place_payload_bcnt_start]
    by_cases hb : sub32 (get_header f).bcnt sa.binfo.bcnt_start % cfg.BASELINES_PER_BLOCK = 0
    · rw [hb, Function.update_same]
      have hstep := sub32_step (get_header f).bcnt s.binfo.bcnt_start
        cfg.BASELINES_PER_BLOCK (by omega)
      rw [hbs, hstep] at hb
      have hD : sub32 (get_header f).bcnt s.binfo.bcnt_start
          = 2 * cfg.BASELINES_PER_BLOCK := by
        have hmod := Nat.mod_eq_of_lt (show sub32 (get_header f).bcnt s.binfo.bcnt_start
          - 2 * cfg.BASELINES_PER_BLOCK < cfg.BASELINES_PER_BLOCK by omega)
        have hsub : (sub32 (get_header f).bcnt s.binfo.bcnt_start - cfg.BASELINES_PER_BLOCK)
            % cfg.BASELINES_PER_BLOCK
            = (sub32 (get_header f).bcnt s.binfo.bcnt_start - 2 * cfg.BASELINES_PER_BLOCK)
              % cfg.BASELINES_PER_BLOCK := by
          have e : sub32 (get_header f).bcnt s.binfo.bcnt_start - cfg.BASELINES_PER_BLOCK
              = (sub32 (get_header f).bcnt s.binfo.bcnt_start
                  - 2 * cfg.BASELINES_PER_BLOCK) + cfg.BASELINES_PER_BLOCK := by omega
          rw [e, Nat.add_mod_right]
        omega
      have hcan := add_sub32_cancel (get_header f).bcnt s.binfo.bcnt_start
      have hlt := get_header_bcnt_lt f
      rw [hD] at hcan
      rw [hbs]
      omega
    · rw [Function.update_noteq (Ne.symm hb), hbs]
      exact hb0
  · rw [hp_bcnt, place_payload_bcnt_start, Function.update_same]
  · rw [hp_a0, place_payload_bcnt_start, Function.update_same]
  · rw [hp_a1, place_payload_bcnt_start, Function.update_same]
  · rw [hp_data, place_payload_bcnt_start, hdata]
  · intro i hi
    rw [hp_other i hi]
    exact hdata i

theorem advance_case_witness :
    ∃ s1 ev,
      process_packet cfgNet envOK s_100 (mk_frame 109 2 1 1) = Outcome.returned s1 100 ev ∧
      filled_blocks ev = [0] ∧
      s1.binfo.bcnt_start = 104 ∧
      s1.binfo.block_i = 1 ∧
      s1.binfo.out_of_seq_cnt = 0 ∧
      s1.first_bcnt = 100 ∧
      block_for_bcnt cfgNet 100 109 = 2 ∧
      s1.binfo.block_packet_counter 2 = 1 :=
  let ⟨s1, ev, h⟩ := advance_case cfgNet (by decide) envOK s_100 (mk_frame 109 2 1 1)
    (by decide) rfl rfl (by decide) (by decide) (by decide)
  ⟨s1, ev, h.1, h.2.1, h.2.2.1, h.2.2.2.1, h.2.2.2.2.1, h.2.2.2.2.2.1, h.2.2.2.2.2.2.1,
    h.2.2.2.2.2.2.2.1⟩

/-- C3 as stated fails: with the packet two blocks ahead of the anchor but the wait for
the free block timing out, the current block is marked filled and the thread exits; the
packet is not stored (its block keeps packet counter 0 and its payload bytes). -/
theorem advance_case_counterexample :
    Consistent cfgNet s_100 ∧
    2 * (cfgNet.BASELINES_PER_BLOCK : Int)
      ≤ pkt_bcnt_dist s_100 (get_header (mk_frame 109 2 1 1)) ∧
    pkt_bcnt_dist s_100 (get_header (mk_frame 109 2 1 1))
      < 3 * (cfgNet.BASELINES_PER_BLOCK : Int) ∧
    ∃ s1 ev,
      process_packet cfgNet envTimeout s_100 (mk_frame 109 2 1 1)
        = Outcome.thread_exit s1 ev ∧
      filled_blocks ev = [0] ∧
      s1.binfo.block_packet_counter 2 = 0 ∧
      (∀ k, (s1.db 2).data k = (s_100.db 2).data k) :=
  ⟨by decide, by decide, by decide, _, _, rfl, by decide, by decide, fun _ => rfl⟩

/-- Whatever the ring answers, `advance_block` changes no payload byte and does not move
`first_bcnt`; when it returns, the current block has moved on by one. -/
theorem advance_block_frame (cfg : NetConfig) (env : RingEnv) (s : NetState) (pb : Nat) :
    (∀ i, ((advance_block cfg env s pb).state.db i).data = (s.db i).data) ∧
    (advance_block cfg env s pb).state.first_bcnt = s.first_bcnt ∧
    filled_blocks (advance_block cfg env s pb).events
      = [block_for_bcnt cfg s.first_bcnt s.binfo.bcnt_start] ∧
    (∀ s1 nb ev, advance_block cfg env s pb = Outcome.returned s1 nb ev →
      s1.binfo.block_i = (s.binfo.block_i + 1) % cfg.CATCHER_N_BLOCKS) := by
  obtain ⟨fb, ff, fe, fd, -⟩ := set_block_filled_frame cfg env s
  unfold advance_block
  cases hf : set_block_filled cfg env s with
  | thread_exit s2 ev2 =>
    rw [hf] at fb ff fe fd
    simp only [Outcome.state, Outcome.events] at fb ff fe fd ⊢
    exact ⟨fd, ff, fe, fun _ _ _ h => Outcome.noConfusion h⟩
  | returned s2 nb2 ev2 =>
    rw [hf] at fb ff fe fd
    simp only [Outcome.state, Outcome.events] at fb ff fe fd ⊢
    by_cases hrv : env.busywait_free_rv = hashpipe_rv.HASHPIPE_OK
    · simp only [hrv, ne_eq, not_true_eq_false, if_false, Outcome.state, Outcome.events]
      refine ⟨fun i => ?_, ff, ?_, ?_⟩
      · rw [initialize_block_data]; exact fd i
      · simp only [filled_blocks_append, fe]
        split_ifs <;> simp [filled_blocks]
      · intro s1 nb ev h
        injection h with hs hr he
        subst hs
        simp [fb]
    · simp only [ne_eq, hrv, not_false_eq_true, if_true, Outcome.state, Outcome.events]
      refine ⟨fd, ff, ?_, fun _ _ _ h => Outcome.noConfusion h⟩
      simp only [filled_blocks_append, fe]
      split_ifs <;> simp [filled_blocks]

theorem store_packet_frame (cfg : NetConfig) (s : NetState) (f : hera_ibv_xeng_pkt)
    (h : packet_header_t) (pb nb : Nat) (ev : List NetEvent) :
    (∀ i, i ≠ pb → ((store_packet cfg s f h pb nb ev).state.db i) = (s.db i)) ∧
    (store_packet cfg s f h pb nb ev).state.first_bcnt = s.first_bcnt ∧
    (store_packet cfg s f h pb nb ev).state.binfo.block_i = s.binfo.block_i ∧
    (store_packet cfg s f h pb nb ev).state.binfo.bcnt_start = s.binfo.bcnt_start ∧
    filled_blocks (store_packet cfg s f h pb nb ev).events = filled_blocks ev := by
  unfold store_packet
  split_ifs with hdup
  · exact ⟨fun _ _ => rfl, rfl, rfl, rfl,
      by simp [Outcome.events, filled_blocks_append, filled_blocks]⟩
  · exact ⟨(place_payload_db cfg s f h pb).2.2, rfl, rfl, rfl, rfl⟩

theorem reset_binfo_data (cfg : NetConfig) (s : NetState) (h : packet_header_t) (i : Nat) :
    ((reset_binfo cfg s h).1.db i).data = (s.db i).data := by
  unfold reset_binfo
  simp only [initialize_block_data]

/-! ## Theorems: the consistency of anchor, base and block index is invariant -/

theorem dvd_add_mod32 (cfg : NetConfig) (hwf : cfg.wf) (a : Nat)
    (ha : cfg.BASELINES_PER_BLOCK ∣ a) :
    cfg.BASELINES_PER_BLOCK ∣ (a + cfg.BASELINES_PER_BLOCK) % 4294967296 :=
  (Nat.dvd_mod_iff (wf_bpb_dvd cfg hwf)).2 (Dvd.dvd.add ha (dvd_refl _))

theorem round_down_dvd (cfg : NetConfig) (p : Nat) :
    cfg.BASELINES_PER_BLOCK ∣ p - p % cfg.BASELINES_PER_BLOCK := by
  refine ⟨p / cfg.BASELINES_PER_BLOCK, ?_⟩
  have := Nat.div_add_mod p cfg.BASELINES_PER_BLOCK
  omega

/-- The anchors after `advance_block`, when it gets as far as moving them. -/
theorem consistent_advance (cfg : NetConfig) (hwf : cfg.wf) (s s1 : NetState)
    (hs : Consistent cfg s) (hf : s1.first_bcnt = s.first_bcnt)
    (hi : s1.binfo.initialized = s.binfo.initialized)
    (hb : s1.binfo.bcnt_start
      = (s.binfo.bcnt_start + cfg.BASELINES_PER_BLOCK) % 4294967296)
    (hbi : s1.binfo.block_i = (s.binfo.block_i + 1) % cfg.CATCHER_N_BLOCKS) :
    Consistent cfg s1 := by
  obtain ⟨h1, h2, h3, h4, h5, h6⟩ := hs
  refine ⟨by rw [hi]; exact h1, by rw [hb]; exact Nat.mod_lt _ (by norm_num),
    by rw [hbi]; exact Nat.mod_lt _ hwf.2.1, by rw [hb]; exact dvd_add_mod32 cfg hwf _ h4,
    ?_, ?_⟩
  · rw [hb, hf, sub32_add]
    exact dvd_add_mod32 cfg hwf _ h5
  · rw [hb, hf, hbi, block_for_bcnt_add cfg hwf _ _ _ h5, h6, Nat.div_self hwf.1]

theorem consistent_of_anchor_eq (cfg : NetConfig) (s s1 : NetState)
    (hs : Consistent cfg s) (hf : s1.first_bcnt = s.first_bcnt)
    (hi : s1.binfo.initialized = s.binfo.initialized)
    (hb : s1.binfo.bcnt_start = s.binfo.bcnt_start)
    (hbi : s1.binfo.block_i = s.binfo.block_i) : Consistent cfg s1 := by
  unfold Consistent at *
  rw [hf, hi, hb, hbi]
  exact hs

theorem reset_binfo_consistent (cfg : NetConfig) (hwf : cfg.wf) (s : NetState)
    (h : packet_header_t) (hp : h.bcnt < 4294967296) (hs : Consistent cfg s) :
    Consistent cfg (reset_binfo cfg s h).1 := by
  have hbi := hs.2.2.1
  have hmul := block_mul_lt cfg hwf _ hbi
  have hA : sub32 (h.bcnt - h.bcnt % cfg.BASELINES_PER_BLOCK)
      (sub32 (h.bcnt - h.bcnt % cfg.BASELINES_PER_BLOCK)
        (s.binfo.block_i * cfg.BASELINES_PER_BLOCK))
      = s.binfo.block_i * cfg.BASELINES_PER_BLOCK := by
    rw [sub32_sub32, Nat.mod_eq_of_lt hmul]
  refine ⟨hs.1, ?_, hbi, round_down_dvd cfg _, ?_, ?_⟩
  · show h.bcnt - h.bcnt % cfg.BASELINES_PER_BLOCK < 4294967296
    omega
  · show cfg.BASELINES_PER_BLOCK ∣ sub32 (h.bcnt - h.bcnt % cfg.BASELINES_PER_BLOCK)
      (sub32 (h.bcnt - h.bcnt % cfg.BASELINES_PER_BLOCK)
        (s.binfo.block_i * cfg.BASELINES_PER_BLOCK))
    rw [hA]; exact Dvd.intro_left _ rfl
  · show block_for_bcnt cfg (sub32 (h.bcnt - h.bcnt % cfg.BASELINES_PER_BLOCK)
        (s.binfo.block_i * cfg.BASELINES_PER_BLOCK))
      (h.bcnt - h.bcnt % cfg.BASELINES_PER_BLOCK) = s.binfo.block_i
    unfold block_for_bcnt
    rw [hA, Nat.mul_div_cancel _ hwf.1, Nat.mod_eq_of_lt hbi]

theorem lazy_init_consistent (cfg : NetConfig) (hwf : cfg.wf) (s : NetState)
    (h : packet_header_t) (hp : h.bcnt < 4294967296) (h0 : s.binfo.initialized = 0) :
    Consistent cfg (lazy_init cfg s h).1 ∧
    (lazy_init cfg s h).1.binfo.bcnt_start = h.bcnt - h.bcnt % cfg.BASELINES_PER_BLOCK ∧
    (lazy_init cfg s h).1.first_bcnt = h.bcnt - h.bcnt % cfg.BASELINES_PER_BLOCK ∧
    (lazy_init cfg s h).1.binfo.block_i = 0 ∧
    (lazy_init cfg s h).1.binfo.out_of_seq_cnt = 0 := by
  have hsub : sub32 h.bcnt (h.bcnt - h.bcnt % cfg.BASELINES_PER_BLOCK)
      = h.bcnt % cfg.BASELINES_PER_BLOCK := by
    have := Nat.mod_le h.bcnt cfg.BASELINES_PER_BLOCK
    unfold sub32; omega
  have hblk : block_for_bcnt cfg (h.bcnt - h.bcnt % cfg.BASELINES_PER_BLOCK) h.bcnt = 0 := by
    unfold block_for_bcnt
    rw [hsub, Nat.div_eq_of_lt (Nat.mod_lt _ hwf.1), Nat.zero_mod]
  have hbs : (lazy_init cfg s h).1.binfo.bcnt_start
      = h.bcnt - h.bcnt % cfg.BASELINES_PER_BLOCK := by
    unfold lazy_init
    rw [if_pos h0]
    simp only [initialize_block_binfo, initialize_block_info, h0, ne_eq, not_true_eq_false,
      if_false]
    rw [(foldl_reset_scalars cfg _ _).2.1]
  have hfb : (lazy_init cfg s h).1.first_bcnt
      = h.bcnt - h.bcnt % cfg.BASELINES_PER_BLOCK := by
    unfold lazy_init
    rw [if_pos h0]
    rfl
  have hbi : (lazy_init cfg s h).1.binfo.block_i = 0 := by
    unfold lazy_init
    rw [if_pos h0]
    simp only [initialize_block_binfo, initialize_block_info, h0, ne_eq, not_true_eq_false,
      if_false]
    rw [(foldl_reset_scalars cfg _ _).2.2.1]
    exact hblk
  have hoos : (lazy_init cfg s h).1.binfo.out_of_seq_cnt = 0 := by
    unfold lazy_init
    rw [if_pos h0]
    simp only [initialize_block_binfo, initialize_block_info, h0, ne_eq, not_true_eq_false,
      if_false]
    rw [(foldl_reset_scalars cfg _ _).2.2.2.2]
  refine ⟨⟨lazy_init_initialized cfg s h, ?_, ?_, ?_, ?_, ?_⟩, hbs, hfb, hbi, hoos⟩
  · rw [hbs]; omega
  · rw [hbi]; exact hwf.2.1
  · rw [hbs]; exact round_down_dvd cfg _
  · rw [hbs, hfb, sub32_self]; exact dvd_zero _
  · rw [hbs, hfb, hbi]
    unfold block_for_bcnt
    rw [sub32_self, Nat.zero_div, Nat.zero_mod]

theorem store_packet_prepend (cfg : NetConfig) (s : NetState) (f : hera_ibv_xeng_pkt)
    (h : packet_header_t) (pb nb : Nat) (ev0 ev : List NetEvent) :
    store_packet cfg s f h pb nb (ev0 ++ ev)
      = (store_packet cfg s f h pb nb ev).prepend ev0 := by
  unfold store_packet
  split_ifs <;> simp [Outcome.prepend, List.append_assoc]

/-- The first packet ever is processed like any packet in the state that the lazy
initialisation leaves, after the two start-up messages. -/
theorem process_packet_prepend (cfg : NetConfig) (env : RingEnv) (s : NetState)
    (f : hera_ibv_xeng_pkt) :
    process_packet cfg env s f
      = (process_packet cfg env (lazy_init cfg s (get_header f)).1 f).prepend
          (lazy_init cfg s (get_header f)).2 := by
  have hinit := lazy_init_initialized cfg s (get_header f)
  generalize hs0 : (lazy_init cfg s (get_header f)).1 = s0 at hinit
  generalize hev0 : (lazy_init cfg s (get_header f)).2 = ev0
  unfold process_packet
  simp only [lazy_init_of_initialized cfg s0 _ hinit, hs0, hev0]
  by_cases hacc : 0 ≤ pkt_bcnt_dist s0 (get_header f)
      ∧ pkt_bcnt_dist s0 (get_header f) < 3 * (cfg.BASELINES_PER_BLOCK : Int)
  · rw [if_pos hacc, if_pos hacc]
    by_cases h2 : pkt_bcnt_dist s0 (get_header f) ≥ 2 * (cfg.BASELINES_PER_BLOCK : Int)
    · rw [if_pos h2, if_pos h2]
      cases advance_block cfg env s0 (block_for_bcnt cfg s0.first_bcnt (get_header f).bcnt) with
      | thread_exit s2 ev2 => simp [Outcome.prepend]
      | returned s2 nb2 ev2 =>
        simp only [List.nil_append]
        exact store_packet_prepend cfg s2 f _ _ _ ev0 ev2
    · rw [if_neg h2, if_neg h2]
      have := store_packet_prepend cfg s0 f (get_header f)
        (block_for_bcnt cfg s0.first_bcnt (get_header f).bcnt) 4294967295 ev0 []
      rw [List.append_nil] at this
      exact this
  · rw [if_neg hacc, if_neg hacc]
    by_cases hlate : pkt_bcnt_dist s0 (get_header f) < 0
        ∧ pkt_bcnt_dist s0 (get_header f) > -(cfg.LATE_PKT_BCNT_THRESHOLD : Int)
    · rw [if_pos hlate, if_pos hlate]
      simp [late_packet, Outcome.prepend]
    · rw [if_neg hlate, if_neg hlate]
      unfold out_of_seq_packet
      simp only []
      split_ifs <;> simp [Outcome.prepend, List.append_assoc]

theorem prepend_state (ev0 : List NetEvent) (o : Outcome) :
    (o.prepend ev0).state = o.state ∧ (o.prepend ev0).events = ev0 ++ o.events := by
  cases o <;> exact ⟨rfl, rfl⟩

/-- From a consistent state `process_packet` ends in a consistent state, whatever the
packet and whatever the ring answers. -/
theorem process_packet_consistent (cfg : NetConfig) (hwf : cfg.wf) (env : RingEnv)
    (s : NetState) (f : hera_ibv_xeng_pkt) (hs : Consistent cfg s) :
    Consistent cfg (process_packet cfg env s f).state := by
  by_cases hacc : 0 ≤ pkt_bcnt_dist s (get_header f)
      ∧ pkt_bcnt_dist s (get_header f) < 3 * (cfg.BASELINES_PER_BLOCK : Int)
  · by_cases h2 : 2 * (cfg.BASELINES_PER_BLOCK : Int) ≤ pkt_bcnt_dist s (get_header f)
    · rw [process_packet_advance cfg env s f hs.1 h2 hacc.2]
      obtain ⟨-, aff, -, abi⟩ := advance_block_frame cfg env s
        (block_for_bcnt cfg s.first_bcnt (get_header f).bcnt)
      cases hadv : advance_block cfg env s
          (block_for_bcnt cfg s.first_bcnt (get_header f).bcnt) with
      | thread_exit s2 ev2 =>
        simp only [Outcome.state]
        -- the thread exits either before or after the anchors have moved
        unfold advance_block at hadv
        obtain ⟨fb, ff, -⟩ := set_block_filled_frame cfg env s
        cases hf : set_block_filled cfg env s with
        | thread_exit s3 ev3 =>
          rw [hf] at hadv fb ff
          simp only [Outcome.state] at fb ff
          injection hadv with hs2 he2
          subst hs2
          exact consistent_of_anchor_eq cfg s _ hs ff (by rw [fb]) (by rw [fb]) (by rw [fb])
        | returned s3 nb3 ev3 =>
          rw [hf] at hadv fb ff
          simp only [Outcome.state] at fb ff
          by_cases hrv : env.busywait_free_rv = hashpipe_rv.HASHPIPE_OK
          · simp only [hrv, ne_eq, not_true_eq_false, if_false] at hadv
            exact Outcome.noConfusion hadv
          · simp only [ne_eq, hrv, not_false_eq_true, if_true] at hadv
            injection hadv with hs2 he2
            subst hs2
            exact consistent_advance cfg hwf s _ hs ff (by simp [fb]) (by simp [fb])
              (by simp [fb])
      | returned s2 nb2 ev2 =>
        simp only []
        obtain ⟨hfb, hbs, hin⟩ := advance_block_returned cfg env s s2 _ nb2 ev2 hadv
        have hc2 := consistent_advance cfg hwf s s2 hs hfb hin hbs (abi s2 nb2 ev2 hadv)
        obtain ⟨-, sf, sbi, sbs, -⟩ := store_packet_frame cfg s2 f (get_header f)
          (block_for_bcnt cfg s.first_bcnt (get_header f).bcnt) nb2 ([] ++ ev2)
        refine consistent_of_anchor_eq cfg s2 _ hc2 sf ?_ sbs sbi
        unfold store_packet
        split_ifs <;> rfl
    · rw [process_packet_in_window cfg env s f hs.1 hacc.1 (by omega)]
      obtain ⟨-, sf, sbi, sbs, -⟩ := store_packet_frame cfg s f (get_header f)
        (block_for_bcnt cfg s.first_bcnt (get_header f).bcnt) 4294967295 []
      refine consistent_of_anchor_eq cfg s _ hs sf ?_ sbs sbi
      unfold store_packet
      split_ifs <;> rfl
  · by_cases hlate : pkt_bcnt_dist s (get_header f) < 0
        ∧ pkt_bcnt_dist s (get_header f) > -(cfg.LATE_PKT_BCNT_THRESHOLD : Int)
    · rw [process_packet_late cfg env s f hs.1 hlate.1 hlate.2]
      exact hs
    · rw [process_packet_out_of_seq cfg env s f hs.1 hacc hlate]
      unfold out_of_seq_packet
      simp only []
      by_cases hc : s.binfo.out_of_seq_cnt + 1 > MAX_OUT_OF_SEQ_PKTS
      · rw [if_pos hc]
        exact reset_binfo_consistent cfg hwf _ _ (get_header_bcnt_lt f)
          (consistent_of_anchor_eq cfg s _ hs rfl rfl rfl rfl)
      · rw [if_neg hc]
        exact consistent_of_anchor_eq cfg s _ hs rfl rfl rfl rfl

/-- After its first packet and ever after, the thread is in a consistent state. -/
theorem process_packet_state_consistent (cfg : NetConfig) (hwf : cfg.wf) (env : RingEnv)
    (s : NetState) (f : hera_ibv_xeng_pkt)
    (hs : s.binfo.initialized = 0 ∨ Consistent cfg s) :
    Consistent cfg (process_packet cfg env s f).state := by
  rw [process_packet_prepend, (prepend_state _ _).1]
  apply process_packet_consistent cfg hwf
  rcases hs with h0 | hc
  · exact (lazy_init_consistent cfg hwf s _ (get_header_bcnt_lt f) h0).1
  · rw [lazy_init_of_initialized cfg s _ hc.1]
    exact hc

/-! ## Theorems: packets far behind the anchor -/

theorem initialize_block_keeps (cfg : NetConfig) (s : NetState) (b i : Nat) :
    ((initialize_block cfg s b).db i).data = (s.db i).data ∧
    ((initialize_block cfg s b).db i).header.mcnt = (s.db i).header.mcnt ∧
    ((initialize_block cfg s b).db i).header.ant_pair_0 = (s.db i).header.ant_pair_0 ∧
    ((initialize_block cfg s b).db i).header.ant_pair_1 = (s.db i).header.ant_pair_1 ∧
    (∀ k, k ≠ 0 →
      ((initialize_block cfg s b).db i).header.bcnt k = (s.db i).header.bcnt k) := by
  obtain ⟨-, -, h3, h4, h5, h6, h7⟩ := initialize_block_spec cfg s b
  refine ⟨initialize_block_data cfg s b i, h4 i, h5 i, h6 i, ?_⟩
  intro k hk
  by_cases hi : i = block_for_bcnt cfg s.first_bcnt b
  · subst hi; exact h3 k hk
  · rw [h7 i hi]

theorem reset_binfo_keeps (cfg : NetConfig) (s : NetState) (h : packet_header_t) (i : Nat) :
    ((reset_binfo cfg s h).1.db i).data = (s.db i).data ∧
    ((reset_binfo cfg s h).1.db i).header.mcnt = (s.db i).header.mcnt ∧
    ((reset_binfo cfg s h).1.db i).header.ant_pair_0 = (s.db i).header.ant_pair_0 ∧
    ((reset_binfo cfg s h).1.db i).header.ant_pair_1 = (s.db i).header.ant_pair_1 ∧
    (∀ k, k ≠ 0 → ((reset_binfo cfg s h).1.db i).header.bcnt k = (s.db i).header.bcnt k) ∧
    filled_blocks (reset_binfo cfg s h).2 = [] := by
  unfold reset_binfo
  simp only []
  obtain ⟨a1, a2, a3, a4, a5⟩ := initialize_block_keeps cfg
    (initialize_block cfg
      { s with
        first_bcnt := sub32 (h.bcnt - h.bcnt % cfg.BASELINES_PER_BLOCK)
          (s.binfo.block_i * cfg.BASELINES_PER_BLOCK)
        binfo := reset_block_counters cfg
          (reset_block_counters cfg
            { s.binfo with
              bcnt_start := h.bcnt - h.bcnt % cfg.BASELINES_PER_BLOCK
              bcnt_log_late := (h.bcnt - h.bcnt % cfg.BASELINES_PER_BLOCK
                + 2 * cfg.BASELINES_PER_BLOCK) % 4294967296
              out_of_seq_cnt := 0 } s.binfo.block_i)
          ((s.binfo.block_i + 1) % cfg.CATCHER_N_BLOCKS) }
      (h.bcnt - h.bcnt % cfg.BASELINES_PER_BLOCK))
    ((h.bcnt - h.bcnt % cfg.BASELINES_PER_BLOCK + cfg.BASELINES_PER_BLOCK) % 4294967296) i
  obtain ⟨b1, b2, b3, b4, b5⟩ := initialize_block_keeps cfg
    { s with
      first_bcnt := sub32 (h.bcnt - h.bcnt % cfg.BASELINES_PER_BLOCK)
        (s.binfo.block_i * cfg.BASELINES_PER_BLOCK)
      binfo := reset_block_counters cfg
        (reset_block_counters cfg
          { s.binfo with
            bcnt_start := h.bcnt - h.bcnt % cfg.BASELINES_PER_BLOCK
            bcnt_log_late := (h.bcnt - h.bcnt % cfg.BASELINES_PER_BLOCK
              + 2 * cfg.BASELINES_PER_BLOCK) % 4294967296
            out_of_seq_cnt := 0 } s.binfo.block_i)
        ((s.binfo.block_i + 1) % cfg.CATCHER_N_BLOCKS) }
    (h.bcnt - h.bcnt % cfg.BASELINES_PER_BLOCK) i
  exact ⟨a1.trans b1, a2.trans b2, a3.trans b3, a4.trans b4,
    fun k hk => (a5 k hk).trans (b5 k hk), rfl⟩

/-- C9 (as amended): in an initialised state, a packet whose `bcnt` is more than
`LATE_PKT_BCNT_THRESHOLD` behind the anchor is dropped: `process_packet` returns `-1`,
marks no block filled and changes no payload byte and no `mcnt`, antenna or `bcnt[k]`
(`k > 0`) header word of any block.  As long as the incremented `out_of_seq_cnt` does not
exceed `MAX_OUT_OF_SEQ_PKTS`, nothing but `out_of_seq_cnt` changes at all; otherwise the
thread re-synchronises on the packet. -/
theorem very_late_packet (cfg : NetConfig) (env : RingEnv) (s : NetState)
    (f : hera_ibv_xeng_pkt) (hinit : s.binfo.initialized ≠ 0)
    (hd : pkt_bcnt_dist s (get_header f) < -(cfg.LATE_PKT_BCNT_THRESHOLD : Int)) :
    ∃ s1 ev,
      process_packet cfg env s f = Outcome.returned s1 4294967295 ev ∧
      filled_blocks ev = [] ∧
      (∀ i, (s1.db i).data = (s.db i).data ∧
        (s1.db i).header.mcnt = (s.db i).header.mcnt ∧
        (s1.db i).header.ant_pair_0 = (s.db i).header.ant_pair_0 ∧
        (s1.db i).header.ant_pair_1 = (s.db i).header.ant_pair_1 ∧
        (∀ k, k ≠ 0 → (s1.db i).header.bcnt k = (s.db i).header.bcnt k)) ∧
      (s.binfo.out_of_seq_cnt + 1 ≤ MAX_OUT_OF_SEQ_PKTS →
        s1 = { s with
          binfo := { s.binfo with out_of_seq_cnt := s.binfo.out_of_seq_cnt + 1 } }) ∧
      (s.binfo.out_of_seq_cnt + 1 > MAX_OUT_OF_SEQ_PKTS →
        s1 = (reset_binfo cfg
          { s with binfo := { s.binfo with out_of_seq_cnt := s.binfo.out_of_seq_cnt + 1 } }
          (get_header f)).1) := by
  rw [process_packet_out_of_seq cfg env s f hinit (by omega) (by omega)]
  unfold out_of_seq_packet
  simp only []
  by_cases hc : s.binfo.out_of_seq_cnt + 1 > MAX_OUT_OF_SEQ_PKTS
  · rw [if_pos hc]
    refine ⟨_, _, rfl, ?_, ?_, fun h => absurd hc (by omega), fun _ => rfl⟩
    · simp only [filled_blocks_append, (reset_binfo_keeps cfg _ _ 0).2.2.2.2.2]
      split_ifs <;> rfl
    · intro i
      obtain ⟨a1, a2, a3, a4, a5, -⟩ := reset_binfo_keeps cfg
        { s with binfo := { s.binfo with out_of_seq_cnt := s.binfo.out_of_seq_cnt + 1 } }
        (get_header f) i
      exact ⟨a1, a2, a3, a4, a5⟩
  · rw [if_neg hc]
    refine ⟨_, _, rfl, ?_, fun i => ⟨rfl, rfl, rfl, rfl, fun _ _ => rfl⟩, fun _ => rfl,
      fun h => absurd h hc⟩
    simp only [filled_blocks_append]
    split_ifs <;> rfl

/-- Packets out of sequence only count up, as long as the count stays within
`MAX_OUT_OF_SEQ_PKTS`. -/
theorem run_out_of_seq (cfg : NetConfig) (env : RingEnv) (f : hera_ibv_xeng_pkt) (n : Nat)
    (s : NetState) (hinit : s.binfo.initialized ≠ 0)
    (hacc : ¬ (0 ≤ pkt_bcnt_dist s (get_header f)
      ∧ pkt_bcnt_dist s (get_header f) < 3 * (cfg.BASELINES_PER_BLOCK : Int)))
    (hlate : ¬ (pkt_bcnt_dist s (get_header f) < 0
      ∧ pkt_bcnt_dist s (get_header f) > -(cfg.LATE_PKT_BCNT_THRESHOLD : Int)))
    (hn : s.binfo.out_of_seq_cnt + n ≤ MAX_OUT_OF_SEQ_PKTS) :
    (run_packets cfg s (List.replicate n (env, f))).state
      = { s with binfo := { s.binfo with out_of_seq_cnt := s.binfo.out_of_seq_cnt + n } } ∧
    (run_packets cfg s (List.replicate n (env, f))).exited = false ∧
    filled_blocks (run_packets cfg s (List.replicate n (env, f))).events = [] := by
  induction n generalizing s with
  | zero => exact ⟨rfl, rfl, rfl⟩
  | succ n ih =>
    rw [List.replicate_succ]
    unfold run_packets
    rw [process_packet_out_of_seq cfg env s f hinit hacc hlate]
    unfold out_of_seq_packet
    simp only []
    rw [if_neg (by omega)]
    simp only []
    obtain ⟨h1, h2, h3⟩ := ih
      { s with binfo := { s.binfo with out_of_seq_cnt := s.binfo.out_of_seq_cnt + 1 } }
      hinit hacc hlate (by simp only []; omega)
    refine ⟨?_, h2, ?_⟩
    · rw [h1]
      simp only [Nat.add_assoc, Nat.add_comm 1 n]
    · rw [filled_blocks_append, h3, filled_blocks_append]
      split_ifs <;> rfl

theorem run_packets_cons (cfg : NetConfig) (s s1 : NetState) (env : RingEnv)
    (f : hera_ibv_xeng_pkt) (rest : List (RingEnv × hera_ibv_xeng_pkt)) (r : Nat)
    (ev : List NetEvent) (h : process_packet cfg env s f = Outcome.returned s1 r ev) :
    run_packets cfg s ((env, f) :: rest)
      = { state := (run_packets cfg s1 rest).state
          events := ev ++ (run_packets cfg s1 rest).events
          exited := (run_packets cfg s1 rest).exited } := by
  rw [run_packets, h]

theorem run_packets_cons_state (cfg : NetConfig) (s s1 : NetState) (env : RingEnv)
    (f : hera_ibv_xeng_pkt) (rest : List (RingEnv × hera_ibv_xeng_pkt)) (r : Nat)
    (ev : List NetEvent) (h : process_packet cfg env s f = Outcome.returned s1 r ev) :
    (run_packets cfg s ((env, f) :: rest)).state = (run_packets cfg s1 rest).state := by
  rw [run_packets_cons cfg s s1 env f rest r ev h]

theorem s_1000_first :
    process_packet cfgNet envOK s_start (mk_frame 1000 0 0 0)
      = Outcome.returned s_1000 4294967295
          [NetEvent.msg_initializing, NetEvent.msg_initializing] := rfl

/-- The late-packet scenario leads to the state `s_4096`. -/
theorem late_trace_reaches : (run_packets cfgNet s_start late_trace).state = s_4096 := by
  have h := (run_out_of_seq cfgNet envOK (mk_frame 0 0 0 0) 4096 s_1000 (by decide)
    (by decide) (by decide) (by decide)).1
  have e0 : s_1000.binfo.out_of_seq_cnt = 0 := by decide
  unfold late_trace
  rw [run_packets_cons_state cfgNet s_start s_1000 envOK _ _ _ _ s_1000_first, h, e0]
  rfl

theorem very_late_packet_witness :
    ∃ s1 ev,
      process_packet cfgNet envOK s_1000 (mk_frame 0 0 0 0)
        = Outcome.returned s1 4294967295 ev ∧
      filled_blocks ev = [] ∧
      (∀ i, (s1.db i).data = (s_1000.db i).data ∧
        (s1.db i).header.mcnt = (s_1000.db i).header.mcnt ∧
        (s1.db i).header.ant_pair_0 = (s_1000.db i).header.ant_pair_0 ∧
        (s1.db i).header.ant_pair_1 = (s_1000.db i).header.ant_pair_1 ∧
        (∀ k, k ≠ 0 → (s1.db i).header.bcnt k = (s_1000.db i).header.bcnt k)) ∧
      s1 = { s_1000 with binfo := { s_1000.binfo with out_of_seq_cnt := 1 } } :=
  let ⟨s1, ev, h⟩ := very_late_packet cfgNet envOK s_1000 (mk_frame 0 0 0 0) (by decide)
    (by decide)
  ⟨s1, ev, h.1, h.2.1, h.2.2.1, h.2.2.2.1 (by decide)⟩

/-- C9 as stated fails: after a first packet with `bcnt = 1000` and 4096 packets with
`bcnt = 0`, one more packet with `bcnt = 0`, which is far more than
`LATE_PKT_BCNT_THRESHOLD = 32` behind the anchor, makes the thread re-synchronise, and
`header.bcnt[0]` of block 0 changes from 1000 to 0. -/
theorem very_late_packet_counterexample :
    (run_packets cfgNet s_start late_trace).state = s_4096 ∧
    pkt_bcnt_dist s_4096 (get_header (mk_frame 0 0 0 0))
      < -(cfgNet.LATE_PKT_BCNT_THRESHOLD : Int) ∧
    (s_4096.db 0).header.bcnt 0 = 1000 ∧
    ∃ s1 ev,
      process_packet cfgNet envOK s_4096 (mk_frame 0 0 0 0)
        = Outcome.returned s1 4294967295 ev ∧
      (s1.db 0).header.bcnt 0 = 0 :=
  ⟨late_trace_reaches, by decide, by decide, _, _, rfl, by decide⟩

theorem reset_postcondition_witness :
    ∃ s1 ev,
      process_packet cfgNet envOK s_4096 (mk_frame 50 0 0 0)
        = Outcome.returned s1 4294967295 ev ∧
      s1.binfo.bcnt_start = 48 ∧
      s1.first_bcnt = 48 ∧
      s1.binfo.block_i = 0 ∧
      block_for_bcnt cfgNet s1.first_bcnt s1.binfo.bcnt_start = s1.binfo.block_i ∧
      s1.binfo.out_of_seq_cnt = 0 :=
  let ⟨s1, ev, h⟩ := reset_postcondition cfgNet (by decide) (by decide) envOK s_4096
    (mk_frame 50 0 0 0) (by decide) (by decide) (by decide) (by decide) (by decide)
  ⟨s1, ev, h.1, h.2.1, h.2.2.1.trans (by rw [h.2.1]; decide), h.2.2.2.1, h.2.2.2.2.1,
    h.2.2.2.2.2.1⟩

/-! ## Theorems: the blocks delivered, in order -/

theorem last_delivery_append (l1 l2 : List (Option Nat)) (last : Option Nat) :
    last_delivery last (l1 ++ l2) = last_delivery (last_delivery last l1) l2 := by
  induction l1 generalizing last with
  | nil => rfl
  | cons d l ih => simp [last_delivery, ih]

theorem wf_two_blocks (cfg : NetConfig) (hwf : cfg.wf) (hnb : 2 ≤ cfg.CATCHER_N_BLOCKS) :
    2 * cfg.BASELINES_PER_BLOCK ≤ 4294967296 := by
  have h1 := wf_span_le cfg hwf
  have h2 : cfg.BASELINES_PER_BLOCK * 2 ≤ cfg.BASELINES_PER_BLOCK * cfg.CATCHER_N_BLOCKS :=
    Nat.mul_le_mul_left _ hnb
  omega

theorem advance_block_env (cfg : NetConfig) (env : RingEnv) (s s1 : NetState)
    (pb nb : Nat) (ev : List NetEvent)
    (h : advance_block cfg env s pb = Outcome.returned s1 nb ev) :
    env.set_filled_rv = hashpipe_rv.HASHPIPE_OK ∧
      env.busywait_free_rv = hashpipe_rv.HASHPIPE_OK := by
  unfold advance_block at h
  cases hf : set_block_filled cfg env s with
  | thread_exit s2 ev2 => rw [hf] at h; exact Outcome.noConfusion h
  | returned s2 nb2 ev2 =>
    rw [hf] at h
    obtain ⟨-, -, hrv1⟩ := set_block_filled_returned cfg env s s2 nb2 ev2 hf
    by_cases hrv : env.busywait_free_rv = hashpipe_rv.HASHPIPE_OK
    · exact ⟨hrv1, hrv⟩
    · simp only [ne_eq, hrv, not_false_eq_true, if_true] at h
      exact Outcome.noConfusion h

theorem succ_mod_succ (n i : Nat) : ((i + 1) % n + 1) % n = (i + 2) % n := by
  rw [Nat.add_mod, Nat.mod_mod, ← Nat.add_mod]

theorem prepend_returned (ev0 : List NetEvent) (o : Outcome) (s1 : NetState) (r : Nat)
    (ev : List NetEvent) (h : o.prepend ev0 = Outcome.returned s1 r ev) :
    ∃ ev1, o = Outcome.returned s1 r ev1 ∧ ev = ev0 ++ ev1 := by
  cases o with
  | thread_exit s2 ev2 => exact Outcome.noConfusion h
  | returned s2 r2 ev2 =>
    simp only [Outcome.prepend] at h
    injection h with h1 h2 h3
    subst h1 h2
    exact ⟨ev2, rfl, h3.symm⟩

theorem fills_append (l1 l2 : List NetEvent) : fills (l1 ++ l2) = fills l1 ++ fills l2 := by
  induction l1 with
  | nil => rfl
  | cons e l ih =>
    cases e <;> simp [fills, ih]

theorem pkt_offset_of_anchor (cfg : NetConfig) (hwf : cfg.wf) (bs : Nat)
    (h : packet_header_t) (hdvd : cfg.BASELINES_PER_BLOCK ∣ bs) :
    pkt_offset_of cfg bs h = pkt_offset_of cfg 0 h := by
  have hM := wf_bpb_dvd cfg hwf
  have key : ∀ a, cfg.BASELINES_PER_BLOCK ∣ a →
      sub32 h.bcnt a % cfg.BASELINES_PER_BLOCK
        = (h.bcnt % 4294967296) % cfg.BASELINES_PER_BLOCK := by
    intro a ha
    unfold sub32
    rw [Nat.mod_mod_of_dvd _ hM]
    have ha' : cfg.BASELINES_PER_BLOCK ∣ 4294967296 - a % 4294967296 :=
      Nat.dvd_sub' hM ((Nat.dvd_mod_iff hM).2 ha)
    have hlt : a % 4294967296 < 4294967296 := Nat.mod_lt _ (by norm_num)
    have e : h.bcnt % 4294967296 + 4294967296 - a % 4294967296
        = h.bcnt % 4294967296 + (4294967296 - a % 4294967296) := by omega
    rw [e]
    obtain ⟨c, hc⟩ := ha'
    rw [hc, Nat.add_mul_mod_self_left]
  unfold pkt_offset_of
  simp only []
  rw [key bs hdvd, key 0 (dvd_zero _)]

theorem cleared_count_congr (cfg : NetConfig) (b1 b2 : block_info_t) (i : Nat)
    (h : ∀ j, j < cfg.PACKETS_PER_BLOCK → b1.flags i j = b2.flags i j) :
    cleared_count cfg b1 i = cleared_count cfg b2 i := by
  unfold cleared_count
  congr 1
  apply Finset.filter_congr
  intro j hj
  rw [h j (Finset.mem_range.mp hj)]

theorem counter_agrees_reset (cfg : NetConfig) (b : block_info_t) (i : Nat)
    (h : CounterAgrees cfg b) : CounterAgrees cfg (reset_block_counters cfg b i) := by
  intro k hk
  by_cases hki : k = i
  · subst hki
    have hz : cleared_count cfg (reset_block_counters cfg b k) k = 0 := by
      unfold cleared_count
      rw [Finset.card_eq_zero, Finset.filter_eq_empty_iff]
      intro j hj
      simp [reset_block_counters, memset_row, Finset.mem_range.mp hj]
    rw [hz]
    simp [reset_block_counters]
  · have hc : cleared_count cfg (reset_block_counters cfg b i) k = cleared_count cfg b k := by
      apply cleared_count_congr
      intro j _
      simp [reset_block_counters, memset_row, hki]
    rw [hc, ← h k hk]
    simp [reset_block_counters, Function.update_noteq hki]

/-- Clearing every block of the ring makes counters and flags agree, whatever they were. -/
theorem counter_agrees_foldl (cfg : NetConfig) (l : List Nat) (b : block_info_t) (k : Nat)
    (hk : k ∈ l ∨ b.block_packet_counter k = cleared_count cfg b k) :
    (l.foldl (reset_block_counters cfg) b).block_packet_counter k
      = cleared_count cfg (l.foldl (reset_block_counters cfg) b) k := by
  induction l generalizing b with
  | nil =>
    rcases hk with h | h
    · exact absurd h (List.not_mem_nil _)
    · exact h
  | cons i l ih =>
    rw [List.foldl_cons]
    apply ih
    by_cases hkl : k ∈ l
    · exact Or.inl hkl
    · right
      by_cases hki : k = i
      · subst hki
        have hz : cleared_count cfg (reset_block_counters cfg b k) k = 0 := by
          unfold cleared_count
          rw [Finset.card_eq_zero, Finset.filter_eq_empty_iff]
          intro j hj
          simp [reset_block_counters, memset_row, Finset.mem_range.mp hj]
        rw [hz]
        simp [reset_block_counters]
      · have hc : cleared_count cfg (reset_block_counters cfg b i) k
            = cleared_count cfg b k := by
          apply cleared_count_congr
          intro j _
          simp [reset_block_counters, memset_row, hki]
        rcases hk with h | h
        · rcases List.mem_cons.mp h with h | h
          · exact absurd h hki
          · exact absurd h hkl
        · rw [hc, ← h]
          simp [reset_block_counters, Function.update_noteq hki]

/-- Storing a packet at an expected position whose flag is set clears one more flag and
counts one more packet. -/
theorem counter_agrees_place (cfg : NetConfig) (s : NetState) (f : hera_ibv_xeng_pkt)
    (h : packet_header_t) (pb : Nat) (hc : CounterAgrees cfg s.binfo)
    (hoff : pkt_offset_of cfg s.binfo.bcnt_start h < cfg.PACKETS_PER_BLOCK)
    (hflag : s.binfo.flags pb (pkt_offset_of cfg s.binfo.bcnt_start h) ≠ 0) :
    CounterAgrees cfg (place_payload cfg s f h pb).binfo := by
  intro k hk
  rw [place_payload_counter]
  by_cases hkp : k = pb
  · subst hkp
    rw [Function.update_same, hc k hk]
    unfold cleared_count
    rw [place_payload_flags]
    have hins : (Finset.range cfg.PACKETS_PER_BLOCK).filter
        (fun j => set_cell s.binfo.flags k (pkt_offset_of cfg s.binfo.bcnt_start h) 0 k j = 0)
        = insert (pkt_offset_of cfg s.binfo.bcnt_start h)
            ((Finset.range cfg.PACKETS_PER_BLOCK).filter (fun j => s.binfo.flags k j = 0)) := by
      ext j
      simp only [Finset.mem_filter, Finset.mem_range, Finset.mem_insert, set_cell, true_and]
      by_cases hj : j = pkt_offset_of cfg s.binfo.bcnt_start h
      · subst hj; simp [hoff]
      · simp [hj]
    rw [hins, Finset.card_insert_of_not_mem]
    simp only [Finset.mem_filter, Finset.mem_range, not_and]
    exact fun _ => hflag
  · rw [Function.update_noteq hkp, hc k hk]
    apply cleared_count_congr
    intro j _
    rw [place_payload_flags]
    simp [set_cell, hkp]

/-- The counter of a block reaches `PACKETS_PER_BLOCK` exactly when every expected
position of the block has its flag cleared. -/
theorem counter_full_iff (cfg : NetConfig) (b : block_info_t) (i : Nat)
    (h : b.block_packet_counter i = cleared_count cfg b i) :
    b.block_packet_counter i = cfg.PACKETS_PER_BLOCK
      ↔ ∀ j, j < cfg.PACKETS_PER_BLOCK → b.flags i j = 0 := by
  rw [h]
  unfold cleared_count
  constructor
  · intro hcard j hj
    have hsub : (Finset.range cfg.PACKETS_PER_BLOCK).filter (fun j => b.flags i j = 0)
        = Finset.range cfg.PACKETS_PER_BLOCK :=
      Finset.eq_of_subset_of_card_le (Finset.filter_subset _ _)
        (by rw [hcard, Finset.card_range])
    have hmem : j ∈ (Finset.range cfg.PACKETS_PER_BLOCK).filter (fun j => b.flags i j = 0) := by
      rw [hsub]; exact Finset.mem_range.mpr hj
    exact (Finset.mem_filter.mp hmem).2
  · intro hall
    rw [Finset.filter_true_of_mem (fun j hj => hall j (Finset.mem_range.mp hj)),
      Finset.card_range]

theorem counter_agrees_of_eq (cfg : NetConfig) (b1 b2 : block_info_t)
    (hc : b2.block_packet_counter = b1.block_packet_counter) (hf : b2.flags = b1.flags)
    (h : CounterAgrees cfg b1) : CounterAgrees cfg b2 := by
  intro k hk
  rw [hc, h k hk]
  unfold cleared_count
  rw [hf]

theorem place_payload_good (cfg : NetConfig) (s : NetState)
    (f : hera_ibv_xeng_pkt) (h : packet_header_t) (pb x : Nat) :
    ((place_payload cfg s f h pb).db x).header.good_data = (s.db x).header.good_data := by
  by_cases hx : x = pb
  · subst hx; exact (place_payload_db cfg s f h x).2.1
  · rw [(place_payload_db cfg s f h pb).2.2 x hx]

theorem store_packet_counted (cfg : NetConfig) (hwf : cfg.wf) (s : NetState)
    (f : hera_ibv_xeng_pkt) (pb nb : Nat) (ev : List NetEvent) (hs : Counted cfg s)
    (hin : in_range cfg f) :
    CounterAgrees cfg (store_packet cfg s f (get_header f) pb nb ev).state.binfo ∧
    Pending cfg (store_packet cfg s f (get_header f) pb nb ev).state := by
  obtain ⟨hc, ha, hp⟩ := hs
  unfold store_packet
  split_ifs with hdup
  · exact ⟨counter_agrees_of_eq cfg s.binfo _ rfl rfl ha, hp⟩
  · simp only [Outcome.state]
    refine ⟨counter_agrees_place cfg s f _ pb ha ?_ hdup, ?_⟩
    · rw [pkt_offset_of_anchor cfg hwf _ _ hc.2.2.2.1]; exact hin
    · unfold Pending
      rw [place_payload_block_i, place_payload_good, place_payload_good]
      exact hp

/-- When `advance_block` returns, counters and flags agree and the two working blocks are
not yet marked good. -/
theorem advance_block_counted (cfg : NetConfig) (hwf : cfg.wf)
    (hnb : 2 ≤ cfg.CATCHER_N_BLOCKS) (env : RingEnv) (s s1 : NetState) (nb : Nat)
    (ev : List NetEvent) (hs : Counted cfg s)
    (h : advance_block cfg env s ((s.binfo.block_i + 2) % cfg.CATCHER_N_BLOCKS)
      = Outcome.returned s1 nb ev) :
    CounterAgrees cfg s1.binfo ∧ Pending cfg s1 := by
  obtain ⟨hc, ha, hp⟩ := hs
  obtain ⟨e1, e2⟩ := advance_block_env cfg env s s1 _ nb ev h
  obtain ⟨sa, eva, hadv, hbin, hfb, hfe, hdata, hm, ha0, ha1, hgood, hb0, hbk, hoth⟩ :=
    advance_block_ok cfg env s ((s.binfo.block_i + 2) % cfg.CATCHER_N_BLOCKS) e1 e2
  rw [h] at hadv
  injection hadv with hs1 hnb1 hev1
  subst hs1
  rw [two_blocks_ahead cfg hwf s hc] at hgood hoth
  rw [hc.2.2.2.2.2] at hoth
  have hcur_lt : (s.binfo.block_i + 1) % cfg.CATCHER_N_BLOCKS < cfg.CATCHER_N_BLOCKS :=
    Nat.mod_lt _ hwf.2.1
  have hne := next_block_ne cfg.CATCHER_N_BLOCKS _ hnb hcur_lt
  rw [succ_mod_succ] at hne
  have hne0 := next_block_ne cfg.CATCHER_N_BLOCKS _ hnb hc.2.2.1
  constructor
  · rw [hbin]
    exact counter_agrees_reset cfg _ _ (counter_agrees_of_eq cfg s.binfo _ rfl rfl ha)
  · have hbi : s1.binfo.block_i = (s.binfo.block_i + 1) % cfg.CATCHER_N_BLOCKS := by
      rw [hbin]; rfl
    unfold Pending
    rw [hbi, succ_mod_succ, (hoth _ (Ne.symm hne)).2 hne0]
    exact ⟨hp.2, hgood⟩

theorem lazy_init_counted (cfg : NetConfig) (hwf : cfg.wf) (hnb : 2 ≤ cfg.CATCHER_N_BLOCKS)
    (s : NetState) (h : packet_header_t) (hp : h.bcnt < 4294967296)
    (h0 : s.binfo.initialized = 0) : Counted cfg (lazy_init cfg s h).1 := by
  obtain ⟨hc, hbs, hfb, hbi, -⟩ := lazy_init_consistent cfg hwf s h hp h0
  have h2m := wf_two_blocks cfg hwf hnb
  have hr := Nat.mod_lt h.bcnt hwf.1
  have hle := Nat.mod_le h.bcnt cfg.BASELINES_PER_BLOCK
  have hsub : sub32 h.bcnt (h.bcnt - h.bcnt % cfg.BASELINES_PER_BLOCK)
      = h.bcnt % cfg.BASELINES_PER_BLOCK := by
    unfold sub32; omega
  have hblkA : block_for_bcnt cfg (h.bcnt - h.bcnt % cfg.BASELINES_PER_BLOCK) h.bcnt = 0 := by
    unfold block_for_bcnt
    rw [hsub, Nat.div_eq_of_lt hr, Nat.zero_mod]
  have hsubB : sub32 ((h.bcnt + cfg.BASELINES_PER_BLOCK) % 4294967296)
      (h.bcnt - h.bcnt % cfg.BASELINES_PER_BLOCK)
      = cfg.BASELINES_PER_BLOCK + h.bcnt % cfg.BASELINES_PER_BLOCK := by
    unfold sub32; omega
  have hblkB : block_for_bcnt cfg (h.bcnt - h.bcnt % cfg.BASELINES_PER_BLOCK)
      ((h.bcnt + cfg.BASELINES_PER_BLOCK) % 4294967296) = 1 := by
    unfold block_for_bcnt
    rw [hsubB, Nat.add_div_left _ hwf.1, Nat.div_eq_of_lt hr]
    exact Nat.mod_eq_of_lt (by omega)
  refine ⟨hc, ?_, ?_⟩
  · unfold lazy_init
    rw [if_pos h0]
    simp only [initialize_block_binfo, initialize_block_info, h0, ne_eq, not_true_eq_false,
      if_false]
    intro k hk
    exact counter_agrees_foldl cfg _ _ k (Or.inl (List.mem_range.mpr hk))
  · unfold Pending
    rw [hbi, Nat.zero_add, Nat.mod_eq_of_lt (show 1 < cfg.CATCHER_N_BLOCKS by omega)]
    unfold lazy_init
    rw [if_pos h0]
    simp only []
    have hB := initialize_block_spec cfg
      (initialize_block cfg
        { s with
          first_bcnt := h.bcnt - h.bcnt % cfg.BASELINES_PER_BLOCK
          binfo := initialize_block_info cfg (h.bcnt - h.bcnt % cfg.BASELINES_PER_BLOCK)
            s.binfo h.bcnt } h.bcnt)
      ((h.bcnt + cfg.BASELINES_PER_BLOCK) % 4294967296)
    simp only [initialize_block_first_bcnt, hblkB] at hB
    have hA := (initialize_block_spec cfg
      { s with
        first_bcnt := h.bcnt - h.bcnt % cfg.BASELINES_PER_BLOCK
        binfo := initialize_block_info cfg (h.bcnt - h.bcnt % cfg.BASELINES_PER_BLOCK)
          s.binfo h.bcnt } h.bcnt).1
    simp only [hblkA] at hA
    refine ⟨?_, hB.1⟩
    rw [hB.2.2.2.2.2.2 0 (by norm_num)]
    exact hA

theorem reset_binfo_counted (cfg : NetConfig) (hwf : cfg.wf) (hnb : 2 ≤ cfg.CATCHER_N_BLOCKS)
    (s : NetState) (h : packet_header_t) (hp : h.bcnt < 4294967296) (hs : Counted cfg s) :
    Counted cfg (reset_binfo cfg s h).1 := by
  obtain ⟨hc, ha, -⟩ := hs
  obtain ⟨-, -, h3, -, -, ⟨-, -, -, hg1, -⟩, ⟨-, -, -, hg2, -⟩⟩ :=
    reset_binfo_spec cfg hwf hnb s h hc.2.2.1
  refine ⟨reset_binfo_consistent cfg hwf s h hp hc, ?_, ?_⟩
  · show CounterAgrees cfg (reset_block_counters cfg (reset_block_counters cfg _ _) _)
    exact counter_agrees_reset cfg _ _ (counter_agrees_reset cfg _ _
      (counter_agrees_of_eq cfg s.binfo _ rfl rfl ha))
  · unfold Pending
    rw [h3]
    exact ⟨hg1, hg2⟩

/-- One call of `process_packet` on a frame with an expected position keeps counters and
flags in agreement and the working blocks pending. -/
theorem process_packet_counted (cfg : NetConfig) (hwf : cfg.wf)
    (hnb : 2 ≤ cfg.CATCHER_N_BLOCKS) (env : RingEnv) (s s1 : NetState)
    (f : hera_ibv_xeng_pkt) (r : Nat) (ev : List NetEvent) (hs : Counted cfg s)
    (hin : in_range cfg f) (h : process_packet cfg env s f = Outcome.returned s1 r ev) :
    Counted cfg s1 := by
  have hcons := process_packet_consistent cfg hwf env s f hs.1
  rw [h] at hcons
  refine ⟨hcons, ?_⟩
  by_cases hacc : 0 ≤ pkt_bcnt_dist s (get_header f)
      ∧ pkt_bcnt_dist s (get_header f) < 3 * (cfg.BASELINES_PER_BLOCK : Int)
  · by_cases h2 : 2 * (cfg.BASELINES_PER_BLOCK : Int) ≤ pkt_bcnt_dist s (get_header f)
    · obtain ⟨hpb, -⟩ := packet_block cfg hwf s hs.1 (get_header f) 2
        (by push_cast; omega) (by push_cast; omega)
      rw [process_packet_advance cfg env s f hs.1.1 h2 hacc.2] at h
      cases hadv : advance_block cfg env s
          (block_for_bcnt cfg s.first_bcnt (get_header f).bcnt) with
      | thread_exit s2 ev2 => rw [hadv] at h; exact Outcome.noConfusion h
      | returned s2 nb2 ev2 =>
        rw [hadv] at h
        simp only [] at h
        obtain ⟨hfb, hbs, hin2⟩ := advance_block_returned cfg env s s2 _ nb2 ev2 hadv
        obtain ⟨-, -, -, abi⟩ := advance_block_frame cfg env s
          (block_for_bcnt cfg s.first_bcnt (get_header f).bcnt)
        have hc2 := consistent_advance cfg hwf s s2 hs.1 hfb hin2 hbs (abi s2 nb2 ev2 hadv)
        have hadv2 := hadv
        rw [hpb] at hadv2
        obtain ⟨ca, pe⟩ := advance_block_counted cfg hwf hnb env s s2 nb2 ev2 hs hadv2
        have hst := store_packet_counted cfg hwf s2 f
          (block_for_bcnt cfg s.first_bcnt (get_header f).bcnt) nb2 ([] ++ ev2)
          ⟨hc2, ca, pe⟩ hin
        rw [h] at hst
        exact hst
    · rw [process_packet_in_window cfg env s f hs.1.1 hacc.1 (by omega)] at h
      have hst := store_packet_counted cfg hwf s f
        (block_for_bcnt cfg s.first_bcnt (get_header f).bcnt) 4294967295 [] hs hin
      rw [h] at hst
      exact hst
  · by_cases hlate : pkt_bcnt_dist s (get_header f) < 0
        ∧ pkt_bcnt_dist s (get_header f) > -(cfg.LATE_PKT_BCNT_THRESHOLD : Int)
    · rw [process_packet_late cfg env s f hs.1.1 hlate.1 hlate.2] at h
      unfold late_packet at h
      injection h with h1 h2 h3
      subst h1
      exact hs.2
    · rw [process_packet_out_of_seq cfg env s f hs.1.1 hacc hlate] at h
      unfold out_of_seq_packet at h
      simp only [] at h
      by_cases hc : s.binfo.out_of_seq_cnt + 1 > MAX_OUT_OF_SEQ_PKTS
      · rw [if_pos hc] at h
        injection h with h1 h2 h3
        subst h1
        exact (reset_binfo_counted cfg hwf hnb _ _ (get_header_bcnt_lt f)
          ⟨consistent_of_anchor_eq cfg s _ hs.1 rfl rfl rfl rfl,
            counter_agrees_of_eq cfg s.binfo _ rfl rfl hs.2.1, hs.2.2⟩).2
      · rw [if_neg hc] at h
        injection h with h1 h2 h3
        subst h1
        exact ⟨counter_agrees_of_eq cfg s.binfo _ rfl rfl hs.2.1, hs.2.2⟩

theorem process_packet_counted_any (cfg : NetConfig) (hwf : cfg.wf)
    (hnb : 2 ≤ cfg.CATCHER_N_BLOCKS) (env : RingEnv) (s s1 : NetState)
    (f : hera_ibv_xeng_pkt) (r : Nat) (ev : List NetEvent)
    (hs : s.binfo.initialized = 0 ∨ Counted cfg s)
    (hin : in_range cfg f) (h : process_packet cfg env s f = Outcome.returned s1 r ev) :
    Counted cfg s1 := by
  rw [process_packet_prepend] at h
  obtain ⟨ev1, h1, -⟩ := prepend_returned _ _ s1 r ev h
  refine process_packet_counted cfg hwf hnb env _ s1 f r ev1 ?_ hin h1
  rcases hs with h0 | hc
  · exact lazy_init_counted cfg hwf hnb s _ (get_header_bcnt_lt f) h0
  · rw [lazy_init_of_initialized cfg s _ hc.1.1]
    exact hc

/-- After at least one packet, as long as the thread has not exited and every frame had an
expected position, the thread is in a counted state. -/
theorem run_packets_counted (cfg : NetConfig) (hwf : cfg.wf)
    (hnb : 2 ≤ cfg.CATCHER_N_BLOCKS) (inputs : List (RingEnv × hera_ibv_xeng_pkt))
    (s : NetState) (hs : (s.binfo.initialized = 0 ∧ inputs ≠ []) ∨ Counted cfg s)
    (hin : ∀ x, x ∈ inputs → in_range cfg x.2)
    (hex : (run_packets cfg s inputs).exited = false) :
    Counted cfg (run_packets cfg s inputs).state := by
  induction inputs generalizing s with
  | nil =>
    rcases hs with ⟨-, h⟩ | h
    · exact absurd rfl h
    · exact h
  | cons x rest ih =>
    obtain ⟨env, f⟩ := x
    rw [run_packets] at hex ⊢
    cases hpp : process_packet cfg env s f with
    | thread_exit s1 ev =>
      rw [hpp] at hex
      exact absurd hex (by simp)
    | returned s1 r ev =>
      rw [hpp] at hex
      simp only [] at hex ⊢
      have h1 : Counted cfg s1 := process_packet_counted_any cfg hwf hnb env s s1 f r ev
        (hs.imp (fun h => h.1) id) (hin (env, f) (List.mem_cons_self _ _)) hpp
      exact ih s1 (Or.inr h1) (fun x hx => hin x (List.mem_cons_of_mem _ hx)) hex

theorem mark_good_data_flag (cfg : NetConfig) (s : NetState) (blk : Nat) :
    (mark_good_data cfg s blk blk).header.good_data
      = if s.binfo.block_packet_counter blk = cfg.PACKETS_PER_BLOCK then 1
        else (s.db blk).header.good_data := by
  unfold mark_good_data
  split_ifs <;> simp

theorem set_block_filled_fills (cfg : NetConfig) (env : RingEnv) (s : NetState) :
    fills (set_block_filled cfg env s).events
      = [(block_for_bcnt cfg s.first_bcnt s.binfo.bcnt_start,
          (s.db (block_for_bcnt cfg s.first_bcnt s.binfo.bcnt_start)).header.bcnt 0,
          if s.binfo.block_packet_counter (block_for_bcnt cfg s.first_bcnt s.binfo.bcnt_start)
              = cfg.PACKETS_PER_BLOCK then 1
          else (s.db (block_for_bcnt cfg s.first_bcnt s.binfo.bcnt_start)).header.good_data)] := by
  unfold set_block_filled
  by_cases hrv : env.set_filled_rv = hashpipe_rv.HASHPIPE_OK
  · simp only [hrv, ne_eq, not_true_eq_false, if_false, Outcome.events, fills_append,
      (mark_good_data_frame cfg s _ _).2.1, mark_good_data_flag]
    split_ifs <;> simp [fills]
  · simp only [ne_eq, hrv, not_false_eq_true, if_true, Outcome.events, fills_append,
      (mark_good_data_frame cfg s _ _).2.1, mark_good_data_flag]
    split_ifs <;> simp [fills]

theorem advance_block_fills (cfg : NetConfig) (env : RingEnv) (s : NetState) (pb : Nat) :
    fills (advance_block cfg env s pb).events
      = fills (set_block_filled cfg env s).events := by
  unfold advance_block
  cases hf : set_block_filled cfg env s with
  | thread_exit s2 ev2 => rfl
  | returned s2 nb2 ev2 =>
    by_cases hrv : env.busywait_free_rv = hashpipe_rv.HASHPIPE_OK
    · simp only [hrv, ne_eq, not_true_eq_false, if_false, Outcome.events, fills_append]
      split_ifs <;> simp [fills]
    · simp only [ne_eq, hrv, not_false_eq_true, if_true, Outcome.events, fills_append]
      split_ifs <;> simp [fills]

theorem store_packet_fills (cfg : NetConfig) (s : NetState) (f : hera_ibv_xeng_pkt)
    (h : packet_header_t) (pb nb : Nat) (ev : List NetEvent) :
    fills (store_packet cfg s f h pb nb ev).events = fills ev := by
  unfold store_packet
  split_ifs
  · simp [Outcome.events, fills_append, fills]
  · rfl

/-- The blocks that `process_packet` marks filled in a consistent state: none unless the
packet is two blocks ahead of the anchor, and then the current block, with `good_data` set
when its counter has reached `PACKETS_PER_BLOCK`. -/
theorem process_packet_fills (cfg : NetConfig) (env : RingEnv) (s : NetState)
    (f : hera_ibv_xeng_pkt) (hs : Consistent cfg s) :
    fills (process_packet cfg env s f).events
      = if 2 * (cfg.BASELINES_PER_BLOCK : Int) ≤ pkt_bcnt_dist s (get_header f)
            ∧ pkt_bcnt_dist s (get_header f) < 3 * (cfg.BASELINES_PER_BLOCK : Int)
        then [(s.binfo.block_i, (s.db s.binfo.block_i).header.bcnt 0,
          if s.binfo.block_packet_counter s.binfo.block_i = cfg.PACKETS_PER_BLOCK then 1
          else (s.db s.binfo.block_i).header.good_data)]
        else [] := by
  by_cases hadvw : 2 * (cfg.BASELINES_PER_BLOCK : Int) ≤ pkt_bcnt_dist s (get_header f)
      ∧ pkt_bcnt_dist s (get_header f) < 3 * (cfg.BASELINES_PER_BLOCK : Int)
  · rw [if_pos hadvw, process_packet_advance cfg env s f hs.1 hadvw.1 hadvw.2]
    have hfl := advance_block_fills cfg env s
      (block_for_bcnt cfg s.first_bcnt (get_header f).bcnt)
    rw [set_block_filled_fills, hs.2.2.2.2.2] at hfl
    cases hadv : advance_block cfg env s
        (block_for_bcnt cfg s.first_bcnt (get_header f).bcnt) with
    | thread_exit s2 ev2 =>
      rw [hadv] at hfl
      simp only [Outcome.events, List.nil_append] at hfl ⊢
      exact hfl
    | returned s2 nb2 ev2 =>
      rw [hadv] at hfl
      simp only [Outcome.events, List.nil_append] at hfl
      simp only []
      rw [store_packet_fills]
      exact hfl
  · rw [if_neg hadvw]
    by_cases hacc : 0 ≤ pkt_bcnt_dist s (get_header f)
        ∧ pkt_bcnt_dist s (get_header f) < 3 * (cfg.BASELINES_PER_BLOCK : Int)
    · rw [process_packet_in_window cfg env s f hs.1 hacc.1 (by omega), store_packet_fills]
      rfl
    · by_cases hlate : pkt_bcnt_dist s (get_header f) < 0
          ∧ pkt_bcnt_dist s (get_header f) > -(cfg.LATE_PKT_BCNT_THRESHOLD : Int)
      · rw [process_packet_late cfg env s f hs.1 hlate.1 hlate.2]
        unfold late_packet
        simp only [Outcome.events, List.nil_append]
        split_ifs <;> rfl
      · rw [process_packet_out_of_seq cfg env s f hs.1 hacc hlate]
        unfold out_of_seq_packet
        simp only []
        have hr : fills (reset_binfo cfg
            { s with binfo := { s.binfo with
                out_of_seq_cnt := s.binfo.out_of_seq_cnt + 1 } } (get_header f)).2 = [] := rfl
        split_ifs <;> simp [Outcome.events, fills_append, fills, hr]

/-- In every state that the thread reaches from its start on frames with expected
packet positions, the block that `process_packet` marks filled - it does so exactly when
the packet is two blocks ahead of the anchor, and the block is then the current one - is
handed over with `good_data = 1` when each of its `PACKETS_PER_BLOCK` expected positions
has its flag cleared, i.e. has had a packet stored since the flags of the block were last
reset, and with `good_data = 0` otherwise; the packet counter of the block equals the
number of cleared flags, every stored packet having cleared one set flag. -/
theorem good_data_of_flags (cfg : NetConfig) (hwf : cfg.wf)
    (hnb : 2 ≤ cfg.CATCHER_N_BLOCKS) (db : Nat → hera_catcher_bda_input_block_t)
    (st : net_status_t) (inputs : List (RingEnv × hera_ibv_xeng_pkt)) (s : NetState)
    (env : RingEnv) (f : hera_ibv_xeng_pkt) (hne : inputs ≠ [])
    (hin : ∀ x, x ∈ inputs → in_range cfg x.2)
    (hex : (run_packets cfg (start_state db st) inputs).exited = false)
    (hreach : (run_packets cfg (start_state db st) inputs).state = s) :
    fills (process_packet cfg env s f).events
      = (if 2 * (cfg.BASELINES_PER_BLOCK : Int) ≤ pkt_bcnt_dist s (get_header f)
            ∧ pkt_bcnt_dist s (get_header f) < 3 * (cfg.BASELINES_PER_BLOCK : Int)
        then [(s.binfo.block_i, (s.db s.binfo.block_i).header.bcnt 0,
          if ∀ j, j < cfg.PACKETS_PER_BLOCK → s.binfo.flags s.binfo.block_i j = 0 then 1
          else 0)]
        else []) ∧
    s.binfo.block_packet_counter s.binfo.block_i = cleared_count cfg s.binfo s.binfo.block_i := by
  have hc := run_packets_counted cfg hwf hnb inputs (start_state db st)
    (Or.inl ⟨rfl, hne⟩) hin hex
  rw [hreach] at hc
  obtain ⟨hcons, hagree, hpend⟩ := hc
  have hcnt := hagree _ hcons.2.2.1
  refine ⟨?_, hcnt⟩
  rw [process_packet_fills cfg env s f hcons, hpend.1]
  have hiff := counter_full_iff cfg s.binfo s.binfo.block_i hcnt
  by_cases hfull : s.binfo.block_packet_counter s.binfo.block_i = cfg.PACKETS_PER_BLOCK
  · rw [if_pos hfull, if_pos (hiff.mp hfull)]
  · rw [if_neg hfull, if_neg (fun h => hfull (hiff.mpr h))]

theorem good_data_of_flags_example :
    (fills (process_packet cfgDuo envOK (run_packets cfgDuo s_start duo_full).state
        (mk_frame 102 0 0 0)).events = [(0, 100, 1)] ∧
      (run_packets cfgDuo s_start duo_full).state.binfo.block_packet_counter 0 = 2) ∧
    (fills (process_packet cfgDuo envOK (run_packets cfgDuo s_start duo_half).state
        (mk_frame 102 0 0 0)).events = [(0, 100, 0)] ∧
      (run_packets cfgDuo s_start duo_half).state.binfo.block_packet_counter 0 = 1) :=
  ⟨⟨(good_data_of_flags cfgDuo (by decide) (by decide) (fun _ => block_zero)
      status_zero duo_full _ envOK (mk_frame 102 0 0 0) (by simp [duo_full]) (by decide)
      (by decide) rfl).1.trans (by decide),
    (good_data_of_flags cfgDuo (by decide) (by decide) (fun _ => block_zero)
      status_zero duo_full _ envOK (mk_frame 102 0 0 0) (by simp [duo_full]) (by decide)
      (by decide) rfl).2.trans (by decide)⟩,
   ⟨(good_data_of_flags cfgDuo (by decide) (by decide) (fun _ => block_zero)
      status_zero duo_half _ envOK (mk_frame 102 0 0 0) (by simp [duo_half]) (by decide)
      (by decide) rfl).1.trans (by decide),
    (good_data_of_flags cfgDuo (by decide) (by decide) (fun _ => block_zero)
      status_zero duo_half _ envOK (mk_frame 102 0 0 0) (by simp [duo_half]) (by decide)
      (by decide) rfl).2.trans (by decide)⟩⟩

/-! ## Theorems: a burst of packets far ahead of the anchor -/

theorem resets_append (l1 l2 : List NetEvent) : resets (l1 ++ l2) = resets l1 + resets l2 := by
  induction l1 with
  | nil => simp [resets]
  | cons e l ih =>
    cases e <;> simp [resets, ih]
    omega

theorem run_packets_append (cfg : NetConfig) (l1 l2 : List (RingEnv × hera_ibv_xeng_pkt))
    (s : NetState) (h : (run_packets cfg s l1).exited = false) :
    run_packets cfg s (l1 ++ l2)
      = { state := (run_packets cfg (run_packets cfg s l1).state l2).state
          events := (run_packets cfg s l1).events
            ++ (run_packets cfg (run_packets cfg s l1).state l2).events
          exited := (run_packets cfg (run_packets cfg s l1).state l2).exited } := by
  induction l1 generalizing s with
  | nil => rfl
  | cons x rest ih =>
    obtain ⟨env, f⟩ := x
    rw [List.cons_append]
    cases hp : process_packet cfg env s f with
    | thread_exit s1 ev =>
      rw [run_packets, hp] at h
      simp at h
    | returned s1 r ev =>
      rw [run_packets_cons cfg s s1 env f rest r ev hp] at h ⊢
      rw [run_packets_cons cfg s s1 env f (rest ++ l2) r ev hp]
      simp only [] at h ⊢
      rw [ih s1 h]
      simp only [List.append_assoc]

/-- A packet `100` blocks ahead of the anchor is neither accepted nor late. -/
theorem far_future_dist (cfg : NetConfig) (hB : 0 < cfg.BASELINES_PER_BLOCK)
    (hfar : 100 * cfg.BASELINES_PER_BLOCK < 2147483648) (s : NetState)
    (h : packet_header_t)
    (hb : h.bcnt = (s.binfo.bcnt_start + 100 * cfg.BASELINES_PER_BLOCK) % 4294967296) :
    pkt_bcnt_dist s h = 100 * (cfg.BASELINES_PER_BLOCK : Int) := by
  unfold pkt_bcnt_dist
  have e : sub32 h.bcnt s.binfo.bcnt_start = 100 * cfg.BASELINES_PER_BLOCK := by
    rw [hb, sub32_add, sub32_self]; omega
  have h100 : 100 * cfg.BASELINES_PER_BLOCK % 4294967296 = 100 * cfg.BASELINES_PER_BLOCK :=
    Nat.mod_eq_of_lt (by omega)
  rw [e]
  unfold toInt32
  rw [h100, if_pos hfar]
  push_cast
  rfl

/-- As long as the count of packets out of sequence stays within `MAX_OUT_OF_SEQ_PKTS`,
packets `100` blocks ahead of the anchor only raise that count. -/
theorem run_far_future (cfg : NetConfig) (hB : 0 < cfg.BASELINES_PER_BLOCK)
    (hfar : 100 * cfg.BASELINES_PER_BLOCK < 2147483648)
    (inputs : List (RingEnv × hera_ibv_xeng_pkt)) (s : NetState)
    (hinit : s.binfo.initialized ≠ 0)
    (hb : ∀ x, x ∈ inputs → (get_header x.2).bcnt
      = (s.binfo.bcnt_start + 100 * cfg.BASELINES_PER_BLOCK) % 4294967296)
    (hn : s.binfo.out_of_seq_cnt + inputs.length ≤ MAX_OUT_OF_SEQ_PKTS) :
    (run_packets cfg s inputs).state
      = { s with binfo := { s.binfo with
            out_of_seq_cnt := s.binfo.out_of_seq_cnt + inputs.length } } ∧
    (run_packets cfg s inputs).exited = false ∧
    resets (run_packets cfg s inputs).events = 0 ∧
    filled_blocks (run_packets cfg s inputs).events = [] := by
  induction inputs generalizing s with
  | nil => exact ⟨rfl, rfl, rfl, rfl⟩
  | cons x rest ih =>
    obtain ⟨env, f⟩ := x
    have hd := far_future_dist cfg hB hfar s (get_header f) (hb (env, f) (by simp))
    unfold run_packets
    rw [process_packet_out_of_seq cfg env s f hinit (by rw [hd]; omega) (by rw [hd]; omega)]
    unfold out_of_seq_packet
    simp only []
    rw [List.length_cons] at hn
    rw [if_neg (by omega)]
    simp only []
    obtain ⟨h1, h2, h3, h4⟩ := ih
      { s with binfo := { s.binfo with out_of_seq_cnt := s.binfo.out_of_seq_cnt + 1 } }
      hinit (fun x hx => hb x (by simp [hx])) (by simp only []; omega)
    refine ⟨?_, h2, ?_, ?_⟩
    · rw [h1]
      simp only [List.length_cons]
      congr 2
      omega
    · rw [resets_append, h3]
      split_ifs <;> rfl
    · rw [filled_blocks_append, h4]
      split_ifs <;> rfl

/-- The anchor after a re-synchronisation is the `bcnt` of the packet rounded down to a
multiple of `BASELINES_PER_BLOCK`. -/
theorem reset_binfo_anchor (cfg : NetConfig) (s : NetState) (h : packet_header_t) :
    (reset_binfo cfg s h).1.binfo.bcnt_start = h.bcnt - h.bcnt % cfg.BASELINES_PER_BLOCK ∧
    (reset_binfo cfg s h).1.binfo.out_of_seq_cnt = 0 ∧
    resets (reset_binfo cfg s h).2 = 1 ∧ filled_blocks (reset_binfo cfg s h).2 = [] :=
  ⟨rfl, rfl, rfl, rfl⟩

/-- The packet that brings the count of packets out of sequence past
`MAX_OUT_OF_SEQ_PKTS` makes the thread re-synchronise. -/
theorem far_future_reset (cfg : NetConfig) (hB : 0 < cfg.BASELINES_PER_BLOCK)
    (hfar : 100 * cfg.BASELINES_PER_BLOCK < 2147483648) (env : RingEnv)
    (f : hera_ibv_xeng_pkt) (s : NetState) (hinit : s.binfo.initialized ≠ 0)
    (hcnt : s.binfo.out_of_seq_cnt = MAX_OUT_OF_SEQ_PKTS)
    (hb : (get_header f).bcnt
      = (s.binfo.bcnt_start + 100 * cfg.BASELINES_PER_BLOCK) % 4294967296) :
    process_packet cfg env s f
      = Outcome.returned (reset_binfo cfg
          { s with binfo := { s.binfo with out_of_seq_cnt := MAX_OUT_OF_SEQ_PKTS + 1 } }
          (get_header f)).1 4294967295
        (reset_binfo cfg
          { s with binfo := { s.binfo with out_of_seq_cnt := MAX_OUT_OF_SEQ_PKTS + 1 } }
          (get_header f)).2 := by
  have hd := far_future_dist cfg hB hfar s (get_header f) hb
  rw [process_packet_out_of_seq cfg env s f hinit (by rw [hd]; omega) (by rw [hd]; omega)]
  unfold out_of_seq_packet
  simp only []
  rw [if_pos (by rw [hcnt]; omega), if_neg (by rw [hcnt]; decide), hcnt]
  rfl

/-- C11: from any initialised state with `out_of_seq_cnt = 0`, feeding
`MAX_OUT_OF_SEQ_PKTS + 1` consecutive packets whose `bcnt` is the anchor plus
`100 * BASELINES_PER_BLOCK` (a 32-bit sum; 100 blocks being fewer than `2^31` counts)
makes the thread re-synchronise exactly once: no reset happens during the first
`MAX_OUT_OF_SEQ_PKTS` packets, which only count up `out_of_seq_cnt`, the last packet
triggers the reset, and the new anchor `binfo.bcnt_start` is that packet's `bcnt` rounded
down to a multiple of `BASELINES_PER_BLOCK`; no block is marked filled, the thread does not
exit and `out_of_seq_cnt` is 0 again. -/
theorem reset_determinism (cfg : NetConfig) (hB : 0 < cfg.BASELINES_PER_BLOCK)
    (hfar : 100 * cfg.BASELINES_PER_BLOCK < 2147483648) (s : NetState)
    (inputs : List (RingEnv × hera_ibv_xeng_pkt))
    (hinit : s.binfo.initialized ≠ 0) (h0 : s.binfo.out_of_seq_cnt = 0)
    (hlen : inputs.length = MAX_OUT_OF_SEQ_PKTS + 1)
    (hb : ∀ x, x ∈ inputs → (get_header x.2).bcnt
      = (s.binfo.bcnt_start + 100 * cfg.BASELINES_PER_BLOCK) % 4294967296) :
    (run_packets cfg s inputs).exited = false ∧
    resets (run_packets cfg s inputs).events = 1 ∧
    resets (run_packets cfg s (inputs.take MAX_OUT_OF_SEQ_PKTS)).events = 0 ∧
    (run_packets cfg s (inputs.take MAX_OUT_OF_SEQ_PKTS)).state
      = { s with binfo := { s.binfo with out_of_seq_cnt := MAX_OUT_OF_SEQ_PKTS } } ∧
    (run_packets cfg s inputs).state.binfo.bcnt_start
      = (s.binfo.bcnt_start + 100 * cfg.BASELINES_PER_BLOCK) % 4294967296
        - (s.binfo.bcnt_start + 100 * cfg.BASELINES_PER_BLOCK) % 4294967296
          % cfg.BASELINES_PER_BLOCK ∧
    (run_packets cfg s inputs).state.binfo.out_of_seq_cnt = 0 ∧
    filled_blocks (run_packets cfg s inputs).events = [] := by
  have hsplit := List.take_append_drop MAX_OUT_OF_SEQ_PKTS inputs
  have htl : (inputs.take MAX_OUT_OF_SEQ_PKTS).length = MAX_OUT_OF_SEQ_PKTS := by
    rw [List.length_take, hlen]; simp
  obtain ⟨x, hx⟩ : ∃ x, inputs.drop MAX_OUT_OF_SEQ_PKTS = [x] := by
    have hdl : (inputs.drop MAX_OUT_OF_SEQ_PKTS).length = 1 := by
      rw [List.length_drop, hlen]; simp
    exact List.length_eq_one.mp hdl
  obtain ⟨env, f⟩ := x
  have hxin : (env, f) ∈ inputs := by
    rw [← hsplit, hx]; simp
  obtain ⟨t1, t2, t3, t4⟩ := run_far_future cfg hB hfar (inputs.take MAX_OUT_OF_SEQ_PKTS) s
    hinit (fun y hy => hb y (List.mem_of_mem_take hy)) (by rw [h0, htl]; omega)
  rw [htl, h0, Nat.zero_add] at t1
  have hlast := far_future_reset cfg hB hfar env f
    { s with binfo := { s.binfo with out_of_seq_cnt := MAX_OUT_OF_SEQ_PKTS } }
    hinit rfl (hb (env, f) hxin)
  simp only [] at hlast
  obtain ⟨r1, r2, r3, r4⟩ := reset_binfo_anchor cfg
    { s with binfo := { s.binfo with out_of_seq_cnt := MAX_OUT_OF_SEQ_PKTS + 1 } }
    (get_header f)
  have hrun : run_packets cfg s inputs
      = { state := (reset_binfo cfg
            { s with binfo := { s.binfo with out_of_seq_cnt := MAX_OUT_OF_SEQ_PKTS + 1 } }
            (get_header f)).1
          events := (run_packets cfg s (inputs.take MAX_OUT_OF_SEQ_PKTS)).events
            ++ ((reset_binfo cfg
              { s with binfo := { s.binfo with out_of_seq_cnt := MAX_OUT_OF_SEQ_PKTS + 1 } }
              (get_header f)).2 ++ [])
          exited := false } := by
    nth_rewrite 1 [← hsplit]
    rw [run_packets_append cfg _ _ s t2, hx, t1,
      run_packets_cons cfg _ _ env f [] _ _ hlast]
    rfl
  rw [hrun]
  simp only [List.append_nil]
  refine ⟨trivial, ?_, t3, t1, ?_, r2, ?_⟩
  · rw [resets_append, t3, r3]
  · rw [r1, hb (env, f) hxin]
  · rw [filled_blocks_append, t4, r4]
    rfl

theorem reset_determinism_witness :
    (run_packets cfgNet s_1000 (List.replicate 4097 (envOK, mk_frame 1400 0 0 0))).exited
      = false ∧
    resets (run_packets cfgNet s_1000
      (List.replicate 4097 (envOK, mk_frame 1400 0 0 0))).events = 1 ∧
    (run_packets cfgNet s_1000
      (List.replicate 4097 (envOK, mk_frame 1400 0 0 0))).state.binfo.bcnt_start = 1400 :=
  have h := reset_determinism cfgNet (by decide) (by decide) s_1000
    (List.replicate 4097 (envOK, mk_frame 1400 0 0 0)) (by decide) (by decide)
    (by rw [List.length_replicate]; rfl)
    (fun x hx => by rw [List.eq_of_mem_replicate hx]; decide)
  ⟨h.1, h.2.1, h.2.2.2.2.1⟩

/-! ## Theorems: file boundaries -/

theorem close_file_bpf (inp : BlockInput) (s : DiskState) (bctr strt_bcnt break_bcnt : Nat) :
    (close_file inp s bctr strt_bcnt break_bcnt).1.bcnts_per_file = s.bcnts_per_file ∧
    (close_file inp s bctr strt_bcnt break_bcnt).1.nfiles = s.nfiles := by
  unfold close_file
  simp only []
  split_ifs <;> exact ⟨rfl, rfl⟩

theorem open_file_bpf (cfg : WriterConfig) (inp : BlockInput) (s : DiskState)
    (bctr strt_bcnt stop_bcnt break_bcnt : Nat) :
    (open_file cfg inp s bctr strt_bcnt stop_bcnt break_bcnt).1.bcnts_per_file
      = s.bcnts_per_file ∧
    (open_file cfg inp s bctr strt_bcnt stop_bcnt break_bcnt).1.nfiles = s.nfiles := by
  unfold open_file
  simp only []
  split_ifs <;> exact ⟨rfl, rfl⟩

theorem write_stride_bpf (cfg : WriterConfig) (inp : BlockInput) (s : DiskState)
    (bctr : Nat) :
    (write_stride cfg inp s bctr).state.bcnts_per_file = s.bcnts_per_file ∧
    (write_stride cfg inp s bctr).state.nfiles = s.nfiles := by
  unfold write_stride
  simp only []
  split_ifs <;>
    simp only [open_file_bpf, close_file_bpf, and_self]

theorem stride_loop_bpf (cfg : WriterConfig) (inp : BlockInput) (bctrs : List Nat)
    (s : DiskState) :
    (stride_loop cfg inp bctrs s).1.bcnts_per_file = s.bcnts_per_file ∧
    (stride_loop cfg inp bctrs s).1.nfiles = s.nfiles := by
  induction bctrs generalizing s with
  | nil => exact ⟨rfl, rfl⟩
  | cons b rest ih =>
    unfold stride_loop
    split_ifs
    · exact write_stride_bpf cfg inp s b
    · simp only []
      rw [(ih _).1, (ih _).2]
      exact write_stride_bpf cfg inp s b

/-- The boundary that a stride starting at `strt_bcnt` and not lying inside one file
computes is the least multiple of `bcnts_per_file` from `strt_bcnt` on, and it is not
beyond `stop_bcnt`. -/
theorem break_bcnt_least (bpf strt stop : Nat) (hbpf : 0 < bpf) (hle : strt ≤ stop)
    (hstop : stop < 4294967296) (hb : strt % bpf = 0 ∨ strt / bpf ≠ stop / bpf) :
    bpf ∣ break_bcnt_of bpf strt ∧ strt ≤ break_bcnt_of bpf strt ∧
    (∀ m, bpf ∣ m → strt ≤ m → break_bcnt_of bpf strt ≤ m) ∧
    break_bcnt_of bpf strt ≤ stop := by
  unfold break_bcnt_of
  by_cases h0 : strt % bpf = 0
  · rw [if_pos h0]
    exact ⟨Nat.dvd_of_mod_eq_zero h0, le_refl _, fun m _ hm => hm, hle⟩
  · rw [if_neg h0]
    have hne : strt / bpf ≠ stop / bpf := hb.resolve_left h0
    have hlt : strt / bpf < stop / bpf :=
      lt_of_le_of_ne (Nat.div_le_div_right hle) hne
    have h1 : (strt / bpf + 1) * bpf ≤ stop / bpf * bpf := Nat.mul_le_mul_right _ hlt
    have h2 : stop / bpf * bpf ≤ stop := Nat.div_mul_le_self stop bpf
    have h3 : strt < (strt / bpf + 1) * bpf := by
      have := Nat.div_add_mod strt bpf
      have := Nat.mod_lt strt hbpf
      nlinarith
    have e : (strt / bpf + 1) * bpf % 18446744073709551616 % 4294967296
        = (strt / bpf + 1) * bpf := by
      rw [Nat.mod_eq_of_lt (by omega), Nat.mod_eq_of_lt (by omega)]
    rw [e]
    refine ⟨Dvd.intro_left _ rfl, le_of_lt h3, ?_, by omega⟩
    intro m hm hsm
    obtain ⟨k, rfl⟩ := hm
    have hk : strt / bpf < k := by
      by_contra hc
      have : k ≤ strt / bpf := by omega
      have : bpf * k ≤ bpf * (strt / bpf) := Nat.mul_le_mul_left _ this
      have := Nat.mul_div_le strt bpf
      have := Nat.div_add_mod strt bpf
      have : 0 < strt % bpf := Nat.pos_of_ne_zero h0
      omega
    calc (strt / bpf + 1) * bpf ≤ k * bpf := Nat.mul_le_mul_right _ hk
      _ = bpf * k := Nat.mul_comm _ _

/-- C12: on a trigger the writer sets `bcnts_per_file` to
`8*NBL2SEC + 4*NBL4SEC + 2*NBL8SEC + NBL16SEC` (the sum not exceeding 64 bits), the value
with which the block is then written; and for a positive `bcnts_per_file` and a stride
with `strt_bcnt <= stop_bcnt` that takes the boundary branch (`strt_bcnt` is a multiple of
`bcnts_per_file`, or `strt_bcnt` and `stop_bcnt` have different quotients by it), the
computed `break_bcnt` is the least multiple of `bcnts_per_file` that is `>= strt_bcnt`,
and `strt_bcnt <= break_bcnt <= stop_bcnt`. -/
theorem file_boundaries (cfg : WriterConfig) (inp : BlockInput) (s : DiskState)
    (bpf strt stop : Nat)
    (htrig : inp.TRIGGER % 4294967296 ≠ 0)
    (hsum : 8 * inp.NBL2SEC + 4 * inp.NBL4SEC + 2 * inp.NBL8SEC + inp.NBL16SEC
      < 18446744073709551616)
    (hbpf : 0 < bpf) (hle : strt ≤ stop) (hstop : stop < 4294967296)
    (hb : strt % bpf = 0 ∨ strt / bpf ≠ stop / bpf) :
    ((take_trigger inp s).bcnts_per_file
        = 8 * inp.NBL2SEC + 4 * inp.NBL4SEC + 2 * inp.NBL8SEC + inp.NBL16SEC ∧
      (write_block cfg inp s).1.bcnts_per_file
        = 8 * inp.NBL2SEC + 4 * inp.NBL4SEC + 2 * inp.NBL8SEC + inp.NBL16SEC) ∧
    ¬ same_file bpf strt stop ∧
    bpf ∣ break_bcnt_of bpf strt ∧
    (∀ m, bpf ∣ m → strt ≤ m → break_bcnt_of bpf strt ≤ m) ∧
    strt ≤ break_bcnt_of bpf strt ∧ break_bcnt_of bpf strt ≤ stop := by
  have hv : bcnts_per_file_of inp
      = 8 * inp.NBL2SEC + 4 * inp.NBL4SEC + 2 * inp.NBL8SEC + inp.NBL16SEC := by
    unfold bcnts_per_file_of
    omega
  obtain ⟨b1, b2, b3, b4⟩ := break_bcnt_least bpf strt stop hbpf hle hstop hb
  refine ⟨⟨hv, ?_⟩, ?_, b1, b3, b2, b4⟩
  · unfold write_block
    simp only []
    rw [if_pos htrig, (stride_loop_bpf cfg inp _ _).1]
    exact hv
  · unfold same_file
    rcases hb with h | h
    · exact fun hc => hc.2 h
    · exact fun hc => h hc.1

theorem file_boundaries_witness :
    (take_trigger (inp_trigger 64 44 5) disk_zero).bcnts_per_file = 44 ∧
    break_bcnt_of 44 60 = 88 ∧ 44 ∣ break_bcnt_of 44 60 ∧
    60 ≤ break_bcnt_of 44 60 ∧ break_bcnt_of 44 60 ≤ 91 :=
  have h := file_boundaries cfgWriter (inp_trigger 64 44 5) disk_zero 44 60 91 (by decide)
    (by decide) (by decide) (by decide) (by decide) (Or.inr (by decide))
  ⟨h.1.1, by decide, h.2.2.1, h.2.2.2.2.1, h.2.2.2.2.2⟩

/-! ## Theorems: the rows of the antenna arrays -/

theorem fill_meta_succ (map : Nat → Int) (ap : Nat → Nat) (arr : Nat → Int)
    (fo bp n : Nat) :
    fill_meta map ap arr fo bp (n + 1)
      = Function.update (fill_meta map ap arr fo bp n) ((fo + n) % 4294967296)
          (map (ap ((bp + n) % 4294967296))) := by
  unfold fill_meta
  rw [List.range_succ, List.foldl_append]
  rfl

/-- The loop that fills an antenna array leaves at the index of row `b` the antenna of
the baseline at block position `block_pos + b`. -/
theorem fill_meta_hit (map : Nat → Int) (ap : Nat → Nat) (arr : Nat → Int)
    (fo bp n b : Nat) (hn : n ≤ 4294967296) (hb : b < n) :
    fill_meta map ap arr fo bp n ((fo + b) % 4294967296)
      = map (ap ((bp + b) % 4294967296)) := by
  induction n with
  | zero => omega
  | succ n ih =>
    rw [fill_meta_succ]
    by_cases hbn : b = n
    · rw [hbn, Function.update_same]
    · rw [Function.update_noteq (by omega)]
      exact ih (by omega) (by omega)

/-- The loop that fills an antenna array changes no other cell. -/
theorem fill_meta_miss (map : Nat → Int) (ap : Nat → Nat) (arr : Nat → Int)
    (fo bp n i : Nat) (hi : ∀ b, b < n → i ≠ (fo + b) % 4294967296) :
    fill_meta map ap arr fo bp n i = arr i := by
  induction n with
  | zero => rfl
  | succ n ih =>
    rw [fill_meta_succ, Function.update_noteq (hi n (by omega))]
    exact ih (fun b hb => hi b (by omega))

/-- The index of a row: the index of the first row of the stride plus the position in
the stride is the `bcnt` of the row minus the first `bcnt` of the file, in 32 bits. -/
theorem meta_index (strt b : Nat) (curr : Int) :
    (sub_u32_i32 strt curr + b) % 4294967296 = sub_u32_i32 (strt + b) curr := by
  unfold sub_u32_i32
  omega

theorem sub_u32_i32_exact (a : Nat) (c : Int) (h0 : 0 ≤ c) (h : c ≤ a)
    (ha : a < 4294967296) : (sub_u32_i32 a c : Int) = (a : Int) - c := by
  unfold sub_u32_i32
  omega

theorem sub_u32_i32_toInt32 (a b : Nat) (hab : a ≤ b) (hb : b < 4294967296) :
    sub_u32_i32 b (toInt32 a) = b - a := by
  unfold sub_u32_i32 toInt32
  split_ifs <;> omega

/-- The rows before the boundary: `close_file` hands to `write_metadata` arrays that hold,
at the index `bcnt - curr_file_bcnt` of every row before `break_bcnt`, the antennas of
that baseline. -/
theorem close_file_rows (inp : BlockInput) (s : DiskState) (bctr strt br : Nat)
    (hle : strt ≤ br) (hbr : br < 4294967296) (hbctr : bctr + (br - strt) ≤ 4294967296) :
    DiskEvent.write_metadata (inp.header.mcnt ((bctr + sub32 br strt) % 4294967296))
        (close_file inp s bctr strt br).1.ant_0_array
        (close_file inp s bctr strt br).1.ant_1_array
        (nblt_of (close_file inp s bctr strt br).1.file_nblts)
      ∈ (close_file inp s bctr strt br).2 ∧
    (close_file inp s bctr strt br).1.file_nblts = s.file_nblts + ((br - strt : Nat) : Int) ∧
    ∀ b, strt + b < br →
      (close_file inp s bctr strt br).1.ant_0_array (sub_u32_i32 (strt + b) s.curr_file_bcnt)
        = s.corr_to_hera_map (inp.header.ant_pair_0 (bctr + b)) ∧
      (close_file inp s bctr strt br).1.ant_1_array (sub_u32_i32 (strt + b) s.curr_file_bcnt)
        = s.corr_to_hera_map (inp.header.ant_pair_1 (bctr + b)) := by
  have hn : sub32 br strt = br - strt := by unfold sub32; omega
  unfold close_file
  simp only [hn]
  by_cases hpos : br - strt > 0
  · simp only [if_pos hpos]
    refine ⟨by simp, trivial, ?_⟩
    intro b hb
    rw [← meta_index]
    have e : bctr + b = (bctr + b) % 4294967296 := (Nat.mod_eq_of_lt (by omega)).symm
    rw [e]
    exact ⟨fill_meta_hit _ _ _ _ _ _ b (by omega) (by omega),
      fill_meta_hit _ _ _ _ _ _ b (by omega) (by omega)⟩
  · simp only [if_neg hpos]
    refine ⟨by simp, ?_, ?_⟩
    · have : br - strt = 0 := by omega
      rw [this]; simp
    · intro b hb
      omega

/-- The rows from the boundary on: `open_file` makes `break_bcnt` the first `bcnt` of the
new file and leaves at index `k` the antennas, under the map just read, of the baseline
whose `bcnt` is `break_bcnt + k`. -/
theorem open_file_rows (cfg : WriterConfig) (inp : BlockInput) (s : DiskState)
    (bctr strt stop br : Nat) (hle : strt ≤ br) (hbr : br ≤ stop)
    (hstop : stop < 4294967296) (hbctr : bctr + (stop - strt) < 4294967296)
    (hspan : stop - strt < 4294967295) :
    (open_file cfg inp s bctr strt stop br).1.curr_file_bcnt = toInt32 br ∧
    (open_file cfg inp s bctr strt stop br).1.file_nblts = ((stop - br + 1 : Nat) : Int) ∧
    (open_file cfg inp s bctr strt stop br).1.file_cnt = s.file_cnt ∧
    ∀ k, br + k ≤ stop →
      (open_file cfg inp s bctr strt stop br).1.ant_0_array k
        = inp.redis_map (inp.header.ant_pair_0 (bctr + (br - strt) + k)) ∧
      (open_file cfg inp s bctr strt stop br).1.ant_1_array k
        = inp.redis_map (inp.header.ant_pair_1 (bctr + (br - strt) + k)) := by
  have hn : (stop + 4294967296 - br + 1) % 4294967296 = stop - br + 1 := by
    have h1 : stop + 4294967296 - br + 1 = stop - br + 1 + 4294967296 := by omega
    have h2 : stop - br + 1 < 4294967296 := by omega
    rw [h1, Nat.add_mod_right, Nat.mod_eq_of_lt h2]
  have hbo : (bctr + br + 4294967296 - strt) % 4294967296 = bctr + (br - strt) := by
    have h1 : bctr + br + 4294967296 - strt = bctr + (br - strt) + 4294967296 := by omega
    have h2 : bctr + (br - strt) < 4294967296 := by omega
    rw [h1, Nat.add_mod_right, Nat.mod_eq_of_lt h2]
  have hfo : sub_u32_i32 br (toInt32 br) = 0 := by
    rw [sub_u32_i32_toInt32 br br (le_refl _) (by omega)]; omega
  unfold open_file
  simp only [hn, hbo, hfo]
  rw [if_pos (by omega)]
  simp only []
  refine ⟨trivial, by simp, trivial, ?_⟩
  intro k hk
  have e1 : k = (0 + k) % 4294967296 := by omega
  have e2 : bctr + (br - strt) + k = (bctr + (br - strt) + k) % 4294967296 :=
    (Nat.mod_eq_of_lt (by omega)).symm
  rw [e2]
  nth_rewrite 1 [e1]
  nth_rewrite 3 [e1]
  exact ⟨fill_meta_hit _ _ _ _ _ _ k (by omega) (by omega),
    fill_meta_hit _ _ _ _ _ _ k (by omega) (by omega)⟩

/-- `write_stride` on a stride whose `bcnt`s are contiguous and do not wrap. -/
theorem write_stride_contig (inp : BlockInput)
    (bctr : Nat) (hbctr : bctr + N_BL_PER_WRITE ≤ 4294967296)
    (hwrap : inp.header.bcnt bctr + N_BL_PER_WRITE ≤ 4294967296)
    (hcontig : ∀ b, b < N_BL_PER_WRITE →
      inp.header.bcnt (bctr + b) = inp.header.bcnt bctr + b) :
    inp.header.bcnt bctr % 4294967296 = inp.header.bcnt bctr ∧
    inp.header.bcnt ((bctr + N_BL_PER_WRITE - 1) % 4294967296) % 4294967296
      = inp.header.bcnt bctr + 31 := by
  have hN : N_BL_PER_WRITE = 32 := rfl
  rw [hN] at hbctr hwrap hcontig ⊢
  have e : (bctr + 32 - 1) % 4294967296 = bctr + 31 := by omega
  rw [e, hcontig 31 (by omega)]
  omega

/-- C14: for a stride of `N_BL_PER_WRITE` baselines whose `header.bcnt` is contiguous (and
does not wrap at `2^32`), every baseline row that the writer writes into an open file has
its antennas stored at the metadata index `bcnt - curr_file_bcnt` (a `uint32_t`
difference, the plain difference for `0 <= curr_file_bcnt <= bcnt`), namely
`corr_to_hera_map[header.ant_pair_0[k]]` and `corr_to_hera_map[header.ant_pair_1[k]]` for
the block position `k` of that baseline: on the full-stride path in the arrays after the
stride; for the rows before a boundary in the arrays handed to `write_metadata`; and for
the rows from the boundary on in the arrays of the file just opened at `break_bcnt`, read
under the antenna map fetched on opening.  In particular entry 0 of the new file
describes the baseline whose `bcnt` is `break_bcnt`. -/
theorem metadata_rows_follow_bcnt (cfg : WriterConfig) (inp : BlockInput) (s : DiskState)
    (bctr : Nat) (hbpf : 0 < s.bcnts_per_file)
    (hbctr : bctr + N_BL_PER_WRITE ≤ 4294967296)
    (hwrap : inp.header.bcnt bctr + N_BL_PER_WRITE ≤ 4294967296)
    (hcontig : ∀ b, b < N_BL_PER_WRITE →
      inp.header.bcnt (bctr + b) = inp.header.bcnt bctr + b) :
    (same_file s.bcnts_per_file (inp.header.bcnt bctr) (inp.header.bcnt bctr + 31) →
      0 ≤ s.curr_file_bcnt → ∀ b, b < N_BL_PER_WRITE →
        (write_stride cfg inp s bctr).state.ant_0_array
            (sub_u32_i32 (inp.header.bcnt (bctr + b)) s.curr_file_bcnt)
          = s.corr_to_hera_map (inp.header.ant_pair_0 (bctr + b)) ∧
        (write_stride cfg inp s bctr).state.ant_1_array
            (sub_u32_i32 (inp.header.bcnt (bctr + b)) s.curr_file_bcnt)
          = s.corr_to_hera_map (inp.header.ant_pair_1 (bctr + b))) ∧
    (¬ same_file s.bcnts_per_file (inp.header.bcnt bctr) (inp.header.bcnt bctr + 31) →
      0 ≤ s.curr_file_bcnt →
      ∃ m a0 a1 n, DiskEvent.write_metadata m a0 a1 n ∈ (write_stride cfg inp s bctr).events ∧
        ∀ b, inp.header.bcnt (bctr + b)
            < break_bcnt_of s.bcnts_per_file (inp.header.bcnt bctr) →
          b < N_BL_PER_WRITE →
          a0 (sub_u32_i32 (inp.header.bcnt (bctr + b)) s.curr_file_bcnt)
            = s.corr_to_hera_map (inp.header.ant_pair_0 (bctr + b)) ∧
          a1 (sub_u32_i32 (inp.header.bcnt (bctr + b)) s.curr_file_bcnt)
            = s.corr_to_hera_map (inp.header.ant_pair_1 (bctr + b))) ∧
    (¬ same_file s.bcnts_per_file (inp.header.bcnt bctr) (inp.header.bcnt bctr + 31) →
      (write_stride cfg inp s bctr).stop = false →
      (write_stride cfg inp s bctr).state.curr_file_bcnt
        = toInt32 (break_bcnt_of s.bcnts_per_file (inp.header.bcnt bctr)) ∧
      (∀ b, b < N_BL_PER_WRITE →
        break_bcnt_of s.bcnts_per_file (inp.header.bcnt bctr)
          ≤ inp.header.bcnt (bctr + b) →
        sub_u32_i32 (inp.header.bcnt (bctr + b))
            (write_stride cfg inp s bctr).state.curr_file_bcnt
          = inp.header.bcnt (bctr + b)
            - break_bcnt_of s.bcnts_per_file (inp.header.bcnt bctr) ∧
        (write_stride cfg inp s bctr).state.ant_0_array
            (sub_u32_i32 (inp.header.bcnt (bctr + b))
              (write_stride cfg inp s bctr).state.curr_file_bcnt)
          = inp.redis_map (inp.header.ant_pair_0 (bctr + b)) ∧
        (write_stride cfg inp s bctr).state.ant_1_array
            (sub_u32_i32 (inp.header.bcnt (bctr + b))
              (write_stride cfg inp s bctr).state.curr_file_bcnt)
          = inp.redis_map (inp.header.ant_pair_1 (bctr + b))) ∧
      ∃ k, k < N_BL_PER_WRITE ∧
        inp.header.bcnt (bctr + k)
          = break_bcnt_of s.bcnts_per_file (inp.header.bcnt bctr) ∧
        (write_stride cfg inp s bctr).state.ant_0_array 0
          = inp.redis_map (inp.header.ant_pair_0 (bctr + k)) ∧
        (write_stride cfg inp s bctr).state.ant_1_array 0
          = inp.redis_map (inp.header.ant_pair_1 (bctr + k))) ∧
    (∀ b, b < N_BL_PER_WRITE → 0 ≤ s.curr_file_bcnt →
      s.curr_file_bcnt ≤ inp.header.bcnt (bctr + b) →
      (sub_u32_i32 (inp.header.bcnt (bctr + b)) s.curr_file_bcnt : Int)
        = (inp.header.bcnt (bctr + b) : Int) - s.curr_file_bcnt) := by
  obtain ⟨hs1, hs2⟩ := write_stride_contig inp bctr hbctr hwrap hcontig
  have hN : N_BL_PER_WRITE = 32 := rfl
  rw [hN] at hbctr hwrap hcontig
  simp only [hN]
  have hbr : ¬ same_file s.bcnts_per_file (inp.header.bcnt bctr)
      (inp.header.bcnt bctr + 31) →
      inp.header.bcnt bctr ≤ break_bcnt_of s.bcnts_per_file (inp.header.bcnt bctr) ∧
      break_bcnt_of s.bcnts_per_file (inp.header.bcnt bctr)
        ≤ inp.header.bcnt bctr + 31 := by
    intro hns
    have hb : inp.header.bcnt bctr % s.bcnts_per_file = 0 ∨
        inp.header.bcnt bctr / s.bcnts_per_file
          ≠ (inp.header.bcnt bctr + 31) / s.bcnts_per_file := by
      unfold same_file at hns
      by_cases h0 : inp.header.bcnt bctr % s.bcnts_per_file = 0
      · exact Or.inl h0
      · exact Or.inr (fun hq => hns ⟨hq, h0⟩)
    obtain ⟨_, b2, _, b4⟩ := break_bcnt_least s.bcnts_per_file (inp.header.bcnt bctr)
      (inp.header.bcnt bctr + 31) hbpf (by omega) (by omega) hb
    exact ⟨b2, b4⟩
  refine ⟨?_, ?_, ?_, ?_⟩
  · intro hsf hcur b hb
    unfold write_stride
    simp only [hs1, hs2]
    rw [if_pos hsf, if_pos hcur]
    simp only [hN]
    rw [hcontig b hb, ← meta_index]
    have e : bctr + b = (bctr + b) % 4294967296 := (Nat.mod_eq_of_lt (by omega)).symm
    rw [e]
    exact ⟨fill_meta_hit _ _ _ _ _ _ b (by omega) hb,
      fill_meta_hit _ _ _ _ _ _ b (by omega) hb⟩
  · intro hns hcur
    obtain ⟨hb1, hb2⟩ := hbr hns
    obtain ⟨c1, _, c3⟩ := close_file_rows inp s bctr (inp.header.bcnt bctr)
      (break_bcnt_of s.bcnts_per_file (inp.header.bcnt bctr)) hb1 (by omega) (by omega)
    have hmem : DiskEvent.write_metadata
        (inp.header.mcnt ((bctr + sub32 (break_bcnt_of s.bcnts_per_file
          (inp.header.bcnt bctr)) (inp.header.bcnt bctr)) % 4294967296))
        (close_file inp s bctr (inp.header.bcnt bctr)
          (break_bcnt_of s.bcnts_per_file (inp.header.bcnt bctr))).1.ant_0_array
        (close_file inp s bctr (inp.header.bcnt bctr)
          (break_bcnt_of s.bcnts_per_file (inp.header.bcnt bctr))).1.ant_1_array
        (nblt_of (close_file inp s bctr (inp.header.bcnt bctr)
          (break_bcnt_of s.bcnts_per_file (inp.header.bcnt bctr))).1.file_nblts)
        ∈ (write_stride cfg inp s bctr).events := by
      unfold write_stride
      simp only [hs1, hs2]
      rw [if_neg hns]
      simp only [if_pos hcur]
      split_ifs
      · exact c1
      · exact List.mem_append_left _ c1
    refine ⟨_, _, _, _, hmem, ?_⟩
    intro b hb hb32
    rw [hcontig b hb32] at hb ⊢
    exact c3 b hb
  · intro hns hstop
    obtain ⟨hb1, hb2⟩ := hbr hns
    have hst : (write_stride cfg inp s bctr).state
        = (open_file cfg inp
            (if 0 ≤ s.curr_file_bcnt
              then close_file inp s bctr (inp.header.bcnt bctr)
                (break_bcnt_of s.bcnts_per_file (inp.header.bcnt bctr))
              else (s, [])).1
            bctr (inp.header.bcnt bctr) (inp.header.bcnt bctr + 31)
            (break_bcnt_of s.bcnts_per_file (inp.header.bcnt bctr))).1 := by
      unfold write_stride at hstop ⊢
      simp only [hs1, hs2] at hstop ⊢
      rw [if_neg hns] at hstop ⊢
      split_ifs at hstop ⊢ <;> rfl
    obtain ⟨o1, _, _, o4⟩ := open_file_rows cfg inp
      (if 0 ≤ s.curr_file_bcnt
        then close_file inp s bctr (inp.header.bcnt bctr)
          (break_bcnt_of s.bcnts_per_file (inp.header.bcnt bctr))
        else (s, [])).1
      bctr (inp.header.bcnt bctr) (inp.header.bcnt bctr + 31)
      (break_bcnt_of s.bcnts_per_file (inp.header.bcnt bctr)) hb1 hb2 (by omega) (by omega)
      (by omega)
    rw [hst]
    refine ⟨o1, ?_, ?_⟩
    · intro b hb hle
      rw [hcontig b hb] at hle ⊢
      rw [o1, sub_u32_i32_toInt32 _ _ hle (by omega)]
      obtain ⟨p0, p1⟩ := o4 (inp.header.bcnt bctr + b
        - break_bcnt_of s.bcnts_per_file (inp.header.bcnt bctr)) (by omega)
      have e : bctr + (break_bcnt_of s.bcnts_per_file (inp.header.bcnt bctr)
          - inp.header.bcnt bctr) + (inp.header.bcnt bctr + b
          - break_bcnt_of s.bcnts_per_file (inp.header.bcnt bctr)) = bctr + b := by omega
      rw [e] at p0 p1
      exact ⟨rfl, p0, p1⟩
    · refine ⟨break_bcnt_of s.bcnts_per_file (inp.header.bcnt bctr) - inp.header.bcnt bctr,
        by omega, ?_, ?_⟩
      · rw [hcontig _ (by omega)]; omega
      · exact o4 0 (by omega)
  · intro b hb h0 hle
    exact sub_u32_i32_exact _ _ h0 hle (by rw [hcontig b hb]; omega)

theorem metadata_rows_follow_bcnt_witness :
    (write_stride cfgWriter (inp_plain 64 5) disk_open 0).state.curr_file_bcnt = 80 ∧
    (write_stride cfgWriter (inp_plain 64 5) disk_open 0).state.ant_0_array 4 = 12 ∧
    (write_stride cfgWriter (inp_plain 64 5) disk_open 0).state.ant_1_array 4 = 10 :=
  have h := (metadata_rows_follow_bcnt cfgWriter (inp_plain 64 5) disk_open 0 (by decide)
    (by decide) (by decide)
    (fun b _ => by simp only [inp_plain, ramp_header]; omega)).2.2.1 (by decide) (by decide)
  ⟨h.1, (h.2.1 20 (by decide) (by decide)).2.1, (h.2.1 20 (by decide) (by decide)).2.2⟩

/-! ## Theorems: the files written from contiguous baselines -/

/-- Where the boundary lies for a stride that starts `r` rows into a file, `0 < r <= bpf`:
at the start of the stride when the file is full, nowhere when the stride fits, and at
the end of the file otherwise. -/
theorem boundary_cases (bpf k r : Nat) (h32 : 32 ≤ bpf) (hr0 : 0 < r)
    (hlim : bpf * k + r + 31 < 4294967296) :
    (r = bpf → ¬ same_file bpf (bpf * k + r) (bpf * k + r + 31) ∧
      break_bcnt_of bpf (bpf * k + r) = bpf * k + r) ∧
    (r + 32 ≤ bpf → same_file bpf (bpf * k + r) (bpf * k + r + 31)) ∧
    (r < bpf → bpf < r + 32 → ¬ same_file bpf (bpf * k + r) (bpf * k + r + 31) ∧
      break_bcnt_of bpf (bpf * k + r) = bpf * (k + 1)) := by
  have hpos : 0 < bpf := by omega
  have hmod : (bpf * k + r) % bpf = r % bpf := Nat.mul_add_mod _ _ _
  have hdiv : (bpf * k + r) / bpf = k + r / bpf := Nat.mul_add_div hpos _ _
  have hdiv2 : (bpf * k + r + 31) / bpf = k + (r + 31) / bpf := by
    rw [Nat.add_assoc, Nat.mul_add_div hpos]
  refine ⟨?_, ?_, ?_⟩
  · intro he
    have h0 : (bpf * k + r) % bpf = 0 := by rw [hmod, he, Nat.mod_self]
    refine ⟨fun hc => hc.2 h0, ?_⟩
    unfold break_bcnt_of
    rw [if_pos h0]
  · intro hfit
    have h1 : r % bpf = r := Nat.mod_eq_of_lt (by omega)
    have h2 : r / bpf = 0 := Nat.div_eq_of_lt (by omega)
    have h3 : (r + 31) / bpf = 0 := Nat.div_eq_of_lt (by omega)
    unfold same_file
    rw [hmod, hdiv, hdiv2, h1, h2, h3]
    exact ⟨rfl, by omega⟩
  · intro hlt hover
    have h1 : r % bpf = r := Nat.mod_eq_of_lt hlt
    have h2 : r / bpf = 0 := Nat.div_eq_of_lt hlt
    have h3 : 1 ≤ (r + 31) / bpf := (Nat.one_le_div_iff hpos).mpr (by omega)
    refine ⟨?_, ?_⟩
    · unfold same_file
      rw [hmod, hdiv, hdiv2, h1, h2]
      intro hc
      omega
    · unfold break_bcnt_of
      rw [hmod, h1, if_neg (by omega), hdiv, h2, Nat.add_zero]
      have e : (k + 1) * bpf = bpf * (k + 1) := Nat.mul_comm _ _
      have e2 : bpf * (k + 1) = bpf * k + bpf := by ring
      rw [e, Nat.mod_eq_of_lt (by omega), Nat.mod_eq_of_lt (by omega)]

theorem file_log_append (l : FileLog) (e1 e2 : List DiskEvent) :
    file_log l (e1 ++ e2) = file_log (file_log l e1) e2 := by
  unfold file_log
  rw [List.foldl_append]

theorem nblt_of_small (x : Nat) (hx : x < 2147483648) : nblt_of (x : Int) = (x : Int) := by
  unfold nblt_of toInt32
  have e : ((x : Int) % 4294967296).toNat = x := by omega
  rw [e, if_pos (by omega)]
  omega

/-- What `close_file` does to the counters of the writer and to the log of the files. -/
theorem close_file_log (inp : BlockInput) (s : DiskState) (bctr strt br : Nat)
    (l : FileLog) (hle : strt ≤ br) (hbr : br < 4294967296) :
    (close_file inp s bctr strt br).1.file_cnt = (s.file_cnt + 1) % 4294967296 ∧
    (close_file inp s bctr strt br).1.curr_file_bcnt = s.curr_file_bcnt ∧
    (close_file inp s bctr strt br).1.idle = s.idle ∧
    file_log l (close_file inp s bctr strt br).2
      = { closed := l.closed ++ [(l.rows + (br - strt),
            nblt_of (s.file_nblts + ((br - strt : Nat) : Int)))]
          rows := 0
          nblt := 0 } := by
  have hn : sub32 br strt = br - strt := by unfold sub32; omega
  unfold close_file
  simp only [hn]
  by_cases hpos : br - strt > 0
  · simp only [if_pos hpos]
    refine ⟨trivial, trivial, trivial, ?_⟩
    simp [file_log, log_event]
  · simp only [if_neg hpos]
    have h0 : br - strt = 0 := by omega
    refine ⟨trivial, trivial, trivial, ?_⟩
    simp [file_log, log_event, h0]

/-- What `open_file` does to the log of the files: the new file holds the rows from the
boundary on. -/
theorem open_file_log (cfg : WriterConfig) (inp : BlockInput) (s : DiskState)
    (bctr strt stop br : Nat) (l : FileLog) (hle : strt ≤ br) (hbr : br ≤ stop)
    (hspan : stop - strt < 4294967295) :
    (open_file cfg inp s bctr strt stop br).1.idle = s.idle ∧
    file_log l (open_file cfg inp s bctr strt stop br).2
      = { l with rows := stop - br + 1 } := by
  have hn : (stop + 4294967296 - br + 1) % 4294967296 = stop - br + 1 := by
    have h1 : stop + 4294967296 - br + 1 = stop - br + 1 + 4294967296 := by omega
    have h2 : stop - br + 1 < 4294967296 := by omega
    rw [h1, Nat.add_mod_right, Nat.mod_eq_of_lt h2]
  unfold open_file
  simp only [hn]
  rw [if_pos (by omega)]
  refine ⟨rfl, ?_⟩
  simp [file_log, log_event]

theorem toInt32_small (x : Nat) (hx : x < 2147483648) : toInt32 x = (x : Int) := by
  unfold toInt32
  rw [if_pos (by omega)]
  omega

/-- A stride in the same file as its predecessor, with a file open: 32 more rows. -/
theorem write_stride_same (cfg : WriterConfig) (inp : BlockInput) (s : DiskState)
    (bctr strt : Nat) (l : FileLog)
    (hstrt : inp.header.bcnt bctr % 4294967296 = strt)
    (hstop : inp.header.bcnt ((bctr + N_BL_PER_WRITE - 1) % 4294967296) % 4294967296
      = strt + 31)
    (hsf : same_file s.bcnts_per_file strt (strt + 31)) (hcur : 0 ≤ s.curr_file_bcnt) :
    (write_stride cfg inp s bctr).stop = false ∧
    (write_stride cfg inp s bctr).state.bcnts_per_file = s.bcnts_per_file ∧
    (write_stride cfg inp s bctr).state.nfiles = s.nfiles ∧
    (write_stride cfg inp s bctr).state.idle = s.idle ∧
    (write_stride cfg inp s bctr).state.curr_file_bcnt = s.curr_file_bcnt ∧
    (write_stride cfg inp s bctr).state.file_cnt = s.file_cnt ∧
    (write_stride cfg inp s bctr).state.file_nblts = s.file_nblts + 32 ∧
    file_log l (write_stride cfg inp s bctr).events = { l with rows := l.rows + 32 } := by
  unfold write_stride
  simp only [hstrt, hstop]
  rw [if_pos hsf, if_pos hcur]
  refine ⟨rfl, rfl, rfl, rfl, rfl, rfl, rfl, ?_⟩
  simp [file_log, log_event, N_BL_PER_WRITE]

/-- A stride with a boundary at `br` that finds no file open: the file at `br` is
opened and receives the rows from `br` on. -/
theorem write_stride_first (cfg : WriterConfig) (inp : BlockInput) (s : DiskState)
    (bctr strt br : Nat) (l : FileLog)
    (hstrt : inp.header.bcnt bctr % 4294967296 = strt)
    (hstop : inp.header.bcnt ((bctr + N_BL_PER_WRITE - 1) % 4294967296) % 4294967296
      = strt + 31)
    (hns : ¬ same_file s.bcnts_per_file strt (strt + 31))
    (hbr : break_bcnt_of s.bcnts_per_file strt = br) (hle : strt ≤ br)
    (hbr2 : br ≤ strt + 31) (hlim : strt + 31 < 2147483648)
    (hbctr : bctr + 32 ≤ 4294967296) (hcur : ¬ 0 ≤ s.curr_file_bcnt) :
    (write_stride cfg inp s bctr).stop = false ∧
    (write_stride cfg inp s bctr).state.bcnts_per_file = s.bcnts_per_file ∧
    (write_stride cfg inp s bctr).state.nfiles = s.nfiles ∧
    (write_stride cfg inp s bctr).state.idle = s.idle ∧
    (write_stride cfg inp s bctr).state.curr_file_bcnt = (br : Int) ∧
    (write_stride cfg inp s bctr).state.file_cnt = s.file_cnt ∧
    (write_stride cfg inp s bctr).state.file_nblts = ((strt + 31 - br + 1 : Nat) : Int) ∧
    file_log l (write_stride cfg inp s bctr).events
      = { l with rows := strt + 31 - br + 1 } := by
  obtain ⟨o1, o2, o3, _⟩ := open_file_rows cfg inp s bctr strt (strt + 31) br hle hbr2
    (by omega) (by omega) (by omega)
  obtain ⟨g1, g2⟩ := open_file_log cfg inp s bctr strt (strt + 31) br l hle hbr2 (by omega)
  obtain ⟨p1, p2⟩ := open_file_bpf cfg inp s bctr strt (strt + 31) br
  unfold write_stride
  simp only [hstrt, hstop]
  rw [if_neg hns]
  simp only [hbr, if_neg hcur]
  rw [if_neg (fun h => hcur h.1)]
  simp only [List.nil_append]
  exact ⟨trivial, p1, p2, g1, by rw [o1, toInt32_small br (by omega)], o3, o2, g2⟩

/-- A stride with a boundary at `br` that finds a file open, fewer than `nfiles` files
being closed after this one: the open file receives the rows before `br` and is closed,
the file at `br` is opened and receives the rows from `br` on. -/
theorem write_stride_next (cfg : WriterConfig) (inp : BlockInput) (s : DiskState)
    (bctr strt br : Nat) (l : FileLog)
    (hstrt : inp.header.bcnt bctr % 4294967296 = strt)
    (hstop : inp.header.bcnt ((bctr + N_BL_PER_WRITE - 1) % 4294967296) % 4294967296
      = strt + 31)
    (hns : ¬ same_file s.bcnts_per_file strt (strt + 31))
    (hbr : break_bcnt_of s.bcnts_per_file strt = br) (hle : strt ≤ br)
    (hbr2 : br ≤ strt + 31) (hlim : strt + 31 < 2147483648)
    (hbctr : bctr + 32 ≤ 4294967296) (hcur : 0 ≤ s.curr_file_bcnt)
    (hmore : (s.file_cnt + 1) % 4294967296 < s.nfiles) :
    (write_stride cfg inp s bctr).stop = false ∧
    (write_stride cfg inp s bctr).state.bcnts_per_file = s.bcnts_per_file ∧
    (write_stride cfg inp s bctr).state.nfiles = s.nfiles ∧
    (write_stride cfg inp s bctr).state.idle = s.idle ∧
    (write_stride cfg inp s bctr).state.curr_file_bcnt = (br : Int) ∧
    (write_stride cfg inp s bctr).state.file_cnt = (s.file_cnt + 1) % 4294967296 ∧
    (write_stride cfg inp s bctr).state.file_nblts = ((strt + 31 - br + 1 : Nat) : Int) ∧
    file_log l (write_stride cfg inp s bctr).events
      = { closed := l.closed ++ [(l.rows + (br - strt),
            nblt_of (s.file_nblts + ((br - strt : Nat) : Int)))]
          rows := strt + 31 - br + 1
          nblt := 0 } := by
  obtain ⟨c1, c2, c3, c4⟩ := close_file_log inp s bctr strt br l hle (by omega)
  obtain ⟨c5, c6⟩ := close_file_bpf inp s bctr strt br
  obtain ⟨o1, o2, o3, _⟩ := open_file_rows cfg inp (close_file inp s bctr strt br).1
    bctr strt (strt + 31) br hle hbr2 (by omega) (by omega) (by omega)
  obtain ⟨g1, g2⟩ := open_file_log cfg inp (close_file inp s bctr strt br).1 bctr strt
    (strt + 31) br (file_log l (close_file inp s bctr strt br).2) hle hbr2 (by omega)
  obtain ⟨p1, p2⟩ := open_file_bpf cfg inp (close_file inp s bctr strt br).1 bctr strt
    (strt + 31) br
  unfold write_stride
  simp only [hstrt, hstop]
  rw [if_neg hns]
  simp only [hbr, if_pos hcur]
  rw [if_neg (by rw [c1, c6]; intro hc; omega)]
  simp only []
  refine ⟨trivial, by rw [p1, c5], by rw [p2, c6], by rw [g1, c3],
    by rw [o1, toInt32_small br (by omega)], by rw [o3, c1], o2, ?_⟩
  rw [file_log_append, g2, c4]

theorem boundary_at_multiple (bpf strt stop : Nat) (h0 : strt % bpf = 0) :
    ¬ same_file bpf strt stop ∧ break_bcnt_of bpf strt = strt := by
  refine ⟨fun hc => hc.2 h0, ?_⟩
  unfold break_bcnt_of
  rw [if_pos h0]

theorem cross_arith (B0 X bpf r : Nat) (h32 : 32 ≤ bpf) (hr0 : 0 < r) (hlt : r < bpf)
    (hover : bpf < r + 32) (hrange : B0 + X + r + 31 < 2147483648) :
    B0 + (X + r) + 31 - (B0 + (X + bpf)) + 1 = r + 32 - bpf ∧
    B0 + (X + bpf) - (B0 + (X + r)) = bpf - r ∧
    r + (bpf - r) = bpf ∧
    X + r + 32 = X + bpf + (r + 32 - bpf) ∧
    0 < r + 32 - bpf ∧ r + 32 - bpf ≤ bpf ∧
    B0 + (X + r) ≤ B0 + (X + bpf) ∧
    B0 + (X + bpf) ≤ B0 + (X + r) + 31 ∧
    B0 + (X + r) + 31 < 2147483648 ∧ bpf < 2147483648 := by
  omega

theorem file_cnt_arith (cnt q K nf X Y : Nat) (hcnt : cnt = q) (hq : q + 1 < K)
    (hnf : K ≤ nf) (hXY : 32 * q ≤ X) (hX : X + Y < 2147483648) :
    (cnt + 1) % 4294967296 < nf ∧ (cnt + 1) % 4294967296 = q + 1 := by
  omega

/-- The stride after a trigger that found no file open opens the first file. -/
theorem write_stride_inv_first (cfg : WriterConfig) (inp : BlockInput) (s : DiskState)
    (l : FileLog) (bctr B0 K c : Nat) (hB0 : B0 = s.bcnts_per_file * c)
    (h32 : 32 ≤ s.bcnts_per_file) (hrange : B0 + 31 < 2147483648)
    (hbctr : bctr + 32 ≤ 4294967296)
    (hstrt : inp.header.bcnt bctr % 4294967296 = B0)
    (hstop : inp.header.bcnt ((bctr + N_BL_PER_WRITE - 1) % 4294967296) % 4294967296
      = B0 + 31)
    (hnf : K ≤ s.nfiles) (hidle : s.idle = 0) (hcur : s.curr_file_bcnt = -1)
    (hcnt : s.file_cnt = 0) (hcl : l.closed = []) :
    (write_stride cfg inp s bctr).stop = false ∧
    FilesInv B0 s.bcnts_per_file K 32 (write_stride cfg inp s bctr).state
      (file_log l (write_stride cfg inp s bctr).events) := by
  have hmod : B0 % s.bcnts_per_file = 0 := by rw [hB0, Nat.mul_mod_right]
  have h7 : B0 + 31 - B0 + 1 = 32 := by omega
  obtain ⟨hns, hbr⟩ := boundary_at_multiple s.bcnts_per_file B0 (B0 + 31) hmod
  obtain ⟨w1, w2, w3, w4, w5, w6, w7, w8⟩ := write_stride_first cfg inp s bctr B0
    B0 l hstrt hstop hns hbr (le_refl _) (Nat.le_add_right _ _) hrange hbctr
    (by rw [hcur]; decide)
  rw [h7] at w7 w8
  refine ⟨w1, w2, by rw [w3]; exact hnf, by rw [w4, hidle], Or.inr ?_⟩
  refine ⟨0, 32, rfl, by decide, h32, by rw [w5]; rfl, by rw [w6, hcnt], w7, ?_, ?_⟩
  · rw [w8]
  · rw [w8]; exact hcl

/-- A stride that finds the open file full closes it and opens the next one. -/
theorem write_stride_inv_full (cfg : WriterConfig) (inp : BlockInput) (s : DiskState)
    (l : FileLog) (bctr B0 K c q : Nat) (hB0 : B0 = s.bcnts_per_file * c)
    (h32 : 32 ≤ s.bcnts_per_file)
    (hrange : B0 + s.bcnts_per_file * (q + 1) + 31 < 2147483648) (hq : q + 1 < K)
    (hbctr : bctr + 32 ≤ 4294967296)
    (hstrt : inp.header.bcnt bctr % 4294967296 = B0 + s.bcnts_per_file * (q + 1))
    (hstop : inp.header.bcnt ((bctr + N_BL_PER_WRITE - 1) % 4294967296) % 4294967296
      = B0 + s.bcnts_per_file * (q + 1) + 31)
    (hnf : K ≤ s.nfiles) (hidle : s.idle = 0)
    (hcur : s.curr_file_bcnt = ((B0 + s.bcnts_per_file * q : Nat) : Int))
    (hcnt : s.file_cnt = q) (hnb : s.file_nblts = (s.bcnts_per_file : Int))
    (hrows : l.rows = s.bcnts_per_file)
    (hcl : l.closed = List.replicate q (s.bcnts_per_file, (s.bcnts_per_file : Int))) :
    (write_stride cfg inp s bctr).stop = false ∧
    FilesInv B0 s.bcnts_per_file K (s.bcnts_per_file * (q + 1) + 32)
      (write_stride cfg inp s bctr).state
      (file_log l (write_stride cfg inp s bctr).events) := by
  have hmod : (B0 + s.bcnts_per_file * (q + 1)) % s.bcnts_per_file = 0 := by
    rw [hB0, ← Nat.mul_add, Nat.mul_mod_right]
  have h7 : B0 + s.bcnts_per_file * (q + 1) + 31 - (B0 + s.bcnts_per_file * (q + 1)) + 1
      = 32 := by omega
  have hcur0 : 0 ≤ s.curr_file_bcnt := by rw [hcur]; exact Int.natCast_nonneg _
  have hq32 : 32 * q ≤ s.bcnts_per_file * q := Nat.mul_le_mul_right _ h32
  have e4 : s.bcnts_per_file * (q + 1) = s.bcnts_per_file * q + s.bcnts_per_file := by
    rw [Nat.mul_add, Nat.mul_one]
  obtain ⟨hmore, hcnt1⟩ := file_cnt_arith s.file_cnt q K s.nfiles (s.bcnts_per_file * q)
    (B0 + s.bcnts_per_file + 31) hcnt hq hnf hq32 (by rw [e4] at hrange; omega)
  have hbpf : s.bcnts_per_file < 2147483648 := by
    have : s.bcnts_per_file * 1 ≤ s.bcnts_per_file * (q + 1) :=
      Nat.mul_le_mul_left _ (by omega)
    omega
  obtain ⟨hns, hbr⟩ := boundary_at_multiple s.bcnts_per_file
    (B0 + s.bcnts_per_file * (q + 1)) (B0 + s.bcnts_per_file * (q + 1) + 31) hmod
  obtain ⟨w1, w2, w3, w4, w5, w6, w7, w8⟩ := write_stride_next cfg inp s bctr
    (B0 + s.bcnts_per_file * (q + 1)) (B0 + s.bcnts_per_file * (q + 1)) l hstrt hstop hns
    hbr (le_refl _) (Nat.le_add_right _ _) hrange hbctr hcur0 hmore
  rw [h7] at w7 w8
  rw [Nat.sub_self, Nat.add_zero, Nat.cast_zero, Int.add_zero, hrows, hnb,
    nblt_of_small _ hbpf, hcl, ← List.replicate_succ'] at w8
  refine ⟨w1, w2, by rw [w3]; exact hnf, by rw [w4, hidle], Or.inr ?_⟩
  refine ⟨q + 1, 32, rfl, by decide, h32, w5, by rw [w6, hcnt1], w7, ?_, ?_⟩
  · rw [w8]
  · rw [w8]

/-- A stride that fits in the open file adds its 32 rows to it. -/
theorem write_stride_inv_fit (cfg : WriterConfig) (inp : BlockInput) (s : DiskState)
    (l : FileLog) (bctr B0 K c q r : Nat) (hB0 : B0 = s.bcnts_per_file * c)
    (h32 : 32 ≤ s.bcnts_per_file) (hr0 : 0 < r) (hfit : r + 32 ≤ s.bcnts_per_file)
    (hrange : B0 + s.bcnts_per_file * q + r + 31 < 4294967296)
    (hstrt : inp.header.bcnt bctr % 4294967296 = B0 + (s.bcnts_per_file * q + r))
    (hstop : inp.header.bcnt ((bctr + N_BL_PER_WRITE - 1) % 4294967296) % 4294967296
      = B0 + (s.bcnts_per_file * q + r) + 31)
    (hnf : K ≤ s.nfiles) (hidle : s.idle = 0)
    (hcur : s.curr_file_bcnt = ((B0 + s.bcnts_per_file * q : Nat) : Int))
    (hcnt : s.file_cnt = q) (hnb : s.file_nblts = (r : Int)) (hrows : l.rows = r)
    (hcl : l.closed = List.replicate q (s.bcnts_per_file, (s.bcnts_per_file : Int))) :
    (write_stride cfg inp s bctr).stop = false ∧
    FilesInv B0 s.bcnts_per_file K (s.bcnts_per_file * q + r + 32)
      (write_stride cfg inp s bctr).state
      (file_log l (write_stride cfg inp s bctr).events) := by
  have hcur0 : 0 ≤ s.curr_file_bcnt := by rw [hcur]; exact Int.natCast_nonneg _
  have e1 : B0 + (s.bcnts_per_file * q + r) = s.bcnts_per_file * (c + q) + r := by
    rw [hB0, Nat.mul_add]; omega
  have hsf := (boundary_cases s.bcnts_per_file (c + q) r h32 hr0
    (by rw [← e1]; omega)).2.1 hfit
  rw [← e1] at hsf
  obtain ⟨w1, w2, w3, w4, w5, w6, w7, w8⟩ := write_stride_same cfg inp s bctr
    (B0 + (s.bcnts_per_file * q + r)) l hstrt hstop hsf hcur0
  refine ⟨w1, w2, by rw [w3]; exact hnf, by rw [w4, hidle], Or.inr ?_⟩
  refine ⟨q, r + 32, by rw [Nat.add_assoc], Nat.succ_pos _, hfit, by rw [w5, hcur],
    by rw [w6, hcnt], ?_, ?_, ?_⟩
  · rw [w7, hnb]; push_cast; rfl
  · rw [w8, hrows]
  · rw [w8]; exact hcl

/-- A stride that crosses the end of the open file fills and closes it and opens the
next one. -/
theorem write_stride_inv_cross (cfg : WriterConfig) (inp : BlockInput) (s : DiskState)
    (l : FileLog) (bctr B0 K c q r : Nat) (hB0 : B0 = s.bcnts_per_file * c)
    (h32 : 32 ≤ s.bcnts_per_file) (hr0 : 0 < r) (hlt : r < s.bcnts_per_file)
    (hover : s.bcnts_per_file < r + 32)
    (hrange : B0 + s.bcnts_per_file * q + r + 31 < 2147483648) (hq : q + 1 < K)
    (hbctr : bctr + 32 ≤ 4294967296)
    (hstrt : inp.header.bcnt bctr % 4294967296 = B0 + (s.bcnts_per_file * q + r))
    (hstop : inp.header.bcnt ((bctr + N_BL_PER_WRITE - 1) % 4294967296) % 4294967296
      = B0 + (s.bcnts_per_file * q + r) + 31)
    (hnf : K ≤ s.nfiles) (hidle : s.idle = 0)
    (hcur : s.curr_file_bcnt = ((B0 + s.bcnts_per_file * q : Nat) : Int))
    (hcnt : s.file_cnt = q) (hnb : s.file_nblts = (r : Int)) (hrows : l.rows = r)
    (hcl : l.closed = List.replicate q (s.bcnts_per_file, (s.bcnts_per_file : Int))) :
    (write_stride cfg inp s bctr).stop = false ∧
    FilesInv B0 s.bcnts_per_file K (s.bcnts_per_file * q + r + 32)
      (write_stride cfg inp s bctr).state
      (file_log l (write_stride cfg inp s bctr).events) := by
  have hcur0 : 0 ≤ s.curr_file_bcnt := by rw [hcur]; exact Int.natCast_nonneg _
  have e1 : B0 + (s.bcnts_per_file * q + r) = s.bcnts_per_file * (c + q) + r := by
    rw [hB0, Nat.mul_add]; omega
  have e3 : s.bcnts_per_file * (c + q + 1) = B0 + s.bcnts_per_file * (q + 1) := by
    rw [hB0, ← Nat.mul_add, Nat.add_assoc]
  have e4 : s.bcnts_per_file * (q + 1) = s.bcnts_per_file * q + s.bcnts_per_file := by
    rw [Nat.mul_add, Nat.mul_one]
  obtain ⟨hns, hbr⟩ := (boundary_cases s.bcnts_per_file (c + q) r h32 hr0
    (by rw [← e1]; omega)).2.2 hlt hover
  rw [← e1] at hns hbr
  rw [e3] at hbr
  have hq32 : 32 * q ≤ s.bcnts_per_file * q := Nat.mul_le_mul_right _ h32
  obtain ⟨hmore, hcnt1⟩ := file_cnt_arith s.file_cnt q K s.nfiles (s.bcnts_per_file * q)
    (B0 + r + 31) hcnt hq hnf hq32 (by omega)
  obtain ⟨h7, h8, h9, h10, h11, h12, h13, h14, h15, hbpf⟩ :=
    cross_arith B0 (s.bcnts_per_file * q) s.bcnts_per_file r h32 hr0 hlt hover hrange
  rw [← e4] at h7 h8 h10 h13 h14
  obtain ⟨w1, w2, w3, w4, w5, w6, w7, w8⟩ := write_stride_next cfg inp s bctr
    (B0 + (s.bcnts_per_file * q + r)) (B0 + s.bcnts_per_file * (q + 1)) l hstrt hstop hns
    hbr h13 h14 h15 hbctr hcur0 hmore
  rw [h7] at w7 w8
  rw [h8, hrows, hnb, ← Nat.cast_add, h9, nblt_of_small _ hbpf, hcl,
    ← List.replicate_succ'] at w8
  refine ⟨w1, w2, by rw [w3]; exact hnf, by rw [w4, hidle], Or.inr ?_⟩
  refine ⟨q + 1, r + 32 - s.bcnts_per_file, h10, h11, h12, w5, by rw [w6, hcnt1], w7,
    ?_, ?_⟩
  · rw [w8]
  · rw [w8]

theorem files_lt (bpf q K : Nat) (h : bpf * (q + 1) < K * bpf) : q + 1 < K := by
  rw [Nat.mul_comm K bpf] at h
  exact Nat.lt_of_mul_lt_mul_left h

theorem first_arith (B0 T n : Nat) (hn0 : n = 0) (hrange : B0 + T < 2147483648)
    (hn : n + 32 ≤ T) : B0 + 31 < 2147483648 := by
  omega

theorem full_arith (B0 T X bpf n r : Nat) (hnq : n = X + r) (hfull : r = bpf)
    (hrange : B0 + T < 2147483648) (hn : n + 32 ≤ T) :
    B0 + (X + bpf) + 31 < 2147483648 ∧ X + bpf < T ∧ B0 + n = B0 + (X + bpf) ∧
    n + 32 = X + bpf + 32 := by
  omega

theorem fit_arith (B0 T X n r : Nat) (hnq : n = X + r)
    (hrange : B0 + T < 2147483648) (hn : n + 32 ≤ T) :
    B0 + X + r + 31 < 4294967296 ∧ B0 + X + r + 31 < 2147483648 ∧
    B0 + n = B0 + (X + r) ∧ n + 32 = X + r + 32 := by
  omega

theorem cross_lt (T X bpf n r : Nat) (hnq : n = X + r) (hover : bpf < r + 32)
    (hn : n + 32 ≤ T) : X + bpf < T := by
  omega

/-- One stride of contiguous baselines keeps the account of the files: after `n`
baselines, the stride with the baselines `n .. n+31` does not leave the loop and leads to
the account for `n + 32` baselines. -/
theorem write_stride_inv (cfg : WriterConfig) (inp : BlockInput) (s : DiskState)
    (l : FileLog) (bctr B0 K n c : Nat) (hB0 : B0 = s.bcnts_per_file * c)
    (h32 : 32 ≤ s.bcnts_per_file)
    (hrange : B0 + K * s.bcnts_per_file < 2147483648)
    (hn : n + 32 ≤ K * s.bcnts_per_file) (hbctr : bctr + 32 ≤ 4294967296)
    (hstrt : inp.header.bcnt bctr % 4294967296 = B0 + n)
    (hstop : inp.header.bcnt ((bctr + N_BL_PER_WRITE - 1) % 4294967296) % 4294967296
      = B0 + n + 31)
    (hinv : FilesInv B0 s.bcnts_per_file K n s l) :
    (write_stride cfg inp s bctr).stop = false ∧
    FilesInv B0 s.bcnts_per_file K (n + 32) (write_stride cfg inp s bctr).state
      (file_log l (write_stride cfg inp s bctr).events) := by
  obtain ⟨_, hnf, hidle, hcase⟩ := hinv
  have e4 : ∀ q, s.bcnts_per_file * (q + 1) = s.bcnts_per_file * q + s.bcnts_per_file :=
    fun q => by rw [Nat.mul_add, Nat.mul_one]
  rcases hcase with ⟨hn0, hcur, hcnt, hcl⟩ | ⟨q, r, hnq, hr0, hr, hcur, hcnt, hnb, hrows, hcl⟩
  · have h1 := first_arith B0 (K * s.bcnts_per_file) n hn0 hrange hn
    rw [hn0, Nat.add_zero] at hstrt hstop
    rw [hn0, Nat.zero_add]
    exact write_stride_inv_first cfg inp s l bctr B0 K c hB0 h32 h1 hbctr hstrt hstop hnf
      hidle hcur hcnt hcl
  · by_cases hfull : r = s.bcnts_per_file
    · obtain ⟨a1, a2, a3, a4⟩ := full_arith B0 (K * s.bcnts_per_file)
        (s.bcnts_per_file * q) s.bcnts_per_file n r hnq hfull hrange hn
      rw [← e4] at a1 a2 a3 a4
      rw [a3] at hstrt hstop
      rw [hfull] at hnb hrows
      rw [a4]
      exact write_stride_inv_full cfg inp s l bctr B0 K c q hB0 h32 a1
        (files_lt _ _ _ a2) hbctr hstrt hstop hnf hidle hcur hcnt hnb hrows hcl
    · obtain ⟨a1, a2, a3, a4⟩ := fit_arith B0 (K * s.bcnts_per_file)
        (s.bcnts_per_file * q) n r hnq hrange hn
      rw [a3] at hstrt hstop
      rw [a4]
      by_cases hfit : r + 32 ≤ s.bcnts_per_file
      · exact write_stride_inv_fit cfg inp s l bctr B0 K c q r hB0 h32 hr0 hfit a1 hstrt
          hstop hnf hidle hcur hcnt hnb hrows hcl
      · have hlt : r < s.bcnts_per_file := lt_of_le_of_ne hr hfull
        have hover : s.bcnts_per_file < r + 32 := Nat.lt_of_not_le hfit
        have a5 := cross_lt (K * s.bcnts_per_file) (s.bcnts_per_file * q)
          s.bcnts_per_file n r hnq hover hn
        rw [← e4] at a5
        exact write_stride_inv_cross cfg inp s l bctr B0 K c q r hB0 h32 hr0 hlt hover a2
          (files_lt _ _ _ a5) hbctr hstrt hstop hnf hidle hcur hcnt hnb hrows hcl

theorem stride_index_arith (B0 T nblk mtot j : Nat) (hj : j < mtot)
    (hrange : B0 + T < 2147483648) (hblk : nblk + 32 * mtot ≤ T) :
    j * 32 < 32 * mtot ∧ j * 32 + 31 < 32 * mtot ∧ j * 32 + 32 ≤ 4294967296 ∧
    (j * 32 + 32 - 1) % 4294967296 = j * 32 + 31 ∧
    (B0 + nblk + j * 32) % 4294967296 = B0 + (nblk + 32 * j) ∧
    (B0 + nblk + (j * 32 + 31)) % 4294967296 = B0 + (nblk + 32 * j) + 31 ∧
    nblk + 32 * j + 32 ≤ T ∧ nblk + 32 * j + 32 = nblk + 32 * (j + 1) := by
  omega

/-- The stride loop over the strides `j .. j+m-1` of a block of contiguous baselines
keeps the account of the files. -/
theorem stride_loop_inv (cfg : WriterConfig) (inp : BlockInput) (B0 bpf K c nblk mtot : Nat)
    (hB0 : B0 = bpf * c) (h32 : 32 ≤ bpf) (hrange : B0 + K * bpf < 2147483648)
    (hblk : nblk + 32 * mtot ≤ K * bpf)
    (hhdr : ∀ k, k < 32 * mtot → inp.header.bcnt k = B0 + nblk + k)
    (m j : Nat) (s : DiskState) (l : FileLog) (hj : j + m ≤ mtot)
    (hinv : FilesInv B0 bpf K (nblk + 32 * j) s l) :
    FilesInv B0 bpf K (nblk + 32 * (j + m))
      (stride_loop cfg inp ((List.range' j m).map (fun i => i * N_BL_PER_WRITE)) s).1
      (file_log l
        (stride_loop cfg inp ((List.range' j m).map (fun i => i * N_BL_PER_WRITE)) s).2) := by
  induction m generalizing j s l with
  | zero => exact hinv
  | succ m ih =>
    have hb : s.bcnts_per_file = bpf := hinv.1
    subst hb
    have hN : N_BL_PER_WRITE = 32 := rfl
    obtain ⟨a1, a2, a3, a4, a5, a6, a7, a8⟩ :=
      stride_index_arith B0 (K * s.bcnts_per_file) nblk mtot j (by omega) hrange hblk
    have hstrt : inp.header.bcnt (j * 32) % 4294967296 = B0 + (nblk + 32 * j) := by
      rw [hhdr _ a1, a5]
    have hstop : inp.header.bcnt ((j * 32 + N_BL_PER_WRITE - 1) % 4294967296) % 4294967296
        = B0 + (nblk + 32 * j) + 31 := by
      rw [hN, a4, hhdr _ a2, a6]
    obtain ⟨w1, w2⟩ := write_stride_inv cfg inp s l (j * 32) B0 K (nblk + 32 * j) c hB0 h32
      hrange a7 a3 hstrt hstop hinv
    rw [a8] at w2
    have ih2 := ih (j + 1) (write_stride cfg inp s (j * 32)).state
      (file_log l (write_stride cfg inp s (j * 32)).events) (by omega) w2
    have e : j + 1 + m = j + (m + 1) := by omega
    rw [e] at ih2
    rw [List.range', List.map_cons, stride_loop, hN, if_neg (by rw [w1]; decide)]
    simp only []
    rw [file_log_append]
    exact ih2

theorem bctrs_eq (cfg : WriterConfig) (m : Nat) (hm : cfg.BASELINES_PER_BLOCK = 32 * m) :
    cfg.bctrs = (List.range' 0 m).map (fun i => i * N_BL_PER_WRITE) := by
  have hN : N_BL_PER_WRITE = 32 := rfl
  unfold WriterConfig.bctrs
  have e : (cfg.BASELINES_PER_BLOCK + N_BL_PER_WRITE - 1) / N_BL_PER_WRITE = m := by
    rw [hN, hm]; omega
  rw [e, List.range_eq_range']

theorem file_log_set_free (l : FileLog) (ev : List DiskEvent) :
    file_log l (ev ++ [DiskEvent.set_free]) = file_log l ev := by
  rw [file_log_append]
  rfl

/-- The block that carries the trigger, with no file open before, starts the account of
the files. -/
theorem write_block_first (cfg : WriterConfig) (inp : BlockInput) (B0 bpf K c m : Nat)
    (hm : cfg.BASELINES_PER_BLOCK = 32 * m) (hB0 : B0 = bpf * c) (h32 : 32 ≤ bpf)
    (hrange : B0 + K * bpf < 2147483648) (hblk : 32 * m ≤ K * bpf)
    (htrig : inp.TRIGGER % 4294967296 ≠ 0) (hbpf : bcnts_per_file_of inp = bpf)
    (hnf : K ≤ inp.NFILES % 4294967296)
    (hhdr : ∀ k, k < cfg.BASELINES_PER_BLOCK → inp.header.bcnt k = B0 + k)
    (s : DiskState) (hcur : s.curr_file_bcnt = -1) :
    FilesInv B0 bpf K (32 * m) (write_block cfg inp s).1
      (file_log log_zero (write_block cfg inp s).2) := by
  unfold write_block
  simp only []
  rw [if_pos htrig]
  simp only []
  rw [file_log_set_free, bctrs_eq cfg m hm]
  have h := stride_loop_inv cfg inp B0 bpf K c 0 m hB0 h32 hrange (by omega)
    (fun k hk => by rw [hhdr k (by rw [hm]; exact hk), Nat.add_zero]) m 0
    (take_trigger inp { s with
      Nants := inp.BDANANT % 18446744073709551616
      nfiles := inp.NFILES % 4294967296 }) log_zero (by omega)
    ⟨hbpf, hnf, rfl, Or.inl ⟨rfl, hcur, rfl, rfl⟩⟩
  rw [Nat.zero_add, Nat.zero_add] at h
  exact h

theorem files_open_lt (bpf q r K n B : Nat) (hnq : n = bpf * q + r) (hr0 : 0 < r)
    (hblk : n + B ≤ K * bpf) : q < K := by
  have h : bpf * q < bpf * K := by rw [Nat.mul_comm bpf K]; omega
  exact Nat.lt_of_mul_lt_mul_left h

/-- A later block, without a trigger, continues the account of the files. -/
theorem write_block_inv (cfg : WriterConfig) (inp : BlockInput) (B0 bpf K c n m : Nat)
    (hm : cfg.BASELINES_PER_BLOCK = 32 * m) (hB0 : B0 = bpf * c) (h32 : 32 ≤ bpf)
    (hrange : B0 + K * bpf < 2147483648) (hblk : n + 32 * m ≤ K * bpf) (hn0 : 0 < n)
    (htrig : inp.TRIGGER % 4294967296 = 0) (hnf : K ≤ inp.NFILES % 4294967296)
    (hhdr : ∀ k, k < cfg.BASELINES_PER_BLOCK → inp.header.bcnt k = B0 + n + k)
    (s : DiskState) (l : FileLog) (hinv : FilesInv B0 bpf K n s l) :
    FilesInv B0 bpf K (n + 32 * m) (write_block cfg inp s).1
      (file_log l (write_block cfg inp s).2) := by
  obtain ⟨hb, _, hidle, hcase⟩ := hinv
  rcases hcase with ⟨h0, _⟩ | ⟨q, r, hnq, hr0, hr, hcur, hcnt, hnb, hrows, hcl⟩
  · omega
  · have hq : q < K := files_open_lt bpf q r K n (32 * m) hnq hr0 hblk
    unfold write_block
    simp only []
    rw [if_neg (not_not.mpr htrig), if_neg (by
      rw [hcnt, hidle]
      intro hc
      rcases hc with hc | hc
      · omega
      · exact hc rfl)]
    simp only []
    rw [file_log_set_free, bctrs_eq cfg m hm]
    have h := stride_loop_inv cfg inp B0 bpf K c n m hB0 h32 hrange hblk
      (fun k hk => hhdr k (by rw [hm]; exact hk)) m 0
      { s with
        Nants := inp.BDANANT % 18446744073709551616
        nfiles := inp.NFILES % 4294967296
        idle := 0 } l (by omega)
      ⟨hb, hnf, rfl, Or.inr ⟨q, r, by omega, hr0, hr, hcur, hcnt, hnb, hrows, hcl⟩⟩
    rw [Nat.zero_add] at h
    exact h

/-- The main loop over blocks of contiguous baselines without a further trigger continues
the account of the files. -/
theorem write_blocks_inv (cfg : WriterConfig) (B0 bpf K c m : Nat)
    (hm : cfg.BASELINES_PER_BLOCK = 32 * m) (hB0 : B0 = bpf * c) (h32 : 32 ≤ bpf)
    (hrange : B0 + K * bpf < 2147483648) (rest : List BlockInput) (n : Nat)
    (s : DiskState) (l : FileLog) (hn0 : 0 < n)
    (hblk : n + rest.length * (32 * m) ≤ K * bpf)
    (htrig : ∀ x, x ∈ rest → x.TRIGGER % 4294967296 = 0)
    (hnf : ∀ x, x ∈ rest → K ≤ x.NFILES % 4294967296)
    (hhdr : contiguous_from cfg (B0 + n) rest)
    (hinv : FilesInv B0 bpf K n s l) :
    FilesInv B0 bpf K (n + rest.length * (32 * m)) (write_blocks cfg rest s).1
      (file_log l (write_blocks cfg rest s).2) := by
  induction rest generalizing n s l with
  | nil =>
    rw [List.length_nil, Nat.zero_mul, Nat.add_zero]
    exact hinv
  | cons inp rest ih =>
    rw [List.length_cons, Nat.succ_mul] at hblk ⊢
    obtain ⟨hd1, hd2⟩ := hhdr
    have h1 := write_block_inv cfg inp B0 bpf K c n m hm hB0 h32 hrange (by omega) hn0
      (htrig inp (List.mem_cons_self _ _)) (hnf inp (List.mem_cons_self _ _)) hd1 s l hinv
    have h2 := ih (n + 32 * m) (write_block cfg inp s).1
      (file_log l (write_block cfg inp s).2) (by omega) (by omega)
      (fun x hx => htrig x (List.mem_cons_of_mem _ hx))
      (fun x hx => hnf x (List.mem_cons_of_mem _ hx))
      (by rw [hm, Nat.add_assoc] at hd2; exact hd2) h1
    rw [write_blocks]
    simp only []
    rw [file_log_append]
    have e : n + 32 * m + rest.length * (32 * m) = n + (rest.length * (32 * m) + 32 * m) := by
      omega
    rw [e] at h2
    exact h2

theorem last_file (bpf K q r : Nat) (h : K * bpf = bpf * q + r) (hr0 : 0 < r)
    (hr : r ≤ bpf) : q = K - 1 ∧ r = bpf := by
  have h1 : q < K := by
    have : bpf * q < bpf * K := by rw [Nat.mul_comm bpf K]; omega
    exact Nat.lt_of_mul_lt_mul_left this
  have h2 : K ≤ q + 1 := by
    have : bpf * K ≤ bpf * (q + 1) := by
      rw [Nat.mul_comm bpf K, Nat.mul_add, Nat.mul_one]; omega
    rcases Nat.eq_zero_or_pos bpf with hz | hp
    · omega
    · exact Nat.le_of_mul_le_mul_left this hp
  have h3 : K = q + 1 := by omega
  refine ⟨by omega, ?_⟩
  rw [h3, Nat.add_mul, Nat.one_mul, Nat.mul_comm q bpf] at h
  omega

/-- C13 (as amended): when a trigger finds no file open and the writer then receives
`K * bcnts_per_file` baselines (`K >= 1`) in whole blocks, with contiguous `bcnt`s that
start at a multiple of `bcnts_per_file` and stay below `2^31`, with
`bcnts_per_file >= N_BL_PER_WRITE`, `BASELINES_PER_BLOCK` a multiple of `N_BL_PER_WRITE`
and `NFILES >= K`, it closes `K - 1` files (`file_cnt = K - 1`), each with exactly
`bcnts_per_file` baseline rows - the `nblt` given to `write_metadata` and the number of
rows written to the sum file both equal `bcnts_per_file` - and the `K`-th file, opened at
the last multiple, is still open and holds `bcnts_per_file` rows. -/
theorem file_boundary_exactness (cfg : WriterConfig) (bpf K c m : Nat)
    (first : BlockInput) (rest : List BlockInput) (s : DiskState) (hK : 0 < K)
    (hm : cfg.BASELINES_PER_BLOCK = N_BL_PER_WRITE * m) (h32 : N_BL_PER_WRITE ≤ bpf)
    (hrange : bpf * c + K * bpf < 2147483648)
    (hlen : (rest.length + 1) * cfg.BASELINES_PER_BLOCK = K * bpf)
    (htrig : first.TRIGGER % 4294967296 ≠ 0) (hbpf : bcnts_per_file_of first = bpf)
    (hrest : ∀ x, x ∈ rest → x.TRIGGER % 4294967296 = 0)
    (hnf : ∀ x, x ∈ first :: rest → K ≤ x.NFILES % 4294967296)
    (hhdr : contiguous_from cfg (bpf * c) (first :: rest))
    (hcur : s.curr_file_bcnt = -1) :
    (write_blocks cfg (first :: rest) s).1.file_cnt = K - 1 ∧
    (file_log log_zero (write_blocks cfg (first :: rest) s).2).closed
      = List.replicate (K - 1) (bpf, (bpf : Int)) ∧
    (file_log log_zero (write_blocks cfg (first :: rest) s).2).rows = bpf ∧
    (write_blocks cfg (first :: rest) s).1.file_nblts = (bpf : Int) ∧
    (write_blocks cfg (first :: rest) s).1.curr_file_bcnt
      = ((bpf * c + bpf * (K - 1) : Nat) : Int) := by
  have hN : N_BL_PER_WRITE = 32 := rfl
  rw [hN] at hm h32
  rw [hm, Nat.succ_mul] at hlen
  have hmpos : 0 < 32 * m := by
    rcases Nat.eq_zero_or_pos (32 * m) with hz | hp
    · rw [hz, Nat.mul_zero, Nat.zero_add] at hlen
      have : 1 * 32 ≤ K * bpf := Nat.mul_le_mul hK h32
      omega
    · exact hp
  obtain ⟨hd1, hd2⟩ := hhdr
  have h1 := write_block_first cfg first (bpf * c) bpf K c m hm rfl h32 hrange (by omega)
    htrig hbpf (hnf first (List.mem_cons_self _ _)) hd1 s hcur
  have h2 := write_blocks_inv cfg (bpf * c) bpf K c m hm rfl h32 hrange rest (32 * m)
    (write_block cfg first s).1 (file_log log_zero (write_block cfg first s).2) hmpos
    (by omega) hrest (fun x hx => hnf x (List.mem_cons_of_mem _ hx))
    (by rw [hm] at hd2; exact hd2) h1
  have e : 32 * m + rest.length * (32 * m) = K * bpf := by omega
  rw [e] at h2
  rw [write_blocks]
  simp only []
  rw [file_log_append]
  obtain ⟨_, _, _, hcase⟩ := h2
  rcases hcase with ⟨h0, _⟩ | ⟨q, r, hnq, hr0, hr, hcur2, hcnt, hnb, hrows, hcl⟩
  · omega
  · obtain ⟨hq, hrr⟩ := last_file bpf K q r hnq hr0 hr
    rw [hq] at hcur2 hcnt hcl
    rw [hrr] at hnb hrows
    exact ⟨hcnt, hcl, hrows, hnb, hcur2⟩

theorem file_boundary_exactness_witness :
    (write_blocks cfgWriter [inp_trigger 64 64 5, inp_plain 128 5] disk_zero).1.file_cnt = 1 ∧
    (file_log log_zero
      (write_blocks cfgWriter [inp_trigger 64 64 5, inp_plain 128 5] disk_zero).2).closed
      = [(64, 64)] ∧
    (file_log log_zero
      (write_blocks cfgWriter [inp_trigger 64 64 5, inp_plain 128 5] disk_zero).2).rows
      = 64 :=
  have h := file_boundary_exactness cfgWriter 64 2 1 2 (inp_trigger 64 64 5)
    [inp_plain 128 5] disk_zero (by decide) (by decide) (by decide) (by decide) (by decide)
    (by decide) (by decide) (by simp [inp_plain]) (by simp [inp_plain, inp_trigger])
    ⟨fun _ _ => rfl, fun _ _ => rfl, trivial⟩ rfl
  ⟨h.1, h.2.1, h.2.2.1⟩

/-- C13 as stated fails for `K = 1`: after a trigger and one block of `bcnts_per_file =
64` contiguous baselines from the multiple 64 on, with `NFILES = 5`, no file has been
closed: `file_cnt` is 0, not 1, and `write_metadata` has not been called; the 64 rows sit
in the file still open. -/
theorem file_boundary_exactness_counterexample :
    (write_blocks cfgWriter [inp_trigger 64 64 5] disk_zero).1.file_cnt = 0 ∧
    (write_blocks cfgWriter [inp_trigger 64 64 5] disk_zero).1.file_cnt ≠ 1 ∧
    (file_log log_zero (write_blocks cfgWriter [inp_trigger 64 64 5] disk_zero).2).closed
      = [] ∧
    (file_log log_zero (write_blocks cfgWriter [inp_trigger 64 64 5] disk_zero).2).rows
      = 64 ∧
    (write_blocks cfgWriter [inp_trigger 64 64 5] disk_zero).1.bcnts_per_file = 64 := by
  decide

/-! ## Theorems: the header of an F-engine packet -/

namespace Feng

theorem be64toh_lt (hdr : Nat → Nat) : be64toh hdr < 18446744073709551616 := by
  unfold be64toh; omega

theorem be64toh_wire_bytes (h : Nat) (hh : h < 18446744073709551616) :
    be64toh (wire_bytes h) = h := by
  unfold be64toh wire_bytes
  norm_num
  omega

theorem get_header_div_mod (p : hera_ibv_feng_pkt) :
    (get_header p).mcnt = be64toh p.hdr / 2 ^ 29 % 2 ^ 35 ∧
    (get_header p).chan = be64toh p.hdr / 2 ^ 16 % 2 ^ 13 ∧
    (get_header p).ant = be64toh p.hdr % 2 ^ 16 := by
  unfold get_header
  refine ⟨?_, ?_, ?_⟩ <;>
    simp only [Nat.shiftRight_eq_div_pow, Nat.and_pow_two_sub_one_eq_mod]

end Feng

/-- C15: for every frame, with `h` the 64-bit header word after the conversion from
big-endian, `get_header` of `hera_ibvpkt_thread.c` returns `mcnt` = bits `[63:29]` of `h`,
`chan` = bits `[28:16]` and `ant` = bits `[15:0]`, bit by bit and as quotient and
remainder; every 64-bit word is the header of a frame; and for all `mcnt < 2^35`,
`chan < 2^13`, `ant < 2^16` the frame whose header word is
`mcnt*2^29 + chan*2^16 + ant` is decoded to exactly `(mcnt, chan, ant)`. -/
theorem feng_header_decoding (p : Feng.hera_ibv_feng_pkt) (payload : Nat → Nat)
    (mcnt chan ant : Nat) (hm : mcnt < 2 ^ 35) (hc : chan < 2 ^ 13) (ha : ant < 2 ^ 16) :
    (Feng.be64toh p.hdr < 2 ^ 64 ∧
      (∀ i, ((Feng.get_header p).mcnt.testBit i
        = (decide (i < 35) && (Feng.be64toh p.hdr).testBit (29 + i))) ∧
        ((Feng.get_header p).chan.testBit i
          = (decide (i < 13) && (Feng.be64toh p.hdr).testBit (16 + i))) ∧
        ((Feng.get_header p).ant.testBit i
          = (decide (i < 16) && (Feng.be64toh p.hdr).testBit i))) ∧
      (Feng.get_header p).mcnt = Feng.be64toh p.hdr / 2 ^ 29 % 2 ^ 35 ∧
      (Feng.get_header p).chan = Feng.be64toh p.hdr / 2 ^ 16 % 2 ^ 13 ∧
      (Feng.get_header p).ant = Feng.be64toh p.hdr % 2 ^ 16) ∧
    (∀ h, h < 2 ^ 64 → Feng.be64toh (Feng.frame_of h payload).hdr = h) ∧
    Feng.get_header (Feng.frame_of (mcnt * 2 ^ 29 + chan * 2 ^ 16 + ant) payload)
      = { mcnt := mcnt, chan := chan, ant := ant } := by
  refine ⟨⟨Feng.be64toh_lt _, ?_, Feng.get_header_div_mod p⟩,
    fun h hh => Feng.be64toh_wire_bytes h hh, ?_⟩
  · intro i
    unfold Feng.get_header
    simp only [Nat.testBit_and, Nat.testBit_shiftRight, Nat.testBit_two_pow_sub_one]
    refine ⟨Bool.and_comm _ _, Bool.and_comm _ _, Bool.and_comm _ _⟩
  · obtain ⟨h1, h2, h3⟩ := Feng.get_header_div_mod
      (Feng.frame_of (mcnt * 2 ^ 29 + chan * 2 ^ 16 + ant) payload)
    have hw : Feng.be64toh (Feng.frame_of (mcnt * 2 ^ 29 + chan * 2 ^ 16 + ant) payload).hdr
        = mcnt * 2 ^ 29 + chan * 2 ^ 16 + ant :=
      Feng.be64toh_wire_bytes _ (by norm_num at hm hc ha ⊢; omega)
    rw [hw] at h1 h2 h3
    have e1 : (mcnt * 2 ^ 29 + chan * 2 ^ 16 + ant) / 2 ^ 29 % 2 ^ 35 = mcnt := by
      norm_num at hm hc ha ⊢; omega
    have e2 : (mcnt * 2 ^ 29 + chan * 2 ^ 16 + ant) / 2 ^ 16 % 2 ^ 13 = chan := by
      norm_num at hm hc ha ⊢; omega
    have e3 : (mcnt * 2 ^ 29 + chan * 2 ^ 16 + ant) % 2 ^ 16 = ant := by
      norm_num at hm hc ha ⊢; omega
    rw [e1] at h1
    rw [e2] at h2
    rw [e3] at h3
    cases hg : Feng.get_header (Feng.frame_of (mcnt * 2 ^ 29 + chan * 2 ^ 16 + ant) payload)
    rw [hg] at h1 h2 h3
    simp only [] at h1 h2 h3
    rw [h1, h2, h3]

theorem feng_header_decoding_witness :
    Feng.get_header (Feng.frame_of (5 * 2 ^ 29 + 3 * 2 ^ 16 + 7) (fun _ => 0))
      = { mcnt := 5, chan := 3, ant := 7 } :=
  (feng_header_decoding (Feng.frame_of 0 (fun _ => 0)) (fun _ => 0) 5 3 7 (by decide)
    (by decide) (by decide)).2.2

/-! ## Theorems: the autocorrelation side stream -/

theorem auto_ants_snoc (l : List (Nat × (Nat → Nat))) (b : Nat) (src : Nat → Nat) :
    auto_ants (l ++ [(b, src)]) = insert b (auto_ants l) := by
  unfold auto_ants
  ext a
  simp only [List.map_append, List.map_cons, List.map_nil, List.toFinset_append,
    List.toFinset_cons, List.toFinset_nil, Finset.mem_union, Finset.mem_insert,
    List.mem_toFinset, Finset.not_mem_empty, or_false]
  tauto

theorem auto_ants_append (l1 l2 : List (Nat × (Nat → Nat))) :
    auto_ants (l1 ++ l2) = auto_ants l1 ∪ auto_ants l2 := by
  unfold auto_ants
  rw [List.map_append, List.toFinset_append]

theorem first_auto_none (a : Nat) (l : List (Nat × (Nat → Nat))) :
    first_auto a l = none ↔ a ∉ auto_ants l := by
  unfold auto_ants
  induction l with
  | nil => simp [first_auto]
  | cons x rest ih =>
    obtain ⟨b, src⟩ := x
    unfold first_auto
    by_cases hb : b = a
    · simp [hb]
    · rw [if_neg hb, ih]
      simp [hb, Ne.symm hb]

theorem first_auto_snoc (a b : Nat) (src : Nat → Nat) (l : List (Nat × (Nat → Nat))) :
    first_auto a (l ++ [(b, src)])
      = if a ∈ auto_ants l then first_auto a l
        else if b = a then some src else none := by
  induction l with
  | nil =>
    simp [first_auto, auto_ants]
  | cons x rest ih =>
    obtain ⟨c, s2⟩ := x
    rw [List.cons_append]
    unfold first_auto
    by_cases hc : c = a
    · rw [if_pos hc, if_pos hc, if_pos (by simp [auto_ants, hc])]
    · rw [if_neg hc, if_neg hc, ih]
      have e : (a ∈ auto_ants ((c, s2) :: rest)) ↔ a ∈ auto_ants rest := by
        simp [auto_ants, Ne.symm hc]
      by_cases hm : a ∈ auto_ants rest
      · rw [if_pos hm, if_pos (e.mpr hm)]
      · rw [if_neg hm, if_neg (fun h => hm (e.mp h))]

/-- One baseline of the input block keeps the account of the side block: an
autocorrelation of an antenna not yet present is copied and flagged, any other baseline
changes nothing. -/
theorem auto_baseline_inv (cfg : AutoConfig) (inp : AutoInput) (cur : Nat)
    (autos : List (Nat × (Nat → Nat))) (st : AutoState × List AutoEvent) (bctr : Nat)
    (hdis : slots_disjoint cfg) (hant : ant_of inp bctr < cfg.N_ANTS_TOTAL)
    (hinv : AutoInv cfg cur autos st.1) :
    AutoInv cfg cur
      (autos ++ (if inp.header.ant_pair_0 bctr = inp.header.ant_pair_1 bctr
        then [(ant_of inp bctr, fun w => inp.db_in32 (cfg.idx32 bctr 0 + w))] else []))
      (auto_baseline cfg inp st bctr).1 ∧
    (auto_baseline cfg inp st bctr).2 = st.2 ∧
    (∀ i, i ≠ cur → (auto_baseline cfg inp st bctr).1.db_out i = st.1.db_out i) ∧
    ((auto_baseline cfg inp st bctr).1.db_out cur).num_ants = (st.1.db_out cur).num_ants := by
  obtain ⟨hcur, hcnt, hrng, hflag, hdata⟩ := hinv
  have hev : (if ((ant_of inp bctr : Nat) : Int) > (cfg.N_ANTS_TOTAL : Int) - 1
      then [AutoEvent.warn_antenna (ant_of inp bctr)] else []) = [] := by
    rw [if_neg (by omega)]
  unfold auto_baseline
  simp only [hev, List.append_nil, hcur]
  by_cases hauto : inp.header.ant_pair_0 bctr = inp.header.ant_pair_1 bctr
  · rw [if_pos hauto]
    have hfl := hflag _ hant
    by_cases hmem : ant_of inp bctr ∈ auto_ants autos
    · -- the antenna is present already
      rw [if_pos hmem] at hfl
      rw [if_neg (by rw [hfl]; intro hc; exact absurd hc.2 (by decide))]
      refine ⟨⟨hcur, ?_, ?_, ?_, ?_⟩, rfl, fun i _ => rfl, rfl⟩
      · rw [auto_ants_snoc, Finset.insert_eq_of_mem hmem]; exact hcnt
      · rw [auto_ants_snoc, Finset.insert_eq_of_mem hmem]; exact hrng
      · rw [auto_ants_snoc, Finset.insert_eq_of_mem hmem]; exact hflag
      · intro a src hf w hw
        rw [first_auto_snoc] at hf
        by_cases ha : a ∈ auto_ants autos
        · rw [if_pos ha] at hf
          exact hdata a src hf w hw
        · rw [if_neg ha] at hf
          by_cases hb : ant_of inp bctr = a
          · exact absurd (hb ▸ hmem) ha
          · rw [if_neg hb] at hf
            exact absurd hf (by simp)
    · -- a new antenna
      rw [if_neg hmem] at hfl
      rw [if_pos ⟨hauto, hfl⟩]
      refine ⟨⟨rfl, ?_, ?_, ?_, ?_⟩, rfl, fun i hi => Function.update_noteq hi _ _, ?_⟩
      · show st.1.auto_ants_filled + 1 = _
        rw [auto_ants_snoc, Finset.card_insert_of_not_mem hmem, hcnt]
      · intro a ha
        rw [auto_ants_snoc, Finset.mem_insert] at ha
        rcases ha with ha | ha
        · rw [ha]; exact hant
        · exact hrng a ha
      · intro a ha
        show (Function.update st.1.db_out cur _ cur).ant a = _
        rw [Function.update_same, auto_ants_snoc]
        by_cases hb : a = ant_of inp bctr
        · rw [hb]
          show Function.update _ _ _ _ = _
          rw [Function.update_same, if_pos (Finset.mem_insert_self _ _)]
        · show Function.update _ _ _ _ = _
          rw [Function.update_noteq hb, hflag a ha]
          simp only [Finset.mem_insert, hb, false_or]
      · intro a src hf w hw
        show (Function.update st.1.db_out cur _ cur).data _ = _
        rw [Function.update_same]
        show copy_auto cfg _ _ _ _ = _
        rw [first_auto_snoc] at hf
        by_cases ha : a ∈ auto_ants autos
        · rw [if_pos ha] at hf
          have hne : a ≠ ant_of inp bctr := fun hc => hmem (hc ▸ ha)
          have hd := hdis a (hrng a ha) (ant_of inp bctr) hant hne
          unfold copy_auto
          rw [if_neg (by omega)]
          exact hdata a src hf w hw
        · rw [if_neg ha] at hf
          by_cases hb : ant_of inp bctr = a
          · rw [if_pos hb] at hf
            have hs : (fun w => inp.db_in32 (cfg.idx32 bctr 0 + w)) = src :=
              Option.some.inj hf
            unfold copy_auto
            rw [← hb, if_pos (by omega), Nat.add_sub_cancel_left, ← hs]
            rfl
          · rw [if_neg hb] at hf
            exact absurd hf (by simp)
      · show (Function.update st.1.db_out cur _ cur).num_ants = _
        rw [Function.update_same]
  · have hn : ¬ (inp.header.ant_pair_0 bctr = inp.header.ant_pair_1 bctr ∧
        (st.1.db_out cur).ant (ant_of inp bctr) = 0) := fun h => hauto h.1
    rw [if_neg hn, if_neg hauto, List.append_nil]
    exact ⟨⟨hcur, hcnt, hrng, hflag, hdata⟩, rfl, fun i _ => rfl, rfl⟩

theorem block_autos_succ (cfg : AutoConfig) (inp : AutoInput) (n : Nat) :
    block_autos cfg inp (n + 1)
      = block_autos cfg inp n ++ (if inp.header.ant_pair_0 n = inp.header.ant_pair_1 n
          then [(ant_of inp n, fun w => inp.db_in32 (cfg.idx32 n 0 + w))] else []) := by
  unfold block_autos
  rw [List.range_succ, List.filterMap_append]
  congr 1
  by_cases h : inp.header.ant_pair_0 n = inp.header.ant_pair_1 n
  · simp [h]
  · simp [h]

/-- The loop over the first `n` baselines of an input block keeps the account of the side
block. -/
theorem auto_loop_inv (cfg : AutoConfig) (inp : AutoInput) (cur : Nat)
    (autos : List (Nat × (Nat → Nat))) (s0 : AutoState) (ev0 : List AutoEvent)
    (hdis : slots_disjoint cfg) (hinv : AutoInv cfg cur autos s0) (n : Nat)
    (hants : ∀ b, b < n → ant_of inp b < cfg.N_ANTS_TOTAL) :
    AutoInv cfg cur (autos ++ block_autos cfg inp n)
      ((List.range n).foldl (auto_baseline cfg inp) (s0, ev0)).1 ∧
    ((List.range n).foldl (auto_baseline cfg inp) (s0, ev0)).2 = ev0 ∧
    (∀ i, i ≠ cur →
      ((List.range n).foldl (auto_baseline cfg inp) (s0, ev0)).1.db_out i = s0.db_out i) ∧
    (((List.range n).foldl (auto_baseline cfg inp) (s0, ev0)).1.db_out cur).num_ants
      = (s0.db_out cur).num_ants := by
  induction n with
  | zero =>
    refine ⟨?_, rfl, fun i _ => rfl, rfl⟩
    have e : block_autos cfg inp 0 = [] := rfl
    rw [e, List.append_nil]
    exact hinv
  | succ n ih =>
    obtain ⟨i1, i2, i3, i4⟩ := ih (fun b hb => hants b (by omega))
    obtain ⟨j1, j2, j3, j4⟩ := auto_baseline_inv cfg inp cur _
      ((List.range n).foldl (auto_baseline cfg inp) (s0, ev0)) n hdis (hants n (by omega)) i1
    rw [List.range_succ, List.foldl_append, block_autos_succ, ← List.append_assoc]
    simp only [List.foldl_cons, List.foldl_nil]
    exact ⟨j1, by rw [j2, i2], fun i hi => by rw [j3 i hi, i3 i hi], by rw [j4, i4]⟩

theorem auto_ants_eq_empty (l : List (Nat × (Nat → Nat))) (h : (auto_ants l).card = 0) :
    l = [] := by
  cases l with
  | nil => rfl
  | cons x rest =>
    exfalso
    rw [Finset.card_eq_zero] at h
    have : x.1 ∈ auto_ants (x :: rest) := by simp [auto_ants]
    rw [h] at this
    exact absurd this (Finset.not_mem_empty _)

theorem auto_inv_clear (cfg : AutoConfig) (s : AutoState) (h0 : s.auto_ants_filled = 0) :
    AutoInv cfg s.curblock_out [] (clear_flags cfg s) := by
  refine ⟨rfl, ?_, ?_, ?_, ?_⟩
  · show s.auto_ants_filled = _
    rw [h0]; rfl
  · intro a ha; simp [auto_ants] at ha
  · intro a ha
    show (Function.update s.db_out s.curblock_out _ s.curblock_out).ant a = _
    rw [Function.update_same]
    simp [auto_ants, ha]
  · intro a src hf
    simp [first_auto] at hf

/-- The state before a pass: nothing is in the side block, or the side block holds the
autocorrelations of `autos`. -/
theorem auto_pre_cases (cfg : AutoConfig) (cur : Nat) (autos : List (Nat × (Nat → Nat)))
    (s : AutoState)
    (hpre : (s.curblock_out = cur ∧ s.auto_ants_filled = 0 ∧ autos = []) ∨
      AutoInv cfg cur autos s) :
    s.curblock_out = cur ∧
    AutoInv cfg cur autos (if s.auto_ants_filled = 0 then clear_flags cfg s else s) ∧
    (∀ i, i ≠ cur →
      (if s.auto_ants_filled = 0 then clear_flags cfg s else s).db_out i = s.db_out i) := by
  by_cases h0 : s.auto_ants_filled = 0
  · rw [if_pos h0]
    have hc : s.curblock_out = cur ∧ autos = [] := by
      rcases hpre with ⟨h1, _, h3⟩ | h
      · exact ⟨h1, h3⟩
      · exact ⟨h.1, auto_ants_eq_empty autos (by rw [← h.2.1, h0])⟩
    obtain ⟨h1, h2⟩ := hc
    refine ⟨h1, ?_, ?_⟩
    · rw [h2, ← h1]
      exact auto_inv_clear cfg s h0
    · intro i hi
      show Function.update s.db_out s.curblock_out _ i = _
      rw [Function.update_noteq (by rw [h1]; exact hi)]
  · rw [if_neg h0]
    rcases hpre with ⟨_, h2, _⟩ | h
    · exact absurd h2 h0
    · exact ⟨h.1, h, fun i _ => rfl⟩

/-- A pass that does not complete the set of antennas: the side block takes the
autocorrelations of the input block and nothing is marked filled. -/
theorem autocorr_copy_partial (cfg : AutoConfig) (inp : AutoInput) (cur : Nat)
    (autos : List (Nat × (Nat → Nat))) (s : AutoState) (hdis : slots_disjoint cfg)
    (hN : inp.Nants > 0) (hmap : map_valid inp.corr_to_hera_map)
    (hrv : inp.busywait_free_rv = hashpipe_rv.HASHPIPE_OK)
    (hants : ∀ b, b < cfg.BASELINES_PER_BLOCK → ant_of inp b < cfg.N_ANTS_TOTAL)
    (hpre : (s.curblock_out = cur ∧ s.auto_ants_filled = 0 ∧ autos = []) ∨
      AutoInv cfg cur autos s)
    (hless : (auto_ants (autos ++ block_autos cfg inp cfg.BASELINES_PER_BLOCK)).card
      < inp.Nants) :
    ∃ s1 ev, autocorr_copy cfg inp s = AutoOutcome.done s1 ev ∧ auto_fills ev = [] ∧
      AutoInv cfg cur (autos ++ block_autos cfg inp cfg.BASELINES_PER_BLOCK) s1 := by
  obtain ⟨hc, hinv, _⟩ := auto_pre_cases cfg cur autos s hpre
  obtain ⟨l1, l2, _, _⟩ := auto_loop_inv cfg inp cur autos
    (if s.auto_ants_filled = 0 then clear_flags cfg s else s)
    (if s.auto_ants_filled = 0 then [AutoEvent.busywait_free s.curblock_out] else [])
    hdis hinv cfg.BASELINES_PER_BLOCK hants
  unfold autocorr_copy
  rw [if_pos ⟨hN, hmap⟩, if_neg (by rw [hrv]; intro h; exact absurd h.2 (by decide)),
    if_neg (by rw [hrv]; intro h; exact h.2 rfl)]
  simp only []
  unfold auto_finish
  rw [if_neg (by rw [l1.2.1]; omega), l2]
  refine ⟨_, _, rfl, ?_, l1⟩
  split_ifs <;> rfl

/-- The pass that completes the set of antennas: the side block takes the
autocorrelations of the input block, is marked filled with `num_ants = Nants`, and the
next side block becomes current with the counter at 0. -/
theorem autocorr_copy_complete (cfg : AutoConfig) (inp : AutoInput) (cur : Nat)
    (autos : List (Nat × (Nat → Nat))) (s : AutoState) (hdis : slots_disjoint cfg)
    (hN : inp.Nants > 0) (hmap : map_valid inp.corr_to_hera_map)
    (hrv : inp.busywait_free_rv = hashpipe_rv.HASHPIPE_OK)
    (hrv2 : inp.set_filled_rv = hashpipe_rv.HASHPIPE_OK)
    (hants : ∀ b, b < cfg.BASELINES_PER_BLOCK → ant_of inp b < cfg.N_ANTS_TOTAL)
    (hpre : (s.curblock_out = cur ∧ s.auto_ants_filled = 0 ∧ autos = []) ∨
      AutoInv cfg cur autos s)
    (hall : (auto_ants (autos ++ block_autos cfg inp cfg.BASELINES_PER_BLOCK)).card
      ≥ inp.Nants) :
    ∃ s1 ev, autocorr_copy cfg inp s = AutoOutcome.done s1 ev ∧ auto_fills ev = [cur] ∧
      s1.curblock_out = (cur + 1) % cfg.AUTOCORR_N_BLOCKS ∧ s1.auto_ants_filled = 0 ∧
      (s1.db_out cur).num_ants = inp.Nants ∧
      (∀ a, a ∈ auto_ants (autos ++ block_autos cfg inp cfg.BASELINES_PER_BLOCK) →
        a < cfg.N_ANTS_TOTAL) ∧
      (∀ a, a < cfg.N_ANTS_TOTAL → (s1.db_out cur).ant a
        = if a ∈ auto_ants (autos ++ block_autos cfg inp cfg.BASELINES_PER_BLOCK)
          then 1 else 0) ∧
      (∀ a src,
        first_auto a (autos ++ block_autos cfg inp cfg.BASELINES_PER_BLOCK) = some src →
        ∀ w, w < cfg.auto_words → (s1.db_out cur).data (cfg.autocorr_idx32 a + w) = src w) ∧
      (∀ i, i ≠ cur → s1.db_out i = s.db_out i) := by
  obtain ⟨hc, hinv, hoth⟩ := auto_pre_cases cfg cur autos s hpre
  obtain ⟨l1, l2, l3, _⟩ := auto_loop_inv cfg inp cur autos
    (if s.auto_ants_filled = 0 then clear_flags cfg s else s)
    (if s.auto_ants_filled = 0 then [AutoEvent.busywait_free s.curblock_out] else [])
    hdis hinv cfg.BASELINES_PER_BLOCK hants
  obtain ⟨k1, k2, k3, k4, k5⟩ := l1
  unfold autocorr_copy
  rw [if_pos ⟨hN, hmap⟩, if_neg (by rw [hrv]; intro h; exact absurd h.2 (by decide)),
    if_neg (by rw [hrv]; intro h; exact h.2 rfl)]
  simp only []
  unfold auto_finish
  rw [if_pos (by rw [k2]; exact hall), if_neg (by rw [hrv2]; exact fun h => h rfl), l2, k1]
  refine ⟨_, _, rfl, ?_, rfl, rfl, ?_, k3, ?_, ?_, ?_⟩
  · split_ifs <;> rfl
  · simp only [Function.update_same]
  · intro a ha
    simp only [Function.update_same]
    exact k4 a ha
  · intro a src hf w hw
    simp only [Function.update_same]
    exact k5 a src hf w hw
  · intro i hi
    simp only [Function.update_noteq hi]
    rw [l3 i hi, hoth i hi]

theorem auto_fills_append (l1 l2 : List AutoEvent) :
    auto_fills (l1 ++ l2) = auto_fills l1 ++ auto_fills l2 := by
  induction l1 with
  | nil => rfl
  | cons e l ih => cases e <;> simp [auto_fills, ih]

theorem autocorr_run_cons (cfg : AutoConfig) (inp : AutoInput) (rest : List AutoInput)
    (s s1 s2 : AutoState) (ev ev2 : List AutoEvent)
    (h1 : autocorr_copy cfg inp s = AutoOutcome.done s1 ev)
    (h2 : autocorr_run cfg rest s1 = AutoOutcome.done s2 ev2) :
    autocorr_run cfg (inp :: rest) s = AutoOutcome.done s2 (ev ++ ev2) := by
  rw [autocorr_run, h1]
  simp only []
  rw [h2]

/-- The passes over input blocks of which the last one completes the set of antennas. -/
theorem autocorr_run_inv (cfg : AutoConfig) (Nants : Nat) (last : AutoInput)
    (hdis : slots_disjoint cfg) (hN : Nants > 0) (pre : List AutoInput)
    (hin : ∀ x, x ∈ pre ++ [last] → x.Nants = Nants ∧ map_valid x.corr_to_hera_map ∧
      x.busywait_free_rv = hashpipe_rv.HASHPIPE_OK ∧
      x.set_filled_rv = hashpipe_rv.HASHPIPE_OK ∧
      ∀ b, b < cfg.BASELINES_PER_BLOCK → ant_of x b < cfg.N_ANTS_TOTAL)
    (cur : Nat) (autos : List (Nat × (Nat → Nat))) (s : AutoState)
    (hpre : (s.curblock_out = cur ∧ s.auto_ants_filled = 0 ∧ autos = []) ∨
      AutoInv cfg cur autos s)
    (hless : (auto_ants (autos ++ run_autos cfg pre)).card < Nants)
    (hall : (auto_ants (autos ++ run_autos cfg (pre ++ [last]))).card ≥ Nants) :
    ∃ s1 ev, autocorr_run cfg (pre ++ [last]) s = AutoOutcome.done s1 ev ∧
      auto_fills ev = [cur] ∧
      s1.curblock_out = (cur + 1) % cfg.AUTOCORR_N_BLOCKS ∧ s1.auto_ants_filled = 0 ∧
      (s1.db_out cur).num_ants = Nants ∧
      (∀ a, a ∈ auto_ants (autos ++ run_autos cfg (pre ++ [last])) →
        a < cfg.N_ANTS_TOTAL) ∧
      (∀ a, a < cfg.N_ANTS_TOTAL → (s1.db_out cur).ant a
        = if a ∈ auto_ants (autos ++ run_autos cfg (pre ++ [last])) then 1 else 0) ∧
      (∀ a src, first_auto a (autos ++ run_autos cfg (pre ++ [last])) = some src →
        ∀ w, w < cfg.auto_words → (s1.db_out cur).data (cfg.autocorr_idx32 a + w) = src w) := by
  induction pre generalizing autos s with
  | nil =>
    obtain ⟨q1, q2, q3, q4, q5⟩ := hin last (by simp)
    have e : run_autos cfg ([] ++ [last])
        = block_autos cfg last cfg.BASELINES_PER_BLOCK := by
      simp [run_autos]
    rw [e] at hall ⊢
    obtain ⟨s1, ev, c1, c2, c3, c4, c5, c6, c7, c8, _⟩ := autocorr_copy_complete cfg last cur
      autos s hdis (by rw [q1]; exact hN) q2 q3 q4 q5 hpre (by rw [q1]; exact hall)
    refine ⟨s1, ev ++ [], ?_, ?_, c3, c4, by rw [c5, q1], c6, c7, c8⟩
    · exact autocorr_run_cons cfg last [] s s1 s1 ev [] c1 rfl
    · rw [List.append_nil]; exact c2
  | cons inp pre ih =>
    obtain ⟨q1, q2, q3, q4, q5⟩ := hin inp (by simp)
    have e1 : autos ++ run_autos cfg (inp :: pre)
        = (autos ++ block_autos cfg inp cfg.BASELINES_PER_BLOCK) ++ run_autos cfg pre := by
      rw [run_autos, List.append_assoc]
    have e2 : autos ++ run_autos cfg (inp :: pre ++ [last])
        = (autos ++ block_autos cfg inp cfg.BASELINES_PER_BLOCK)
          ++ run_autos cfg (pre ++ [last]) := by
      rw [List.cons_append, run_autos, List.append_assoc]
    rw [e1] at hless
    rw [e2] at hall ⊢
    have hsub : (auto_ants (autos ++ block_autos cfg inp cfg.BASELINES_PER_BLOCK)).card
        < Nants := by
      refine lt_of_le_of_lt (Finset.card_le_card ?_) hless
      rw [auto_ants_append _ (run_autos cfg pre)]
      exact Finset.subset_union_left
    obtain ⟨s1, ev, p1, p2, p3⟩ := autocorr_copy_partial cfg inp cur autos s hdis
      (by rw [q1]; exact hN) q2 q3 q5 hpre (by rw [q1]; exact hsub)
    obtain ⟨s2, ev2, r1, r2, r3⟩ := ih (fun x hx => hin x (by simp at hx ⊢; tauto))
      (autos ++ block_autos cfg inp cfg.BASELINES_PER_BLOCK) s1 (Or.inr p3) hless hall
    refine ⟨s2, ev ++ ev2, ?_, ?_, r3⟩
    · rw [List.cons_append]
      exact autocorr_run_cons cfg inp _ s s1 s2 ev ev2 p1 r1
    · rw [auto_fills_append, p2, r2]; rfl

/-- C16: with `Nants > 0`, a valid `corr_to_hera_map` (every baseline mapped to an antenna
below `N_ANTS_TOTAL`, the slots of different antennas disjoint), the ring calls succeeding
and `auto_ants_filled = 0`, when the writer processes input blocks whose headers contain
autocorrelation baselines (`ant_pair_0 = ant_pair_1`) of `Nants` distinct antennas, the
set being completed by the last block, exactly one side block is marked filled, the
current one; its `num_ants` is `Nants`; its presence flag `ant[a]` is 1 for each of those
antennas and 0 for the others; the data slot of each flagged antenna holds the
`N_CHAN_TOTAL*N_STOKES*2` words of the first such baseline seen for it, that is the words
`idx32(bctr, 0) + w` of the input block of that baseline (`run_autos`, `first_auto`);
`curblock_out` has advanced by one modulo `AUTOCORR_N_BLOCKS` and `auto_ants_filled` is 0
again. -/
theorem autocorr_side_stream (cfg : AutoConfig) (Nants : Nat) (pre : List AutoInput)
    (last : AutoInput) (s : AutoState) (hdis : slots_disjoint cfg) (hN : Nants > 0)
    (h0 : s.auto_ants_filled = 0)
    (hin : ∀ x, x ∈ pre ++ [last] → x.Nants = Nants ∧ map_valid x.corr_to_hera_map ∧
      x.busywait_free_rv = hashpipe_rv.HASHPIPE_OK ∧
      x.set_filled_rv = hashpipe_rv.HASHPIPE_OK ∧
      ∀ b, b < cfg.BASELINES_PER_BLOCK → ant_of x b < cfg.N_ANTS_TOTAL)
    (hcard : (auto_ants (run_autos cfg (pre ++ [last]))).card = Nants)
    (hpre : (auto_ants (run_autos cfg pre)).card < Nants) :
    ∃ s1 ev, autocorr_run cfg (pre ++ [last]) s = AutoOutcome.done s1 ev ∧
      auto_fills ev = [s.curblock_out] ∧
      (s1.db_out s.curblock_out).num_ants = Nants ∧
      (∀ a, a ∈ auto_ants (run_autos cfg (pre ++ [last])) →
        (s1.db_out s.curblock_out).ant a = 1 ∧
        ∃ src, first_auto a (run_autos cfg (pre ++ [last])) = some src ∧
          ∀ w, w < cfg.N_CHAN_TOTAL * cfg.N_STOKES * 2 →
            (s1.db_out s.curblock_out).data (cfg.autocorr_idx32 a + w) = src w) ∧
      (∀ a, a < cfg.N_ANTS_TOTAL → a ∉ auto_ants (run_autos cfg (pre ++ [last])) →
        (s1.db_out s.curblock_out).ant a = 0) ∧
      s1.curblock_out = (s.curblock_out + 1) % cfg.AUTOCORR_N_BLOCKS ∧
      s1.auto_ants_filled = 0 := by
  obtain ⟨s1, ev, r1, r2, r3, r4, r5, r6, r7, r8⟩ := autocorr_run_inv cfg Nants last hdis hN
    pre hin s.curblock_out [] s (Or.inl ⟨rfl, h0, rfl⟩)
    (by rw [List.nil_append]; exact hpre) (by rw [List.nil_append, hcard])
  rw [List.nil_append] at r6 r7 r8
  refine ⟨s1, ev, r1, r2, r5, ?_, ?_, r3, r4⟩
  · intro a ha
    refine ⟨by rw [r7 a (r6 a ha), if_pos ha], ?_⟩
    cases hf : first_auto a (run_autos cfg (pre ++ [last])) with
    | none => exact absurd ha ((first_auto_none a _).mp hf)
    | some src => exact ⟨src, rfl, r8 a src hf⟩
  · intro a ha hn
    rw [r7 a ha, if_neg hn]

theorem autocorr_side_stream_witness :
    ∃ s1 ev, autocorr_run cfgAuto [auto_first, auto_second] auto_start
        = AutoOutcome.done s1 ev ∧
      auto_fills ev = [0] ∧ (s1.db_out 0).num_ants = 3 ∧
      ((s1.db_out 0).ant 0 = 1 ∧ (s1.db_out 0).ant 1 = 1 ∧ (s1.db_out 0).ant 2 = 1 ∧
        (s1.db_out 0).ant 3 = 0) ∧
      ((s1.db_out 0).data 0 = 0 ∧ (s1.db_out 0).data 63 = 63 ∧
        (s1.db_out 0).data 64 = 128 ∧ (s1.db_out 0).data 127 = 191 ∧
        (s1.db_out 0).data 128 = 1256 ∧ (s1.db_out 0).data 191 = 1319) ∧
      s1.curblock_out = 1 ∧ s1.auto_ants_filled = 0 := by
  obtain ⟨s1, ev, h1, h2, h3, h4, h5, h6, h7⟩ := autocorr_side_stream cfgAuto 3 [auto_first]
    auto_second auto_start (by decide) (by decide) rfl
    (fun x hx => by
      simp only [List.cons_append, List.nil_append, List.mem_cons, List.mem_singleton,
        List.not_mem_nil, or_false] at hx
      rcases hx with rfl | rfl <;> exact ⟨rfl, by decide, rfl, rfl, by decide⟩)
    (by decide) (by decide)
  obtain ⟨f0, src0, e0, d0⟩ := h4 0 (by decide)
  obtain ⟨f1, src1, e1, d1⟩ := h4 1 (by decide)
  obtain ⟨f2, src2, e2, d2⟩ := h4 2 (by decide)
  have c0 : (fun w => auto_first.db_in32 (cfgAuto.idx32 0 0 + w)) = src0 :=
    Option.some.inj e0
  have c1 : (fun w => auto_first.db_in32 (cfgAuto.idx32 1 0 + w)) = src1 :=
    Option.some.inj e1
  have c2 : (fun w => auto_second.db_in32 (cfgAuto.idx32 2 0 + w)) = src2 :=
    Option.some.inj e2
  refine ⟨s1, ev, h1, h2, h3, ⟨f0, f1, f2, h5 3 (by decide) (by decide)⟩,
    ⟨?_, ?_, ?_, ?_, ?_, ?_⟩, h6, h7⟩
  · exact (d0 0 (by decide)).trans (c0 ▸ rfl)
  · exact (d0 63 (by decide)).trans (c0 ▸ rfl)
  · exact (d1 0 (by decide)).trans (c1 ▸ rfl)
  · exact (d1 63 (by decide)).trans (c1 ▸ rfl)
  · exact (d2 0 (by decide)).trans (c2 ▸ rfl)
  · exact (d2 63 (by decide)).trans (c2 ▸ rfl)

/-! ## Theorems: missing-packet statistics -/

/-- C17: with `PACKETS_PER_BLOCK = 32` and `PACKETS_PER_X = 8`, after one packet of the
block at `bcnt = 100` and one packet two blocks ahead, `process_packet` marks the first
block filled with `32 - 1 = 31` packets missing; `MISSXENG` is `31 / 8 = 3`, as the claim
says, but `MISSEDPK` goes from 0 to 31, the whole count, not to `31 mod 8 = 7`. -/
theorem missed_packet_statistics :
    s_100.binfo.block_packet_counter
        (block_for_bcnt cfgNet s_100.first_bcnt s_100.binfo.bcnt_start) = 1 ∧
      s_100.status.MISSEDPK = 0 ∧
      (set_block_filled cfgNet envOK s_100).state.status.MISSXENG = 31 / 8 ∧
      (set_block_filled cfgNet envOK s_100).state.status.MISSEDPK = 31 ∧
      (run_packets cfgNet s_start miss_trace).exited = false ∧
      fills (run_packets cfgNet s_start miss_trace).events = [(0, 100, 0)] ∧
      (run_packets cfgNet s_start miss_trace).state.status.MISSXENG = 3 ∧
      (run_packets cfgNet s_start miss_trace).state.status.MISSEDPK = 31 ∧
      (32 - 1) % 8 = 7 := by
  decide

/-! ## Theorems: lossless input of the reassembler -/

theorem window_order_ge (l : List Nat) (a : Nat) (h : window_order a l) :
    ∀ b, b ∈ l → a ≤ b := by
  induction l generalizing a with
  | nil => intro b hb; exact absurd hb (List.not_mem_nil _)
  | cons c rest ih =>
    obtain ⟨h1, -, h3⟩ := h
    intro b hb
    rcases List.mem_cons.mp hb with rfl | hb
    · exact h1
    · have := ih _ h3 b hb
      split_ifs at this <;> omega

theorem blk_bounds (cfg : NetConfig) (hB : 0 < cfg.BASELINES_PER_BLOCK) (B0 : Nat)
    (f : hera_ibv_xeng_pkt) (hlo : B0 ≤ (get_header f).bcnt) :
    B0 + blk_of cfg B0 f * cfg.BASELINES_PER_BLOCK ≤ (get_header f).bcnt ∧
    (get_header f).bcnt < B0 + (blk_of cfg B0 f + 1) * cfg.BASELINES_PER_BLOCK := by
  unfold blk_of
  have h1 := Nat.div_mul_le_self ((get_header f).bcnt - B0) cfg.BASELINES_PER_BLOCK
  have h2 := Nat.lt_div_mul_add hB (a := (get_header f).bcnt - B0)
  rw [Nat.add_mul, Nat.one_mul]
  omega

theorem window_dist (cfg : NetConfig) (s : NetState) (h : packet_header_t) (bs q : Nat)
    (hbs : s.binfo.bcnt_start = bs) (hlo : bs + q * cfg.BASELINES_PER_BLOCK ≤ h.bcnt)
    (hhi : h.bcnt < bs + (q + 1) * cfg.BASELINES_PER_BLOCK) (h32 : h.bcnt < 4294967296)
    (hq : (q + 1) * cfg.BASELINES_PER_BLOCK ≤ 2147483648) :
    ((q * cfg.BASELINES_PER_BLOCK : Nat) : Int) ≤ pkt_bcnt_dist s h ∧
    pkt_bcnt_dist s h < (((q + 1) * cfg.BASELINES_PER_BLOCK : Nat) : Int) := by
  have hsub : sub32 h.bcnt bs = h.bcnt - bs := by unfold sub32; omega
  unfold pkt_bcnt_dist
  rw [hbs, hsub, toInt32_small _ (by omega)]
  constructor
  · exact_mod_cast (by omega : q * cfg.BASELINES_PER_BLOCK ≤ h.bcnt - bs)
  · exact_mod_cast (by omega : h.bcnt - bs < (q + 1) * cfg.BASELINES_PER_BLOCK)

theorem place_payload_flag_iff (cfg : NetConfig) (s : NetState) (f : hera_ibv_xeng_pkt)
    (h : packet_header_t) (pb i j : Nat) :
    (place_payload cfg s f h pb).binfo.flags i j = 0
      ↔ (i = pb ∧ j = pkt_offset_of cfg s.binfo.bcnt_start h) ∨ s.binfo.flags i j = 0 := by
  rw [place_payload_flags]
  unfold set_cell
  split_ifs with hc
  · simp [hc]
  · simp [hc]

/-- A packet of the current or the next block whose flag is still set is copied. -/
theorem window_store (cfg : NetConfig) (hwf : cfg.wf) (env : RingEnv) (s : NetState)
    (f : hera_ibv_xeng_pkt) (q : Nat) (hq : q < 2) (hc : Consistent cfg s)
    (hlo : ((q * cfg.BASELINES_PER_BLOCK : Nat) : Int) ≤ pkt_bcnt_dist s (get_header f))
    (hhi : pkt_bcnt_dist s (get_header f) < (((q + 1) * cfg.BASELINES_PER_BLOCK : Nat) : Int))
    (hflag : s.binfo.flags ((s.binfo.block_i + q) % cfg.CATCHER_N_BLOCKS)
      (pkt_offset_of cfg 0 (get_header f)) ≠ 0) :
    process_packet cfg env s f
      = Outcome.returned (place_payload cfg s f (get_header f)
          ((s.binfo.block_i + q) % cfg.CATCHER_N_BLOCKS)) 4294967295 [] := by
  obtain ⟨hpb, -⟩ := packet_block cfg hwf s hc (get_header f) q hlo hhi
  have h0 : 0 ≤ pkt_bcnt_dist s (get_header f) := le_trans (Int.natCast_nonneg _) hlo
  have h2 : pkt_bcnt_dist s (get_header f) < 2 * (cfg.BASELINES_PER_BLOCK : Int) := by
    have : (q + 1) * cfg.BASELINES_PER_BLOCK ≤ 2 * cfg.BASELINES_PER_BLOCK :=
      Nat.mul_le_mul_right _ (by omega)
    have h3 : (((q + 1) * cfg.BASELINES_PER_BLOCK : Nat) : Int)
        ≤ ((2 * cfg.BASELINES_PER_BLOCK : Nat) : Int) := by exact_mod_cast this
    push_cast at h3 hhi ⊢
    omega
  rw [process_packet_in_window cfg env s f hc.1 h0 h2, hpb]
  unfold store_packet
  rw [pkt_offset_of_anchor cfg hwf _ _ hc.2.2.2.1, if_neg hflag]

theorem succ_mod_ne (n i : Nat) (hn : 2 ≤ n) (hi : i < n) : (i + 1) % n ≠ i := by
  by_cases h : i + 1 < n
  · rw [Nat.mod_eq_of_lt h]; omega
  · have : i + 1 = n := by omega
    rw [this, Nat.mod_self]; omega

/-- A packet of the current or the next block that has not arrived before: it is copied,
and the window invariant holds with this packet added. -/
theorem window_inv_store (cfg : NetConfig) (hwf : cfg.wf) (hnb : 2 ≤ cfg.CATCHER_N_BLOCKS)
    (B0 K a : Nat) (P : List (Nat × Nat)) (s : NetState) (env : RingEnv)
    (f : hera_ibv_xeng_pkt) (q : Nat) (hq : q < 2)
    (hinv : WindowInv cfg B0 K a P s) (hin : in_range cfg f)
    (hlo : B0 + a * cfg.BASELINES_PER_BLOCK + q * cfg.BASELINES_PER_BLOCK
      ≤ (get_header f).bcnt)
    (hhi : (get_header f).bcnt
      < B0 + a * cfg.BASELINES_PER_BLOCK + (q + 1) * cfg.BASELINES_PER_BLOCK)
    (h3 : 3 * cfg.BASELINES_PER_BLOCK ≤ 2147483648)
    (hnew : (a + q, pkt_offset_of cfg 0 (get_header f)) ∉ P) :
    process_packet cfg env s f
      = Outcome.returned (place_payload cfg s f (get_header f)
          ((s.binfo.block_i + q) % cfg.CATCHER_N_BLOCKS)) 4294967295 [] ∧
    s.binfo.flags ((s.binfo.block_i + q) % cfg.CATCHER_N_BLOCKS)
      (pkt_offset_of cfg s.binfo.bcnt_start (get_header f)) ≠ 0 ∧
    WindowInv cfg B0 K a ((a + q, pkt_offset_of cfg 0 (get_header f)) :: P)
      (place_payload cfg s f (get_header f)
        ((s.binfo.block_i + q) % cfg.CATCHER_N_BLOCKS)) := by
  obtain ⟨hc, hbs, haK, hcur, hnxt, hmax⟩ := hinv
  have hbi := hc.1.2.2.1
  have hd := window_dist cfg s (get_header f) _ q hbs hlo hhi (get_header_bcnt_lt f)
    (le_trans (Nat.mul_le_mul_right _ (by omega)) h3)
  have hne := succ_mod_ne cfg.CATCHER_N_BLOCKS s.binfo.block_i hnb hbi
  have hoff := pkt_offset_of_anchor cfg hwf _ (get_header f) hc.1.2.2.2.1
  have hflag : s.binfo.flags ((s.binfo.block_i + q) % cfg.CATCHER_N_BLOCKS)
      (pkt_offset_of cfg 0 (get_header f)) ≠ 0 := by
    intro h0
    rcases (by omega : q = 0 ∨ q = 1) with rfl | rfl
    · rw [Nat.add_zero, Nat.mod_eq_of_lt hbi] at h0
      exact hnew ((hcur _ hin).mp h0)
    · exact hnew ((hnxt _ hin).mp h0)
  have hpp := window_store cfg hwf env s f q hq hc.1 hd.1 hd.2 hflag
  refine ⟨hpp, by rw [hoff]; exact hflag, ?_⟩
  have hcnt := process_packet_counted cfg hwf hnb env s _ f _ _ hc hin hpp
  refine ⟨hcnt, by rw [place_payload_bcnt_start]; exact hbs, haK, ?_, ?_, ?_⟩
  · intro j hj
    rw [place_payload_block_i, place_payload_flag_iff, hcur j hj, hoff, List.mem_cons]
    rcases (by omega : q = 0 ∨ q = 1) with rfl | rfl
    · simp only [Nat.add_zero, Nat.mod_eq_of_lt hbi]
      simp
    · simp [Ne.symm hne]
  · intro j hj
    rw [place_payload_block_i, place_payload_flag_iff, hnxt j hj, hoff, List.mem_cons]
    rcases (by omega : q = 0 ∨ q = 1) with rfl | rfl
    · simp only [Nat.add_zero, Nat.mod_eq_of_lt hbi]
      simp [hne]
    · simp
  · intro p hp
    rcases List.mem_cons.mp hp with rfl | hp
    · show a + q ≤ a + 1
      omega
    · exact hmax p hp

theorem advance_arith (B K a : Nat) (h : a * B + 2 * B < K * B) : a + 1 ≤ K - 2 := by
  have h1 : (a + 2) * B < K * B := by rw [Nat.add_mul]; exact h
  have := Nat.lt_of_mul_lt_mul_right h1
  omega

/-- A packet two blocks ahead of the anchor, when every packet of the current block has
arrived: the current block is marked filled with `good_data = 1`, the packet is copied,
and the window invariant holds one block further with this packet added. -/
theorem window_inv_advance (cfg : NetConfig) (hwf : cfg.wf) (hnb : 2 ≤ cfg.CATCHER_N_BLOCKS)
    (B0 K a : Nat) (P : List (Nat × Nat)) (s : NetState) (env : RingEnv)
    (f : hera_ibv_xeng_pkt)
    (hinv : WindowInv cfg B0 K a P s) (hin : in_range cfg f)
    (hok1 : env.set_filled_rv = hashpipe_rv.HASHPIPE_OK)
    (hok2 : env.busywait_free_rv = hashpipe_rv.HASHPIPE_OK)
    (hlo : B0 + a * cfg.BASELINES_PER_BLOCK + 2 * cfg.BASELINES_PER_BLOCK
      ≤ (get_header f).bcnt)
    (hhi : (get_header f).bcnt
      < B0 + a * cfg.BASELINES_PER_BLOCK + (2 + 1) * cfg.BASELINES_PER_BLOCK)
    (h3 : 3 * cfg.BASELINES_PER_BLOCK ≤ 2147483648)
    (hK : (get_header f).bcnt < B0 + K * cfg.BASELINES_PER_BLOCK)
    (hfull : ∀ j, j < cfg.PACKETS_PER_BLOCK → (a, j) ∈ P) :
    ∃ s0 r ev,
      process_packet cfg env s f
        = Outcome.returned (place_payload cfg s0 f (get_header f)
            ((s.binfo.block_i + 2) % cfg.CATCHER_N_BLOCKS)) r ev ∧
      s0.binfo.flags ((s.binfo.block_i + 2) % cfg.CATCHER_N_BLOCKS)
        (pkt_offset_of cfg s0.binfo.bcnt_start (get_header f)) ≠ 0 ∧
      fills ev = [(s.binfo.block_i, (s.db s.binfo.block_i).header.bcnt 0, 1)] ∧
      s.binfo.block_packet_counter s.binfo.block_i = cfg.PACKETS_PER_BLOCK ∧
      WindowInv cfg B0 K (a + 1) ((a + 2, pkt_offset_of cfg 0 (get_header f)) :: P)
        (place_payload cfg s0 f (get_header f)
          ((s.binfo.block_i + 2) % cfg.CATCHER_N_BLOCKS)) := by
  obtain ⟨hc, hbs, haK, hcur, hnxt, hmax⟩ := hinv
  have hbi := hc.1.2.2.1
  have h32 := get_header_bcnt_lt f
  have hd := window_dist cfg s (get_header f) _ 2 hbs hlo hhi h32 (by omega)
  have hd2 : 2 * (cfg.BASELINES_PER_BLOCK : Int) ≤ pkt_bcnt_dist s (get_header f) := by
    have := hd.1; push_cast at this; exact this
  have hd3 : pkt_bcnt_dist s (get_header f) < 3 * (cfg.BASELINES_PER_BLOCK : Int) := by
    have := hd.2; push_cast at this; omega
  obtain ⟨hpb, -⟩ := packet_block cfg hwf s hc.1 (get_header f) 2 hd.1 hd.2
  obtain ⟨sa, eva, hadv, hbin, -⟩ :=
    advance_block_ok cfg env s (block_for_bcnt cfg s.first_bcnt (get_header f).bcnt) hok1 hok2
  rw [hpb] at hadv hbin
  have hbsa : sa.binfo.bcnt_start = B0 + (a + 1) * cfg.BASELINES_PER_BLOCK := by
    rw [hbin]
    show (s.binfo.bcnt_start + cfg.BASELINES_PER_BLOCK) % 4294967296 = _
    rw [hbs, Nat.add_mul, Nat.one_mul, Nat.mod_eq_of_lt (by omega)]
    omega
  have hdvd : cfg.BASELINES_PER_BLOCK ∣ sa.binfo.bcnt_start := by
    rw [hbsa]
    have h0 := hc.1.2.2.2.1
    rw [hbs] at h0
    rw [Nat.add_mul, Nat.one_mul, ← Nat.add_assoc]
    exact Dvd.dvd.add h0 (dvd_refl _)
  have hoff := pkt_offset_of_anchor cfg hwf _ (get_header f) hdvd
  have hflag : sa.binfo.flags ((s.binfo.block_i + 2) % cfg.CATCHER_N_BLOCKS)
      (pkt_offset_of cfg sa.binfo.bcnt_start (get_header f)) ≠ 0 := by
    rw [hoff, hbin]
    have hin2 : pkt_offset_of cfg 0 (get_header f) < cfg.PACKETS_PER_BLOCK := hin
    simp [reset_block_counters, memset_row, hin2]
  have hpp : process_packet cfg env s f
      = Outcome.returned (place_payload cfg sa f (get_header f)
          ((s.binfo.block_i + 2) % cfg.CATCHER_N_BLOCKS))
          ((s.db (block_for_bcnt cfg s.first_bcnt s.binfo.bcnt_start)).header.bcnt 0
            % 4294967296) ([] ++ eva) := by
    rw [process_packet_advance cfg env s f hc.1.1 hd2 hd3, hpb, hadv]
    simp only [store_packet]
    rw [if_neg hflag]
  have hfull2 : s.binfo.block_packet_counter s.binfo.block_i = cfg.PACKETS_PER_BLOCK :=
    (counter_full_iff cfg s.binfo s.binfo.block_i (hc.2.1 _ hbi)).mpr
      (fun j hj => (hcur j hj).mpr (hfull j hj))
  have hfl := process_packet_fills cfg env s f hc.1
  rw [if_pos ⟨hd2, hd3⟩, if_pos hfull2, hpp] at hfl
  have hcnt := process_packet_counted cfg hwf hnb env s _ f _ _ hc hin hpp
  have hne1 := succ_mod_ne cfg.CATCHER_N_BLOCKS _ hnb
    (Nat.mod_lt (s.binfo.block_i + 1) hwf.2.1)
  rw [succ_mod_succ] at hne1
  have hsab : sa.binfo.block_i = (s.binfo.block_i + 1) % cfg.CATCHER_N_BLOCKS := by
    rw [hbin]; rfl
  have hsaf : ∀ i j, sa.binfo.flags i j
      = if i = (s.binfo.block_i + 2) % cfg.CATCHER_N_BLOCKS ∧ j < cfg.PACKETS_PER_BLOCK
        then 1 else s.binfo.flags i j := by
    intro i j
    rw [hbin]
    rfl
  refine ⟨sa, _, _, hpp, hflag, hfl, hfull2, hcnt, ?_, ?_, ?_, ?_, ?_⟩
  · rw [place_payload_bcnt_start]; exact hbsa
  · exact advance_arith cfg.BASELINES_PER_BLOCK K a (by omega)
  · intro j hj
    rw [place_payload_block_i, place_payload_flag_iff, hsab, hsaf, hoff, List.mem_cons,
      if_neg (fun h => hne1 h.1.symm), hnxt j hj]
    constructor
    · rintro (⟨h1, -⟩ | h)
      · exact absurd h1.symm hne1
      · exact Or.inr h
    · rintro (h | h)
      · exact absurd (congrArg Prod.fst h) (by simp)
      · exact Or.inr h
  · intro j hj
    rw [place_payload_block_i, place_payload_flag_iff, hsab, succ_mod_succ, hsaf, hoff,
      List.mem_cons, if_pos ⟨rfl, hj⟩]
    constructor
    · rintro (⟨-, h⟩ | h)
      · left; rw [h]
      · exact absurd h (by norm_num)
    · rintro (h | h)
      · left; exact ⟨rfl, congrArg Prod.snd h⟩
      · have := hmax _ h
        simp at this
  · intro p hp
    rcases List.mem_cons.mp hp with rfl | hp
    · show a + 2 ≤ a + 1 + 1
      omega
    · have := hmax p hp
      omega

/-- One packet of the run inside the window, not seen before, with the current block
complete when the packet lies two blocks ahead. -/
theorem window_inv_step (cfg : NetConfig) (hwf : cfg.wf) (hnb : 2 ≤ cfg.CATCHER_N_BLOCKS)
    (B0 K a : Nat) (P : List (Nat × Nat)) (s : NetState) (env : RingEnv)
    (f : hera_ibv_xeng_pkt)
    (hinv : WindowInv cfg B0 K a P s) (hin : in_range cfg f)
    (hok1 : env.set_filled_rv = hashpipe_rv.HASHPIPE_OK)
    (hok2 : env.busywait_free_rv = hashpipe_rv.HASHPIPE_OK)
    (hlo : B0 ≤ (get_header f).bcnt)
    (hK : (get_header f).bcnt < B0 + K * cfg.BASELINES_PER_BLOCK)
    (h3 : 3 * cfg.BASELINES_PER_BLOCK ≤ 2147483648)
    (hb1 : a ≤ blk_of cfg B0 f) (hb2 : blk_of cfg B0 f ≤ a + 2)
    (hnew : pkt_key cfg B0 (env, f) ∉ P)
    (hfull : blk_of cfg B0 f = a + 2 → ∀ j, j < cfg.PACKETS_PER_BLOCK → (a, j) ∈ P) :
    ∃ s0 pb r ev,
      process_packet cfg env s f
        = Outcome.returned (place_payload cfg s0 f (get_header f) pb) r ev ∧
      s0.binfo.flags pb (pkt_offset_of cfg s0.binfo.bcnt_start (get_header f)) ≠ 0 ∧
      (fills ev ≠ [] →
        s.binfo.block_packet_counter s.binfo.block_i = cfg.PACKETS_PER_BLOCK ∧
        ∀ j, j < cfg.PACKETS_PER_BLOCK → s.binfo.flags s.binfo.block_i j = 0) ∧
      (∀ x, x ∈ fills ev → x.2.2 = 1) ∧
      (fills ev).length + a = (if blk_of cfg B0 f = a + 2 then a + 1 else a) ∧
      WindowInv cfg B0 K (if blk_of cfg B0 f = a + 2 then a + 1 else a)
        (pkt_key cfg B0 (env, f) :: P) (place_payload cfg s0 f (get_header f) pb) := by
  obtain ⟨hbl, hbh⟩ := blk_bounds cfg hwf.1 B0 f hlo
  unfold pkt_key at hnew ⊢
  simp only [] at hnew ⊢
  by_cases h2 : blk_of cfg B0 f = a + 2
  · rw [h2] at hbl hbh hnew ⊢
    rw [if_pos rfl]
    rw [Nat.add_mul] at hbl
    have hbh2 : (get_header f).bcnt
        < B0 + a * cfg.BASELINES_PER_BLOCK + (2 + 1) * cfg.BASELINES_PER_BLOCK := by
      have e : (a + 2 + 1) * cfg.BASELINES_PER_BLOCK
          = a * cfg.BASELINES_PER_BLOCK + (2 + 1) * cfg.BASELINES_PER_BLOCK := by ring
      omega
    obtain ⟨s0, r, ev, hpp, hflag, hfl, hfull2, hinv2⟩ :=
      window_inv_advance cfg hwf hnb B0 K a P s env f hinv hin hok1 hok2 (by omega) hbh2 h3
        hK (hfull h2)
    refine ⟨s0, _, r, ev, hpp, hflag, fun _ => ⟨hfull2, ?_⟩, ?_, ?_, hinv2⟩
    · intro j hj
      exact (hinv.2.2.2.1 j hj).mpr (hfull h2 j hj)
    · intro x hx
      rw [hfl] at hx
      rw [List.mem_singleton.mp hx]
    · rw [hfl, List.length_singleton]; omega
  · rw [if_neg h2]
    obtain ⟨q, hq, hq2⟩ : ∃ q, blk_of cfg B0 f = a + q ∧ q < 2 :=
      ⟨blk_of cfg B0 f - a, by omega, by omega⟩
    rw [hq] at hbl hbh hnew ⊢
    have e1 : (a + q) * cfg.BASELINES_PER_BLOCK
        = a * cfg.BASELINES_PER_BLOCK + q * cfg.BASELINES_PER_BLOCK := by ring
    have e2 : (a + q + 1) * cfg.BASELINES_PER_BLOCK
        = a * cfg.BASELINES_PER_BLOCK + (q + 1) * cfg.BASELINES_PER_BLOCK := by ring
    obtain ⟨hpp, hflag, hinv2⟩ := window_inv_store cfg hwf hnb B0 K a P s env f q hq2 hinv hin
      (by omega) (by omega) h3 hnew
    refine ⟨s, _, _, _, hpp, hflag, fun h => absurd rfl h, ?_, ?_, hinv2⟩
    · intro x hx
      exact absurd hx (List.not_mem_nil _)
    · show 0 + a = a
      omega

/-- The run of `process_packet` over packets that arrive once each, in window order, all
packets of the run being among those that have arrived or will arrive. -/
theorem run_window (cfg : NetConfig) (hwf : cfg.wf) (hnb : 2 ≤ cfg.CATCHER_N_BLOCKS)
    (B0 K : Nat) (h3 : 3 * cfg.BASELINES_PER_BLOCK ≤ 2147483648)
    (rest : List (RingEnv × hera_ibv_xeng_pkt)) (a : Nat) (P : List (Nat × Nat))
    (s : NetState) (hinv : WindowInv cfg B0 K a P s)
    (hok : ∀ x, x ∈ rest → x.1.set_filled_rv = hashpipe_rv.HASHPIPE_OK ∧
      x.1.busywait_free_rv = hashpipe_rv.HASHPIPE_OK)
    (hin : ∀ x, x ∈ rest → in_range cfg x.2 ∧ B0 ≤ (get_header x.2).bcnt ∧
      (get_header x.2).bcnt < B0 + K * cfg.BASELINES_PER_BLOCK)
    (hnd : (rest.map (pkt_key cfg B0)).Nodup)
    (hnew : ∀ x, x ∈ rest → pkt_key cfg B0 x ∉ P)
    (hall : ∀ k j, k < K → j < cfg.PACKETS_PER_BLOCK →
      (k, j) ∈ P ∨ (k, j) ∈ rest.map (pkt_key cfg B0))
    (hord : window_order a (rest.map (fun x => blk_of cfg B0 x.2))) :
    (run_packets cfg s rest).exited = false ∧
    (∀ x, x ∈ fills (run_packets cfg s rest).events → x.2.2 = 1) ∧
    written_once cfg s rest ∧
    ∃ a1 P1, WindowInv cfg B0 K a1 P1 (run_packets cfg s rest).state ∧
      (fills (run_packets cfg s rest).events).length + a = a1 ∧
      (∀ p, p ∈ P → p ∈ P1) ∧ (∀ p, p ∈ rest.map (pkt_key cfg B0) → p ∈ P1) := by
  induction rest generalizing a P s with
  | nil =>
    refine ⟨rfl, fun x hx => absurd hx (List.not_mem_nil _), trivial, a, P, hinv, ?_,
      fun p hp => hp, fun p hp => absurd hp (List.not_mem_nil _)⟩
    show 0 + a = a
    omega
  | cons x tail ih =>
    obtain ⟨env, f⟩ := x
    have hin0 : in_range cfg f ∧ B0 ≤ (get_header f).bcnt ∧
        (get_header f).bcnt < B0 + K * cfg.BASELINES_PER_BLOCK :=
      hin (env, f) (List.mem_cons_self _ _)
    have hok0 : env.set_filled_rv = hashpipe_rv.HASHPIPE_OK ∧
        env.busywait_free_rv = hashpipe_rv.HASHPIPE_OK :=
      hok (env, f) (List.mem_cons_self _ _)
    obtain ⟨hi1, hi2, hi3⟩ := hin0
    obtain ⟨hk1, hk2⟩ := hok0
    rw [List.map_cons, List.nodup_cons] at hnd
    rw [List.map_cons] at hord
    have hord0 : a ≤ blk_of cfg B0 f ∧ blk_of cfg B0 f ≤ a + 2 ∧
        window_order (if blk_of cfg B0 f = a + 2 then a + 1 else a)
          (tail.map (fun x => blk_of cfg B0 x.2)) := hord
    obtain ⟨ho1, ho2, ho3⟩ := hord0
    have haK : a + 2 = blk_of cfg B0 f → a < K := by
      intro hb
      have := (blk_bounds cfg hwf.1 B0 f hi2).1
      rw [← hb] at this
      have h4 : (a + 2) * cfg.BASELINES_PER_BLOCK < K * cfg.BASELINES_PER_BLOCK := by omega
      have := Nat.lt_of_mul_lt_mul_right h4
      omega
    have hfull : blk_of cfg B0 f = a + 2 →
        ∀ j, j < cfg.PACKETS_PER_BLOCK → (a, j) ∈ P := by
      intro hb j hj
      rcases hall a j (haK hb.symm) hj with h | h
      · exact h
      · exfalso
        rw [List.map_cons, List.mem_cons] at h
        rcases h with h | h
        · have := congrArg Prod.fst h
          simp only [pkt_key] at this
          omega
        · obtain ⟨y, hy, hyk⟩ := List.mem_map.mp h
          rw [if_pos hb] at ho3
          have := window_order_ge _ _ ho3 (blk_of cfg B0 y.2)
            (List.mem_map.mpr ⟨y, hy, rfl⟩)
          have h5 := congrArg Prod.fst hyk
          simp only [pkt_key] at h5
          omega
    obtain ⟨s0, pb, r, ev, hpp, hflag, hfill, hgood, hlen, hinv2⟩ :=
      window_inv_step cfg hwf hnb B0 K a P s env f hinv hi1 hk1 hk2 hi2 hi3 h3 ho1 ho2
        (hnew (env, f) (List.mem_cons_self _ _)) hfull
    obtain ⟨r1, r2, r3, a1, P1, r4, r5, r6, r7⟩ := ih _ (pkt_key cfg B0 (env, f) :: P) _ hinv2
      (fun y hy => hok y (List.mem_cons_of_mem _ hy))
      (fun y hy => hin y (List.mem_cons_of_mem _ hy)) hnd.2
      (fun y hy hmem => by
        rcases List.mem_cons.mp hmem with h | h
        · exact hnd.1 (h ▸ List.mem_map.mpr ⟨y, hy, rfl⟩)
        · exact hnew y (List.mem_cons_of_mem _ hy) h)
      (fun k j hk hj => by
        rcases hall k j hk hj with h | h
        · exact Or.inl (List.mem_cons_of_mem _ h)
        · rw [List.map_cons, List.mem_cons] at h
          rcases h with h | h
          · exact Or.inl (h ▸ List.mem_cons_self _ _)
          · exact Or.inr h) ho3
    rw [run_packets_cons cfg s _ env f tail r ev hpp]
    refine ⟨r1, ?_, ?_, a1, P1, r4, ?_, fun p hp => r6 p (List.mem_cons_of_mem _ hp), ?_⟩
    · intro y hy
      simp only [fills_append, List.mem_append] at hy
      rcases hy with hy | hy
      · exact hgood y hy
      · exact r2 y hy
    · unfold written_once
      refine ⟨⟨s0, pb, r, ev, hpp, hflag, hfill⟩, ?_⟩
      rw [hpp]
      exact r3
    · simp only [fills_append, List.length_append]
      omega
    · intro p hp
      rw [List.map_cons, List.mem_cons] at hp
      rcases hp with h | h
      · exact r6 p (h ▸ List.mem_cons_self _ _)
      · exact r7 p h

theorem foldl_reset_flags (cfg : NetConfig) (l : List Nat) (b : block_info_t) (i j : Nat)
    (hj : j < cfg.PACKETS_PER_BLOCK) (h : i ∈ l ∨ b.flags i j = 1) :
    (l.foldl (reset_block_counters cfg) b).flags i j = 1 := by
  induction l generalizing b with
  | nil =>
    rcases h with h | h
    · exact absurd h (List.not_mem_nil _)
    · exact h
  | cons k l ih =>
    rw [List.foldl_cons]
    apply ih
    by_cases hil : i ∈ l
    · exact Or.inl hil
    · right
      by_cases hik : i = k
      · simp [reset_block_counters, memset_row, hik, hj]
      · rcases h with h | h
        · rcases List.mem_cons.mp h with h | h
          · exact absurd h hik
          · exact absurd h hil
        · simp [reset_block_counters, memset_row, hik, h]

theorem lazy_init_flags (cfg : NetConfig) (s : NetState) (h : packet_header_t)
    (h0 : s.binfo.initialized = 0) (i j : Nat) (hi : i < cfg.CATCHER_N_BLOCKS)
    (hj : j < cfg.PACKETS_PER_BLOCK) : (lazy_init cfg s h).1.binfo.flags i j = 1 := by
  unfold lazy_init
  rw [if_pos h0]
  simp only [initialize_block_binfo]
  unfold initialize_block_info
  rw [if_neg (by simp [h0])]
  exact foldl_reset_flags cfg _ _ i j hj (Or.inl (List.mem_range.mpr hi))

theorem lazy_init_fills (cfg : NetConfig) (s : NetState) (h : packet_header_t) :
    fills (lazy_init cfg s h).2 = [] := by
  unfold lazy_init
  split_ifs <;> rfl

/-- The first packet ever, a packet of the first block of the run, leaves the thread in
the window invariant with the anchor at that block and no packet arrived. -/
theorem window_inv_start (cfg : NetConfig) (hwf : cfg.wf) (hnb : 2 ≤ cfg.CATCHER_N_BLOCKS)
    (B0 K : Nat) (s : NetState) (f : hera_ibv_xeng_pkt)
    (h0 : s.binfo.initialized = 0) (hdvd : cfg.BASELINES_PER_BLOCK ∣ B0)
    (hlo : B0 ≤ (get_header f).bcnt) (hb : blk_of cfg B0 f = 0) :
    WindowInv cfg B0 K 0 [] (lazy_init cfg s (get_header f)).1 := by
  have hc := lazy_init_counted cfg hwf hnb s (get_header f) (get_header_bcnt_lt f) h0
  obtain ⟨-, hbs, -, hbi, -⟩ :=
    lazy_init_consistent cfg hwf s (get_header f) (get_header_bcnt_lt f) h0
  obtain ⟨-, hbh⟩ := blk_bounds cfg hwf.1 B0 f hlo
  rw [hb, Nat.zero_add, Nat.one_mul] at hbh
  have hmod : (get_header f).bcnt % cfg.BASELINES_PER_BLOCK = (get_header f).bcnt - B0 := by
    obtain ⟨c, hc⟩ := hdvd
    have e : (get_header f).bcnt = ((get_header f).bcnt - B0) + cfg.BASELINES_PER_BLOCK * c := by
      omega
    rw [e, Nat.add_mul_mod_self_left, Nat.mod_eq_of_lt (by omega)]
    omega
  refine ⟨hc, ?_, Nat.zero_le _, ?_, ?_, fun p hp => absurd hp (List.not_mem_nil _)⟩
  · rw [hbs, hmod]; omega
  · intro j hj
    rw [lazy_init_flags cfg s _ h0 _ j (by rw [hbi]; exact hwf.2.1) hj]
    simp
  · intro j hj
    rw [lazy_init_flags cfg s _ h0 _ j (Nat.mod_lt _ hwf.2.1) hj]
    simp

/-- C18, as the code has it: if every expected packet of a run of `K` consecutive blocks
arrives exactly once, in an order that stays in the window of `process_packet` - the
first packet belongs to the first block, and every later packet belongs to the current
block or one of the two blocks after it, the current block moving on by one with each
packet that lies two blocks ahead - then, the ring calls succeeding and the `bcnt` not
rolling over, the thread does not exit, every block that `process_packet` marks filled has
`good_data = 1`, these are the first `K - 2` blocks, and every packet is copied into the
ring at a position that no packet was copied to before, the block marked filled having
the flags of all its `PACKETS_PER_BLOCK` positions cleared and a packet counter of
`PACKETS_PER_BLOCK`. -/
theorem lossless_exactness (cfg : NetConfig) (hwf : cfg.wf) (hnb : 2 ≤ cfg.CATCHER_N_BLOCKS)
    (db : Nat → hera_catcher_bda_input_block_t) (st : net_status_t) (B0 K : Nat)
    (first : RingEnv × hera_ibv_xeng_pkt) (rest : List (RingEnv × hera_ibv_xeng_pkt))
    (hdvd : cfg.BASELINES_PER_BLOCK ∣ B0)
    (h3 : 3 * cfg.BASELINES_PER_BLOCK ≤ 2147483648)
    (hok : ∀ x, x ∈ first :: rest → x.1.set_filled_rv = hashpipe_rv.HASHPIPE_OK ∧
      x.1.busywait_free_rv = hashpipe_rv.HASHPIPE_OK)
    (hin : ∀ x, x ∈ first :: rest → in_range cfg x.2 ∧ B0 ≤ (get_header x.2).bcnt ∧
      (get_header x.2).bcnt < B0 + K * cfg.BASELINES_PER_BLOCK)
    (honce : ((first :: rest).map (pkt_key cfg B0)).Nodup)
    (hall : ∀ k, k < K → ∀ j, j < cfg.PACKETS_PER_BLOCK →
      (k, j) ∈ (first :: rest).map (pkt_key cfg B0))
    (hfirst : blk_of cfg B0 first.2 = 0)
    (hord : window_order 0 (rest.map (fun x => blk_of cfg B0 x.2))) :
    (run_packets cfg (start_state db st) (first :: rest)).exited = false ∧
    (∀ x, x ∈ fills (run_packets cfg (start_state db st) (first :: rest)).events →
      x.2.2 = 1) ∧
    (fills (run_packets cfg (start_state db st) (first :: rest)).events).length = K - 2 ∧
    written_once cfg (start_state db st) (first :: rest) := by
  obtain ⟨env, f⟩ := first
  have hin0 : in_range cfg f ∧ B0 ≤ (get_header f).bcnt ∧
      (get_header f).bcnt < B0 + K * cfg.BASELINES_PER_BLOCK :=
    hin (env, f) (List.mem_cons_self _ _)
  have hok0 : env.set_filled_rv = hashpipe_rv.HASHPIPE_OK ∧
      env.busywait_free_rv = hashpipe_rv.HASHPIPE_OK :=
    hok (env, f) (List.mem_cons_self _ _)
  have hfirst0 : blk_of cfg B0 f = 0 := hfirst
  obtain ⟨hi1, hi2, hi3⟩ := hin0
  obtain ⟨hk1, hk2⟩ := hok0
  rw [List.map_cons, List.nodup_cons] at honce
  have hinv0 := window_inv_start cfg hwf hnb B0 K (start_state db st) f rfl hdvd hi2 hfirst0
  obtain ⟨s0, pb, r, ev, hpp, hflag, -, hgood, hlen, hinv1⟩ :=
    window_inv_step cfg hwf hnb B0 K 0 [] _ env f hinv0 hi1 hk1 hk2 hi2 hi3 h3
      (by omega) (by omega) (List.not_mem_nil _) (fun h => by omega)
  rw [if_neg (by omega)] at hlen hinv1
  have hfl0 : fills ev = [] := List.length_eq_zero.mp (by omega)
  have hpp0 : process_packet cfg env (start_state db st) f
      = Outcome.returned (place_payload cfg s0 f (get_header f) pb) r
          ((lazy_init cfg (start_state db st) (get_header f)).2 ++ ev) := by
    rw [process_packet_prepend, hpp]
    rfl
  obtain ⟨r1, r2, r3, a1, P1, r4, r5, r6, r7⟩ := run_window cfg hwf hnb B0 K h3 rest 0
    [pkt_key cfg B0 (env, f)] _ hinv1
    (fun y hy => hok y (List.mem_cons_of_mem _ hy))
    (fun y hy => hin y (List.mem_cons_of_mem _ hy)) honce.2
    (fun y hy hmem => honce.1 (List.mem_singleton.mp hmem ▸ List.mem_map.mpr ⟨y, hy, rfl⟩))
    (fun k j hk hj => by
      have h := hall k hk j hj
      rw [List.map_cons, List.mem_cons] at h
      rcases h with h | h
      · exact Or.inl (h ▸ List.mem_singleton_self _)
      · exact Or.inr h) hord
  rw [run_packets_cons cfg _ _ env f rest r _ hpp0]
  simp only [fills_append, lazy_init_fills, hfl0, List.nil_append]
  refine ⟨r1, r2, ?_, ?_⟩
  · have hP : 0 < cfg.PACKETS_PER_BLOCK := by
      have : pkt_offset_of cfg 0 (get_header f) < cfg.PACKETS_PER_BLOCK := hi1
      omega
    have hK : 0 < K := by
      rcases Nat.eq_zero_or_pos K with h | h
      · rw [h, Nat.zero_mul] at hi3; omega
      · exact h
    have hmem := hall (K - 1) (by omega) 0 hP
    rw [List.map_cons, List.mem_cons] at hmem
    have hP1 : (K - 1, 0) ∈ P1 := by
      rcases hmem with h | h
      · exact r6 _ (h ▸ List.mem_singleton_self _)
      · exact r7 _ h
    have hle := r4.2.2.2.2.2 _ hP1
    have hge := r4.2.2.1
    simp only [] at hle
    omega
  · unfold written_once
    refine ⟨⟨s0, pb, r, _, hpp0, hflag, ?_⟩, ?_⟩
    · intro h
      rw [fills_append, lazy_init_fills, hfl0] at h
      exact absurd rfl h
    · rw [hpp0]
      exact r3

theorem lossless_exactness_witness :
    (run_packets cfgDuo s_start (lossless_first :: lossless_rest)).exited = false ∧
    (∀ x, x ∈ fills (run_packets cfgDuo s_start (lossless_first :: lossless_rest)).events →
      x.2.2 = 1) ∧
    (fills (run_packets cfgDuo s_start (lossless_first :: lossless_rest)).events).length
      = 4 - 2 ∧
    written_once cfgDuo s_start (lossless_first :: lossless_rest) :=
  lossless_exactness cfgDuo (by decide) (by decide) (fun _ => block_zero) status_zero 100 4
    lossless_first lossless_rest (by decide) (by decide) (by decide) (by decide) (by decide)
    (by decide) (by decide) (by decide)

/-- Every packet of the three blocks at `bcnt = 100 .. 102` arrives exactly once, but the
second packet of block 100 comes after a packet of block 102: it is dropped as late, and
block 100 has been marked filled with `good_data = 0`. -/
theorem lossless_exactness_counterexample :
    (late_order_trace.map (pkt_key cfgDuo 100)).Nodup ∧
    (∀ k, k < 3 → ∀ j, j < cfgDuo.PACKETS_PER_BLOCK →
      (k, j) ∈ late_order_trace.map (pkt_key cfgDuo 100)) ∧
    (∀ x, x ∈ late_order_trace → in_range cfgDuo x.2 ∧ 100 ≤ (get_header x.2).bcnt ∧
      (get_header x.2).bcnt < 100 + 3 * cfgDuo.BASELINES_PER_BLOCK) ∧
    (run_packets cfgDuo s_start late_order_trace).exited = false ∧
    fills (run_packets cfgDuo s_start late_order_trace).events = [(0, 100, 0)] := by
  decide

/-! ## Theorems: non-temporal copy -/

/-- C19: with 256-bit streaming (`SIZE_NT = 5`), `memcpy_nt(8193, 4098, 96)` - a
destination at 1 and a source at 2 modulo 32, the regions apart - ends regularly and
leaves every byte outside `dst[0..96)` alone, but it is no copy: the fallback `memcpy`
is followed by the aligned path, which moves the destination on by 31 bytes and the
source by 30, so that `dst[31]` holds `src[30]`, and so on up to `dst[95] = src[94]`. -/
theorem memcpy_nt_unequal_misalignment :
    (∀ i, i < 31 →
      (memcpy_nt 5 mem_ramp 8193 4098 96).byte (8193 + i) = some (mem_ramp (4098 + i))) ∧
    (∀ i, i < 96 → 31 ≤ i →
      (memcpy_nt 5 mem_ramp 8193 4098 96).byte (8193 + i)
        = some (mem_ramp (4098 + i - 1))) ∧
    (memcpy_nt 5 mem_ramp 8193 4098 96).byte 8192 = some (mem_ramp 8192) ∧
    (memcpy_nt 5 mem_ramp 8193 4098 96).byte (8193 + 96) = some (mem_ramp (8193 + 96)) ∧
    mem_ramp (4098 + 30) ≠ mem_ramp (4098 + 31) ∧
    ¬ copies (memcpy_nt 5 mem_ramp 8193 4098 96) mem_ramp 8193 4098 96 := by
  have h31 : (memcpy_nt 5 mem_ramp 8193 4098 96).byte (8193 + 31)
      = some (mem_ramp (4098 + 30)) := by decide
  refine ⟨by decide, by decide, by decide, by decide, by decide, ?_⟩
  rintro ⟨m1, hm, hc, -⟩
  rw [hm] at h31
  have h := hc 31 (by decide)
  simp only [CopyResult.byte, Option.some.injEq] at h31
  rw [h31] at h
  exact absurd h (by decide)

/-! ## Theorems: the F-engine reassembler -/

theorem feng_mcnt_lt (f : Feng.hera_ibv_feng_pkt) : (Feng.get_header f).mcnt < 34359738368 := by
  rw [(Feng.get_header_div_mod f).1]
  exact Nat.mod_lt _ (by norm_num)

theorem feng_block_for_mcnt (cfg : Feng.FengConfig) (mcnt : Nat) :
    Feng.block_for_mcnt cfg mcnt = (mcnt / cfg.block_mcnts) % cfg.N_INPUT_BLOCKS := by
  unfold Feng.block_for_mcnt Feng.FengConfig.block_mcnts
  rw [Nat.div_div_eq_div_mul, Nat.mul_comm]

/-- The ring block of an `mcnt` that lies `q` blocks and a bit beyond the anchor. -/
theorem feng_block_ahead (cfg : Feng.FengConfig) (hL : 0 < cfg.block_mcnts) (M0 a q mcnt : Nat)
    (hdvd : cfg.block_mcnts ∣ M0)
    (hlo : M0 + a * cfg.block_mcnts + q * cfg.block_mcnts ≤ mcnt)
    (hhi : mcnt < M0 + a * cfg.block_mcnts + (q + 1) * cfg.block_mcnts) :
    Feng.block_for_mcnt cfg mcnt
      = (M0 / cfg.block_mcnts + a + q) % cfg.N_INPUT_BLOCKS := by
  rw [feng_block_for_mcnt]
  congr 1
  obtain ⟨c, hc⟩ := hdvd
  rw [hc, Nat.mul_div_cancel_left _ hL]
  apply Nat.div_eq_of_lt_le
  · rw [Nat.add_mul, Nat.add_mul, Nat.mul_comm c]
    rw [hc] at hlo
    exact hlo
  · rw [hc] at hhi
    have e : (c + a + q + 1) * cfg.block_mcnts
        = cfg.block_mcnts * c + a * cfg.block_mcnts + (q + 1) * cfg.block_mcnts := by ring
    rw [e]
    exact hhi

theorem feng_dist (mcnt ms : Nat) (h1 : ms ≤ mcnt) (h2 : mcnt < 34359738368) :
    Feng.toInt64 (Feng.sub64 mcnt ms) = ((mcnt - ms : Nat) : Int) := by
  have e : Feng.sub64 mcnt ms = mcnt - ms := by unfold Feng.sub64; omega
  rw [e]
  unfold Feng.toInt64
  rw [if_pos (by omega)]
  omega

theorem feng_fills_append (l1 l2 : List Feng.NetEvent) :
    Feng.fills (l1 ++ l2) = Feng.fills l1 ++ Feng.fills l2 := by
  induction l1 with
  | nil => rfl
  | cons e l ih => cases e <;> simp [Feng.fills, ih]

theorem feng_fills_copies (f : Nat → Feng.NetEvent) (n : Nat)
    (hf : ∀ i, Feng.fills [f i] = []) : Feng.fills ((List.range n).map f) = [] := by
  induction n with
  | zero => rfl
  | succ n ih =>
    rw [List.range_succ, List.map_append, feng_fills_append, ih, List.map_singleton, hf]
    rfl

theorem feng_arrivals_cons (cfg : Feng.FengConfig) (M0 k : Nat)
    (x : RingEnv × Feng.hera_ibv_feng_pkt) (l : List (RingEnv × Feng.hera_ibv_feng_pkt)) :
    Feng.arrivals cfg M0 k (x :: l)
      = Feng.arrivals cfg M0 k l + if Feng.blk_of cfg M0 x.2 = k then 1 else 0 := by
  unfold Feng.arrivals
  rw [List.filter_cons]
  split_ifs with h1 h2 h2
  · simp
  · simp at h1; exact absurd h1 h2
  · simp at h1; exact absurd h2 h1
  · simp

theorem feng_blk_bounds (cfg : Feng.FengConfig) (hL : 0 < cfg.block_mcnts) (M0 : Nat)
    (f : Feng.hera_ibv_feng_pkt) (hlo : M0 ≤ (Feng.get_header f).mcnt) :
    M0 + Feng.blk_of cfg M0 f * cfg.block_mcnts ≤ (Feng.get_header f).mcnt ∧
    (Feng.get_header f).mcnt < M0 + (Feng.blk_of cfg M0 f + 1) * cfg.block_mcnts := by
  unfold Feng.blk_of
  have h1 := Nat.div_mul_le_self ((Feng.get_header f).mcnt - M0) cfg.block_mcnts
  have h2 := Nat.lt_div_mul_add hL (a := (Feng.get_header f).mcnt - M0)
  rw [Nat.add_mul, Nat.one_mul]
  omega

theorem feng_lazy_init (cfg : Feng.FengConfig) (s : Feng.NetState)
    (h : s.binfo.initialized ≠ 0) : Feng.initialize_block_info cfg s = s.binfo := by
  unfold Feng.initialize_block_info
  rw [if_pos h]

theorem feng_succ_mod_ne (n x : Nat) (hn : 2 ≤ n) : (x + 1) % n ≠ x % n := by
  intro h
  have h1 : n ∣ (x + 1) - x := (Nat.modEq_iff_dvd' (by omega)).mp h.symm
  have h2 : n ≤ 1 := Nat.le_of_dvd (by omega) (by simpa using h1)
  omega

/-- The first branch of `process_packet` without a block marked filled. -/
theorem feng_process_in_window (cfg : Feng.FengConfig) (env : RingEnv) (s : Feng.NetState)
    (f : Feng.hera_ibv_feng_pkt) (hinit : s.binfo.initialized ≠ 0)
    (h0 : 0 ≤ Feng.toInt64 (Feng.sub64 (Feng.get_header f).mcnt s.binfo.mcnt_start))
    (h2 : Feng.toInt64 (Feng.sub64 (Feng.get_header f).mcnt s.binfo.mcnt_start)
      < 2 * (cfg.N_TIME_PER_BLOCK : Int) * (cfg.TIME_DEMUX : Int)) :
    Feng.process_packet cfg env s f
      = Feng.count_and_copy cfg s (Feng.get_header f)
          (Feng.block_for_mcnt cfg (Feng.get_header f).mcnt) 18446744073709551615 [] := by
  have hnn : (0 : Int) ≤ (cfg.N_TIME_PER_BLOCK : Int) * (cfg.TIME_DEMUX : Int) :=
    mul_nonneg (Int.natCast_nonneg _) (Int.natCast_nonneg _)
  unfold Feng.process_packet
  simp only [feng_lazy_init cfg s hinit]
  rw [if_pos ⟨h0, by rw [mul_assoc] at h2 ⊢; omega⟩, if_neg (by omega)]

/-- The first branch of `process_packet` with the current block marked filled. -/
theorem feng_process_advance (cfg : Feng.FengConfig) (env : RingEnv) (s : Feng.NetState)
    (f : Feng.hera_ibv_feng_pkt) (hinit : s.binfo.initialized ≠ 0)
    (h2 : 2 * (cfg.N_TIME_PER_BLOCK : Int) * (cfg.TIME_DEMUX : Int)
      ≤ Feng.toInt64 (Feng.sub64 (Feng.get_header f).mcnt s.binfo.mcnt_start))
    (h3 : Feng.toInt64 (Feng.sub64 (Feng.get_header f).mcnt s.binfo.mcnt_start)
      < 3 * (cfg.N_TIME_PER_BLOCK : Int) * (cfg.TIME_DEMUX : Int)) :
    Feng.process_packet cfg env s f
      = match Feng.advance_block cfg env s (Feng.get_header f).mcnt
          (Feng.block_for_mcnt cfg (Feng.get_header f).mcnt) with
        | Feng.Outcome.thread_exit s1 ev1 => Feng.Outcome.thread_exit s1 ev1
        | Feng.Outcome.returned s1 netmcnt ev1 =>
          Feng.count_and_copy cfg s1 (Feng.get_header f)
            (Feng.block_for_mcnt cfg (Feng.get_header f).mcnt) netmcnt ev1 := by
  have hnn : (0 : Int) ≤ (cfg.N_TIME_PER_BLOCK : Int) * (cfg.TIME_DEMUX : Int) :=
    mul_nonneg (Int.natCast_nonneg _) (Int.natCast_nonneg _)
  unfold Feng.process_packet
  simp only [feng_lazy_init cfg s hinit]
  rw [if_pos ⟨by rw [mul_assoc] at h2; omega, h3⟩, if_pos (by omega)]

/-- The distance of a packet that lies `q` blocks and a bit beyond the anchor. -/
theorem feng_window_dist (cfg : Feng.FengConfig) (ms q mcnt : Nat)
    (hlo : ms + q * cfg.block_mcnts ≤ mcnt)
    (hhi : mcnt < ms + (q + 1) * cfg.block_mcnts) (h35 : mcnt < 34359738368) :
    (q : Int) * (cfg.N_TIME_PER_BLOCK : Int) * (cfg.TIME_DEMUX : Int)
      ≤ Feng.toInt64 (Feng.sub64 mcnt ms) ∧
    Feng.toInt64 (Feng.sub64 mcnt ms)
      < ((q : Int) + 1) * (cfg.N_TIME_PER_BLOCK : Int) * (cfg.TIME_DEMUX : Int) := by
  rw [feng_dist mcnt ms (by omega) h35]
  have hLL : cfg.block_mcnts = cfg.N_TIME_PER_BLOCK * cfg.TIME_DEMUX := rfl
  rw [hLL] at hlo hhi
  constructor
  · have : q * (cfg.N_TIME_PER_BLOCK * cfg.TIME_DEMUX) ≤ mcnt - ms := by omega
    have h3 : ((q * (cfg.N_TIME_PER_BLOCK * cfg.TIME_DEMUX) : Nat) : Int)
        ≤ ((mcnt - ms : Nat) : Int) := by exact_mod_cast this
    push_cast at h3
    rw [mul_assoc]
    exact h3
  · have : mcnt - ms < (q + 1) * (cfg.N_TIME_PER_BLOCK * cfg.TIME_DEMUX) := by omega
    have h3 : ((mcnt - ms : Nat) : Int)
        < (((q + 1) * (cfg.N_TIME_PER_BLOCK * cfg.TIME_DEMUX) : Nat) : Int) := by
      exact_mod_cast this
    push_cast at h3
    rw [mul_assoc]
    exact h3

/-- A packet with an antenna in range is counted for its block and copied. -/
theorem feng_count_and_copy (cfg : Feng.FengConfig) (s : Feng.NetState)
    (h : Feng.packet_header_t) (pb nm : Nat) (ev : List Feng.NetEvent)
    (hant : h.ant < cfg.Na) :
    ∃ s1 ev1, Feng.count_and_copy cfg s h pb nm ev = Feng.Outcome.returned s1 nm (ev ++ ev1) ∧
      Feng.fills ev1 = [] ∧ s1.binfo.initialized = s.binfo.initialized ∧
      s1.binfo.mcnt_start = s.binfo.mcnt_start ∧
      s1.binfo.block_packet_counter = Function.update s.binfo.block_packet_counter pb
        (s.binfo.block_packet_counter pb + 1) ∧
      s1.db = s.db := by
  unfold Feng.count_and_copy Feng.calc_block_indexes
  simp only [ge_iff_le, not_le.mpr hant, if_false]
  exact ⟨_, _, rfl, feng_fills_copies _ _ (fun i => rfl), rfl, rfl, rfl, rfl⟩

/-- A packet of the current or the next block with an antenna in range: it is counted for
its block and copied, and no block is marked filled. -/
theorem feng_step_store (cfg : Feng.FengConfig) (hL : 0 < cfg.block_mcnts)
    (hnb : 2 ≤ cfg.N_INPUT_BLOCKS) (M0 a : Nat)
    (seen : List (RingEnv × Feng.hera_ibv_feng_pkt)) (s : Feng.NetState) (env : RingEnv)
    (f : Feng.hera_ibv_feng_pkt) (q : Nat) (hq : q < 2) (hdvd : cfg.block_mcnts ∣ M0)
    (hinv : Feng.WindowInv cfg M0 a seen s) (hant : (Feng.get_header f).ant < cfg.Na)
    (hlo : M0 ≤ (Feng.get_header f).mcnt) (hblk : Feng.blk_of cfg M0 f = a + q) :
    ∃ s1 r ev, Feng.process_packet cfg env s f = Feng.Outcome.returned s1 r ev ∧
      Feng.fills ev = [] ∧ Feng.WindowInv cfg M0 a ((env, f) :: seen) s1 := by
  obtain ⟨hinit, hms, hc0, hc1, hg0, hg1, hnone⟩ := hinv
  obtain ⟨hbl, hbh⟩ := feng_blk_bounds cfg hL M0 f hlo
  rw [hblk] at hbl hbh
  have e1 : (a + q) * cfg.block_mcnts = a * cfg.block_mcnts + q * cfg.block_mcnts := by ring
  have e2 : (a + q + 1) * cfg.block_mcnts
      = a * cfg.block_mcnts + (q + 1) * cfg.block_mcnts := by ring
  have h35 := feng_mcnt_lt f
  have hpb := feng_block_ahead cfg hL M0 a q (Feng.get_header f).mcnt hdvd (by omega) (by omega)
  obtain ⟨hd1, hd2⟩ := feng_window_dist cfg s.binfo.mcnt_start q (Feng.get_header f).mcnt
    (by omega) (by omega) h35
  have hnn : (0 : Int) ≤ (cfg.N_TIME_PER_BLOCK : Int) * (cfg.TIME_DEMUX : Int) :=
    mul_nonneg (Int.natCast_nonneg _) (Int.natCast_nonneg _)
  have hd0 : (0 : Int)
      ≤ Feng.toInt64 (Feng.sub64 (Feng.get_header f).mcnt s.binfo.mcnt_start) := by
    refine le_trans ?_ hd1
    rw [mul_assoc]
    exact mul_nonneg (Int.natCast_nonneg _) hnn
  have hd2b : Feng.toInt64 (Feng.sub64 (Feng.get_header f).mcnt s.binfo.mcnt_start)
      < 2 * (cfg.N_TIME_PER_BLOCK : Int) * (cfg.TIME_DEMUX : Int) := by
    rcases (by omega : q = 0 ∨ q = 1) with rfl | rfl
    · rw [mul_assoc] at hd2 ⊢
      push_cast at hd2
      omega
    · rw [mul_assoc] at hd2 ⊢
      push_cast at hd2
      omega
  have hne := feng_succ_mod_ne cfg.N_INPUT_BLOCKS (M0 / cfg.block_mcnts + a) hnb
  rw [feng_process_in_window cfg env s f hinit hd0 hd2b]
  obtain ⟨s1, ev1, hcc, hfl, hi1, hm1, hcn1, hdb1⟩ := feng_count_and_copy cfg s
    (Feng.get_header f) (Feng.block_for_mcnt cfg (Feng.get_header f).mcnt)
    18446744073709551615 [] hant
  refine ⟨s1, _, _, hcc, ?_, by rw [hi1]; exact hinit, by rw [hm1]; exact hms, ?_, ?_,
    by rw [hdb1]; exact hg0, by rw [hdb1]; exact hg1, ?_⟩
  · rw [List.nil_append]
    exact hfl
  · rw [hcn1, hpb, feng_arrivals_cons, hblk]
    rcases (by omega : q = 0 ∨ q = 1) with rfl | rfl
    · simp only [Nat.add_zero]
      rw [Function.update_same, hc0]
      simp
    · rw [Function.update_noteq (Ne.symm hne), hc0, if_neg (by omega)]
      rfl
  · rw [hcn1, hpb, feng_arrivals_cons, hblk]
    rcases (by omega : q = 0 ∨ q = 1) with rfl | rfl
    · simp only [Nat.add_zero]
      rw [Function.update_noteq hne, hc1]
      simp
    · rw [Function.update_same, hc1, if_pos rfl]
  · intro k hk
    rw [feng_arrivals_cons, hnone k hk, hblk, if_neg (by omega)]

/-- The state and the marked block of `set_block_filled` when the ring call succeeds. -/
theorem feng_set_block_filled_ok (cfg : Feng.FengConfig) (env : RingEnv) (s : Feng.NetState)
    (h1 : env.set_filled_rv = hashpipe_rv.HASHPIPE_OK) :
    ∃ s1 ev, Feng.set_block_filled cfg env s
        = Feng.Outcome.returned s1 s.binfo.mcnt_start ev ∧
      Feng.fills ev = [(Feng.block_for_mcnt cfg s.binfo.mcnt_start,
        if s.binfo.block_packet_counter (Feng.block_for_mcnt cfg s.binfo.mcnt_start)
            = cfg.N_PACKETS_PER_BLOCK then 1
        else (s.db (Feng.block_for_mcnt cfg s.binfo.mcnt_start)).good_data)] ∧
      s1.binfo.initialized = s.binfo.initialized ∧
      s1.binfo.mcnt_start = s.binfo.mcnt_start ∧
      s1.binfo.block_packet_counter = s.binfo.block_packet_counter ∧
      ∀ i, i ≠ Feng.block_for_mcnt cfg s.binfo.mcnt_start → s1.db i = s.db i := by
  unfold Feng.set_block_filled
  simp only [h1, ne_eq, not_true_eq_false, if_false]
  refine ⟨_, _, rfl, ?_, rfl, rfl, rfl, ?_⟩
  · simp only [feng_fills_append]
    have e1 : ∀ (c : Prop) [Decidable c] (x : Feng.NetEvent),
        (∀ i g, x ≠ Feng.NetEvent.set_filled i g) →
        Feng.fills (if c then [x] else []) = [] := by
      intro c _ x hx
      split_ifs
      · cases x <;> first | rfl | exact absurd rfl (hx _ _)
      · rfl
    rw [e1 _ _ (fun i g h => Feng.NetEvent.noConfusion h),
      e1 _ _ (fun i g h => Feng.NetEvent.noConfusion h)]
    simp only [List.nil_append, Feng.fills]
    split_ifs with hc
    · simp
    · rfl
  · intro i hi
    simp only []
    split_ifs
    · exact Function.update_noteq hi _ _
    · rfl

theorem feng_initialize_block_fills (cfg : Feng.FengConfig) (s : Feng.NetState) (mcnt : Nat) :
    Feng.fills (Feng.initialize_block cfg s mcnt).2 = [] := by
  unfold Feng.initialize_block
  simp only []
  split_ifs <;> rfl

/-- The state and the marked block of `advance_block` when both ring calls succeed. -/
theorem feng_advance_block_ok (cfg : Feng.FengConfig) (env : RingEnv) (s : Feng.NetState)
    (pkt_mcnt : Nat) (h1 : env.set_filled_rv = hashpipe_rv.HASHPIPE_OK)
    (h2 : env.busywait_free_rv = hashpipe_rv.HASHPIPE_OK) :
    ∃ s1 ev, Feng.advance_block cfg env s pkt_mcnt (Feng.block_for_mcnt cfg pkt_mcnt)
        = Feng.Outcome.returned s1 s.binfo.mcnt_start ev ∧
      Feng.fills ev = [(Feng.block_for_mcnt cfg s.binfo.mcnt_start,
        if s.binfo.block_packet_counter (Feng.block_for_mcnt cfg s.binfo.mcnt_start)
            = cfg.N_PACKETS_PER_BLOCK then 1
        else (s.db (Feng.block_for_mcnt cfg s.binfo.mcnt_start)).good_data)] ∧
      s1.binfo.initialized = s.binfo.initialized ∧
      s1.binfo.mcnt_start
        = (s.binfo.mcnt_start + cfg.N_TIME_PER_BLOCK * cfg.TIME_DEMUX) % 18446744073709551616 ∧
      s1.binfo.block_packet_counter
        = Function.update s.binfo.block_packet_counter (Feng.block_for_mcnt cfg pkt_mcnt) 0 ∧
      (s1.db (Feng.block_for_mcnt cfg pkt_mcnt)).good_data = 0 ∧
      ∀ i, i ≠ Feng.block_for_mcnt cfg pkt_mcnt →
        i ≠ Feng.block_for_mcnt cfg s.binfo.mcnt_start → s1.db i = s.db i := by
  obtain ⟨sf, evf, hf, hfl, hi, hm, hc, hdb⟩ := feng_set_block_filled_ok cfg env s h1
  unfold Feng.advance_block
  rw [hf]
  simp only [h2, ne_eq, not_true_eq_false, if_false]
  refine ⟨_, _, rfl, ?_, ?_, ?_, ?_, ?_, ?_⟩
  · rw [feng_fills_append, feng_fills_append, hfl, feng_initialize_block_fills]
    rfl
  · exact hi
  · show (sf.binfo.mcnt_start + _) % _ = _
    rw [hm]
  · show Function.update sf.binfo.block_packet_counter _ _ = _
    rw [hc]
  · simp [Feng.initialize_block]
  · intro i hi1 hi2
    simp only [Feng.initialize_block]
    rw [Function.update_noteq hi1]
    exact hdb i hi2

/-- A packet two blocks ahead of the anchor, with an antenna in range: the current block
is marked filled, with `good_data = 1` exactly when its counter stands at
`N_PACKETS_PER_BLOCK`, and the window moves on by one block. -/
theorem feng_step_advance (cfg : Feng.FengConfig) (hL : 0 < cfg.block_mcnts)
    (hnb : 2 ≤ cfg.N_INPUT_BLOCKS) (M0 a : Nat)
    (seen : List (RingEnv × Feng.hera_ibv_feng_pkt)) (s : Feng.NetState) (env : RingEnv)
    (f : Feng.hera_ibv_feng_pkt) (hdvd : cfg.block_mcnts ∣ M0)
    (hinv : Feng.WindowInv cfg M0 a seen s) (hant : (Feng.get_header f).ant < cfg.Na)
    (h1 : env.set_filled_rv = hashpipe_rv.HASHPIPE_OK)
    (h2 : env.busywait_free_rv = hashpipe_rv.HASHPIPE_OK)
    (hlo : M0 ≤ (Feng.get_header f).mcnt) (hblk : Feng.blk_of cfg M0 f = a + 2) :
    ∃ s1 r ev, Feng.process_packet cfg env s f = Feng.Outcome.returned s1 r ev ∧
      Feng.fills ev = [((M0 / cfg.block_mcnts + a) % cfg.N_INPUT_BLOCKS,
        if Feng.arrivals cfg M0 a seen = cfg.N_PACKETS_PER_BLOCK then 1 else 0)] ∧
      Feng.WindowInv cfg M0 (a + 1) ((env, f) :: seen) s1 := by
  obtain ⟨hinit, hms, hc0, hc1, hg0, hg1, hnone⟩ := hinv
  obtain ⟨hbl, hbh⟩ := feng_blk_bounds cfg hL M0 f hlo
  rw [hblk] at hbl hbh
  have e1 : (a + 2) * cfg.block_mcnts = a * cfg.block_mcnts + 2 * cfg.block_mcnts := by ring
  have e2 : (a + 2 + 1) * cfg.block_mcnts
      = a * cfg.block_mcnts + (2 + 1) * cfg.block_mcnts := by ring
  have h35 := feng_mcnt_lt f
  have hpb := feng_block_ahead cfg hL M0 a 2 (Feng.get_header f).mcnt hdvd (by omega) (by omega)
  have hcur := feng_block_ahead cfg hL M0 a 0 s.binfo.mcnt_start hdvd (by omega) (by omega)
  rw [Nat.add_zero] at hcur
  obtain ⟨hd1, hd2⟩ := feng_window_dist cfg s.binfo.mcnt_start 2 (Feng.get_header f).mcnt
    (by omega) (by omega) h35
  have hne := feng_succ_mod_ne cfg.N_INPUT_BLOCKS (M0 / cfg.block_mcnts + a) hnb
  have hne2 : (M0 / cfg.block_mcnts + a + 2) % cfg.N_INPUT_BLOCKS
      ≠ (M0 / cfg.block_mcnts + a + 1) % cfg.N_INPUT_BLOCKS :=
    feng_succ_mod_ne cfg.N_INPUT_BLOCKS (M0 / cfg.block_mcnts + a + 1) hnb
  obtain ⟨sa, eva, hadv, hfl, hia, hma, hca, hga, hdba⟩ :=
    feng_advance_block_ok cfg env s (Feng.get_header f).mcnt h1 h2
  obtain ⟨s1, ev1, hcc, hfl1, hi1, hm1, hcn1, hdb1⟩ := feng_count_and_copy cfg sa
    (Feng.get_header f) (Feng.block_for_mcnt cfg (Feng.get_header f).mcnt)
    s.binfo.mcnt_start eva hant
  rw [feng_process_advance cfg env s f hinit (by push_cast at hd1; exact hd1)
    (by push_cast at hd2; exact hd2), hadv]
  simp only []
  have hLL : cfg.block_mcnts = cfg.N_TIME_PER_BLOCK * cfg.TIME_DEMUX := rfl
  refine ⟨s1, _, _, hcc, ?_, by rw [hi1, hia]; exact hinit, ?_, ?_, ?_, ?_, ?_, ?_⟩
  · rw [feng_fills_append, hfl, hfl1, hcur, hc0, hg0, List.append_nil]
  · rw [hm1, hma, ← hLL, hms, Nat.mod_eq_of_lt (by omega)]
    ring
  · rw [show M0 / cfg.block_mcnts + (a + 1) = M0 / cfg.block_mcnts + a + 1 from rfl,
      hcn1, hca, hpb, Function.update_noteq (Ne.symm hne2),
      Function.update_noteq (Ne.symm hne2), hc1, feng_arrivals_cons, hblk,
      if_neg (by omega)]
    rfl
  · rw [show M0 / cfg.block_mcnts + (a + 1) + 1 = M0 / cfg.block_mcnts + a + 2 from rfl,
      hcn1, hca, hpb, Function.update_same, Function.update_same, feng_arrivals_cons,
      hnone _ (le_refl _), hblk, if_pos rfl]
  · rw [show M0 / cfg.block_mcnts + (a + 1) = M0 / cfg.block_mcnts + a + 1 from rfl,
      hdb1, hdba _ (by rw [hpb]; exact Ne.symm hne2) (by rw [hcur]; exact hne)]
    exact hg1
  · rw [show M0 / cfg.block_mcnts + (a + 1) + 1 = M0 / cfg.block_mcnts + a + 2 from rfl,
      hdb1, ← hpb]
    exact hga
  · intro k hk
    rw [feng_arrivals_cons, hnone k (by omega), hblk, if_neg (by omega)]

theorem feng_anchor_after_ge (l : List Nat) (a : Nat) : a ≤ Feng.anchor_after a l := by
  induction l generalizing a with
  | nil => exact le_refl _
  | cons b rest ih =>
    unfold Feng.anchor_after
    have := ih (if b = a + 2 then a + 1 else a)
    split_ifs at this ⊢ <;> omega

theorem feng_arrivals_zero (cfg : Feng.FengConfig) (M0 a k : Nat)
    (l : List (RingEnv × Feng.hera_ibv_feng_pkt))
    (h : window_order a (l.map (fun x => Feng.blk_of cfg M0 x.2))) (hk : k < a) :
    Feng.arrivals cfg M0 k l = 0 := by
  unfold Feng.arrivals
  rw [List.length_eq_zero, List.filter_eq_nil_iff]
  intro x hx
  have := window_order_ge _ _ h (Feng.blk_of cfg M0 x.2) (List.mem_map.mpr ⟨x, hx, rfl⟩)
  simp only [decide_eq_true_eq]
  omega

theorem feng_run_cons (cfg : Feng.FengConfig) (s s1 : Feng.NetState) (env : RingEnv)
    (f : Feng.hera_ibv_feng_pkt) (rest : List (RingEnv × Feng.hera_ibv_feng_pkt)) (r : Nat)
    (ev : List Feng.NetEvent)
    (h : Feng.process_packet cfg env s f = Feng.Outcome.returned s1 r ev) :
    Feng.run_packets cfg s ((env, f) :: rest)
      = { state := (Feng.run_packets cfg s1 rest).state
          events := ev ++ (Feng.run_packets cfg s1 rest).events
          exited := (Feng.run_packets cfg s1 rest).exited } := by
  rw [Feng.run_packets, h]

theorem feng_flag_congr (i n x y z : Nat) :
    ((i, if x + z + y = n then 1 else 0) : Nat × Nat)
      = (i, if x + (y + z) = n then 1 else 0) := by
  rw [show x + z + y = x + (y + z) by omega]

/-- The blocks marked filled by a run over packets in window order, from a state in the
window invariant. -/
theorem feng_run_window (cfg : Feng.FengConfig) (hL : 0 < cfg.block_mcnts)
    (hnb : 2 ≤ cfg.N_INPUT_BLOCKS) (M0 : Nat) (hdvd : cfg.block_mcnts ∣ M0)
    (rest : List (RingEnv × Feng.hera_ibv_feng_pkt)) (a : Nat)
    (seen : List (RingEnv × Feng.hera_ibv_feng_pkt)) (s : Feng.NetState)
    (hinv : Feng.WindowInv cfg M0 a seen s)
    (hok : ∀ x, x ∈ rest → x.1.set_filled_rv = hashpipe_rv.HASHPIPE_OK ∧
      x.1.busywait_free_rv = hashpipe_rv.HASHPIPE_OK)
    (hin : ∀ x, x ∈ rest → (Feng.get_header x.2).ant < cfg.Na ∧
      M0 ≤ (Feng.get_header x.2).mcnt)
    (hord : window_order a (rest.map (fun x => Feng.blk_of cfg M0 x.2))) :
    (Feng.run_packets cfg s rest).exited = false ∧
    Feng.fills (Feng.run_packets cfg s rest).events
      = (List.range (Feng.anchor_after a (rest.map (fun x => Feng.blk_of cfg M0 x.2)) - a)).map
          (fun k => ((M0 / cfg.block_mcnts + a + k) % cfg.N_INPUT_BLOCKS,
            if Feng.arrivals cfg M0 (a + k) seen + Feng.arrivals cfg M0 (a + k) rest
                = cfg.N_PACKETS_PER_BLOCK then 1 else 0)) := by
  induction rest generalizing a seen s with
  | nil =>
    refine ⟨rfl, ?_⟩
    simp [Feng.anchor_after, Feng.run_packets, Feng.fills]
  | cons x tail ih =>
    obtain ⟨env, f⟩ := x
    have hok0 : env.set_filled_rv = hashpipe_rv.HASHPIPE_OK ∧
        env.busywait_free_rv = hashpipe_rv.HASHPIPE_OK := hok (env, f) (List.mem_cons_self _ _)
    have hin0 : (Feng.get_header f).ant < cfg.Na ∧ M0 ≤ (Feng.get_header f).mcnt :=
      hin (env, f) (List.mem_cons_self _ _)
    have hord0 : a ≤ Feng.blk_of cfg M0 f ∧ Feng.blk_of cfg M0 f ≤ a + 2 ∧
        window_order (if Feng.blk_of cfg M0 f = a + 2 then a + 1 else a)
          (tail.map (fun x => Feng.blk_of cfg M0 x.2)) := hord
    obtain ⟨ho1, ho2, ho3⟩ := hord0
    have hcons : ∀ k l, Feng.arrivals cfg M0 k ((env, f) :: l)
        = Feng.arrivals cfg M0 k l + if Feng.blk_of cfg M0 f = k then 1 else 0 :=
      fun k l => feng_arrivals_cons cfg M0 k (env, f) l
    have hanch : Feng.anchor_after a (((env, f) :: tail).map (fun x => Feng.blk_of cfg M0 x.2))
        = Feng.anchor_after (if Feng.blk_of cfg M0 f = a + 2 then a + 1 else a)
            (tail.map (fun x => Feng.blk_of cfg M0 x.2)) := rfl
    rw [hanch]
    by_cases hb : Feng.blk_of cfg M0 f = a + 2
    · rw [if_pos hb] at ho3 ⊢
      obtain ⟨s1, r, ev, hpp, hfl, hinv1⟩ := feng_step_advance cfg hL hnb M0 a seen s env f
        hdvd hinv hin0.1 hok0.1 hok0.2 hin0.2 hb
      obtain ⟨r1, r2⟩ := ih (a + 1) ((env, f) :: seen) s1 hinv1
        (fun y hy => hok y (List.mem_cons_of_mem _ hy))
        (fun y hy => hin y (List.mem_cons_of_mem _ hy)) ho3
      rw [feng_run_cons cfg s s1 env f tail r ev hpp]
      refine ⟨r1, ?_⟩
      simp only [feng_fills_append, hfl, r2]
      have hge := feng_anchor_after_ge (tail.map (fun x => Feng.blk_of cfg M0 x.2)) (a + 1)
      have hn : Feng.anchor_after (a + 1) (tail.map (fun x => Feng.blk_of cfg M0 x.2)) - a
          = (Feng.anchor_after (a + 1) (tail.map (fun x => Feng.blk_of cfg M0 x.2)) - (a + 1))
            + 1 := by omega
      rw [hn, List.range_succ_eq_map, List.map_cons, List.map_map, List.singleton_append]
      congr 1
      · rw [Nat.add_zero, Nat.add_zero, hcons,
          feng_arrivals_zero cfg M0 (a + 1) a tail ho3 (by omega)]
        rw [if_neg (show ¬ Feng.blk_of cfg M0 f = a by omega)]
        rfl
      · apply List.map_congr_left
        intro k _
        simp only [Function.comp, hcons]
        have e1 : M0 / cfg.block_mcnts + (a + 1) + k = M0 / cfg.block_mcnts + a + (k + 1) := by
          omega
        have e2 : a + 1 + k = a + (k + 1) := by omega
        rw [e1, e2]
        exact feng_flag_congr _ _ _ _ _
    · rw [if_neg hb] at ho3 ⊢
      obtain ⟨s1, r, ev, hpp, hfl, hinv1⟩ := feng_step_store cfg hL hnb M0 a seen s env f
        (Feng.blk_of cfg M0 f - a) (by omega) hdvd hinv hin0.1 hin0.2 (by omega)
      obtain ⟨r1, r2⟩ := ih a ((env, f) :: seen) s1 hinv1
        (fun y hy => hok y (List.mem_cons_of_mem _ hy))
        (fun y hy => hin y (List.mem_cons_of_mem _ hy)) ho3
      rw [feng_run_cons cfg s s1 env f tail r ev hpp]
      refine ⟨r1, ?_⟩
      simp only [feng_fills_append, hfl, r2, List.nil_append]
      apply List.map_congr_left
      intro k _
      simp only [hcons]
      exact feng_flag_congr _ _ _ _ _

theorem feng_init_initialized (cfg : Feng.FengConfig) (s : Feng.NetState) :
    (Feng.lazy_init cfg s).binfo.initialized ≠ 0 := by
  unfold Feng.lazy_init Feng.initialize_block_info
  by_cases h : s.binfo.initialized = 0
  · simp [h]
  · simp [h]

theorem feng_process_lazy (cfg : Feng.FengConfig) (env : RingEnv) (s : Feng.NetState)
    (f : Feng.hera_ibv_feng_pkt) :
    Feng.process_packet cfg env (Feng.lazy_init cfg s) f = Feng.process_packet cfg env s f := by
  have h : Feng.initialize_block_info cfg (Feng.lazy_init cfg s)
      = Feng.initialize_block_info cfg s :=
    feng_lazy_init cfg (Feng.lazy_init cfg s) (feng_init_initialized cfg s)
  unfold Feng.process_packet
  rw [h]
  rfl

theorem feng_run_lazy (cfg : Feng.FengConfig) (s : Feng.NetState)
    (inputs : List (RingEnv × Feng.hera_ibv_feng_pkt)) (hne : inputs ≠ []) :
    Feng.run_packets cfg (Feng.lazy_init cfg s) inputs = Feng.run_packets cfg s inputs := by
  cases inputs with
  | nil => exact absurd rfl hne
  | cons x rest =>
    obtain ⟨env, f⟩ := x
    rw [Feng.run_packets, Feng.run_packets, feng_process_lazy]

/-- C20, as the code has it: from a state whose anchor lies on a block boundary and whose
two working blocks are fresh (counters 0, `good_data` 0) - the start of the thread with
`time_index = 0`, or a re-synchronisation - over packets with antennas in range that
arrive in window order, the ring calls succeeding, the thread does not exit, it marks
the blocks filled one after the other, and the block `k` blocks after the anchor is marked
with `good_data = 1` exactly when the number of packets that arrived for it, every arrival
counted, a repeated packet as often as it came, is `N_PACKETS_PER_BLOCK`. -/
theorem feng_good_data_counts (cfg : Feng.FengConfig) (hL : 0 < cfg.block_mcnts)
    (hnb : 2 ≤ cfg.N_INPUT_BLOCKS) (s : Feng.NetState)
    (inputs : List (RingEnv × Feng.hera_ibv_feng_pkt))
    (hdvd : cfg.block_mcnts ∣ (Feng.lazy_init cfg s).binfo.mcnt_start)
    (hc0 : (Feng.lazy_init cfg s).binfo.block_packet_counter
      (Feng.block_for_mcnt cfg (Feng.lazy_init cfg s).binfo.mcnt_start) = 0)
    (hc1 : (Feng.lazy_init cfg s).binfo.block_packet_counter
      (Feng.block_for_mcnt cfg
        ((Feng.lazy_init cfg s).binfo.mcnt_start + cfg.block_mcnts)) = 0)
    (hg0 : (s.db (Feng.block_for_mcnt cfg
      (Feng.lazy_init cfg s).binfo.mcnt_start)).good_data = 0)
    (hg1 : (s.db (Feng.block_for_mcnt cfg
      ((Feng.lazy_init cfg s).binfo.mcnt_start + cfg.block_mcnts))).good_data = 0)
    (hok : ∀ x, x ∈ inputs → x.1.set_filled_rv = hashpipe_rv.HASHPIPE_OK ∧
      x.1.busywait_free_rv = hashpipe_rv.HASHPIPE_OK)
    (hin : ∀ x, x ∈ inputs → (Feng.get_header x.2).ant < cfg.Na ∧
      (Feng.lazy_init cfg s).binfo.mcnt_start ≤ (Feng.get_header x.2).mcnt)
    (hord : window_order 0 (inputs.map
      (fun x => Feng.blk_of cfg (Feng.lazy_init cfg s).binfo.mcnt_start x.2))) :
    (Feng.run_packets cfg s inputs).exited = false ∧
    Feng.fills (Feng.run_packets cfg s inputs).events
      = (List.range (Feng.anchor_after 0 (inputs.map
          (fun x => Feng.blk_of cfg (Feng.lazy_init cfg s).binfo.mcnt_start x.2)))).map
          (fun k =>
            (Feng.block_for_mcnt cfg
              ((Feng.lazy_init cfg s).binfo.mcnt_start + k * cfg.block_mcnts),
            if Feng.arrivals cfg (Feng.lazy_init cfg s).binfo.mcnt_start k inputs
                = cfg.N_PACKETS_PER_BLOCK then 1 else 0)) := by
  by_cases hne : inputs = []
  · subst hne
    exact ⟨rfl, rfl⟩
  rw [← feng_run_lazy cfg s inputs hne]
  have hb0 : Feng.block_for_mcnt cfg (Feng.lazy_init cfg s).binfo.mcnt_start
      = ((Feng.lazy_init cfg s).binfo.mcnt_start / cfg.block_mcnts + 0)
        % cfg.N_INPUT_BLOCKS := by
    rw [feng_block_for_mcnt, Nat.add_zero]
  have hb1 : Feng.block_for_mcnt cfg ((Feng.lazy_init cfg s).binfo.mcnt_start + cfg.block_mcnts)
      = ((Feng.lazy_init cfg s).binfo.mcnt_start / cfg.block_mcnts + 0 + 1)
        % cfg.N_INPUT_BLOCKS := by
    rw [feng_block_for_mcnt, Nat.add_div_right _ hL, Nat.add_zero]
  have hdb : (Feng.lazy_init cfg s).db = s.db := rfl
  have hinv : Feng.WindowInv cfg (Feng.lazy_init cfg s).binfo.mcnt_start 0 []
      (Feng.lazy_init cfg s) := by
    refine ⟨feng_init_initialized cfg s, by rw [Nat.zero_mul, Nat.add_zero], ?_, ?_, ?_, ?_,
      fun k _ => rfl⟩
    · rw [← hb0, hc0]; rfl
    · rw [← hb1, hc1]; rfl
    · rw [← hb0, hdb]; exact hg0
    · rw [← hb1, hdb]; exact hg1
  obtain ⟨r1, r2⟩ := feng_run_window cfg hL hnb _ hdvd inputs 0 [] _ hinv hok hin hord
  refine ⟨r1, ?_⟩
  rw [r2, Nat.sub_zero]
  apply List.map_congr_left
  intro k _
  rw [feng_block_for_mcnt, Nat.add_mul_div_right _ _ hL, Nat.add_zero, Nat.zero_add,
    show Feng.arrivals cfg (Feng.lazy_init cfg s).binfo.mcnt_start k [] = 0 from rfl,
    Nat.zero_add]

theorem feng_good_data_counts_witness :
    (Feng.run_packets Feng.cfgFeng Feng.feng_start Feng.feng_trace).exited = false ∧
    Feng.fills (Feng.run_packets Feng.cfgFeng Feng.feng_start Feng.feng_trace).events
      = [(0, 1), (1, 0)] :=
  ⟨(feng_good_data_counts Feng.cfgFeng (by decide) (by decide) Feng.feng_start
      Feng.feng_trace (by decide) (by decide) (by decide) (by decide) (by decide) (by decide)
      (by decide) (by decide)).1,
   (feng_good_data_counts Feng.cfgFeng (by decide) (by decide) Feng.feng_start
      Feng.feng_trace (by decide) (by decide) (by decide) (by decide) (by decide) (by decide)
      (by decide) (by decide)).2.trans (by decide)⟩

/-- Of the two packets expected for block 0 one arrives twice and the other never: the
block is marked filled with `good_data = 1`. -/
theorem feng_good_data_counts_counterexample :
    Feng.cfgFeng.N_PACKETS_PER_BLOCK = 2 ∧
    Feng.arrivals Feng.cfgFeng 0 0 Feng.feng_dup_trace = 2 ∧
    (((Feng.feng_dup_trace.filter (fun x => Feng.blk_of Feng.cfgFeng 0 x.2 = 0)).map
      (fun x => Feng.get_header x.2)).toFinset).card = 1 ∧
    (Feng.run_packets Feng.cfgFeng Feng.feng_start Feng.feng_dup_trace).exited = false ∧
    Feng.fills (Feng.run_packets Feng.cfgFeng Feng.feng_start Feng.feng_dup_trace).events
      = [(0, 1)] := by
  decide

/-! ## Theorems: counters and flags of the reassembler agree -/

/-- Whatever the ring answers, `advance_block` keeps counters and flags in agreement. -/
theorem advance_block_agrees (cfg : NetConfig) (env : RingEnv) (s : NetState) (pb : Nat)
    (ha : CounterAgrees cfg s.binfo) :
    CounterAgrees cfg (advance_block cfg env s pb).state.binfo := by
  obtain ⟨fb, -⟩ := set_block_filled_frame cfg env s
  unfold advance_block
  cases hf : set_block_filled cfg env s with
  | thread_exit s2 ev2 =>
    rw [hf] at fb
    simp only [Outcome.state] at fb ⊢
    rw [fb]
    exact ha
  | returned s2 nb2 ev2 =>
    rw [hf] at fb
    simp only [Outcome.state] at fb ⊢
    have hr : CounterAgrees cfg (reset_block_counters cfg
        { s2.binfo with
          bcnt_start := (s2.binfo.bcnt_start + cfg.BASELINES_PER_BLOCK) % 4294967296
          block_i := (s2.binfo.block_i + 1) % cfg.CATCHER_N_BLOCKS
          out_of_seq_cnt := 0 } pb) :=
      counter_agrees_reset cfg _ _ (counter_agrees_of_eq cfg s.binfo _ (by rw [fb]) (by rw [fb]) ha)
    split_ifs <;> exact hr

/-- One call of `process_packet` on a frame with an expected position keeps counters and
flags in agreement, also when the thread exits in it. -/
theorem process_packet_agrees (cfg : NetConfig) (hwf : cfg.wf)
    (hnb : 2 ≤ cfg.CATCHER_N_BLOCKS) (env : RingEnv) (s : NetState)
    (f : hera_ibv_xeng_pkt) (hs : Counted cfg s) (hin : in_range cfg f) :
    CounterAgrees cfg (process_packet cfg env s f).state.binfo := by
  cases hpp : process_packet cfg env s f with
  | returned s1 r ev =>
    exact (process_packet_counted cfg hwf hnb env s s1 f r ev hs hin hpp).2.1
  | thread_exit s1 ev =>
    simp only [Outcome.state]
    by_cases hacc : 0 ≤ pkt_bcnt_dist s (get_header f)
        ∧ pkt_bcnt_dist s (get_header f) < 3 * (cfg.BASELINES_PER_BLOCK : Int)
    · by_cases h2 : 2 * (cfg.BASELINES_PER_BLOCK : Int) ≤ pkt_bcnt_dist s (get_header f)
      · rw [process_packet_advance cfg env s f hs.1.1 h2 hacc.2] at hpp
        have hag := advance_block_agrees cfg env s
          (block_for_bcnt cfg s.first_bcnt (get_header f).bcnt) hs.2.1
        cases hadv : advance_block cfg env s
            (block_for_bcnt cfg s.first_bcnt (get_header f).bcnt) with
        | thread_exit s2 ev2 =>
          rw [hadv] at hpp hag
          simp only [] at hpp
          injection hpp with h1 h2
          subst h1
          exact hag
        | returned s2 nb2 ev2 =>
          rw [hadv] at hpp
          simp only [] at hpp
          unfold store_packet at hpp
          split_ifs at hpp
      · rw [process_packet_in_window cfg env s f hs.1.1 hacc.1 (by omega)] at hpp
        unfold store_packet at hpp
        split_ifs at hpp
    · by_cases hlate : pkt_bcnt_dist s (get_header f) < 0
          ∧ pkt_bcnt_dist s (get_header f) > -(cfg.LATE_PKT_BCNT_THRESHOLD : Int)
      · rw [process_packet_late cfg env s f hs.1.1 hlate.1 hlate.2] at hpp
        exact Outcome.noConfusion hpp
      · rw [process_packet_out_of_seq cfg env s f hs.1.1 hacc hlate] at hpp
        unfold out_of_seq_packet at hpp
        simp only [] at hpp
        split_ifs at hpp

/-- After at least one frame, all with expected positions, counters and flags agree,
whether the thread has exited or not. -/
theorem run_packets_agrees (cfg : NetConfig) (hwf : cfg.wf)
    (hnb : 2 ≤ cfg.CATCHER_N_BLOCKS) (inputs : List (RingEnv × hera_ibv_xeng_pkt))
    (s : NetState) (hs : (s.binfo.initialized = 0 ∧ inputs ≠ []) ∨ Counted cfg s)
    (hin : ∀ x, x ∈ inputs → in_range cfg x.2) :
    CounterAgrees cfg (run_packets cfg s inputs).state.binfo := by
  induction inputs generalizing s with
  | nil =>
    rcases hs with ⟨-, h⟩ | h
    · exact absurd rfl h
    · exact h.2.1
  | cons x rest ih =>
    obtain ⟨env, f⟩ := x
    have hf : in_range cfg f := hin (env, f) (List.mem_cons_self _ _)
    have hlz : Counted cfg (lazy_init cfg s (get_header f)).1 := by
      rcases hs with ⟨h0, -⟩ | hc
      · exact lazy_init_counted cfg hwf hnb s _ (get_header_bcnt_lt f) h0
      · rw [lazy_init_of_initialized cfg s _ hc.1.1]
        exact hc
    have hag := process_packet_agrees cfg hwf hnb env _ f hlz hf
    rw [run_packets]
    cases hpp : process_packet cfg env s f with
    | thread_exit s1 ev =>
      simp only []
      have e : (process_packet cfg env s f).state = s1 := by rw [hpp]; rfl
      rw [process_packet_prepend, (prepend_state _ _).1] at e
      rw [← e]
      exact hag
    | returned s1 r ev =>
      simp only []
      exact ih s1 (Or.inr (process_packet_counted_any cfg hwf hnb env s s1 f r ev
        (hs.imp (fun h => h.1) id) hf hpp))
        (fun y hy => hin y (List.mem_cons_of_mem _ hy))

theorem cleared_count_le (cfg : NetConfig) (b : block_info_t) (i : Nat) :
    cleared_count cfg b i ≤ cfg.PACKETS_PER_BLOCK := by
  unfold cleared_count
  exact le_trans (Finset.card_filter_le _ _) (by rw [Finset.card_range])

/-- C28: in every state that the thread reaches from its start by `process_packet` on one
or more frames whose computed `pkt_offset` is below `PACKETS_PER_BLOCK` (whatever branch
each call takes, and also when the thread exits in the last call), for every block `i` of
the ring `binfo.block_packet_counter[i]` is the number of positions
`j < PACKETS_PER_BLOCK` with `binfo.flags[i][j] = 0`; so the counter is at most
`PACKETS_PER_BLOCK`, and the `uint64_t` difference `PACKETS_PER_BLOCK - counter` that
`set_block_filled` computes is the difference of the two numbers. -/
theorem counter_flag_agreement (cfg : NetConfig) (hwf : cfg.wf)
    (hnb : 2 ≤ cfg.CATCHER_N_BLOCKS) (hP : cfg.PACKETS_PER_BLOCK < 18446744073709551616)
    (db : Nat → hera_catcher_bda_input_block_t) (st : net_status_t)
    (inputs : List (RingEnv × hera_ibv_xeng_pkt)) (i : Nat) (hne : inputs ≠ [])
    (hin : ∀ x, x ∈ inputs → in_range cfg x.2) (hi : i < cfg.CATCHER_N_BLOCKS) :
    (run_packets cfg (start_state db st) inputs).state.binfo.block_packet_counter i
      = ((Finset.range cfg.PACKETS_PER_BLOCK).filter
          (fun j => (run_packets cfg (start_state db st) inputs).state.binfo.flags i j = 0)).card ∧
    (run_packets cfg (start_state db st) inputs).state.binfo.block_packet_counter i
      ≤ cfg.PACKETS_PER_BLOCK ∧
    (((cfg.PACKETS_PER_BLOCK : Int)
      - ((run_packets cfg (start_state db st) inputs).state.binfo.block_packet_counter i : Int))
        % 18446744073709551616).toNat
      = cfg.PACKETS_PER_BLOCK
        - (run_packets cfg (start_state db st) inputs).state.binfo.block_packet_counter i := by
  have h := run_packets_agrees cfg hwf hnb inputs (start_state db st) (Or.inl ⟨rfl, hne⟩) hin i hi
  have hle := cleared_count_le cfg (run_packets cfg (start_state db st) inputs).state.binfo i
  rw [← h] at hle
  refine ⟨h, hle, ?_⟩
  omega

theorem counter_flag_agreement_witness :
    (run_packets cfgDuo s_start duo_full).state.binfo.block_packet_counter 0
      = ((Finset.range cfgDuo.PACKETS_PER_BLOCK).filter
          (fun j => (run_packets cfgDuo s_start duo_full).state.binfo.flags 0 j = 0)).card ∧
    (run_packets cfgDuo s_start duo_full).state.binfo.block_packet_counter 0
      ≤ cfgDuo.PACKETS_PER_BLOCK ∧
    (((cfgDuo.PACKETS_PER_BLOCK : Int)
      - ((run_packets cfgDuo s_start duo_full).state.binfo.block_packet_counter 0 : Int))
        % 18446744073709551616).toNat
      = cfgDuo.PACKETS_PER_BLOCK
        - (run_packets cfgDuo s_start duo_full).state.binfo.block_packet_counter 0 :=
  counter_flag_agreement cfgDuo (by decide) (by decide) (by decide) (fun _ => block_zero)
    status_zero duo_full 0 (by simp [duo_full]) (by decide) (by decide)

/-! ## Theorems: the block indices of the reassembler -/

theorem index_warnings_append (l1 l2 : List NetEvent) :
    index_warnings (l1 ++ l2) = index_warnings l1 + index_warnings l2 := by
  induction l1 with
  | nil => simp [index_warnings]
  | cons e rest ih =>
    cases e <;> simp [index_warnings, ih] <;> omega

/-- In a consistent state whose `last_filled` is one behind, `set_block_filled` prints no
index warning, and leaves `last_filled` at the block it marked. -/
theorem set_block_filled_index (cfg : NetConfig) (env : RingEnv) (s : NetState)
    (hs : Consistent cfg s) (hn : NextFill cfg s) :
    index_warnings (set_block_filled cfg env s).events = 0 ∧
    (set_block_filled cfg env s).state.last_filled = (s.binfo.block_i : Int) := by
  have hb := hs.2.2.2.2.2
  unfold NextFill at hn
  unfold set_block_filled
  simp only [hb, hn, ne_eq, not_true_eq_false, if_false, List.nil_append]
  split_ifs <;> simp [Outcome.events, Outcome.state, index_warnings]

theorem reset_binfo_last_filled (cfg : NetConfig) (s : NetState) (h : packet_header_t) :
    (reset_binfo cfg s h).1.last_filled = s.last_filled := rfl

theorem lazy_init_last_filled (cfg : NetConfig) (s : NetState) (h : packet_header_t) :
    (lazy_init cfg s h).1.last_filled = s.last_filled := by
  unfold lazy_init
  split_ifs <;> rfl

theorem lazy_init_index (cfg : NetConfig) (s : NetState) (h : packet_header_t) :
    index_warnings (lazy_init cfg s h).2 = 0 ∧ filled_blocks (lazy_init cfg s h).2 = [] := by
  unfold lazy_init
  split_ifs <;> exact ⟨rfl, rfl⟩

/-- What `advance_block` does to the indices from a consistent state whose `last_filled`
is one behind, when it is called for the block two ahead. -/
theorem advance_block_index (cfg : NetConfig) (env : RingEnv) (s : NetState)
    (hs : Consistent cfg s) (hn : NextFill cfg s) :
    index_warnings
      (advance_block cfg env s ((s.binfo.block_i + 2) % cfg.CATCHER_N_BLOCKS)).events = 0 ∧
    ∀ s1 nb ev, advance_block cfg env s ((s.binfo.block_i + 2) % cfg.CATCHER_N_BLOCKS)
        = Outcome.returned s1 nb ev → NextFill cfg s1 := by
  obtain ⟨hw, hl⟩ := set_block_filled_index cfg env s hs hn
  obtain ⟨fb, -⟩ := set_block_filled_frame cfg env s
  unfold advance_block
  cases hf : set_block_filled cfg env s with
  | thread_exit s2 ev2 =>
    rw [hf] at hw
    exact ⟨hw, fun s1 nb ev h => Outcome.noConfusion h⟩
  | returned s2 nb2 ev2 =>
    rw [hf] at hw hl fb
    simp only [Outcome.events, Outcome.state] at hw hl fb
    simp only [fb, succ_mod_succ, ne_eq, not_true_eq_false, if_false, List.append_nil]
    by_cases hbw : env.busywait_free_rv ≠ hashpipe_rv.HASHPIPE_OK
    · rw [if_pos hbw]
      refine ⟨?_, fun s1 nb ev h => Outcome.noConfusion h⟩
      simp only [Outcome.events, index_warnings_append, hw]
      split_ifs <;> rfl
    · rw [if_neg hbw]
      refine ⟨?_, ?_⟩
      · simp only [Outcome.events, index_warnings_append, hw]
        rfl
      · intro s1 nb ev h
        injection h with h1 h2 h3
        subst h1
        unfold NextFill
        show (s2.last_filled + 1) % (cfg.CATCHER_N_BLOCKS : Int)
          = (((s.binfo.block_i + 1) % cfg.CATCHER_N_BLOCKS : Nat) : Int)
        rw [hl]
        push_cast
        rfl

/-- One call of `process_packet` from a consistent state whose `last_filled` is one
behind: no index warning; either no block is marked and `block_i` stays, or the block
`block_i` is marked and, if the call returns, `block_i` moves on by one; `last_filled`
stays one behind. -/
theorem process_packet_index (cfg : NetConfig) (hwf : cfg.wf) (env : RingEnv)
    (s : NetState) (f : hera_ibv_xeng_pkt) (hs : Consistent cfg s) (hn : NextFill cfg s) :
    index_warnings (process_packet cfg env s f).events = 0 ∧
    ((filled_blocks (process_packet cfg env s f).events = [] ∧
        (process_packet cfg env s f).state.binfo.block_i = s.binfo.block_i ∧
        NextFill cfg (process_packet cfg env s f).state) ∨
      (filled_blocks (process_packet cfg env s f).events = [s.binfo.block_i] ∧
        ∀ s1 r ev, process_packet cfg env s f = Outcome.returned s1 r ev →
          s1.binfo.block_i = (s.binfo.block_i + 1) % cfg.CATCHER_N_BLOCKS ∧
          NextFill cfg s1)) := by
  by_cases hacc : 0 ≤ pkt_bcnt_dist s (get_header f)
      ∧ pkt_bcnt_dist s (get_header f) < 3 * (cfg.BASELINES_PER_BLOCK : Int)
  · by_cases h2 : 2 * (cfg.BASELINES_PER_BLOCK : Int) ≤ pkt_bcnt_dist s (get_header f)
    · have hpb := (packet_block cfg hwf s hs (get_header f) 2 (by push_cast; omega)
        (by push_cast; omega)).1
      rw [process_packet_advance cfg env s f hs.1 h2 hacc.2, hpb]
      obtain ⟨hw, hnx⟩ := advance_block_index cfg env s hs hn
      obtain ⟨-, -, afe, abi⟩ := advance_block_frame cfg env s
        ((s.binfo.block_i + 2) % cfg.CATCHER_N_BLOCKS)
      rw [hs.2.2.2.2.2] at afe
      cases hadv : advance_block cfg env s
          ((s.binfo.block_i + 2) % cfg.CATCHER_N_BLOCKS) with
      | thread_exit s2 ev2 =>
        rw [hadv] at hw afe
        simp only [Outcome.events] at hw afe ⊢
        rw [List.nil_append]
        exact ⟨hw, Or.inr ⟨afe, fun s1 r ev h => Outcome.noConfusion h⟩⟩
      | returned s2 nb2 ev2 =>
        rw [hadv] at hw afe
        simp only [Outcome.events, List.nil_append] at hw afe ⊢
        have hb2 := abi s2 nb2 ev2 hadv
        have hn2 := hnx s2 nb2 ev2 hadv
        unfold store_packet
        split_ifs
        · simp only [Outcome.events, index_warnings_append, filled_blocks_append, hw, afe]
          refine ⟨rfl, Or.inr ⟨rfl, ?_⟩⟩
          intro s1 r ev h
          injection h with h1 h2 h3
          subst h1
          exact ⟨hb2, hn2⟩
        · simp only [Outcome.events, hw, afe]
          refine ⟨trivial, Or.inr ⟨trivial, ?_⟩⟩
          intro s1 r ev h
          injection h with h1 h2 h3
          subst h1
          exact ⟨hb2, hn2⟩
    · rw [process_packet_in_window cfg env s f hs.1 hacc.1 (by omega)]
      unfold store_packet
      split_ifs
      · exact ⟨rfl, Or.inl ⟨rfl, rfl, hn⟩⟩
      · exact ⟨rfl, Or.inl ⟨rfl, rfl, hn⟩⟩
  · by_cases hlate : pkt_bcnt_dist s (get_header f) < 0
        ∧ pkt_bcnt_dist s (get_header f) > -(cfg.LATE_PKT_BCNT_THRESHOLD : Int)
    · rw [process_packet_late cfg env s f hs.1 hlate.1 hlate.2]
      unfold late_packet
      split_ifs
      · exact ⟨rfl, Or.inl ⟨rfl, rfl, hn⟩⟩
      · exact ⟨rfl, Or.inl ⟨rfl, rfl, hn⟩⟩
    · rw [process_packet_out_of_seq cfg env s f hs.1 hacc hlate]
      unfold out_of_seq_packet
      simp only [List.nil_append]
      have hr : NextFill cfg (reset_binfo cfg
          { s with binfo := { s.binfo with out_of_seq_cnt := s.binfo.out_of_seq_cnt + 1 } }
          (get_header f)).1 := hn
      split_ifs
      · exact ⟨rfl, Or.inl ⟨rfl, rfl, hr⟩⟩
      · exact ⟨rfl, Or.inl ⟨rfl, rfl, hn⟩⟩
      · exact ⟨rfl, Or.inl ⟨rfl, rfl, hr⟩⟩
      · exact ⟨rfl, Or.inl ⟨rfl, rfl, hn⟩⟩

/-- Over a run from a consistent state whose `last_filled` is one behind: the final state
is consistent, no index warning is printed, and the blocks marked filled go round the ring
from `block_i`. -/
theorem run_packets_index (cfg : NetConfig) (hwf : cfg.wf)
    (inputs : List (RingEnv × hera_ibv_xeng_pkt)) (s : NetState)
    (hs : Consistent cfg s) (hn : NextFill cfg s) :
    Consistent cfg (run_packets cfg s inputs).state ∧
    index_warnings (run_packets cfg s inputs).events = 0 ∧
    ring_order cfg.CATCHER_N_BLOCKS s.binfo.block_i
      (filled_blocks (run_packets cfg s inputs).events) := by
  induction inputs generalizing s with
  | nil => exact ⟨hs, rfl, trivial⟩
  | cons x rest ih =>
    obtain ⟨env, f⟩ := x
    obtain ⟨hw, hcase⟩ := process_packet_index cfg hwf env s f hs hn
    have hc := process_packet_consistent cfg hwf env s f hs
    rw [run_packets]
    cases hpp : process_packet cfg env s f with
    | thread_exit s1 ev =>
      rw [hpp] at hw hcase hc
      simp only [Outcome.events, Outcome.state] at hw hcase hc ⊢
      refine ⟨hc, hw, ?_⟩
      rcases hcase with ⟨h1, -⟩ | ⟨h1, -⟩
      · rw [h1]
        trivial
      · rw [h1]
        exact ⟨rfl, trivial⟩
    | returned s1 r ev =>
      rw [hpp] at hw hcase hc
      simp only [Outcome.events, Outcome.state] at hw hcase hc ⊢
      rw [index_warnings_append, filled_blocks_append, hw]
      rcases hcase with ⟨h1, hb, hn1⟩ | ⟨h1, h2⟩
      · obtain ⟨i0, i1, i2⟩ := ih s1 hc hn1
        rw [hb] at i2
        rw [h1, i1]
        exact ⟨i0, rfl, i2⟩
      · obtain ⟨hb, hn1⟩ := h2 s1 r ev rfl
        obtain ⟨i0, i1, i2⟩ := ih s1 hc hn1
        rw [hb] at i2
        rw [h1, i1]
        exact ⟨i0, rfl, rfl, i2⟩

/-- A run that starts with the first packet ever is the run from the state that the
"first packet ever" part leaves, with its messages in front. -/
theorem run_packets_lazy (cfg : NetConfig) (s : NetState) (env : RingEnv)
    (f : hera_ibv_xeng_pkt) (rest : List (RingEnv × hera_ibv_xeng_pkt)) :
    (run_packets cfg s ((env, f) :: rest)).state
      = (run_packets cfg (lazy_init cfg s (get_header f)).1 ((env, f) :: rest)).state ∧
    (run_packets cfg s ((env, f) :: rest)).events
      = (lazy_init cfg s (get_header f)).2
        ++ (run_packets cfg (lazy_init cfg s (get_header f)).1 ((env, f) :: rest)).events := by
  have hinit := lazy_init_initialized cfg s (get_header f)
  have e2 := process_packet_prepend cfg env (lazy_init cfg s (get_header f)).1 f
  rw [lazy_init_of_initialized cfg _ _ hinit] at e2
  rw [run_packets, run_packets, process_packet_prepend cfg env s f]
  cases hpp : process_packet cfg env (lazy_init cfg s (get_header f)).1 f with
  | thread_exit s1 ev => exact ⟨rfl, rfl⟩
  | returned s1 r ev =>
    simp only [Outcome.prepend, List.append_assoc]
    exact ⟨trivial, trivial⟩

/-- C27: in every state that the thread reaches from its start by `process_packet` on one
or more frames (whatever branch each call takes: accept, advance, late drop, duplicate,
reset, and also when the thread exits in the last call), `binfo.block_i` is
`block_for_bcnt(binfo.bcnt_start)`, it is below `CATCHER_N_BLOCKS`, and `binfo.bcnt_start`
is a multiple of `BASELINES_PER_BLOCK`.  Over the whole run none of the three index
messages is printed ("Expected to mark block ... filled", the `block_i` mismatch warning of
`set_block_filled`, and "expected next block to be ..." on an advance), and the blocks
marked filled go round the ring one block at a time, starting at block 0. -/
theorem block_index_consistency (cfg : NetConfig) (hwf : cfg.wf)
    (db : Nat → hera_catcher_bda_input_block_t) (st : net_status_t)
    (inputs : List (RingEnv × hera_ibv_xeng_pkt)) (hne : inputs ≠ []) :
    (run_packets cfg (start_state db st) inputs).state.binfo.block_i
      = block_for_bcnt cfg (run_packets cfg (start_state db st) inputs).state.first_bcnt
          (run_packets cfg (start_state db st) inputs).state.binfo.bcnt_start ∧
    (run_packets cfg (start_state db st) inputs).state.binfo.block_i < cfg.CATCHER_N_BLOCKS ∧
    cfg.BASELINES_PER_BLOCK
      ∣ (run_packets cfg (start_state db st) inputs).state.binfo.bcnt_start ∧
    index_warnings (run_packets cfg (start_state db st) inputs).events = 0 ∧
    ring_order cfg.CATCHER_N_BLOCKS 0
      (filled_blocks (run_packets cfg (start_state db st) inputs).events) := by
  cases inputs with
  | nil => exact absurd rfl hne
  | cons x rest =>
    obtain ⟨env, f⟩ := x
    obtain ⟨e1, e2⟩ := run_packets_lazy cfg (start_state db st) env f rest
    obtain ⟨hc, -, -, hb0, -⟩ := lazy_init_consistent cfg hwf (start_state db st)
      (get_header f) (get_header_bcnt_lt f) rfl
    have hn : NextFill cfg (lazy_init cfg (start_state db st) (get_header f)).1 := by
      unfold NextFill
      rw [lazy_init_last_filled, hb0]
      show ((-1 : Int) + 1) % (cfg.CATCHER_N_BLOCKS : Int) = ((0 : Nat) : Int)
      simp
    obtain ⟨i0, i1, i2⟩ := run_packets_index cfg hwf ((env, f) :: rest) _ hc hn
    obtain ⟨l1, l2⟩ := lazy_init_index cfg (start_state db st) (get_header f)
    rw [hb0] at i2
    rw [e1, e2, index_warnings_append, filled_blocks_append, l1, l2, i1]
    exact ⟨i0.2.2.2.2.2.symm, i0.2.2.1, i0.2.2.2.1, rfl, i2⟩

theorem block_index_consistency_witness :
    (run_packets cfgDuo s_start late_order_trace).state.binfo.block_i
      = block_for_bcnt cfgDuo (run_packets cfgDuo s_start late_order_trace).state.first_bcnt
          (run_packets cfgDuo s_start late_order_trace).state.binfo.bcnt_start ∧
    (run_packets cfgDuo s_start late_order_trace).state.binfo.block_i < cfgDuo.CATCHER_N_BLOCKS ∧
    cfgDuo.BASELINES_PER_BLOCK
      ∣ (run_packets cfgDuo s_start late_order_trace).state.binfo.bcnt_start ∧
    index_warnings (run_packets cfgDuo s_start late_order_trace).events = 0 ∧
    ring_order cfgDuo.CATCHER_N_BLOCKS 0
      (filled_blocks (run_packets cfgDuo s_start late_order_trace).events) :=
  block_index_consistency cfgDuo (by decide) (fun _ => block_zero) status_zero late_order_trace
    (by simp [late_order_trace])

/-! ## Theorems: header promotion of the reassembler -/

/-- The state that `open_file` returns is the reset state with the rows from the
boundary on filled in. -/
theorem open_file_from_reset (cfg : WriterConfig) (inp : BlockInput) (s : DiskState)
    (bctr strt_bcnt stop_bcnt break_bcnt : Nat) :
    (open_file cfg inp s bctr strt_bcnt stop_bcnt break_bcnt).1
      = if (stop_bcnt + 4294967296 - break_bcnt + 1) % 4294967296 > 0 then
          { reset_for_open inp s break_bcnt with
            ant_0_array := fill_meta inp.redis_map inp.header.ant_pair_0
              (memset_zero_int s.ant_0_array (s.bcnts_per_file * 2))
              (sub_u32_i32 break_bcnt (toInt32 break_bcnt))
              ((bctr + break_bcnt + 4294967296 - strt_bcnt) % 4294967296)
              ((stop_bcnt + 4294967296 - break_bcnt + 1) % 4294967296)
            ant_1_array := fill_meta inp.redis_map inp.header.ant_pair_1
              (memset_zero_int s.ant_1_array (s.bcnts_per_file * 2))
              (sub_u32_i32 break_bcnt (toInt32 break_bcnt))
              ((bctr + break_bcnt + 4294967296 - strt_bcnt) % 4294967296)
              ((stop_bcnt + 4294967296 - break_bcnt + 1) % 4294967296)
            file_nblts := 0 + ((stop_bcnt + 4294967296 - break_bcnt + 1) % 4294967296 : Nat) }
        else reset_for_open inp s break_bcnt := by
  unfold open_file reset_for_open
  simp only []
  split_ifs <;> rfl

/-- The `memset` of `bcnts_per_file * sizeof(uint16_t)` bytes zeroes the entries of an
`int` array below `bcnts_per_file / 2` and leaves those from `(bcnts_per_file + 1) / 2`
on as they are. -/
theorem memset_zero_int_half (arr : Nat → Int) (n i : Nat) :
    (2 * i + 2 ≤ n → memset_zero_int arr (n * 2) i = 0) ∧
    (n ≤ 2 * i → memset_zero_int arr (n * 2) i = arr i) := by
  unfold memset_zero_int
  constructor
  · intro h
    rw [if_pos (by omega)]
  · intro h
    rw [if_neg (by omega), if_neg (by omega)]

/-- C26: the reset of the metadata arrays on file open, evaluated.  The writer is at row
64 of a file of `bcnts_per_file = 80` baselines, its antenna arrays still hold the 80
entries `10 + i % 3` and `10 + i % 5` of an earlier file, and the stride with
`bcnt = 64 .. 95` closes the file at `bcnt = 80` and opens the next one.  In the state
right after the reset `file_nblts` is 0 and the entries `0 .. 39` of both arrays are 0,
but the entries `40 .. 63` are those of the old file (and `64 .. 79` those of the rows
just written to the file that was closed); after the stride, which has populated the 16
rows `0 .. 15` of the new file, entry 40 of `ant_0_array` is still 11 and entry 63 of
`ant_1_array` is still 13. -/
theorem metadata_reset_partial :
    (reset_for_open (inp_plain 64 5) (close_file (inp_plain 64 5) disk_stale 0 64 80).1
      80).file_nblts = 0 ∧
    (∀ i, i < 40 →
      (reset_for_open (inp_plain 64 5) (close_file (inp_plain 64 5) disk_stale 0 64 80).1
        80).ant_0_array i = 0 ∧
      (reset_for_open (inp_plain 64 5) (close_file (inp_plain 64 5) disk_stale 0 64 80).1
        80).ant_1_array i = 0) ∧
    (∀ i, i < 64 → 40 ≤ i →
      (reset_for_open (inp_plain 64 5) (close_file (inp_plain 64 5) disk_stale 0 64 80).1
        80).ant_0_array i = 10 + ((i % 3 : Nat) : Int) ∧
      (reset_for_open (inp_plain 64 5) (close_file (inp_plain 64 5) disk_stale 0 64 80).1
        80).ant_1_array i = 10 + ((i % 5 : Nat) : Int)) ∧
    (write_stride cfgWriter (inp_plain 64 5) disk_stale 0).state.bcnts_per_file = 80 ∧
    (write_stride cfgWriter (inp_plain 64 5) disk_stale 0).state.curr_file_bcnt = 80 ∧
    (write_stride cfgWriter (inp_plain 64 5) disk_stale 0).state.file_nblts = 16 ∧
    (write_stride cfgWriter (inp_plain 64 5) disk_stale 0).state.ant_0_array 16 = 0 ∧
    (write_stride cfgWriter (inp_plain 64 5) disk_stale 0).state.ant_0_array 40 = 11 ∧
    (write_stride cfgWriter (inp_plain 64 5) disk_stale 0).state.ant_1_array 63 = 13 := by
  decide

/-! ## Theorems: the rows of a stride at a file boundary -/

/-- The store of channel `chan` of row `r` touches the 8 cells from
`row_start r + 8 * chan` on and no other. -/
theorem store_in_row (cfg : DiskConfig) (mem : Nat → Nat) (r chan : Nat) (v : m256i)
    (i : Nat) :
    _mm256_store_si256 mem (r * cfg.N_CHAN_PROCESSED + chan) v i
      = if row_start cfg r + 8 * chan ≤ i ∧ i < row_start cfg r + 8 * chan + 8
        then v (i - (row_start cfg r + 8 * chan)) else mem i := by
  unfold _mm256_store_si256 row_start
  have e : 8 * (r * cfg.N_CHAN_PROCESSED + chan)
      = 8 * (r * cfg.N_CHAN_PROCESSED + 0) + 8 * chan := by omega
  rw [e]

theorem write_elems_rows (cfg : WriterConfig) (hS : cfg.N_STOKES = 4) (a b : Nat) :
    row_start cfg.toDiskConfig a + write_elems cfg b = row_start cfg.toDiskConfig (a + b) := by
  unfold row_start write_elems
  rw [hS, Nat.add_zero, Nat.add_zero, Nat.add_mul, Nat.mul_add]
  have e : 8 * b * cfg.N_CHAN_PROCESSED * 4 = 4 * (8 * (b * cfg.N_CHAN_PROCESSED)) := by
    ring
  rw [e, Nat.mul_div_cancel_left _ (by norm_num)]

/-- C29: no row is lost or duplicated at a file boundary.  Take a stride of
`N_BL_PER_WRITE` contiguous `bcnt`s (`stop_bcnt = strt_bcnt + N_BL_PER_WRITE - 1`) that
takes the boundary branch while a file is open, with a new file to be opened
(`file_cnt < nfiles` after the close), `N_STOKES = 4`, a positive `bcnts_per_file` and a
stride buffer of fewer than `2^32` elements.  With `n = break_bcnt - strt_bcnt`, the calls
of the stride are: if `n > 0`, `write_baseline_index` of `n` rows from offset 0 of the sum
and of the diff buffer, into the old file; `write_metadata` and the close; the open of the
new file; and `write_baseline_index` of `N_BL_PER_WRITE - n` rows from the offset at which
row `n` of the kernel output starts, for the sum and for the diff buffer.  The elements of
the first write end where row `n` starts, and those of the second end where row
`N_BL_PER_WRITE` would start. -/
theorem boundary_rows (cfg : WriterConfig) (inp : BlockInput) (s : DiskState)
    (bctr strt : Nat) (hS : cfg.N_STOKES = 4) (hbpf : 0 < s.bcnts_per_file)
    (hstrt : inp.header.bcnt bctr % 4294967296 = strt)
    (hstop : inp.header.bcnt ((bctr + N_BL_PER_WRITE - 1) % 4294967296) % 4294967296
      = strt + (N_BL_PER_WRITE - 1))
    (hns : ¬ same_file s.bcnts_per_file strt (strt + (N_BL_PER_WRITE - 1)))
    (hcur : 0 ≤ s.curr_file_bcnt)
    (hmore : (s.file_cnt + 1) % 4294967296 < s.nfiles)
    (hsz : row_start cfg.toDiskConfig N_BL_PER_WRITE < 4294967296) :
    strt ≤ break_bcnt_of s.bcnts_per_file strt ∧
    break_bcnt_of s.bcnts_per_file strt - strt < N_BL_PER_WRITE ∧
    (∃ mcnt a0 a1 nblt cur mc,
      (write_stride cfg inp s bctr).events
        = (if break_bcnt_of s.bcnts_per_file strt - strt > 0
            then [DiskEvent.write_baseline_index data_file.sum_file
                (break_bcnt_of s.bcnts_per_file strt - strt) 0,
              DiskEvent.write_baseline_index data_file.diff_file
                (break_bcnt_of s.bcnts_per_file strt - strt) 0]
            else [])
          ++ [DiskEvent.write_metadata mcnt a0 a1 nblt, DiskEvent.close_files,
            DiskEvent.open_files cur mc,
            DiskEvent.write_baseline_index data_file.sum_file
              (N_BL_PER_WRITE - (break_bcnt_of s.bcnts_per_file strt - strt))
              (row_start cfg.toDiskConfig (break_bcnt_of s.bcnts_per_file strt - strt)),
            DiskEvent.write_baseline_index data_file.diff_file
              (N_BL_PER_WRITE - (break_bcnt_of s.bcnts_per_file strt - strt))
              (row_start cfg.toDiskConfig (break_bcnt_of s.bcnts_per_file strt - strt))]) ∧
    row_start cfg.toDiskConfig 0
        + write_elems cfg (break_bcnt_of s.bcnts_per_file strt - strt)
      = row_start cfg.toDiskConfig (break_bcnt_of s.bcnts_per_file strt - strt) ∧
    row_start cfg.toDiskConfig (break_bcnt_of s.bcnts_per_file strt - strt)
        + write_elems cfg (N_BL_PER_WRITE - (break_bcnt_of s.bcnts_per_file strt - strt))
      = row_start cfg.toDiskConfig N_BL_PER_WRITE := by
  have hN : N_BL_PER_WRITE = 32 := rfl
  rw [hN] at hstop hns hsz ⊢
  have hlt : strt + 31 < 4294967296 := by
    have := Nat.mod_lt (inp.header.bcnt ((bctr + 32 - 1) % 4294967296))
      (show 0 < 4294967296 by norm_num)
    omega
  have hb : strt % s.bcnts_per_file = 0 ∨ strt / s.bcnts_per_file
      ≠ (strt + 31) / s.bcnts_per_file := by
    unfold same_file at hns
    by_cases h0 : strt % s.bcnts_per_file = 0
    · exact Or.inl h0
    · exact Or.inr (fun e => hns ⟨e, h0⟩)
  obtain ⟨-, b2, -, b4⟩ := break_bcnt_least s.bcnts_per_file strt (strt + 31) hbpf
    (by omega) hlt hb
  generalize hbr : break_bcnt_of s.bcnts_per_file strt = br at b2 b4 ⊢
  have hn1 : sub32 br strt = br - strt := by unfold sub32; omega
  have hn2 : (strt + 31 + 4294967296 - br + 1) % 4294967296 = 32 - (br - strt) := by
    have h1 : strt + 31 + 4294967296 - br + 1 = 32 - (br - strt) + 4294967296 := by omega
    rw [h1, Nat.add_mod_right, Nat.mod_eq_of_lt (by omega)]
  have hcp : (br - strt) * cfg.N_CHAN_PROCESSED ≤ 32 * cfg.N_CHAN_PROCESSED :=
    Nat.mul_le_mul_right _ (by omega)
  have hoff : 2 * (br - strt) * cfg.N_CHAN_PROCESSED * cfg.N_STOKES % 4294967296
      = row_start cfg.toDiskConfig (br - strt) := by
    unfold row_start at hsz ⊢
    rw [hS]
    have e : 2 * (br - strt) * cfg.N_CHAN_PROCESSED * 4
        = 8 * ((br - strt) * cfg.N_CHAN_PROCESSED + 0) := by ring
    rw [e, Nat.mod_eq_of_lt (by omega)]
  have hcf := (close_file_log inp s bctr strt br log_zero b2 (by omega)).1
  have hcn : (close_file inp s bctr strt br).1.nfiles = s.nfiles := by
    unfold close_file
    simp only []
    split_ifs <;> rfl
  refine ⟨b2, by omega, ?_, ?_, ?_⟩
  · unfold write_stride
    simp only [hstrt, hstop, hN]
    rw [if_neg hns, hbr, if_pos hcur, if_neg (by rw [hcf, hcn]; omega)]
    simp only []
    unfold open_file
    simp only [hn1, hn2, hoff]
    rw [if_pos (by omega)]
    simp only []
    unfold close_file
    simp only [hn1]
    by_cases hpos : br - strt > 0
    · simp only [if_pos hpos]
      exact ⟨_, _, _, _, _, _, rfl⟩
    · simp only [if_neg hpos]
      exact ⟨_, _, _, _, _, _, rfl⟩
  · exact write_elems_rows cfg hS 0 (br - strt) |>.trans (by rw [Nat.zero_add])
  · rw [write_elems_rows cfg hS]
    congr 1
    omega

theorem boundary_rows_witness :
    64 ≤ break_bcnt_of disk_open.bcnts_per_file 64 ∧
    break_bcnt_of disk_open.bcnts_per_file 64 - 64 < N_BL_PER_WRITE ∧
    (∃ mcnt a0 a1 nblt cur mc,
      (write_stride cfgWriter (inp_plain 64 5) disk_open 0).events
        = (if break_bcnt_of disk_open.bcnts_per_file 64 - 64 > 0
            then [DiskEvent.write_baseline_index data_file.sum_file
                (break_bcnt_of disk_open.bcnts_per_file 64 - 64) 0,
              DiskEvent.write_baseline_index data_file.diff_file
                (break_bcnt_of disk_open.bcnts_per_file 64 - 64) 0]
            else [])
          ++ [DiskEvent.write_metadata mcnt a0 a1 nblt, DiskEvent.close_files,
            DiskEvent.open_files cur mc,
            DiskEvent.write_baseline_index data_file.sum_file
              (N_BL_PER_WRITE - (break_bcnt_of disk_open.bcnts_per_file 64 - 64))
              (row_start cfgWriter.toDiskConfig
                (break_bcnt_of disk_open.bcnts_per_file 64 - 64)),
            DiskEvent.write_baseline_index data_file.diff_file
              (N_BL_PER_WRITE - (break_bcnt_of disk_open.bcnts_per_file 64 - 64))
              (row_start cfgWriter.toDiskConfig
                (break_bcnt_of disk_open.bcnts_per_file 64 - 64))]) ∧
    row_start cfgWriter.toDiskConfig 0
        + write_elems cfgWriter (break_bcnt_of disk_open.bcnts_per_file 64 - 64)
      = row_start cfgWriter.toDiskConfig (break_bcnt_of disk_open.bcnts_per_file 64 - 64) ∧
    row_start cfgWriter.toDiskConfig (break_bcnt_of disk_open.bcnts_per_file 64 - 64)
        + write_elems cfgWriter
          (N_BL_PER_WRITE - (break_bcnt_of disk_open.bcnts_per_file 64 - 64))
      = row_start cfgWriter.toDiskConfig N_BL_PER_WRITE :=
  boundary_rows cfgWriter (inp_plain 64 5) disk_open 0 64 (by decide) (by decide)
    (by decide) (by decide) (by decide) (by decide) (by decide) (by decide)

/-! ## Theorems: the time stamp of a side block -/

theorem auto_baseline_fills (cfg : AutoConfig) (inp : AutoInput)
    (st : AutoState × List AutoEvent) (bctr : Nat) :
    auto_fills (auto_baseline cfg inp st bctr).2 = auto_fills st.2 ∧
    (auto_baseline cfg inp st bctr).1.curblock_out = st.1.curblock_out := by
  unfold auto_baseline
  simp only []
  split_ifs <;> simp [auto_fills_append, auto_fills]

theorem auto_loop_fills (cfg : AutoConfig) (inp : AutoInput)
    (st : AutoState × List AutoEvent) (n : Nat) :
    auto_fills ((List.range n).foldl (auto_baseline cfg inp) st).2 = auto_fills st.2 ∧
    ((List.range n).foldl (auto_baseline cfg inp) st).1.curblock_out
      = st.1.curblock_out := by
  induction n with
  | zero => exact ⟨rfl, rfl⟩
  | succ n ih =>
    rw [List.range_succ, List.foldl_append]
    simp only [List.foldl_cons, List.foldl_nil]
    obtain ⟨a1, a2⟩ := auto_baseline_fills cfg inp
      ((List.range n).foldl (auto_baseline cfg inp) st) n
    exact ⟨a1.trans ih.1, a2.trans ih.2⟩

/-- In every pass of the autocorrelation part, the side block is marked filled exactly
when a time stamp is computed, and then the index handed to `compute_jd_from_mcnt` at
line 701 is `bctr - 1` with the `bctr` that the loop of lines 680-693 has left,
`BASELINES_PER_BLOCK`. -/
theorem autocorr_copy_mcnt_index (cfg : AutoConfig) (inp : AutoInput) (s : AutoState)
    (hB : 0 < cfg.BASELINES_PER_BLOCK) :
    cfg.BASELINES_PER_BLOCK - 1 < cfg.BASELINES_PER_BLOCK ∧
    ((auto_fills (autocorr_copy cfg inp s).events = [s.curblock_out] ∧
      autocorr_copy_mcnt cfg inp s
        = some (inp.header.mcnt (cfg.BASELINES_PER_BLOCK - 1))) ∨
    (auto_fills (autocorr_copy cfg inp s).events = [] ∧
      autocorr_copy_mcnt cfg inp s = none)) := by
  refine ⟨by omega, ?_⟩
  unfold autocorr_copy autocorr_copy_mcnt
  by_cases h1 : inp.Nants > 0 ∧ map_valid inp.corr_to_hera_map
  · rw [if_pos h1, if_pos h1]
    by_cases h2 : s.auto_ants_filled = 0
        ∧ inp.busywait_free_rv = hashpipe_rv.HASHPIPE_TIMEOUT
    · rw [if_pos h2, if_pos h2]
      exact Or.inr ⟨rfl, rfl⟩
    · rw [if_neg h2, if_neg h2]
      by_cases h3 : s.auto_ants_filled = 0
          ∧ inp.busywait_free_rv ≠ hashpipe_rv.HASHPIPE_OK
      · rw [if_pos h3, if_pos h3]
        exact Or.inr ⟨rfl, rfl⟩
      · rw [if_neg h3, if_neg h3]
        simp only []
        obtain ⟨l1, l2⟩ := auto_loop_fills cfg inp
          (if s.auto_ants_filled = 0 then clear_flags cfg s else s,
            if s.auto_ants_filled = 0
              then [AutoEvent.busywait_free s.curblock_out] else [])
          cfg.BASELINES_PER_BLOCK
        have e0 : auto_fills (if s.auto_ants_filled = 0
            then [AutoEvent.busywait_free s.curblock_out] else []) = [] := by
          split_ifs <;> rfl
        have e1 : (if s.auto_ants_filled = 0 then clear_flags cfg s else s).curblock_out
            = s.curblock_out := by
          split_ifs <;> rfl
        simp only [e0] at l1
        simp only [e1] at l2
        generalize (List.range cfg.BASELINES_PER_BLOCK).foldl (auto_baseline cfg inp)
          (if s.auto_ants_filled = 0 then clear_flags cfg s else s,
            if s.auto_ants_filled = 0
              then [AutoEvent.busywait_free s.curblock_out] else []) = r at l1 l2 ⊢
        unfold auto_finish auto_finish_mcnt
        split_ifs
        · exact Or.inl ⟨by simp [AutoOutcome.events, auto_fills_append, l1, l2, auto_fills],
            rfl⟩
        · exact Or.inl ⟨by simp [AutoOutcome.events, auto_fills_append, l1, l2, auto_fills],
            rfl⟩
        · exact Or.inr ⟨by simp [AutoOutcome.events, l1], rfl⟩
  · rw [if_neg h1, if_neg h1]
    exact Or.inr ⟨rfl, rfl⟩

/-- C25, the code at the failing input: line 701 computes `header.julian_time` from
`header.mcnt[bctr-1]` after the loop over `bctr` has ended, an index that no longer names
the baseline that was copied.  The block `auto_times`, with the baselines
`(0,0), (1,1), (2,2), (0,1)` and `Nants = 3`, fills the side block 0 in one pass; the last
baseline whose `ant_pair_0 == ant_pair_1` condition contributed a copy is baseline 2,
whose `mcnt` is 20, but the time stamp is computed from `mcnt = 30`, that of the
cross-correlation at baseline 3, which contributed nothing to the side block. -/
theorem autocorr_timestamp_stale :
    auto_fills (autocorr_copy cfgAuto auto_times auto_start).events = [0] ∧
    last_copied cfgAuto auto_times auto_start = some 2 ∧
    auto_times.header.mcnt 2 = 20 ∧
    autocorr_copy_mcnt cfgAuto auto_times auto_start = some 30 ∧
    autocorr_copy_mcnt cfgAuto auto_times auto_start
      ≠ (last_copied cfgAuto auto_times auto_start).map auto_times.header.mcnt := by
  decide

/-! ## Theorems: the first frame of the F-engine reassembler -/

/-- What `initialize_block_info` leaves when `binfo` is not yet initialised. -/
theorem feng_initialize_block_info (cfg : Feng.FengConfig) (s : Feng.NetState)
    (h0 : s.binfo.initialized = 0) :
    (Feng.initialize_block_info cfg s).mcnt_start = s.time_index ∧
    (Feng.initialize_block_info cfg s).block_i = 0 ∧
    (Feng.initialize_block_info cfg s).out_of_seq_cnt = 0 ∧
    (Feng.initialize_block_info cfg s).initialized = 1 ∧
    (Feng.initialize_block_info cfg s).mcnt_log_late
      = cfg.N_TIME_PER_BLOCK * cfg.TIME_DEMUX + s.time_index := by
  unfold Feng.initialize_block_info
  rw [if_neg (by rw [h0]; exact fun h => h rfl)]
  exact ⟨rfl, rfl, rfl, rfl, rfl⟩

/-- Counting and copying a packet leaves the anchor and `block_i`. -/
theorem feng_count_and_copy_anchor (cfg : Feng.FengConfig) (s : Feng.NetState)
    (h : Feng.packet_header_t) (pb nm : Nat) (ev : List Feng.NetEvent) :
    (Feng.count_and_copy cfg s h pb nm ev).state.binfo.mcnt_start = s.binfo.mcnt_start ∧
    (Feng.count_and_copy cfg s h pb nm ev).state.binfo.block_i = s.binfo.block_i := by
  unfold Feng.count_and_copy Feng.calc_block_indexes
  simp only []
  split_ifs <;> exact ⟨rfl, rfl⟩

/-- What `advance_block` does to the anchor and to `block_i` when it returns. -/
theorem feng_advance_block_anchor (cfg : Feng.FengConfig) (env : RingEnv)
    (s s1 : Feng.NetState) (pm pb nm : Nat) (ev : List Feng.NetEvent)
    (h : Feng.advance_block cfg env s pm pb = Feng.Outcome.returned s1 nm ev) :
    s1.binfo.mcnt_start
      = (s.binfo.mcnt_start + cfg.N_TIME_PER_BLOCK * cfg.TIME_DEMUX) % 18446744073709551616 ∧
    s1.binfo.block_i = (s.binfo.block_i + 1) % cfg.N_INPUT_BLOCKS := by
  unfold Feng.advance_block at h
  have hsf : (Feng.set_block_filled cfg env s).state.binfo.mcnt_start = s.binfo.mcnt_start ∧
      (Feng.set_block_filled cfg env s).state.binfo.block_i = s.binfo.block_i := by
    unfold Feng.set_block_filled
    simp only []
    split_ifs <;> exact ⟨rfl, rfl⟩
  cases hf : Feng.set_block_filled cfg env s with
  | thread_exit s2 ev2 =>
    rw [hf] at h
    exact Feng.Outcome.noConfusion h
  | returned s2 nm2 ev2 =>
    rw [hf] at h hsf
    simp only [Feng.Outcome.state] at h hsf
    split_ifs at h
    injection h with k1 k2 k3
    subst k1
    simp only [Feng.initialize_block, hsf.1, hsf.2]
    exact ⟨trivial, trivial⟩

/-- C23 (as amended): on the very first frame ever processed (`binfo` not yet
initialised), `process_packet` calls `initialize_block_info`, which sets the anchor
`binfo.mcnt_start` to the file static `time_index` and `binfo.block_i` to 0, whatever the
`mcnt` of the frame.  With `Na > 0`, at the end of the call the anchor is still
`time_index` and `block_i` still 0 unless the frame lies two blocks ahead of `time_index`
(distance `d` with `2*N_TIME_PER_BLOCK*TIME_DEMUX <= d < 3*N_TIME_PER_BLOCK*TIME_DEMUX`);
in that case, if the call returns, the anchor has moved on by one block, to
`time_index + N_TIME_PER_BLOCK*TIME_DEMUX`, and `block_i` is `1 % N_INPUT_BLOCKS`. -/
theorem feng_first_frame (cfg : Feng.FengConfig) (env : RingEnv) (s : Feng.NetState)
    (f : Feng.hera_ibv_feng_pkt) (h0 : s.binfo.initialized = 0) (hNa : 0 < cfg.Na) :
    (Feng.lazy_init cfg s).binfo.mcnt_start = s.time_index ∧
    (Feng.lazy_init cfg s).binfo.block_i = 0 ∧
    (¬ (2 * (cfg.N_TIME_PER_BLOCK : Int) * (cfg.TIME_DEMUX : Int)
          ≤ Feng.toInt64 (Feng.sub64 (Feng.get_header f).mcnt s.time_index) ∧
        Feng.toInt64 (Feng.sub64 (Feng.get_header f).mcnt s.time_index)
          < 3 * (cfg.N_TIME_PER_BLOCK : Int) * (cfg.TIME_DEMUX : Int)) →
      (Feng.process_packet cfg env s f).state.binfo.mcnt_start = s.time_index ∧
      (Feng.process_packet cfg env s f).state.binfo.block_i = 0) ∧
    (2 * (cfg.N_TIME_PER_BLOCK : Int) * (cfg.TIME_DEMUX : Int)
        ≤ Feng.toInt64 (Feng.sub64 (Feng.get_header f).mcnt s.time_index) →
      Feng.toInt64 (Feng.sub64 (Feng.get_header f).mcnt s.time_index)
        < 3 * (cfg.N_TIME_PER_BLOCK : Int) * (cfg.TIME_DEMUX : Int) →
      ∀ s1 r ev, Feng.process_packet cfg env s f = Feng.Outcome.returned s1 r ev →
        s1.binfo.mcnt_start
          = (s.time_index + cfg.N_TIME_PER_BLOCK * cfg.TIME_DEMUX) % 18446744073709551616 ∧
        s1.binfo.block_i = 1 % cfg.N_INPUT_BLOCKS) := by
  have hi := feng_initialize_block_info cfg s h0
  have hl : (Feng.lazy_init cfg s).binfo = Feng.initialize_block_info cfg s := rfl
  rw [← hl] at hi
  obtain ⟨i1, i2, i3, -, -⟩ := hi
  have hinit := feng_init_initialized cfg s
  rw [← feng_process_lazy cfg env s f]
  refine ⟨i1, i2, ?_⟩
  generalize Feng.lazy_init cfg s = s0 at i1 i2 i3 hinit ⊢
  rw [← i1]
  refine ⟨fun hadv => ?_, fun h2 h3 s1 r ev hpp => ?_⟩
  · by_cases hacc : 0 ≤ Feng.toInt64 (Feng.sub64 (Feng.get_header f).mcnt s0.binfo.mcnt_start)
        ∧ Feng.toInt64 (Feng.sub64 (Feng.get_header f).mcnt s0.binfo.mcnt_start)
          < 3 * (cfg.N_TIME_PER_BLOCK : Int) * (cfg.TIME_DEMUX : Int)
    · have hnn : (0 : Int) ≤ (cfg.N_TIME_PER_BLOCK : Int) * (cfg.TIME_DEMUX : Int) :=
        mul_nonneg (Int.natCast_nonneg _) (Int.natCast_nonneg _)
      rw [feng_process_in_window cfg env s0 f hinit hacc.1 (by
        by_contra hc
        exact hadv ⟨by omega, hacc.2⟩)]
      obtain ⟨c1, c2⟩ := feng_count_and_copy_anchor cfg s0 (Feng.get_header f)
        (Feng.block_for_mcnt cfg (Feng.get_header f).mcnt) 18446744073709551615 []
      exact ⟨c1, c2.trans i2⟩
    · unfold Feng.process_packet
      simp only [feng_lazy_init cfg s0 hinit]
      rw [if_neg hacc]
      split_ifs
      · exact ⟨rfl, i2⟩
      · unfold Feng.out_of_order
        simp only []
        rw [if_neg (by
          rw [i3]
          unfold Feng.FengConfig.MAX_OUT_OF_SEQ
          omega)]
        exact ⟨rfl, i2⟩
  · rw [feng_process_advance cfg env s0 f hinit h2 h3] at hpp
    cases hadv : Feng.advance_block cfg env s0 (Feng.get_header f).mcnt
        (Feng.block_for_mcnt cfg (Feng.get_header f).mcnt) with
    | thread_exit s2 ev2 =>
      rw [hadv] at hpp
      exact Feng.Outcome.noConfusion hpp
    | returned s2 nm2 ev2 =>
      rw [hadv] at hpp
      simp only [] at hpp
      obtain ⟨a1, a2⟩ := feng_advance_block_anchor cfg env s0 s2 _ _ nm2 ev2 hadv
      obtain ⟨c1, c2⟩ := feng_count_and_copy_anchor cfg s2 (Feng.get_header f)
        (Feng.block_for_mcnt cfg (Feng.get_header f).mcnt) nm2 ev2
      rw [hpp] at c1 c2
      simp only [Feng.Outcome.state] at c1 c2
      rw [c1, c2, a1, a2, i2, Nat.zero_add]
      exact ⟨rfl, rfl⟩

theorem feng_first_frame_witness :
    (Feng.lazy_init Feng.cfgFeng Feng.feng_start).binfo.mcnt_start = 0 ∧
    (Feng.lazy_init Feng.cfgFeng Feng.feng_start).binfo.block_i = 0 ∧
    (Feng.process_packet Feng.cfgFeng envOK Feng.feng_start
      (Feng.feng_frame 1002 0).2).state.binfo.mcnt_start = 0 ∧
    (Feng.process_packet Feng.cfgFeng envOK Feng.feng_start
      (Feng.feng_frame 1002 0).2).state.binfo.block_i = 0 :=
  ⟨(feng_first_frame Feng.cfgFeng envOK Feng.feng_start (Feng.feng_frame 1002 0).2 rfl
      (by decide)).1,
    (feng_first_frame Feng.cfgFeng envOK Feng.feng_start (Feng.feng_frame 1002 0).2 rfl
      (by decide)).2.1,
    ((feng_first_frame Feng.cfgFeng envOK Feng.feng_start (Feng.feng_frame 1002 0).2 rfl
      (by decide)).2.2.1 (by decide)).1,
    ((feng_first_frame Feng.cfgFeng envOK Feng.feng_start (Feng.feng_frame 1002 0).2 rfl
      (by decide)).2.2.1 (by decide)).2⟩

/-- C23, counterexample: the first frame ever has `mcnt = 1002`, which is a block
boundary (`start_for_mcnt(1002) = 1002`) of ring block 1, and `time_index` is 0.  After
`process_packet` the anchor `binfo.mcnt_start` is 0, not 1002, and `binfo.block_i` is 0,
not 1. -/
theorem feng_first_frame_counterexample :
    Feng.feng_start.binfo.initialized = 0 ∧
    (Feng.get_header (Feng.feng_frame 1002 0).2).mcnt = 1002 ∧
    Feng.start_for_mcnt Feng.cfgFeng 1002 = 1002 ∧
    Feng.block_for_mcnt Feng.cfgFeng 1002 = 1 ∧
    (Feng.process_packet Feng.cfgFeng envOK Feng.feng_start
      (Feng.feng_frame 1002 0).2).state.binfo.mcnt_start = 0 ∧
    (Feng.process_packet Feng.cfgFeng envOK Feng.feng_start
      (Feng.feng_frame 1002 0).2).state.binfo.block_i = 0 := by
  decide

/-! ## Theorems: the re-synchronisation of the F-engine reassembler -/

/-- The start that `start_for_mcnt` computes lies in the block of its argument, and is its
own start, when `N_TIME_PER_PACKET` divides `N_TIME_PER_BLOCK`. -/
theorem feng_start_for_mcnt (cfg : Feng.FengConfig) (hP : 0 < cfg.N_TIME_PER_PACKET)
    (hB : 0 < cfg.N_TIME_PER_BLOCK) (hT : 0 < cfg.TIME_DEMUX)
    (hdvd : cfg.N_TIME_PER_PACKET ∣ cfg.N_TIME_PER_BLOCK) (m : Nat)
    (hm : m + cfg.N_TIME_PER_BLOCK * cfg.TIME_DEMUX ≤ 18446744073709551616) :
    Feng.block_for_mcnt cfg (Feng.start_for_mcnt cfg m) = Feng.block_for_mcnt cfg m ∧
    Feng.start_for_mcnt cfg (Feng.start_for_mcnt cfg m) = Feng.start_for_mcnt cfg m := by
  have hL : 0 < cfg.N_TIME_PER_BLOCK * cfg.TIME_DEMUX := Nat.mul_pos hB hT
  have ht : (m / cfg.N_TIME_PER_PACKET) % cfg.TIME_DEMUX < cfg.TIME_DEMUX := Nat.mod_lt _ hT
  have hle : cfg.N_TIME_PER_PACKET ≤ cfg.N_TIME_PER_BLOCK := Nat.le_of_dvd hB hdvd
  generalize hLd : cfg.N_TIME_PER_BLOCK * cfg.TIME_DEMUX = L at hL hm
  generalize htd : (m / cfg.N_TIME_PER_PACKET) % cfg.TIME_DEMUX = t at ht
  have htl : t * cfg.N_TIME_PER_PACKET < L := by
    calc t * cfg.N_TIME_PER_PACKET < cfg.TIME_DEMUX * cfg.N_TIME_PER_PACKET :=
          Nat.mul_lt_mul_of_pos_right ht hP
      _ ≤ cfg.TIME_DEMUX * cfg.N_TIME_PER_BLOCK := Nat.mul_le_mul_left _ hle
      _ = L := by rw [← hLd, Nat.mul_comm]
  have hdm := Nat.div_add_mod m L
  have hsub : m - m % L = L * (m / L) := by omega
  have e1 : Feng.start_for_mcnt cfg m = L * (m / L) + t * cfg.N_TIME_PER_PACKET := by
    unfold Feng.start_for_mcnt
    simp only [hLd, htd, hsub]
    exact Nat.mod_eq_of_lt (by omega)
  have hdiv : (L * (m / L) + t * cfg.N_TIME_PER_PACKET) / L = m / L := by
    rw [Nat.mul_add_div hL, Nat.div_eq_of_lt htl, Nat.add_zero]
  have hmod : (L * (m / L) + t * cfg.N_TIME_PER_PACKET) % L = t * cfg.N_TIME_PER_PACKET := by
    rw [Nat.mul_add_mod, Nat.mod_eq_of_lt htl]
  have htime : ((L * (m / L) + t * cfg.N_TIME_PER_PACKET) / cfg.N_TIME_PER_PACKET)
      % cfg.TIME_DEMUX = t := by
    obtain ⟨k, hk⟩ := hdvd
    have eL : L * (m / L) = cfg.N_TIME_PER_PACKET * (cfg.TIME_DEMUX * (k * (m / L))) := by
      rw [← hLd, hk]
      ring
    rw [eL, Nat.mul_add_div hP, Nat.mul_div_cancel _ hP, Nat.mul_add_mod,
      Nat.mod_eq_of_lt ht]
  rw [e1]
  constructor
  · rw [feng_block_for_mcnt, feng_block_for_mcnt]
    unfold Feng.FengConfig.block_mcnts
    rw [hLd, hdiv]
  · unfold Feng.start_for_mcnt
    simp only [hLd, hmod, htime]
    rw [Nat.add_sub_cancel, Nat.mod_eq_of_lt (by omega)]

/-- The `mcnt` to which the re-synchronisation moves the packet's `mcnt` lies in the ring
block `binfo.block_i`. -/
theorem feng_reset_mcnt (cfg : Feng.FengConfig) (hB : 0 < cfg.N_TIME_PER_BLOCK)
    (hT : 0 < cfg.TIME_DEMUX) (pm bi : Nat) (hbi : bi < cfg.N_INPUT_BLOCKS)
    (hpm : pm < 34359738368)
    (hsz : 34359738368 + cfg.N_TIME_PER_BLOCK * cfg.TIME_DEMUX * cfg.N_INPUT_BLOCKS
      ≤ 18446744073709551616) :
    Feng.block_for_mcnt cfg
      (if bi > Feng.block_for_mcnt cfg pm then
        (pm + cfg.TIME_DEMUX * cfg.N_TIME_PER_BLOCK * (bi - Feng.block_for_mcnt cfg pm))
          % 18446744073709551616
      else if bi < Feng.block_for_mcnt cfg pm then
        (pm + cfg.TIME_DEMUX * cfg.N_TIME_PER_BLOCK
          * (bi + cfg.N_INPUT_BLOCKS - Feng.block_for_mcnt cfg pm)) % 18446744073709551616
      else pm) = bi ∧
    (if bi > Feng.block_for_mcnt cfg pm then
        (pm + cfg.TIME_DEMUX * cfg.N_TIME_PER_BLOCK * (bi - Feng.block_for_mcnt cfg pm))
          % 18446744073709551616
      else if bi < Feng.block_for_mcnt cfg pm then
        (pm + cfg.TIME_DEMUX * cfg.N_TIME_PER_BLOCK
          * (bi + cfg.N_INPUT_BLOCKS - Feng.block_for_mcnt cfg pm)) % 18446744073709551616
      else pm) + cfg.N_TIME_PER_BLOCK * cfg.TIME_DEMUX ≤ 18446744073709551616 := by
  have hL : 0 < cfg.N_TIME_PER_BLOCK * cfg.TIME_DEMUX := Nat.mul_pos hB hT
  have hpb : Feng.block_for_mcnt cfg pm < cfg.N_INPUT_BLOCKS := by
    rw [feng_block_for_mcnt]
    exact Nat.mod_lt _ (by omega)
  have hcomm : cfg.TIME_DEMUX * cfg.N_TIME_PER_BLOCK = cfg.N_TIME_PER_BLOCK * cfg.TIME_DEMUX :=
    Nat.mul_comm _ _
  rw [hcomm]
  have hblk : ∀ j, Feng.block_for_mcnt cfg (pm + cfg.N_TIME_PER_BLOCK * cfg.TIME_DEMUX * j)
      = (pm / (cfg.N_TIME_PER_BLOCK * cfg.TIME_DEMUX) + j) % cfg.N_INPUT_BLOCKS := by
    intro j
    rw [feng_block_for_mcnt]
    unfold Feng.FengConfig.block_mcnts
    rw [Nat.add_mul_div_left _ _ hL]
  have hpbe : Feng.block_for_mcnt cfg pm
      = (pm / (cfg.N_TIME_PER_BLOCK * cfg.TIME_DEMUX)) % cfg.N_INPUT_BLOCKS := by
    rw [feng_block_for_mcnt]
    rfl
  have hbound : ∀ j, j < cfg.N_INPUT_BLOCKS →
      pm + cfg.N_TIME_PER_BLOCK * cfg.TIME_DEMUX * j + cfg.N_TIME_PER_BLOCK * cfg.TIME_DEMUX
        ≤ 18446744073709551616 := by
    intro j hj
    have h1 : cfg.N_TIME_PER_BLOCK * cfg.TIME_DEMUX * (j + 1)
        ≤ cfg.N_TIME_PER_BLOCK * cfg.TIME_DEMUX * cfg.N_INPUT_BLOCKS :=
      Nat.mul_le_mul_left _ (by omega)
    rw [Nat.mul_add, Nat.mul_one] at h1
    omega
  have hdm := Nat.div_add_mod (pm / (cfg.N_TIME_PER_BLOCK * cfg.TIME_DEMUX)) cfg.N_INPUT_BLOCKS
  generalize hq : pm / (cfg.N_TIME_PER_BLOCK * cfg.TIME_DEMUX) = q at hblk hpbe hdm
  generalize hp : Feng.block_for_mcnt cfg pm = pb at hpb hpbe ⊢
  rw [← hpbe] at hdm
  by_cases h1 : bi > pb
  · rw [if_pos h1]
    have hb := hbound (bi - pb) (by omega)
    rw [Nat.mod_eq_of_lt (by omega)]
    refine ⟨?_, hb⟩
    rw [hblk]
    have e : q + (bi - pb) = bi + cfg.N_INPUT_BLOCKS * (q / cfg.N_INPUT_BLOCKS) := by omega
    rw [e, Nat.add_mul_mod_self_left, Nat.mod_eq_of_lt hbi]
  · rw [if_neg h1]
    by_cases h2 : bi < pb
    · rw [if_pos h2]
      have hb := hbound (bi + cfg.N_INPUT_BLOCKS - pb) (by omega)
      rw [Nat.mod_eq_of_lt (by omega)]
      refine ⟨?_, hb⟩
      rw [hblk]
      have e : q + (bi + cfg.N_INPUT_BLOCKS - pb)
          = bi + cfg.N_INPUT_BLOCKS * (q / cfg.N_INPUT_BLOCKS + 1) := by
        rw [Nat.mul_add, Nat.mul_one]
        omega
      rw [e, Nat.add_mul_mod_self_left, Nat.mod_eq_of_lt hbi]
    · rw [if_neg h2]
      have hb := hbound 0 (by omega)
      refine ⟨by omega, by omega⟩

/-- C24: the re-synchronisation of the F-engine reassembler keeps the physical block.
When `process_packet`, in an initialised state with `binfo.block_i < N_INPUT_BLOCKS`,
takes its last branch (the packet is neither in the window nor late) and finds
`out_of_seq_cnt > MAX_OUT_OF_SEQ` after counting the packet, then it prints the reset
warning and afterwards `block_for_mcnt(binfo.mcnt_start)` is the `block_i` held before,
`binfo.block_i` is unchanged, `start_for_mcnt(binfo.mcnt_start) = binfo.mcnt_start`, and
the packet counters of `block_i` and `(block_i+1) % N_INPUT_BLOCKS` are 0.  The constants
are positive, `N_TIME_PER_PACKET` divides `N_TIME_PER_BLOCK`, and the ring spans fewer
than `2^64 - 2^35` `mcnt`s, so that no 64-bit sum wraps. -/
theorem feng_reset_keeps_block (cfg : Feng.FengConfig) (env : RingEnv) (s : Feng.NetState)
    (f : Feng.hera_ibv_feng_pkt) (hP : 0 < cfg.N_TIME_PER_PACKET)
    (hB : 0 < cfg.N_TIME_PER_BLOCK) (hT : 0 < cfg.TIME_DEMUX)
    (hdvd : cfg.N_TIME_PER_PACKET ∣ cfg.N_TIME_PER_BLOCK)
    (hsz : 34359738368 + cfg.N_TIME_PER_BLOCK * cfg.TIME_DEMUX * cfg.N_INPUT_BLOCKS
      ≤ 18446744073709551616)
    (hinit : s.binfo.initialized ≠ 0) (hbi : s.binfo.block_i < cfg.N_INPUT_BLOCKS)
    (hacc : ¬ (0 ≤ Feng.toInt64 (Feng.sub64 (Feng.get_header f).mcnt s.binfo.mcnt_start)
      ∧ Feng.toInt64 (Feng.sub64 (Feng.get_header f).mcnt s.binfo.mcnt_start)
        < 3 * (cfg.N_TIME_PER_BLOCK : Int) * (cfg.TIME_DEMUX : Int)))
    (hlate : ¬ (Feng.toInt64 (Feng.sub64 (Feng.get_header f).mcnt s.binfo.mcnt_start) < 0
      ∧ Feng.toInt64 (Feng.sub64 (Feng.get_header f).mcnt s.binfo.mcnt_start)
        > -(cfg.LATE_PKT_MCNT_THRESHOLD : Int)))
    (hcnt : s.binfo.out_of_seq_cnt + 1 > cfg.MAX_OUT_OF_SEQ) :
    (∃ pkt_mcnt, Feng.NetEvent.warn_resetting
        (Feng.process_packet cfg env s f).state.binfo.mcnt_start s.binfo.block_i pkt_mcnt
        (Feng.get_header f).ant ∈ (Feng.process_packet cfg env s f).events) ∧
    Feng.block_for_mcnt cfg (Feng.process_packet cfg env s f).state.binfo.mcnt_start
      = s.binfo.block_i ∧
    (Feng.process_packet cfg env s f).state.binfo.block_i = s.binfo.block_i ∧
    Feng.start_for_mcnt cfg (Feng.process_packet cfg env s f).state.binfo.mcnt_start
      = (Feng.process_packet cfg env s f).state.binfo.mcnt_start ∧
    (Feng.process_packet cfg env s f).state.binfo.block_packet_counter s.binfo.block_i = 0 ∧
    (Feng.process_packet cfg env s f).state.binfo.block_packet_counter
      ((s.binfo.block_i + 1) % cfg.N_INPUT_BLOCKS) = 0 := by
  obtain ⟨r1, r2⟩ := feng_reset_mcnt cfg hB hT (Feng.get_header f).mcnt s.binfo.block_i hbi
    (feng_mcnt_lt f) hsz
  generalize hpm : (if s.binfo.block_i > Feng.block_for_mcnt cfg (Feng.get_header f).mcnt then
        ((Feng.get_header f).mcnt + cfg.TIME_DEMUX * cfg.N_TIME_PER_BLOCK
          * (s.binfo.block_i - Feng.block_for_mcnt cfg (Feng.get_header f).mcnt))
          % 18446744073709551616
      else if s.binfo.block_i < Feng.block_for_mcnt cfg (Feng.get_header f).mcnt then
        ((Feng.get_header f).mcnt + cfg.TIME_DEMUX * cfg.N_TIME_PER_BLOCK
          * (s.binfo.block_i + cfg.N_INPUT_BLOCKS
            - Feng.block_for_mcnt cfg (Feng.get_header f).mcnt)) % 18446744073709551616
      else (Feng.get_header f).mcnt) = pm at r1 r2
  obtain ⟨t1, t2⟩ := feng_start_for_mcnt cfg hP hB hT hdvd pm r2
  rw [r1] at t1
  have hst : Feng.process_packet cfg env s f
      = Feng.out_of_order cfg s (Feng.get_header f)
          (Feng.block_for_mcnt cfg (Feng.get_header f).mcnt) := by
    unfold Feng.process_packet
    simp only [feng_lazy_init cfg s hinit]
    rw [if_neg hacc, if_neg hlate]
  rw [hst]
  unfold Feng.out_of_order
  simp only []
  rw [if_pos hcnt]
  simp only [hpm, Feng.Outcome.state, Feng.Outcome.events, t1]
  refine ⟨⟨pm, by simp⟩, trivial, trivial, t2, ?_, ?_⟩
  · by_cases e : s.binfo.block_i = (s.binfo.block_i + 1) % cfg.N_INPUT_BLOCKS
    · rw [← e, Function.update_same]
    · rw [Function.update_noteq e, Function.update_same]
  · rw [Function.update_same]

theorem feng_reset_keeps_block_witness :
    (Feng.process_packet Feng.cfgFeng envOK feng_stray
      (Feng.feng_frame 1002 0).2).state.binfo.mcnt_start = 1008 ∧
    Feng.block_for_mcnt Feng.cfgFeng (Feng.process_packet Feng.cfgFeng envOK feng_stray
      (Feng.feng_frame 1002 0).2).state.binfo.mcnt_start = feng_stray.binfo.block_i ∧
    (Feng.process_packet Feng.cfgFeng envOK feng_stray
      (Feng.feng_frame 1002 0).2).state.binfo.block_i = feng_stray.binfo.block_i ∧
    Feng.start_for_mcnt Feng.cfgFeng (Feng.process_packet Feng.cfgFeng envOK feng_stray
        (Feng.feng_frame 1002 0).2).state.binfo.mcnt_start
      = (Feng.process_packet Feng.cfgFeng envOK feng_stray
        (Feng.feng_frame 1002 0).2).state.binfo.mcnt_start ∧
    (Feng.process_packet Feng.cfgFeng envOK feng_stray
      (Feng.feng_frame 1002 0).2).state.binfo.block_packet_counter
        feng_stray.binfo.block_i = 0 ∧
    (Feng.process_packet Feng.cfgFeng envOK feng_stray
      (Feng.feng_frame 1002 0).2).state.binfo.block_packet_counter
        ((feng_stray.binfo.block_i + 1) % Feng.cfgFeng.N_INPUT_BLOCKS) = 0 :=
  ⟨by decide,
    (feng_reset_keeps_block Feng.cfgFeng envOK feng_stray (Feng.feng_frame 1002 0).2
      (by decide) (by decide) (by decide) (by decide) (by decide) (by decide) (by decide)
      (by decide) (by decide) (by decide)).2⟩

/-! ## Theorems: the antenna map read from the key-value store -/

/-- The stores of the loop from `iant` on: one per line while `iant <= N_ANTS`, the one at
index `N_ANTS` included. -/
theorem map_loop_stores (N_ANTS : Nat) (lines : List (Option Int)) (iant : Nat)
    (antnum : Int) (map : Nat → Int) (st : List Nat) (hi : iant ≤ N_ANTS) :
    (lines.length + iant ≤ N_ANTS →
      (map_loop N_ANTS lines iant antnum map st).exited = false ∧
      (map_loop N_ANTS lines iant antnum map st).stores
        = st ++ List.range' iant lines.length) ∧
    (N_ANTS < lines.length + iant →
      (map_loop N_ANTS lines iant antnum map st).exited = true ∧
      (map_loop N_ANTS lines iant antnum map st).stores
        = st ++ List.range' iant (N_ANTS + 1 - iant)) := by
  induction lines generalizing iant antnum map st with
  | nil =>
    refine ⟨fun _ => ⟨rfl, by simp [map_loop]⟩, fun h => ?_⟩
    simp at h
    omega
  | cons line rest ih =>
    rw [map_loop]
    by_cases hlast : iant + 1 > N_ANTS
    · rw [if_pos hlast]
      have e : iant = N_ANTS := by omega
      subst e
      refine ⟨fun h => ?_, fun _ => ⟨rfl, ?_⟩⟩
      · simp at h
      · simp [List.range']
    · rw [if_neg hlast]
      obtain ⟨a, b⟩ := ih (iant + 1) (line.getD antnum)
        (Function.update map iant (line.getD antnum)) (st ++ [iant]) (by omega)
      refine ⟨fun h => ?_, fun h => ?_⟩
      · obtain ⟨a1, a2⟩ := a (by simp at h; omega)
        refine ⟨a1, ?_⟩
        rw [a2, List.length_cons, List.range'_succ, List.append_assoc]
        rfl
      · obtain ⟨b1, b2⟩ := b (by simp at h; omega)
        refine ⟨b1, ?_⟩
        rw [b2, List.append_assoc]
        have e : N_ANTS + 1 - iant = (N_ANTS + 1 - (iant + 1)) + 1 := by omega
        rw [e, List.range'_succ]
        rfl

/-- The stores of `get_corr_to_hera_map` for every reply.  For a reply with at most
`N_ANTS` lines the function returns after one store per line, at the indices `0 .. lines - 1`, all below
`N_ANTS`.  For a reply with more than `N_ANTS` lines the thread exits, but only after
`N_ANTS + 1` stores, at the indices `0 .. N_ANTS`: the last of them is at index `N_ANTS`,
one past the end of the array `corr_to_hera_map[N_ANTS]`. -/
theorem corr_map_stores (N_ANTS : Nat) (lines : List (Option Int)) (antnum0 : Int)
    (corr_to_hera_map : Nat → Int) :
    (lines.length ≤ N_ANTS →
      (get_corr_to_hera_map N_ANTS lines antnum0 corr_to_hera_map).exited = false ∧
      (get_corr_to_hera_map N_ANTS lines antnum0 corr_to_hera_map).stores
        = List.range lines.length ∧
      ∀ i, i ∈ (get_corr_to_hera_map N_ANTS lines antnum0 corr_to_hera_map).stores →
        i < N_ANTS) ∧
    (N_ANTS < lines.length →
      (get_corr_to_hera_map N_ANTS lines antnum0 corr_to_hera_map).exited = true ∧
      (get_corr_to_hera_map N_ANTS lines antnum0 corr_to_hera_map).stores
        = List.range (N_ANTS + 1) ∧
      N_ANTS ∈ (get_corr_to_hera_map N_ANTS lines antnum0 corr_to_hera_map).stores) := by
  obtain ⟨a, b⟩ := map_loop_stores N_ANTS lines 0 antnum0 corr_to_hera_map [] (Nat.zero_le _)
  unfold get_corr_to_hera_map
  refine ⟨fun h => ?_, fun h => ?_⟩
  · obtain ⟨a1, a2⟩ := a (by omega)
    rw [List.nil_append, ← List.range_eq_range'] at a2
    refine ⟨a1, a2, fun i hi => ?_⟩
    rw [a2, List.mem_range] at hi
    omega
  · obtain ⟨b1, b2⟩ := b (by omega)
    rw [List.nil_append, Nat.sub_zero, ← List.range_eq_range'] at b2
    refine ⟨b1, b2, ?_⟩
    rw [b2, List.mem_range]
    omega

/-- C30: the stores of `get_corr_to_hera_map`, evaluated.  With `N_ANTS = 3` and a reply
of four lines `5, 6, 7, 8`, the thread exits, but only after it has stored at the indices
0, 1, 2 and 3: the cell at index 3, one past the end of the array
`corr_to_hera_map[N_ANTS]`, holds 8. -/
theorem corr_map_overrun :
    (get_corr_to_hera_map 3 [some 5, some 6, some 7, some 8] 0 (fun _ => -1)).exited = true ∧
    (get_corr_to_hera_map 3 [some 5, some 6, some 7, some 8] 0 (fun _ => -1)).stores
      = [0, 1, 2, 3] ∧
    (get_corr_to_hera_map 3 [some 5, some 6, some 7, some 8] 0 (fun _ => -1)).map 3 = 8 := by
  decide

/-! ## Theorems: the idle writer -/

theorem close_file_idle (inp : BlockInput) (s : DiskState) (bctr strt_bcnt break_bcnt : Nat) :
    (close_file inp s bctr strt_bcnt break_bcnt).1.idle = s.idle := by
  unfold close_file
  simp only []
  split_ifs <;> rfl

theorem open_file_idle (cfg : WriterConfig) (inp : BlockInput) (s : DiskState)
    (bctr strt_bcnt stop_bcnt break_bcnt : Nat) :
    (open_file cfg inp s bctr strt_bcnt stop_bcnt break_bcnt).1.idle = s.idle := by
  unfold open_file
  simp only []
  split_ifs <;> rfl

theorem write_stride_idle (cfg : WriterConfig) (inp : BlockInput) (s : DiskState)
    (bctr : Nat) : (write_stride cfg inp s bctr).state.idle = s.idle := by
  unfold write_stride
  simp only []
  split_ifs <;> simp [open_file_idle, close_file_idle]

/-- The stride loop does not touch `idle`. -/
theorem stride_loop_idle (cfg : WriterConfig) (inp : BlockInput) (bctrs : List Nat)
    (s : DiskState) : (stride_loop cfg inp bctrs s).1.idle = s.idle := by
  induction bctrs generalizing s with
  | nil => rfl
  | cons b rest ih =>
    rw [stride_loop]
    split_ifs
    · exact write_stride_idle cfg inp s b
    · exact (ih _).trans (write_stride_idle cfg inp s b)

/-- The file-writing part of a pass without trigger, when all files are written or the
writer is idle: the block is set free and `idle` is 1. -/
theorem write_block_idle (cfg : WriterConfig) (inp : BlockInput) (s : DiskState)
    (hT : inp.TRIGGER % 4294967296 = 0)
    (hidle : s.file_cnt ≥ inp.NFILES % 4294967296 ∨ s.idle ≠ 0) :
    write_block cfg inp s
      = ({ s with
            Nants := inp.BDANANT % 18446744073709551616
            nfiles := inp.NFILES % 4294967296
            idle := 1 }, [DiskEvent.set_free]) := by
  unfold write_block
  simp only [hT, ne_eq, not_true_eq_false, if_false]
  rw [if_pos hidle]

/-- The autocorrelation part of a pass falls through to the rest of the pass when its
ring calls succeed. -/
theorem autocorr_copy_falls_through (cfg : AutoConfig) (inp : AutoInput) (s : AutoState)
    (h1 : inp.busywait_free_rv = hashpipe_rv.HASHPIPE_OK)
    (h2 : inp.set_filled_rv = hashpipe_rv.HASHPIPE_OK) :
    ∃ a ev, autocorr_copy cfg inp s = AutoOutcome.done a ev := by
  unfold autocorr_copy
  by_cases h : inp.Nants > 0 ∧ map_valid inp.corr_to_hera_map
  · rw [if_pos h, if_neg (by rw [h1]; intro hc; exact absurd hc.2 (by decide)),
      if_neg (by rw [h1]; intro hc; exact hc.2 rfl)]
    simp only []
    unfold auto_finish
    simp only [h2, ne_eq, not_true_eq_false, if_false]
    split_ifs <;> exact ⟨_, _, rfl⟩
  · rw [if_neg h]
    exact ⟨_, _, rfl⟩

/-- An idle pass does not enter the stride loop. -/
theorem zero_divisor_idle (cfg : WriterConfig) (inp : BlockInput) (s : DiskState)
    (hT : inp.TRIGGER % 4294967296 = 0)
    (hidle : s.file_cnt ≥ inp.NFILES % 4294967296 ∨ s.idle ≠ 0) :
    zero_divisor cfg inp s = none := by
  unfold zero_divisor loop_entry
  simp only [hT, ne_eq, not_true_eq_false, if_false]
  rw [if_pos hidle]

/-- An idle pass whose ring calls succeed. -/
theorem run_pass_idle (cfg : AutoConfig) (NB : Nat) (p : PassInput) (w : LoopState)
    (hok : ring_ok p) (hT : p.block.TRIGGER % 4294967296 = 0)
    (hidle : w.disk.file_cnt ≥ p.block.NFILES % 4294967296 ∨ w.disk.idle ≠ 0) :
    ∃ a ev, autocorr_copy cfg (auto_of_pass p w) w.auto = AutoOutcome.done a ev ∧
      run_pass cfg NB p w
        = { state :=
              { disk := { w.disk with
                  Nants := p.block.BDANANT % 18446744073709551616
                  nfiles := p.block.NFILES % 4294967296
                  idle := 1 }
                auto := a
                curblock_in := (w.curblock_in + 1) % NB }
            auto_events := ev
            events := [DiskEvent.set_free]
            TRIGGER := none
            ending := PassEnd.next } := by
  obtain ⟨o1, o2, o3, o4⟩ := hok
  obtain ⟨a, ev, ha⟩ := autocorr_copy_falls_through cfg (auto_of_pass p w) w.auto o2 o3
  refine ⟨a, ev, ha, ?_⟩
  unfold run_pass
  rw [if_neg (by rw [o1]; decide), if_neg (by rw [o1]; exact fun hc => hc rfl), ha]
  show finish_pass cfg.toWriterConfig NB p w a ev = _
  unfold finish_pass
  rw [zero_divisor_idle cfg.toWriterConfig p.block w.disk hT hidle,
    write_block_idle cfg.toWriterConfig p.block w.disk hT hidle]
  simp [hT, o4]

/-- An idle writer stays idle over passes without trigger, whatever `NFILES` reads. -/
theorem run_passes_idle (cfg : AutoConfig) (NB : Nat)
    (passes : List PassInput) (w : LoopState) (x : Nat)
    (hi : w.disk.idle = 1) (hx : w.curblock_in = x % NB)
    (hp : ∀ p, p ∈ passes → p.block.TRIGGER % 4294967296 = 0 ∧ ring_ok p) :
    (run_passes cfg NB passes w).events = List.replicate passes.length DiskEvent.set_free ∧
    (run_passes cfg NB passes w).state.disk.idle = 1 ∧
    (run_passes cfg NB passes w).state.disk.file_cnt = w.disk.file_cnt ∧
    (run_passes cfg NB passes w).state.curblock_in = (x + passes.length) % NB ∧
    (run_passes cfg NB passes w).TRIGGER = none ∧
    (run_passes cfg NB passes w).ending = PassEnd.next := by
  induction passes generalizing w x with
  | nil => exact ⟨rfl, hi, rfl, hx, rfl, rfl⟩
  | cons p rest ih =>
    obtain ⟨hT, hok⟩ := hp p (List.mem_cons_self _ _)
    obtain ⟨a, ev, _, hpass⟩ := run_pass_idle cfg NB p w hok hT
      (Or.inr (by rw [hi]; decide))
    obtain ⟨i1, i2, i3, i4, i5, i6⟩ := ih (run_pass cfg NB p w).state (x + 1)
      (by rw [hpass]) (by rw [hpass, hx]; exact Nat.mod_add_mod _ _ _)
      (fun q hq => hp q (List.mem_cons_of_mem _ hq))
    rw [run_passes]
    rw [if_neg (by rw [hpass]; exact fun hc => hc rfl)]
    simp only [i1, i2, i3, i4, i5, i6]
    refine ⟨?_, trivial, ?_, ?_, ?_, trivial⟩
    · rw [hpass]
      rfl
    · rw [hpass]
    · rw [List.length_cons]
      congr 1
      omega
    · rw [hpass]

/-- A pass that takes a trigger enters the stride loop in the state that `take_trigger`
leaves. -/
theorem loop_entry_trigger (inp : BlockInput) (s : DiskState)
    (hT : inp.TRIGGER % 4294967296 ≠ 0) :
    loop_entry inp s = some (take_trigger inp { s with
      Nants := inp.BDANANT % 18446744073709551616
      nfiles := inp.NFILES % 4294967296 }) := by
  unfold loop_entry
  rw [if_pos hT]

/-- The rest of a pass that takes a trigger. -/
theorem finish_pass_trigger (cfg : WriterConfig) (NB : Nat) (p : PassInput) (w : LoopState)
    (a : AutoState) (ev : List AutoEvent) (hT : p.block.TRIGGER % 4294967296 ≠ 0) :
    (finish_pass cfg NB p w a ev).TRIGGER = some 0 ∧
    (finish_pass cfg NB p w a ev).state.disk.idle = 0 ∧
    (0 < bcnts_per_file_of p.block → p.set_free_rv = hashpipe_rv.HASHPIPE_OK →
      (finish_pass cfg NB p w a ev).ending = PassEnd.next ∧
      (finish_pass cfg NB p w a ev).state.curblock_in = (w.curblock_in + 1) % NB ∧
      (finish_pass cfg NB p w a ev).state.disk
        = (stride_loop cfg p.block cfg.bctrs
            (take_trigger p.block { w.disk with
              Nants := p.block.BDANANT % 18446744073709551616
              nfiles := p.block.NFILES % 4294967296 })).1) ∧
    (bcnts_per_file_of p.block = 0 → cfg.bctrs ≠ [] →
      (finish_pass cfg NB p w a ev).ending = PassEnd.division_by_zero ∧
      (finish_pass cfg NB p w a ev).events = []) := by
  have hw : write_block cfg p.block w.disk
      = ((stride_loop cfg p.block cfg.bctrs
          (take_trigger p.block { w.disk with
            Nants := p.block.BDANANT % 18446744073709551616
            nfiles := p.block.NFILES % 4294967296 })).1,
        (stride_loop cfg p.block cfg.bctrs
          (take_trigger p.block { w.disk with
            Nants := p.block.BDANANT % 18446744073709551616
            nfiles := p.block.NFILES % 4294967296 })).2 ++ [DiskEvent.set_free]) := by
    unfold write_block
    simp only []
    rw [if_pos hT]
  have hb : (take_trigger p.block { w.disk with
      Nants := p.block.BDANANT % 18446744073709551616
      nfiles := p.block.NFILES % 4294967296 }).bcnts_per_file
      = bcnts_per_file_of p.block := rfl
  by_cases hz : bcnts_per_file_of p.block = 0 ∧ cfg.bctrs ≠ []
  · have hzd : zero_divisor cfg p.block w.disk = some (take_trigger p.block { w.disk with
        Nants := p.block.BDANANT % 18446744073709551616
        nfiles := p.block.NFILES % 4294967296 }) := by
      unfold zero_divisor
      rw [loop_entry_trigger p.block w.disk hT]
      simp only []
      rw [if_pos (by rw [hb]; exact hz)]
    unfold finish_pass
    rw [hzd]
    refine ⟨if_pos hT, rfl, ?_, ?_⟩
    · intro hpos
      exact absurd hz.1 (by omega)
    · intro _ _
      exact ⟨rfl, rfl⟩
  · have hzd : zero_divisor cfg p.block w.disk = none := by
      unfold zero_divisor
      rw [loop_entry_trigger p.block w.disk hT]
      simp only []
      rw [if_neg (by rw [hb]; exact hz)]
    unfold finish_pass
    rw [hzd]
    simp only [hw]
    refine ⟨if_pos hT, ?_, ?_, ?_⟩
    · rw [stride_loop_idle]
      rfl
    · intro _ hfree
      simp [hfree]
    · intro h0 hne
      exact absurd ⟨h0, hne⟩ hz

/-- C21: the idle state of the writer, over whole passes of the main loop (the wait for
the input block, the autocorrelation part, the file-writing part and the end of the
pass).  In a pass whose ring calls succeed, where `TRIGGER` reads 0 and
`file_cnt >= nfiles` or the writer is idle already, the only call of the file-writing
part is `set_free` on the input block (no stride is written, no file opened or closed),
`curblock_in` becomes `(curblock_in + 1) % CATCHER_N_BLOCKS`, `idle` becomes 1, `file_cnt`
stays, `TRIGGER` is not written, and the next pass follows.  Over any further such passes
in which `TRIGGER` reads 0, whatever `NFILES` reads, the writer stays idle: each pass only
sets its block free and moves `curblock_in` on by one.  A pass in which `TRIGGER` reads
nonzero and that gets past the wait and the autocorrelation part, from any state, writes
`TRIGGER = 0`, enters the stride loop with `file_cnt = 0` and `idle = 0`, and leaves
`idle` at 0; with `bcnts_per_file > 0` and `set_free` succeeding it runs the stride loop
and moves on to the next pass, and with `bcnts_per_file = 0` and a stride to write it ends
in the division of line 828 without a call. -/
theorem writer_idle_state (cfg : AutoConfig) (CATCHER_N_BLOCKS : Nat) (w : LoopState)
    (p : PassInput) (hok : ring_ok p) (hT : p.block.TRIGGER % 4294967296 = 0)
    (hidle : w.disk.file_cnt ≥ p.block.NFILES % 4294967296 ∨ w.disk.idle ≠ 0) :
    ((run_pass cfg CATCHER_N_BLOCKS p w).events = [DiskEvent.set_free] ∧
      (run_pass cfg CATCHER_N_BLOCKS p w).state.curblock_in
        = (w.curblock_in + 1) % CATCHER_N_BLOCKS ∧
      (run_pass cfg CATCHER_N_BLOCKS p w).state.disk.idle = 1 ∧
      (run_pass cfg CATCHER_N_BLOCKS p w).state.disk.file_cnt = w.disk.file_cnt ∧
      (run_pass cfg CATCHER_N_BLOCKS p w).TRIGGER = none ∧
      (run_pass cfg CATCHER_N_BLOCKS p w).ending = PassEnd.next) ∧
    (∀ passes : List PassInput,
      (∀ q, q ∈ passes → q.block.TRIGGER % 4294967296 = 0 ∧ ring_ok q) →
      (run_passes cfg CATCHER_N_BLOCKS passes
          (run_pass cfg CATCHER_N_BLOCKS p w).state).events
        = List.replicate passes.length DiskEvent.set_free ∧
      (run_passes cfg CATCHER_N_BLOCKS passes
          (run_pass cfg CATCHER_N_BLOCKS p w).state).state.disk.idle = 1 ∧
      (run_passes cfg CATCHER_N_BLOCKS passes
          (run_pass cfg CATCHER_N_BLOCKS p w).state).state.disk.file_cnt
        = w.disk.file_cnt ∧
      (run_passes cfg CATCHER_N_BLOCKS passes
          (run_pass cfg CATCHER_N_BLOCKS p w).state).state.curblock_in
        = (w.curblock_in + 1 + passes.length) % CATCHER_N_BLOCKS ∧
      (run_passes cfg CATCHER_N_BLOCKS passes
          (run_pass cfg CATCHER_N_BLOCKS p w).state).TRIGGER = none ∧
      (run_passes cfg CATCHER_N_BLOCKS passes
          (run_pass cfg CATCHER_N_BLOCKS p w).state).ending = PassEnd.next) ∧
    (∀ (w2 : LoopState) (p2 : PassInput),
      p2.wait_filled_rv = hashpipe_rv.HASHPIPE_OK →
      p2.busywait_free_rv = hashpipe_rv.HASHPIPE_OK →
      p2.set_filled_rv = hashpipe_rv.HASHPIPE_OK →
      p2.block.TRIGGER % 4294967296 ≠ 0 →
      (run_pass cfg CATCHER_N_BLOCKS p2 w2).TRIGGER = some 0 ∧
      (∃ s1, loop_entry p2.block w2.disk = some s1 ∧ s1.file_cnt = 0 ∧ s1.idle = 0 ∧
        s1.bcnts_per_file = bcnts_per_file_of p2.block) ∧
      (run_pass cfg CATCHER_N_BLOCKS p2 w2).state.disk.idle = 0 ∧
      (0 < bcnts_per_file_of p2.block → p2.set_free_rv = hashpipe_rv.HASHPIPE_OK →
        (run_pass cfg CATCHER_N_BLOCKS p2 w2).ending = PassEnd.next ∧
        (run_pass cfg CATCHER_N_BLOCKS p2 w2).state.curblock_in
          = (w2.curblock_in + 1) % CATCHER_N_BLOCKS ∧
        (run_pass cfg CATCHER_N_BLOCKS p2 w2).state.disk
          = (stride_loop cfg.toWriterConfig p2.block cfg.bctrs
              (take_trigger p2.block { w2.disk with
                Nants := p2.block.BDANANT % 18446744073709551616
                nfiles := p2.block.NFILES % 4294967296 })).1) ∧
      (bcnts_per_file_of p2.block = 0 → cfg.bctrs ≠ [] →
        (run_pass cfg CATCHER_N_BLOCKS p2 w2).ending = PassEnd.division_by_zero ∧
        (run_pass cfg CATCHER_N_BLOCKS p2 w2).events = [])) := by
  obtain ⟨a, ev, _, hpass⟩ := run_pass_idle cfg CATCHER_N_BLOCKS p w hok hT hidle
  refine ⟨?_, ?_, ?_⟩
  · rw [hpass]
    exact ⟨rfl, rfl, rfl, rfl, rfl, rfl⟩
  · intro passes hp
    obtain ⟨i1, i2, i3, i4, i5, i6⟩ := run_passes_idle cfg CATCHER_N_BLOCKS passes
      (run_pass cfg CATCHER_N_BLOCKS p w).state
      (w.curblock_in + 1) (by rw [hpass]) (by rw [hpass]) hp
    refine ⟨i1, i2, ?_, i4, i5, i6⟩
    rw [i3, hpass]
  · intro w2 p2 o1 o2 o3 hT2
    obtain ⟨a2, ev2, ha2⟩ := autocorr_copy_falls_through cfg (auto_of_pass p2 w2) w2.auto
      o2 o3
    have hrun : run_pass cfg CATCHER_N_BLOCKS p2 w2
        = finish_pass cfg.toWriterConfig CATCHER_N_BLOCKS p2 w2 a2 ev2 := by
      unfold run_pass
      rw [if_neg (by rw [o1]; decide), if_neg (by rw [o1]; exact fun hc => hc rfl), ha2]
    rw [hrun]
    obtain ⟨f1, f2, f3, f4⟩ := finish_pass_trigger cfg.toWriterConfig CATCHER_N_BLOCKS
      p2 w2 a2 ev2 hT2
    exact ⟨f1, ⟨_, loop_entry_trigger p2.block w2.disk hT2, rfl, rfl, rfl⟩, f2, f3, f4⟩

theorem writer_idle_state_witness :
    ((run_pass cfgAuto 4 (pass_ok (inp_plain 0 0)) loop_start).events
        = [DiskEvent.set_free] ∧
      (run_pass cfgAuto 4 (pass_ok (inp_plain 0 0)) loop_start).state.curblock_in = 0 ∧
      (run_pass cfgAuto 4 (pass_ok (inp_plain 0 0)) loop_start).state.disk.idle = 1 ∧
      (run_pass cfgAuto 4 (pass_ok (inp_plain 0 0)) loop_start).state.auto.auto_ants_filled
        = 1) ∧
    (run_passes cfgAuto 4 [pass_ok (inp_plain 64 5), pass_ok (inp_plain 128 5)]
        (run_pass cfgAuto 4 (pass_ok (inp_plain 0 0)) loop_start).state).state.disk.idle
      = 1 ∧
    ((run_pass cfgAuto 4 (pass_ok (inp_trigger 0 80 5)) loop_start).TRIGGER = some 0 ∧
      (run_pass cfgAuto 4 (pass_ok (inp_trigger 0 80 5)) loop_start).state.disk.idle = 0 ∧
      (run_pass cfgAuto 4 (pass_ok (inp_trigger 0 80 5)) loop_start).ending
        = PassEnd.next) ∧
    (run_pass cfgAuto 4 (pass_ok (inp_trigger 0 0 5)) loop_start).ending
      = PassEnd.division_by_zero :=
  ⟨⟨(writer_idle_state cfgAuto 4 loop_start (pass_ok (inp_plain 0 0))
        (by decide) (by decide) (by decide)).1.1,
      (writer_idle_state cfgAuto 4 loop_start (pass_ok (inp_plain 0 0))
        (by decide) (by decide) (by decide)).1.2.1,
      (writer_idle_state cfgAuto 4 loop_start (pass_ok (inp_plain 0 0))
        (by decide) (by decide) (by decide)).1.2.2.1,
      by decide⟩,
    ((writer_idle_state cfgAuto 4 loop_start (pass_ok (inp_plain 0 0))
      (by decide) (by decide) (by decide)).2.1 _ (by decide)).2.1,
    ⟨((writer_idle_state cfgAuto 4 loop_start (pass_ok (inp_plain 0 0))
        (by decide) (by decide) (by decide)).2.2 loop_start (pass_ok (inp_trigger 0 80 5))
        rfl rfl rfl (by decide)).1,
      ((writer_idle_state cfgAuto 4 loop_start (pass_ok (inp_plain 0 0))
        (by decide) (by decide) (by decide)).2.2 loop_start (pass_ok (inp_trigger 0 80 5))
        rfl rfl rfl (by decide)).2.2.1,
      (((writer_idle_state cfgAuto 4 loop_start (pass_ok (inp_plain 0 0))
        (by decide) (by decide) (by decide)).2.2 loop_start (pass_ok (inp_trigger 0 80 5))
        rfl rfl rfl (by decide)).2.2.2.1 (by decide) rfl).1⟩,
    (((writer_idle_state cfgAuto 4 loop_start (pass_ok (inp_plain 0 0))
      (by decide) (by decide) (by decide)).2.2 loop_start (pass_ok (inp_trigger 0 0 5))
      rfl rfl rfl (by decide)).2.2.2.2 (by decide) (by decide)).1⟩

/-! ## Theorems: an accepted packet within the window -/

/-- The destination of a packet at one of the expected positions lies within the
`PACKETS_PER_BLOCK * payload_len` bytes that these positions take up in a block. -/
theorem dest_within_block (cfg : NetConfig) (h : packet_header_t) (off : Nat)
    (hoff : off < cfg.PACKETS_PER_BLOCK) :
    dest_byte_offset h off + h.payload_len ≤ cfg.PACKETS_PER_BLOCK * h.payload_len := by
  unfold dest_byte_offset
  have h1 : (h.payload_len * off) % 4294967296 ≤ h.payload_len * off := Nat.mod_le _ _
  have h2 : 4 * ((h.payload_len * off) % 4294967296 / 4) ≤ (h.payload_len * off) % 4294967296 :=
    Nat.mul_div_le _ _
  have h3 : h.payload_len * off + h.payload_len ≤ cfg.PACKETS_PER_BLOCK * h.payload_len := by
    have : (off + 1) * h.payload_len ≤ cfg.PACKETS_PER_BLOCK * h.payload_len :=
      Nat.mul_le_mul_right _ hoff
    nlinarith
  omega

/-- In a consistent initialised state, for a packet at one of the expected positions whose
distance `d` from the anchor satisfies `0 <= d < 2*BASELINES_PER_BLOCK`, `process_packet`
returns `-1`, marks no block filled and leaves `bcnt_start`, `block_i` and `first_bcnt`
unchanged; the packet's block is `binfo.block_i` when `d < BASELINES_PER_BLOCK` and
`(binfo.block_i+1) mod CATCHER_N_BLOCKS` otherwise; a packet that is no duplicate has its
payload copied into that block, within the bytes of the expected positions (its flag
cleared, the block's counter incremented), a duplicate leaves every block as it is, and
no other block changes. -/
theorem in_window_store (cfg : NetConfig) (hwf : cfg.wf) (env : RingEnv) (s : NetState)
    (f : hera_ibv_xeng_pkt) (hs : Consistent cfg s)
    (hin : pkt_offset_of cfg s.binfo.bcnt_start (get_header f) < cfg.PACKETS_PER_BLOCK)
    (h0 : 0 ≤ pkt_bcnt_dist s (get_header f))
    (h2 : pkt_bcnt_dist s (get_header f) < 2 * (cfg.BASELINES_PER_BLOCK : Int)) :
    ∃ s1 ev,
      process_packet cfg env s f = Outcome.returned s1 4294967295 ev ∧
      filled_blocks ev = [] ∧
      s1.binfo.bcnt_start = s.binfo.bcnt_start ∧
      s1.binfo.block_i = s.binfo.block_i ∧
      s1.first_bcnt = s.first_bcnt ∧
      block_for_bcnt cfg s.first_bcnt (get_header f).bcnt
        = (if pkt_bcnt_dist s (get_header f) < (cfg.BASELINES_PER_BLOCK : Int)
            then s.binfo.block_i else (s.binfo.block_i + 1) % cfg.CATCHER_N_BLOCKS) ∧
      dest_byte_offset (get_header f) (pkt_offset_of cfg s.binfo.bcnt_start (get_header f))
          + (get_header f).payload_len
        ≤ cfg.PACKETS_PER_BLOCK * (get_header f).payload_len ∧
      (s.binfo.flags (block_for_bcnt cfg s.first_bcnt (get_header f).bcnt)
          (pkt_offset_of cfg s.binfo.bcnt_start (get_header f)) ≠ 0 →
        (s1.db (block_for_bcnt cfg s.first_bcnt (get_header f).bcnt)).data
          = memcpy_payload (s.db (block_for_bcnt cfg s.first_bcnt (get_header f).bcnt)).data
              f.payload
              (dest_byte_offset (get_header f)
                (pkt_offset_of cfg s.binfo.bcnt_start (get_header f)))
              (get_header f).payload_len ∧
        s1.binfo.flags (block_for_bcnt cfg s.first_bcnt (get_header f).bcnt)
          (pkt_offset_of cfg s.binfo.bcnt_start (get_header f)) = 0 ∧
        s1.binfo.block_packet_counter (block_for_bcnt cfg s.first_bcnt (get_header f).bcnt)
          = s.binfo.block_packet_counter
              (block_for_bcnt cfg s.first_bcnt (get_header f).bcnt) + 1) ∧
      (s.binfo.flags (block_for_bcnt cfg s.first_bcnt (get_header f).bcnt)
          (pkt_offset_of cfg s.binfo.bcnt_start (get_header f)) = 0 →
        s1.db = s.db ∧ s1.binfo.flags = s.binfo.flags ∧
        s1.binfo.block_packet_counter = s.binfo.block_packet_counter) ∧
      (∀ i, i ≠ block_for_bcnt cfg s.first_bcnt (get_header f).bcnt → s1.db i = s.db i) := by
  have hblock : block_for_bcnt cfg s.first_bcnt (get_header f).bcnt
      = (if pkt_bcnt_dist s (get_header f) < (cfg.BASELINES_PER_BLOCK : Int)
          then s.binfo.block_i else (s.binfo.block_i + 1) % cfg.CATCHER_N_BLOCKS) := by
    by_cases hq : pkt_bcnt_dist s (get_header f) < (cfg.BASELINES_PER_BLOCK : Int)
    · rw [if_pos hq]
      obtain ⟨hpb, -⟩ := packet_block cfg hwf s hs (get_header f) 0
        (by push_cast; omega) (by push_cast; omega)
      rw [hpb, Nat.add_zero, Nat.mod_eq_of_lt hs.2.2.1]
    · rw [if_neg hq]
      exact (packet_block cfg hwf s hs (get_header f) 1
        (by push_cast; omega) (by push_cast; omega)).1
  have hdest := dest_within_block cfg (get_header f) _ hin
  rw [process_packet_in_window cfg env s f hs.1 h0 h2]
  unfold store_packet
  by_cases hdup : s.binfo.flags (block_for_bcnt cfg s.first_bcnt (get_header f).bcnt)
      (pkt_offset_of cfg s.binfo.bcnt_start (get_header f)) = 0
  · rw [if_pos hdup]
    refine ⟨_, _, rfl, by simp [filled_blocks], rfl, rfl, rfl, hblock, hdest,
      fun h => absurd hdup h, fun _ => ⟨rfl, rfl, rfl⟩, fun _ _ => rfl⟩
  · rw [if_neg hdup]
    refine ⟨_, _, rfl, rfl, rfl, rfl, rfl, hblock, hdest, fun _ => ⟨?_, ?_, ?_⟩,
      fun h => absurd h hdup, (place_payload_db cfg s f _ _).2.2⟩
    · exact (place_payload_db cfg s f _ _).1
    · rw [place_payload_flags, set_cell_same]
    · rw [place_payload_counter, Function.update_same]

/-- The packet with `bcnt = 105` and `pkt_offset = 15` after a first packet at
`bcnt = 100`: it is stored in block 1. -/
theorem in_window_store_example :
    ∃ s1 ev,
      process_packet cfgNet envOK s_100 (mk_frame 105 2 1 1)
        = Outcome.returned s1 4294967295 ev ∧
      filled_blocks ev = [] ∧
      s1.binfo.bcnt_start = 100 ∧
      s1.binfo.block_i = 0 ∧
      s1.first_bcnt = 100 ∧
      block_for_bcnt cfgNet 100 105 = 1 ∧
      (s1.db 1).data 123 = 4 ∧
      s1.binfo.flags 1 15 = 0 ∧
      s1.binfo.block_packet_counter 1 = 1 :=
  let ⟨s1, ev, h⟩ := in_window_store cfgNet (by decide) envOK s_100 (mk_frame 105 2 1 1)
    (by decide) (by decide) (by decide) (by decide)
  ⟨s1, ev, h.1, h.2.1, h.2.2.1, h.2.2.2.1, h.2.2.2.2.1, h.2.2.2.2.2.1,
    (congrFun (h.2.2.2.2.2.2.2.1 (by decide)).1 123).trans (by decide),
    (h.2.2.2.2.2.2.2.1 (by decide)).2.1, (h.2.2.2.2.2.2.2.1 (by decide)).2.2⟩

/-- C4, the code at the failing input: nothing in lines 480-499 compares `pkt_offset`
with `PACKETS_PER_BLOCK`.  With `PACKETS_PER_BLOCK = 32` in a ring of 4 blocks, in the
initialised state after a first packet at `bcnt = 100`, a packet with `bcnt = 100`
(distance 0 from the anchor, block `binfo.block_i = 0`) whose header carries
`offset = 40` reaches the part that stores an accepted packet with `pkt_offset = 40`,
which is none of the 32 expected positions: the flag it tests and clears,
`binfo.flags[0][40]`, is the cell `binfo.flags[1][8]` of the row of block 1, and its 8
payload bytes go to the bytes from 320 on of the payload of block 0, beyond the
`32 * 8 = 256` bytes that the expected positions of the block take up. -/
theorem in_window_offset_unchecked :
    Consistent cfgNet s_100 ∧
    pkt_bcnt_dist s_100 (get_header (mk_frame 100 0 40 0)) = 0 ∧
    s_100.binfo.block_i = 0 ∧
    block_for_bcnt cfgNet s_100.first_bcnt (get_header (mk_frame 100 0 40 0)).bcnt = 0 ∧
    process_packet cfgNet envOK s_100 (mk_frame 100 0 40 0)
      = store_packet cfgNet s_100 (mk_frame 100 0 40 0) (get_header (mk_frame 100 0 40 0))
          (block_for_bcnt cfgNet s_100.first_bcnt (get_header (mk_frame 100 0 40 0)).bcnt)
          4294967295 [] ∧
    pkt_offset_of cfgNet s_100.binfo.bcnt_start (get_header (mk_frame 100 0 40 0)) = 40 ∧
    cfgNet.PACKETS_PER_BLOCK = 32 ∧
    ¬ in_range cfgNet (mk_frame 100 0 40 0) ∧
    flag_index cfgNet 0 40 = flag_index cfgNet 1 8 ∧
    flag_index cfgNet 1 8 < cfgNet.flags_len ∧
    dest_byte_offset (get_header (mk_frame 100 0 40 0)) 40 = 320 ∧
    cfgNet.PACKETS_PER_BLOCK * (get_header (mk_frame 100 0 40 0)).payload_len = 256 :=
  ⟨by decide, by decide, by decide, by decide,
    process_packet_in_window cfgNet envOK s_100 (mk_frame 100 0 40 0) (by decide)
      (by decide) (by decide),
    by decide, by decide, by decide, by decide, by decide, by decide, by decide⟩

/-! ## Theorems: the packets observed for a block -/

theorem observed_flag_congr (cfg : NetConfig) (k : Nat) (L1 L2 : List (Nat × Nat))
    (h : ∀ j, j < cfg.PACKETS_PER_BLOCK → ((k, j) ∈ L1 ↔ (k, j) ∈ L2)) :
    observed_flag cfg k L1 = observed_flag cfg k L2 := by
  unfold observed_flag
  exact if_congr ⟨fun h1 j hj => (h j hj).mp (h1 j hj), fun h1 j hj => (h j hj).mpr (h1 j hj)⟩
    rfl rfl

theorem fill_flags_append (l1 l2 : List NetEvent) :
    fill_flags (l1 ++ l2) = fill_flags l1 ++ fill_flags l2 := by
  unfold fill_flags
  rw [fills_append, List.map_append]

theorem window_inv_congr (cfg : NetConfig) (B0 K a : Nat) (P Q : List (Nat × Nat))
    (s : NetState) (h : ∀ p, p ∈ P ↔ p ∈ Q) (hinv : WindowInv cfg B0 K a P s) :
    WindowInv cfg B0 K a Q s := by
  obtain ⟨hc, hbs, haK, hcur, hnxt, hmax⟩ := hinv
  exact ⟨hc, hbs, haK, fun j hj => (hcur j hj).trans (h _),
    fun j hj => (hnxt j hj).trans (h _), fun p hp => hmax p ((h p).mpr hp)⟩

/-- A packet of the current or the next block at a position that has had a packet
already: it is dropped as a repeat, and flags, counters and blocks stay as they are. -/
theorem window_inv_repeat (cfg : NetConfig) (hwf : cfg.wf) (hnb : 2 ≤ cfg.CATCHER_N_BLOCKS)
    (B0 K a : Nat) (P : List (Nat × Nat)) (s : NetState) (env : RingEnv)
    (f : hera_ibv_xeng_pkt) (q : Nat) (hq : q < 2)
    (hinv : WindowInv cfg B0 K a P s) (hin : in_range cfg f)
    (hlo : B0 + a * cfg.BASELINES_PER_BLOCK + q * cfg.BASELINES_PER_BLOCK
      ≤ (get_header f).bcnt)
    (hhi : (get_header f).bcnt
      < B0 + a * cfg.BASELINES_PER_BLOCK + (q + 1) * cfg.BASELINES_PER_BLOCK)
    (h3 : 3 * cfg.BASELINES_PER_BLOCK ≤ 2147483648)
    (hold : (a + q, pkt_offset_of cfg 0 (get_header f)) ∈ P) :
    ∃ s1, process_packet cfg env s f
        = Outcome.returned s1 4294967295 [NetEvent.msg_packet_repeated] ∧
      s1.binfo.block_i = s.binfo.block_i ∧ s1.db = s.db ∧
      WindowInv cfg B0 K a P s1 := by
  have hinv0 := hinv
  obtain ⟨hc, hbs, haK, hcur, hnxt, hmax⟩ := hinv
  have hbi := hc.1.2.2.1
  have hd := window_dist cfg s (get_header f) _ q hbs hlo hhi (get_header_bcnt_lt f)
    (le_trans (Nat.mul_le_mul_right _ (by omega)) h3)
  have hoff := pkt_offset_of_anchor cfg hwf _ (get_header f) hc.1.2.2.2.1
  have hflag : s.binfo.flags ((s.binfo.block_i + q) % cfg.CATCHER_N_BLOCKS)
      (pkt_offset_of cfg 0 (get_header f)) = 0 := by
    rcases (by omega : q = 0 ∨ q = 1) with rfl | rfl
    · rw [Nat.add_zero, Nat.mod_eq_of_lt hbi]
      exact (hcur _ hin).mpr hold
    · exact (hnxt _ hin).mpr hold
  obtain ⟨hpb, -⟩ := packet_block cfg hwf s hc.1 (get_header f) q hd.1 hd.2
  have h0 : 0 ≤ pkt_bcnt_dist s (get_header f) := le_trans (Int.natCast_nonneg _) hd.1
  have h2 : pkt_bcnt_dist s (get_header f) < 2 * (cfg.BASELINES_PER_BLOCK : Int) := by
    have : (q + 1) * cfg.BASELINES_PER_BLOCK ≤ 2 * cfg.BASELINES_PER_BLOCK :=
      Nat.mul_le_mul_right _ (by omega)
    have h4 : (((q + 1) * cfg.BASELINES_PER_BLOCK : Nat) : Int)
        ≤ ((2 * cfg.BASELINES_PER_BLOCK : Nat) : Int) := by exact_mod_cast this
    have h5 := hd.2
    push_cast at h4 h5 ⊢
    omega
  have hpp : process_packet cfg env s f
      = Outcome.returned
          { s with binfo := { s.binfo with out_of_seq_cnt := s.binfo.out_of_seq_cnt + 1 } }
          4294967295 [NetEvent.msg_packet_repeated] := by
    rw [process_packet_in_window cfg env s f hc.1.1 h0 h2, hpb]
    unfold store_packet
    rw [hoff, if_pos hflag]
    rfl
  have hcnt := process_packet_counted cfg hwf hnb env s _ f _ _ hc hin hpp
  exact ⟨_, hpp, rfl, rfl, hcnt, hbs, haK, hcur, hnxt, hmax⟩

/-- A packet two blocks ahead of the anchor: the current block is marked filled, with
`good_data = 1` exactly when every one of its positions has had a packet, the packet is
copied, and the window invariant holds one block further with this packet added. -/
theorem window_inv_advance_any (cfg : NetConfig) (hwf : cfg.wf)
    (hnb : 2 ≤ cfg.CATCHER_N_BLOCKS)
    (B0 K a : Nat) (P : List (Nat × Nat)) (s : NetState) (env : RingEnv)
    (f : hera_ibv_xeng_pkt)
    (hinv : WindowInv cfg B0 K a P s) (hin : in_range cfg f)
    (hok1 : env.set_filled_rv = hashpipe_rv.HASHPIPE_OK)
    (hok2 : env.busywait_free_rv = hashpipe_rv.HASHPIPE_OK)
    (hlo : B0 + a * cfg.BASELINES_PER_BLOCK + 2 * cfg.BASELINES_PER_BLOCK
      ≤ (get_header f).bcnt)
    (hhi : (get_header f).bcnt
      < B0 + a * cfg.BASELINES_PER_BLOCK + (2 + 1) * cfg.BASELINES_PER_BLOCK)
    (h3 : 3 * cfg.BASELINES_PER_BLOCK ≤ 2147483648)
    (hK : (get_header f).bcnt < B0 + K * cfg.BASELINES_PER_BLOCK) :
    ∃ s1 r ev,
      process_packet cfg env s f = Outcome.returned s1 r ev ∧
      fills ev = [(s.binfo.block_i, (s.db s.binfo.block_i).header.bcnt 0,
        observed_flag cfg a P)] ∧
      s1.binfo.block_i = (s.binfo.block_i + 1) % cfg.CATCHER_N_BLOCKS ∧
      WindowInv cfg B0 K (a + 1) ((a + 2, pkt_offset_of cfg 0 (get_header f)) :: P) s1 := by
  obtain ⟨hc, hbs, haK, hcur, hnxt, hmax⟩ := hinv
  have hbi := hc.1.2.2.1
  have h32 := get_header_bcnt_lt f
  have hd := window_dist cfg s (get_header f) _ 2 hbs hlo hhi h32 (by omega)
  have hd2 : 2 * (cfg.BASELINES_PER_BLOCK : Int) ≤ pkt_bcnt_dist s (get_header f) := by
    have := hd.1; push_cast at this; exact this
  have hd3 : pkt_bcnt_dist s (get_header f) < 3 * (cfg.BASELINES_PER_BLOCK : Int) := by
    have := hd.2; push_cast at this; omega
  obtain ⟨hpb, -⟩ := packet_block cfg hwf s hc.1 (get_header f) 2 hd.1 hd.2
  obtain ⟨sa, eva, hadv, hbin, -⟩ :=
    advance_block_ok cfg env s (block_for_bcnt cfg s.first_bcnt (get_header f).bcnt) hok1 hok2
  rw [hpb] at hadv hbin
  have hbsa : sa.binfo.bcnt_start = B0 + (a + 1) * cfg.BASELINES_PER_BLOCK := by
    rw [hbin]
    show (s.binfo.bcnt_start + cfg.BASELINES_PER_BLOCK) % 4294967296 = _
    rw [hbs, Nat.add_mul, Nat.one_mul, Nat.mod_eq_of_lt (by omega)]
    omega
  have hdvd : cfg.BASELINES_PER_BLOCK ∣ sa.binfo.bcnt_start := by
    rw [hbsa]
    have h0 := hc.1.2.2.2.1
    rw [hbs] at h0
    rw [Nat.add_mul, Nat.one_mul, ← Nat.add_assoc]
    exact Dvd.dvd.add h0 (dvd_refl _)
  have hoff := pkt_offset_of_anchor cfg hwf _ (get_header f) hdvd
  have hflag : sa.binfo.flags ((s.binfo.block_i + 2) % cfg.CATCHER_N_BLOCKS)
      (pkt_offset_of cfg sa.binfo.bcnt_start (get_header f)) ≠ 0 := by
    rw [hoff, hbin]
    have hin2 : pkt_offset_of cfg 0 (get_header f) < cfg.PACKETS_PER_BLOCK := hin
    simp [reset_block_counters, memset_row, hin2]
  have hpp : process_packet cfg env s f
      = Outcome.returned (place_payload cfg sa f (get_header f)
          ((s.binfo.block_i + 2) % cfg.CATCHER_N_BLOCKS))
          ((s.db (block_for_bcnt cfg s.first_bcnt s.binfo.bcnt_start)).header.bcnt 0
            % 4294967296) ([] ++ eva) := by
    rw [process_packet_advance cfg env s f hc.1.1 hd2 hd3, hpb, hadv]
    simp only [store_packet]
    rw [if_neg hflag]
  have hiff := counter_full_iff cfg s.binfo s.binfo.block_i (hc.2.1 _ hbi)
  have hflag_eq : (if s.binfo.block_packet_counter s.binfo.block_i = cfg.PACKETS_PER_BLOCK
      then 1 else 0) = observed_flag cfg a P := by
    unfold observed_flag
    exact if_congr (hiff.trans ⟨fun h j hj => (hcur j hj).mp (h j hj),
      fun h j hj => (hcur j hj).mpr (h j hj)⟩) rfl rfl
  have hfl := process_packet_fills cfg env s f hc.1
  rw [if_pos ⟨hd2, hd3⟩, hc.2.2.1, hflag_eq, hpp] at hfl
  have hcnt := process_packet_counted cfg hwf hnb env s _ f _ _ hc hin hpp
  have hne1 := succ_mod_ne cfg.CATCHER_N_BLOCKS _ hnb
    (Nat.mod_lt (s.binfo.block_i + 1) hwf.2.1)
  rw [succ_mod_succ] at hne1
  have hsab : sa.binfo.block_i = (s.binfo.block_i + 1) % cfg.CATCHER_N_BLOCKS := by
    rw [hbin]; rfl
  have hsaf : ∀ i j, sa.binfo.flags i j
      = if i = (s.binfo.block_i + 2) % cfg.CATCHER_N_BLOCKS ∧ j < cfg.PACKETS_PER_BLOCK
        then 1 else s.binfo.flags i j := by
    intro i j
    rw [hbin]
    rfl
  refine ⟨_, _, _, hpp, hfl, by rw [place_payload_block_i]; exact hsab,
    hcnt, ?_, ?_, ?_, ?_, ?_⟩
  · rw [place_payload_bcnt_start]; exact hbsa
  · exact advance_arith cfg.BASELINES_PER_BLOCK K a (by omega)
  · intro j hj
    rw [place_payload_block_i, place_payload_flag_iff, hsab, hsaf, hoff, List.mem_cons,
      if_neg (fun h => hne1 h.1.symm), hnxt j hj]
    constructor
    · rintro (⟨h1, -⟩ | h)
      · exact absurd h1.symm hne1
      · exact Or.inr h
    · rintro (h | h)
      · exact absurd (congrArg Prod.fst h) (by simp)
      · exact Or.inr h
  · intro j hj
    rw [place_payload_block_i, place_payload_flag_iff, hsab, succ_mod_succ, hsaf, hoff,
      List.mem_cons, if_pos ⟨rfl, hj⟩]
    constructor
    · rintro (⟨-, h⟩ | h)
      · left; rw [h]
      · exact absurd h (by norm_num)
    · rintro (h | h)
      · left; exact ⟨rfl, congrArg Prod.snd h⟩
      · have := hmax _ h
        simp at this
  · intro p hp
    rcases List.mem_cons.mp hp with rfl | hp
    · show a + 2 ≤ a + 1 + 1
      omega
    · have := hmax p hp
      omega

/-- One packet of the run inside the window, whether or not its position has had a packet
before and whether or not the current block is complete. -/
theorem window_inv_step_any (cfg : NetConfig) (hwf : cfg.wf)
    (hnb : 2 ≤ cfg.CATCHER_N_BLOCKS)
    (B0 K a : Nat) (P : List (Nat × Nat)) (s : NetState) (env : RingEnv)
    (f : hera_ibv_xeng_pkt)
    (hinv : WindowInv cfg B0 K a P s) (hin : in_range cfg f)
    (hok1 : env.set_filled_rv = hashpipe_rv.HASHPIPE_OK)
    (hok2 : env.busywait_free_rv = hashpipe_rv.HASHPIPE_OK)
    (hlo : B0 ≤ (get_header f).bcnt)
    (hK : (get_header f).bcnt < B0 + K * cfg.BASELINES_PER_BLOCK)
    (h3 : 3 * cfg.BASELINES_PER_BLOCK ≤ 2147483648)
    (hb1 : a ≤ blk_of cfg B0 f) (hb2 : blk_of cfg B0 f ≤ a + 2) :
    ∃ s1 r ev,
      process_packet cfg env s f = Outcome.returned s1 r ev ∧
      fill_flags ev = (if blk_of cfg B0 f = a + 2
        then [(s.binfo.block_i, observed_flag cfg a P)] else []) ∧
      s1.binfo.block_i = (if blk_of cfg B0 f = a + 2
        then (s.binfo.block_i + 1) % cfg.CATCHER_N_BLOCKS else s.binfo.block_i) ∧
      WindowInv cfg B0 K (if blk_of cfg B0 f = a + 2 then a + 1 else a)
        (pkt_key cfg B0 (env, f) :: P) s1 := by
  obtain ⟨hbl, hbh⟩ := blk_bounds cfg hwf.1 B0 f hlo
  unfold pkt_key
  simp only []
  by_cases h2 : blk_of cfg B0 f = a + 2
  · rw [h2] at hbl hbh ⊢
    rw [if_pos rfl, if_pos rfl, if_pos rfl]
    rw [Nat.add_mul] at hbl
    have hbh2 : (get_header f).bcnt
        < B0 + a * cfg.BASELINES_PER_BLOCK + (2 + 1) * cfg.BASELINES_PER_BLOCK := by
      have e : (a + 2 + 1) * cfg.BASELINES_PER_BLOCK
          = a * cfg.BASELINES_PER_BLOCK + (2 + 1) * cfg.BASELINES_PER_BLOCK := by ring
      omega
    obtain ⟨s1, r, ev, hpp, hfl, hbi1, hinv2⟩ :=
      window_inv_advance_any cfg hwf hnb B0 K a P s env f hinv hin hok1 hok2 (by omega) hbh2
        h3 hK
    refine ⟨s1, r, ev, hpp, ?_, hbi1, hinv2⟩
    unfold fill_flags
    rw [hfl]
    rfl
  · rw [if_neg h2, if_neg h2, if_neg h2]
    obtain ⟨q, hq, hq2⟩ : ∃ q, blk_of cfg B0 f = a + q ∧ q < 2 :=
      ⟨blk_of cfg B0 f - a, by omega, by omega⟩
    rw [hq] at hbl hbh ⊢
    have e1 : (a + q) * cfg.BASELINES_PER_BLOCK
        = a * cfg.BASELINES_PER_BLOCK + q * cfg.BASELINES_PER_BLOCK := by ring
    have e2 : (a + q + 1) * cfg.BASELINES_PER_BLOCK
        = a * cfg.BASELINES_PER_BLOCK + (q + 1) * cfg.BASELINES_PER_BLOCK := by ring
    by_cases hnew : (a + q, pkt_offset_of cfg 0 (get_header f)) ∈ P
    · obtain ⟨s1, hpp, hbi1, -, hinv2⟩ := window_inv_repeat cfg hwf hnb B0 K a P s env f q hq2
        hinv hin (by omega) (by omega) h3 hnew
      refine ⟨s1, _, _, hpp, rfl, hbi1, ?_⟩
      refine window_inv_congr cfg B0 K a P _ s1 (fun p => ?_) hinv2
      rw [List.mem_cons]
      constructor
      · exact fun h => Or.inr h
      · rintro (h | h)
        · rw [h]; exact hnew
        · exact h
    · obtain ⟨hpp, -, hinv2⟩ := window_inv_store cfg hwf hnb B0 K a P s env f q hq2 hinv hin
        (by omega) (by omega) h3 hnew
      exact ⟨_, _, _, hpp, rfl, place_payload_block_i cfg s f _ _, hinv2⟩

/-- The run of `process_packet` over packets that arrive in window order, some of them
more than once, some expected ones never: the blocks over which the anchor moves are
marked filled one after the other, each with `good_data = 1` exactly when every one of
its positions is among the packets that have arrived. -/
theorem run_window_any (cfg : NetConfig) (hwf : cfg.wf) (hnb : 2 ≤ cfg.CATCHER_N_BLOCKS)
    (B0 K : Nat) (h3 : 3 * cfg.BASELINES_PER_BLOCK ≤ 2147483648)
    (rest : List (RingEnv × hera_ibv_xeng_pkt)) (a : Nat) (P : List (Nat × Nat))
    (s : NetState) (hinv : WindowInv cfg B0 K a P s)
    (hbi : s.binfo.block_i = a % cfg.CATCHER_N_BLOCKS)
    (hok : ∀ x, x ∈ rest → x.1.set_filled_rv = hashpipe_rv.HASHPIPE_OK ∧
      x.1.busywait_free_rv = hashpipe_rv.HASHPIPE_OK)
    (hin : ∀ x, x ∈ rest → in_range cfg x.2 ∧ B0 ≤ (get_header x.2).bcnt ∧
      (get_header x.2).bcnt < B0 + K * cfg.BASELINES_PER_BLOCK)
    (hord : window_order a (rest.map (fun x => blk_of cfg B0 x.2))) :
    (run_packets cfg s rest).exited = false ∧
    fill_flags (run_packets cfg s rest).events
      = (List.range' a
          (Feng.anchor_after a (rest.map (fun x => blk_of cfg B0 x.2)) - a)).map
        (fun k => (k % cfg.CATCHER_N_BLOCKS,
          observed_flag cfg k (P ++ rest.map (pkt_key cfg B0)))) := by
  induction rest generalizing a P s with
  | nil =>
    refine ⟨rfl, ?_⟩
    simp [Feng.anchor_after, run_packets, fill_flags, fills]
  | cons x tail ih =>
    obtain ⟨env, f⟩ := x
    have hin0 : in_range cfg f ∧ B0 ≤ (get_header f).bcnt ∧
        (get_header f).bcnt < B0 + K * cfg.BASELINES_PER_BLOCK :=
      hin (env, f) (List.mem_cons_self _ _)
    have hok0 : env.set_filled_rv = hashpipe_rv.HASHPIPE_OK ∧
        env.busywait_free_rv = hashpipe_rv.HASHPIPE_OK :=
      hok (env, f) (List.mem_cons_self _ _)
    obtain ⟨hi1, hi2, hi3⟩ := hin0
    obtain ⟨hk1, hk2⟩ := hok0
    rw [List.map_cons] at hord
    have hord0 : a ≤ blk_of cfg B0 f ∧ blk_of cfg B0 f ≤ a + 2 ∧
        window_order (if blk_of cfg B0 f = a + 2 then a + 1 else a)
          (tail.map (fun x => blk_of cfg B0 x.2)) := hord
    obtain ⟨ho1, ho2, ho3⟩ := hord0
    obtain ⟨s1, r, ev, hpp, hfl, hbi1, hinv1⟩ :=
      window_inv_step_any cfg hwf hnb B0 K a P s env f hinv hi1 hk1 hk2 hi2 hi3 h3 ho1 ho2
    have hanch : Feng.anchor_after a (((env, f) :: tail).map (fun x => blk_of cfg B0 x.2))
        = Feng.anchor_after (if blk_of cfg B0 f = a + 2 then a + 1 else a)
            (tail.map (fun x => blk_of cfg B0 x.2)) := rfl
    have hkeys : ∀ k, observed_flag cfg k ((pkt_key cfg B0 (env, f) :: P)
          ++ tail.map (pkt_key cfg B0))
        = observed_flag cfg k (P ++ ((env, f) :: tail).map (pkt_key cfg B0)) := by
      intro k
      apply observed_flag_congr
      intro j _
      simp only [List.mem_append, List.mem_cons, List.map_cons]
      tauto
    rw [run_packets_cons cfg s s1 env f tail r ev hpp, hanch]
    simp only [fill_flags_append, hfl]
    by_cases h2 : blk_of cfg B0 f = a + 2
    · rw [if_pos h2] at hbi1 hinv1 ho3 ⊢
      rw [if_pos h2]
      obtain ⟨r1, r2⟩ := ih (a + 1) _ s1 hinv1
        (by rw [hbi1, hbi]; exact Nat.mod_add_mod _ _ _)
        (fun y hy => hok y (List.mem_cons_of_mem _ hy))
        (fun y hy => hin y (List.mem_cons_of_mem _ hy)) ho3
      refine ⟨r1, ?_⟩
      have hge := feng_anchor_after_ge (tail.map (fun x => blk_of cfg B0 x.2)) (a + 1)
      have hn : Feng.anchor_after (a + 1) (tail.map (fun x => blk_of cfg B0 x.2)) - a
          = (Feng.anchor_after (a + 1) (tail.map (fun x => blk_of cfg B0 x.2)) - (a + 1))
            + 1 := by omega
      rw [hn, List.range'_succ, List.map_cons, r2, hbi]
      simp only [List.singleton_append, hkeys]
      congr 2
      apply observed_flag_congr
      intro j _
      constructor
      · exact fun h => List.mem_append_left _ h
      · intro h
        rcases List.mem_append.mp h with h | h
        · exact h
        · exfalso
          rw [List.map_cons, List.mem_cons] at h
          rcases h with h | h
          · have := congrArg Prod.fst h
            simp only [pkt_key] at this
            omega
          · obtain ⟨y, hy, hyk⟩ := List.mem_map.mp h
            have := window_order_ge _ _ ho3 (blk_of cfg B0 y.2)
              (List.mem_map.mpr ⟨y, hy, rfl⟩)
            have h5 := congrArg Prod.fst hyk
            simp only [pkt_key] at h5
            omega
    · rw [if_neg h2] at hbi1 hinv1 ho3 ⊢
      rw [if_neg h2]
      obtain ⟨r1, r2⟩ := ih a _ s1 hinv1 (by rw [hbi1, hbi])
        (fun y hy => hok y (List.mem_cons_of_mem _ hy))
        (fun y hy => hin y (List.mem_cons_of_mem _ hy)) ho3
      refine ⟨r1, ?_⟩
      rw [r2]
      simp only [List.nil_append, hkeys]

/-- C6 (as amended): when the packets of a run arrive in an order that stays in the window
of `process_packet` - the first packet belongs to the first block, and every later packet
belongs to the current block or one of the two blocks after it, the current block moving
on by one with each packet that lies two blocks ahead - each at one of the
`PACKETS_PER_BLOCK` expected positions, the ring calls succeeding, then the thread does
not exit, the blocks it marks filled are the blocks over which the anchor has moved, in
order, and block `k` of the run is handed over with `good_data = 1` if every one of its
`PACKETS_PER_BLOCK` expected positions is among the packets of the run, whether once or
several times, and with `good_data = 0` if one of them is not. -/
theorem good_data_iff_observed (cfg : NetConfig) (hwf : cfg.wf)
    (hnb : 2 ≤ cfg.CATCHER_N_BLOCKS)
    (db : Nat → hera_catcher_bda_input_block_t) (st : net_status_t) (B0 : Nat)
    (first : RingEnv × hera_ibv_xeng_pkt) (rest : List (RingEnv × hera_ibv_xeng_pkt))
    (hdvd : cfg.BASELINES_PER_BLOCK ∣ B0)
    (h3 : 3 * cfg.BASELINES_PER_BLOCK ≤ 2147483648)
    (hok : ∀ x, x ∈ first :: rest → x.1.set_filled_rv = hashpipe_rv.HASHPIPE_OK ∧
      x.1.busywait_free_rv = hashpipe_rv.HASHPIPE_OK)
    (hin : ∀ x, x ∈ first :: rest → in_range cfg x.2 ∧ B0 ≤ (get_header x.2).bcnt)
    (hfirst : blk_of cfg B0 first.2 = 0)
    (hord : window_order 0 (rest.map (fun x => blk_of cfg B0 x.2))) :
    (run_packets cfg (start_state db st) (first :: rest)).exited = false ∧
    fill_flags (run_packets cfg (start_state db st) (first :: rest)).events
      = (List.range (Feng.anchor_after 0 (rest.map (fun x => blk_of cfg B0 x.2)))).map
        (fun k => (k % cfg.CATCHER_N_BLOCKS,
          observed_flag cfg k ((first :: rest).map (pkt_key cfg B0)))) := by
  obtain ⟨env, f⟩ := first
  have hK : ∀ x : RingEnv × hera_ibv_xeng_pkt,
      (get_header x.2).bcnt < B0 + 4294967296 * cfg.BASELINES_PER_BLOCK := by
    intro x
    have h1 := get_header_bcnt_lt x.2
    have h2 : 4294967296 * 1 ≤ 4294967296 * cfg.BASELINES_PER_BLOCK :=
      Nat.mul_le_mul_left _ hwf.1
    omega
  have hin0 : in_range cfg f ∧ B0 ≤ (get_header f).bcnt := hin (env, f) (List.mem_cons_self _ _)
  have hok0 : env.set_filled_rv = hashpipe_rv.HASHPIPE_OK ∧
      env.busywait_free_rv = hashpipe_rv.HASHPIPE_OK :=
    hok (env, f) (List.mem_cons_self _ _)
  have hfirst0 : blk_of cfg B0 f = 0 := hfirst
  obtain ⟨hi1, hi2⟩ := hin0
  obtain ⟨hk1, hk2⟩ := hok0
  have hinv0 := window_inv_start cfg hwf hnb B0 4294967296 (start_state db st) f rfl hdvd
    hi2 hfirst0
  obtain ⟨-, -, -, hbi0, -⟩ :=
    lazy_init_consistent cfg hwf (start_state db st) (get_header f) (get_header_bcnt_lt f) rfl
  obtain ⟨s1, r, ev, hpp, hfl, hbi1, hinv1⟩ :=
    window_inv_step_any cfg hwf hnb B0 4294967296 0 [] _ env f hinv0 hi1 hk1 hk2 hi2
      (hK (env, f)) h3 (by omega) (by omega)
  rw [if_neg (by omega)] at hfl hbi1 hinv1
  have hpp0 : process_packet cfg env (start_state db st) f
      = Outcome.returned s1 r
          ((lazy_init cfg (start_state db st) (get_header f)).2 ++ ev) := by
    rw [process_packet_prepend, hpp]
    rfl
  obtain ⟨r1, r2⟩ := run_window_any cfg hwf hnb B0 4294967296 h3 rest 0
    [pkt_key cfg B0 (env, f)] s1 hinv1 (by rw [hbi1, hbi0, Nat.zero_mod])
    (fun y hy => hok y (List.mem_cons_of_mem _ hy))
    (fun y hy => ⟨(hin y (List.mem_cons_of_mem _ hy)).1,
      (hin y (List.mem_cons_of_mem _ hy)).2, hK y⟩) hord
  rw [run_packets_cons cfg _ _ env f rest r _ hpp0]
  refine ⟨r1, ?_⟩
  simp only [fill_flags_append, hfl, r2]
  have hl : fill_flags (lazy_init cfg (start_state db st) (get_header f)).2 = [] := by
    unfold fill_flags
    rw [lazy_init_fills]
    rfl
  rw [hl, List.nil_append, List.nil_append, Nat.sub_zero, List.range_eq_range']
  rfl

theorem good_data_iff_observed_witness :
    (fill_flags (run_packets cfgDuo s_start ((envOK, mk_frame 100 0 0 0) :: duo_repeat)).events
        = [(0, 1)] ∧
      ((((envOK, mk_frame 100 0 0 0) :: duo_repeat).map (pkt_key cfgDuo 100)).count (0, 1)
        = 2)) ∧
    fill_flags (run_packets cfgDuo s_start ((envOK, mk_frame 100 0 0 0) :: duo_short)).events
      = [(0, 0)] :=
  ⟨⟨(good_data_iff_observed cfgDuo (by decide) (by decide) (fun _ => block_zero) status_zero
      100 (envOK, mk_frame 100 0 0 0) duo_repeat (by decide) (by decide) (by decide)
      (by decide) (by decide) (by decide)).2.trans (by decide), by decide⟩,
    (good_data_iff_observed cfgDuo (by decide) (by decide) (fun _ => block_zero) status_zero
      100 (envOK, mk_frame 100 0 0 0) duo_short (by decide) (by decide) (by decide)
      (by decide) (by decide) (by decide)).2.trans (by decide)⟩

/-- C6, counterexample: of the two expected positions of the block at `bcnt = 100`,
position 0 is observed once and position 1 twice, so that not every position is observed
exactly once; the second packet for position 1 is dropped by the duplicate check, and the
packet two blocks ahead makes `process_packet` mark the block filled with
`good_data = 1`. -/
theorem good_data_repeat_counterexample :
    (((envOK, mk_frame 100 0 0 0) :: duo_repeat).map (pkt_key cfgDuo 100)).count (0, 0) = 1 ∧
    (((envOK, mk_frame 100 0 0 0) :: duo_repeat).map (pkt_key cfgDuo 100)).count (0, 1) = 2 ∧
    (∀ x, x ∈ (envOK, mk_frame 100 0 0 0) :: duo_repeat → in_range cfgDuo x.2) ∧
    (run_packets cfgDuo s_start ((envOK, mk_frame 100 0 0 0) :: duo_repeat)).exited
      = false ∧
    fills (run_packets cfgDuo s_start ((envOK, mk_frame 100 0 0 0) :: duo_repeat)).events
      = [(0, 100, 1)] := by
  decide

end PaperGpu
